import Mathlib

/-!
# Semantic analysis of the compiler: a shallow embedding

The definitions below follow `src/data_type.hpp`, `src/scope.hpp`,
`src/exception.hpp`, `src/astnode.hpp` and the class `ScopeAndTypeChecker` of
`src/semantic_analyzer.cpp`.

Conventions of the embedding.

* A C++ function that may `throw SemanticException` returns `Except Abort _`;
  `Abort.thrown` carries the exception, `Abort.undefined` stands for undefined
  behaviour of the C++ code (a dereferenced null pointer, an index past the end
  of a vector).
* The visitor mutates the AST (`dataType` of expression nodes) and its own
  fields (`currentScope`, `currentFunction`).  Here every `visit` returns the
  rewritten node, and the statement and declaration visitors thread the fields
  of the visitor explicitly.
* `std::shared_ptr<Scope>` is a value of the inductive type `Scope`; the
  visitor only ever writes to the scope `currentScope` points to, never to one
  of its ancestors, so the value of a scope's parent is the parent object.
* Child pointers that the data model requires (initialiser, operands,
  condition, body) are plain fields; the optional else-block is an `Option`.
  The scalar fields of `SemanticErrorContext` that a factory function leaves
  uninitialised are `none`.
-/

namespace Compiler

/-! ## data_type.hpp -/

inductive DataType
  | IOTA
  | INT
  | FLOAT
  | BOOL
deriving DecidableEq, Repr, Inhabited

/-! ## exception.hpp -/

inductive SemanticErrorType
  | IOTA
  | REDECLARED_IDENTIFIER
  | UNDECLARED_IDENTIFIER
  | VAR_DECL_TYPE_MISMATCH
  | VAR_ASSIGN_TYPE_MISMATCH
  | VAR_ASSIGN_TO_CONSTANT
  | UNDECLARED_FUNCTION
  | REDECLARED_FUNCTION
  | NOT_A_FUNCTION
  | INVALID_SIGNATURE
  | RETURN_TYPE_MISMATCH
  | RETURN_OUTSIDE_FUNCTION
  | CONDITION_NOT_BOOL
  | INVALID_UNARY_OPERATION
  | INVALID_BINARY_OPERATION
  | FUNCTION_USED_AS_VARIABLE
  | WRONG_NUMBER_OF_ARGUMENTS
  | UNREACHABLE_CODE
  | DEAD_CODE
  | MISSING_RETURN
  | INFINITE_LOOP_DETECTED
deriving DecidableEq, Repr

/-- The struct `SemanticErrorContext`.  The strings and vectors are default
constructed (empty); the four scalar members have no initialiser, so after
`SemanticErrorContext c;` they hold no determinate value: `none`. -/
structure SemanticErrorContext where
  identifier : String
  expectedType : Option DataType
  actualType : Option DataType
  functionName : String
  signatureExpected : List DataType
  signatureActual : List DataType
  expectedArgs : Option Int
  actualArgs : Option Int
  op : String
deriving DecidableEq, Repr

namespace SemanticErrorContext

/-- The local `SemanticErrorContext c;` every factory function starts from. -/
def uninit : SemanticErrorContext :=
  ⟨"", none, none, "", [], [], none, none, ""⟩

/-- The expression `SemanticErrorContext()`: value-initialisation zeroes the scalars. -/
def valueInit : SemanticErrorContext :=
  ⟨"", some DataType.IOTA, some DataType.IOTA, "", [], [], some 0, some 0, ""⟩

def Identifier (id : String) : SemanticErrorContext :=
  { uninit with identifier := id }

def ActualType (got : DataType) : SemanticErrorContext :=
  { uninit with actualType := some got }

def InvalidOperationBetweenTypes (op : String) (t1 t2 : DataType) : SemanticErrorContext :=
  { uninit with op := op, expectedType := some t1, actualType := some t2 }

def IdentifierTypeMismatch (id : String) (exp got : DataType) : SemanticErrorContext :=
  { uninit with identifier := id, expectedType := some exp, actualType := some got }

def ReturnTypeMismatch (funcName : String) (exp got : DataType) : SemanticErrorContext :=
  { uninit with functionName := funcName, expectedType := some exp, actualType := some got }

def Function (name : String) : SemanticErrorContext :=
  { uninit with functionName := name }

def Signature (name : String) (exp got : List DataType) : SemanticErrorContext :=
  { uninit with functionName := name, signatureExpected := exp, signatureActual := got }

def ArgCount (name : String) (exp got : Int) : SemanticErrorContext :=
  { uninit with functionName := name, expectedArgs := some exp, actualArgs := some got }

end SemanticErrorContext

/-- The class `SemanticException`: error kind and context. -/
structure SemanticException where
  errorType : SemanticErrorType
  context : SemanticErrorContext
deriving DecidableEq, Repr

/-- How a visit ends when it does not return normally. -/
inductive Abort
  | thrown (e : SemanticException)
  | undefined
deriving DecidableEq, Repr

/-- The statement `throw SemanticException(type, ctx)`. -/
def throwSem {α : Type} (t : SemanticErrorType) (ctx : SemanticErrorContext) : Except Abort α :=
  Except.error (Abort.thrown ⟨t, ctx⟩)

/-! ## scope.hpp -/

inductive SymbolKind
  | Variable
  | Constant
  | Function
deriving DecidableEq, Repr

/-- The class `SymbolInfo`; the constructor leaves `paramTypes` empty. -/
structure SymbolInfo where
  name : String
  kind : SymbolKind
  type : DataType
  paramTypes : List DataType
deriving DecidableEq, Repr

/-- The member `symbolTable`, a `std::map` from names to symbols, as an
association list with at most one entry per key. -/
abbrev SymbolTable := List (String × SymbolInfo)

/-- The lookup `symbolTable.find(name)`. -/
def SymbolTable.find (t : SymbolTable) (name : String) : Option SymbolInfo :=
  List.lookup name t

/-- The assignment `symbolTable[name] = info`: an entry for the key is replaced. -/
def SymbolTable.assign (t : SymbolTable) (name : String) (info : SymbolInfo) : SymbolTable :=
  (name, info) :: t.filter (fun p => p.1 != name)

/-- The class `Scope`: its table and the nullable `parent`. -/
inductive Scope
  | mk (symbolTable : SymbolTable) (parent : Option Scope)
deriving Repr

namespace Scope

def symbolTable : Scope → SymbolTable
  | mk t _ => t

def parent : Scope → Option Scope
  | mk _ p => p

def addSymbol (s : Scope) (name : String) (kind : SymbolKind) (type : DataType) : Scope :=
  mk (s.symbolTable.assign name ⟨name, kind, type, []⟩) s.parent

def addFunction (s : Scope) (name : String) (returnType : DataType)
    (params : List DataType) : Scope :=
  mk (s.symbolTable.assign name ⟨name, SymbolKind.Function, returnType, params⟩) s.parent

def existsInCurrentScope (s : Scope) (name : String) : Bool :=
  (s.symbolTable.find name).isSome

/-- The method `lookup`; `none` is the null pointer. -/
def lookup : Scope → String → Option SymbolInfo
  | mk t p, name =>
    match SymbolTable.find t name with
    | some info => some info
    | none =>
      match p with
      | some q => lookup q name
      | none => none

end Scope

/-! ## astnode.hpp -/

inductive BaseType
  | Int
  | Float
  | Bool
deriving DecidableEq, Repr

inductive UnOp
  | Neg
deriving DecidableEq, Repr

inductive BinOp
  | Add
  | Sub
  | Mul
  | Div
  | Eq
  | Neq
  | Lt
  | Gt
  | Le
  | Ge
deriving DecidableEq, Repr

/-- The `double` of a `FloatLitNode`, as the fraction `num / den`; `den = 0`
stands for a value that is not finite. -/
structure Double where
  num : Int
  den : Nat
deriving DecidableEq, Repr

/-- The subclasses of `ExpNode`; each carries the inherited member `dataType`. -/
inductive ExpNode
  | IntLit (dataType : DataType) (value : Int)
  | FloatLit (dataType : DataType) (value : Double)
  | BoolLit (dataType : DataType) (value : Bool)
  | Id (dataType : DataType) (name : String)
  | UnaryOp (dataType : DataType) (op : UnOp) (expr : ExpNode)
  | BinaryOp (dataType : DataType) (op : BinOp) (left right : ExpNode)
  | Call (dataType : DataType) (callee : String) (args : List ExpNode)
deriving Repr

/-- The member `dataType` of an expression node. -/
def ExpNode.dataType : ExpNode → DataType
  | IntLit dt _ => dt
  | FloatLit dt _ => dt
  | BoolLit dt _ => dt
  | Id dt _ => dt
  | UnaryOp dt _ _ => dt
  | BinaryOp dt _ _ _ => dt
  | Call dt _ _ => dt

/-- The class `ParamNode`; the `TypeNode` it points to is its `kind`. -/
structure ParamNode where
  name : String
  type : BaseType
deriving DecidableEq, Repr

mutual
/-- The subclasses of `DeclNode`. -/
inductive DeclNode
  | VarDecl (name : String) (type : BaseType) (init : ExpNode)
  | LetDecl (name : String) (type : BaseType) (init : ExpNode)
  | FuncDecl (name : String) (params : List ParamNode) (retType : BaseType) (body : BlockNode)
/-- The subclasses of `StmtNode`. -/
inductive StmtNode
  | Assign (name : String) (rhs : ExpNode)
  | Print (expr : ExpNode)
  | Return (expr : ExpNode)
  | If (cond : ExpNode) (thenBlk : BlockNode) (elseBlk : Option BlockNode)
  | While (cond : ExpNode) (body : BlockNode)
/-- The class `BlockNode`.  It owns `decls` and `stmts`; `orderedItems` is a
view in textual order. -/
inductive BlockNode
  | mk (decls : List DeclNode) (stmts : List StmtNode) (orderedItems : List Item)
/-- An entry of `orderedItems`, a pointer to an `ASTNode`: the declaration
`decls[i]`, the statement `stmts[i]`, a nested block (a `BlockNode` is not a
`StmtNode`, so no other member of the block can hold it), or null. -/
inductive Item
  | decl (i : Nat)
  | stmt (i : Nat)
  | block (b : BlockNode)
  | null
end

/-- The class `ProgramNode`. -/
structure ProgramNode where
  declarations : List DeclNode

/-! ## semantic_analyzer.cpp: helpers -/

def baseTypeToDataType : BaseType → DataType
  | BaseType.Int => DataType.INT
  | BaseType.Float => DataType.FLOAT
  | BaseType.Bool => DataType.BOOL

def isAssignmentCompatible (target source : DataType) : Bool :=
  if target = source then true
  else if source = DataType.INT ∧ (target = DataType.FLOAT ∨ target = DataType.BOOL) then true
  else if source = DataType.BOOL ∧ target = DataType.INT then true
  else false

def isNumeric (type : DataType) : Bool :=
  type = DataType.INT || type = DataType.FLOAT

/-! ## semantic_analyzer.cpp: ScopeAndTypeChecker -/

/-- What the visitor reads through `currentFunction`: the name and the return
type of the `FuncDeclNode` it points to. -/
structure FuncRef where
  name : String
  retType : BaseType
deriving DecidableEq, Repr

/-- The two fields of the visitor; `none` is the null pointer. -/
structure ScopeAndTypeChecker where
  currentScope : Option Scope
  currentFunction : Option FuncRef

/-- The conversion of a `size_t` to the 32-bit `int` parameter it is passed for:
the value modulo `2^32`, read as a signed number. -/
def sizeToInt (n : Nat) : Int :=
  if n % 2 ^ 32 < 2 ^ 31 then Int.ofNat (n % 2 ^ 32) else Int.ofNat (n % 2 ^ 32) - 2 ^ 32

/-- The call `currentScope->lookup(name)`. -/
def lookupCurrent (cs : Option Scope) (name : String) : Except Abort (Option SymbolInfo) :=
  match cs with
  | none => Except.error Abort.undefined
  | some s => Except.ok (s.lookup name)

/-- The operator text chosen in the arithmetic branch of `visit(BinaryOpNode*)`. -/
def arithOpStr (op : BinOp) : String :=
  if op = BinOp.Add then "+"
  else if op = BinOp.Sub then "-"
  else if op = BinOp.Mul then "*"
  else if op = BinOp.Div then "/"
  else ""

/-- The operator text chosen in the comparison branch of `visit(BinaryOpNode*)`. -/
def compareOpStr (op : BinOp) : String :=
  if op = BinOp.Lt then "<"
  else if op = BinOp.Gt then ">"
  else if op = BinOp.Le then "<="
  else if op = BinOp.Ge then ">="
  else if op = BinOp.Eq then "=="
  else if op = BinOp.Neq then "!="
  else ""

/-- The part of `visit(BinaryOpNode*)` after both operands are typed: the type
written to `node->dataType`, or the exception. -/
def binaryOpType (op : BinOp) (leftType rightType : DataType) : Except Abort DataType :=
  if op = BinOp.Add ∨ op = BinOp.Sub ∨ op = BinOp.Mul ∨ op = BinOp.Div then
    if !isNumeric leftType || !isNumeric rightType then
      throwSem SemanticErrorType.INVALID_BINARY_OPERATION
        (SemanticErrorContext.InvalidOperationBetweenTypes (arithOpStr op) leftType rightType)
    else if leftType = DataType.FLOAT ∨ rightType = DataType.FLOAT then
      Except.ok DataType.FLOAT
    else
      Except.ok DataType.INT
  else
    let bothNumeric := isNumeric leftType && isNumeric rightType
    let sameType := decide (leftType = rightType)
    if !bothNumeric && !sameType then
      throwSem SemanticErrorType.INVALID_BINARY_OPERATION
        (SemanticErrorContext.InvalidOperationBetweenTypes (compareOpStr op) leftType rightType)
    else
      Except.ok DataType.BOOL

mutual
/-- The expression overloads of `ScopeAndTypeChecker::visit`.  They read
`currentScope` and leave both fields of the visitor as they are; the result is
the node with `dataType` written. -/
def visitExp (cs : Option Scope) : ExpNode → Except Abort ExpNode
  | ExpNode.IntLit _ v => Except.ok (ExpNode.IntLit DataType.INT v)
  | ExpNode.FloatLit _ v => Except.ok (ExpNode.FloatLit DataType.FLOAT v)
  | ExpNode.BoolLit _ v => Except.ok (ExpNode.BoolLit DataType.BOOL v)
  | ExpNode.Id _ name =>
    match lookupCurrent cs name with
    | Except.error a => Except.error a
    | Except.ok none =>
      throwSem SemanticErrorType.UNDECLARED_IDENTIFIER (SemanticErrorContext.Identifier name)
    | Except.ok (some symbol) =>
      if symbol.kind = SymbolKind.Function then
        throwSem SemanticErrorType.FUNCTION_USED_AS_VARIABLE (SemanticErrorContext.Function name)
      else
        Except.ok (ExpNode.Id symbol.type name)
  | ExpNode.UnaryOp dt op expr =>
    match visitExp cs expr with
    | Except.error a => Except.error a
    | Except.ok expr1 =>
      let operandType := expr1.dataType
      if op = UnOp.Neg then
        if !isNumeric operandType then
          throwSem SemanticErrorType.INVALID_UNARY_OPERATION
            (SemanticErrorContext.ActualType operandType)
        else
          Except.ok (ExpNode.UnaryOp operandType op expr1)
      else
        Except.ok (ExpNode.UnaryOp dt op expr1)
  | ExpNode.BinaryOp _ op left right =>
    match visitExp cs left with
    | Except.error a => Except.error a
    | Except.ok left1 =>
      match visitExp cs right with
      | Except.error a => Except.error a
      | Except.ok right1 =>
        match binaryOpType op left1.dataType right1.dataType with
        | Except.error a => Except.error a
        | Except.ok t => Except.ok (ExpNode.BinaryOp t op left1 right1)
  | ExpNode.Call _ callee args =>
    match lookupCurrent cs callee with
    | Except.error a => Except.error a
    | Except.ok none =>
      throwSem SemanticErrorType.UNDECLARED_FUNCTION (SemanticErrorContext.Function callee)
    | Except.ok (some symbol) =>
      if symbol.kind ≠ SymbolKind.Function then
        throwSem SemanticErrorType.NOT_A_FUNCTION (SemanticErrorContext.Identifier callee)
      else if args.length ≠ symbol.paramTypes.length then
        throwSem SemanticErrorType.WRONG_NUMBER_OF_ARGUMENTS
          (SemanticErrorContext.ArgCount callee (sizeToInt symbol.paramTypes.length)
            (sizeToInt args.length))
      else
        match visitArgs cs callee symbol.paramTypes 0 [] args with
        | Except.error a => Except.error a
        | Except.ok args1 => Except.ok (ExpNode.Call symbol.type callee args1)
/-- The loop `for (size_t i = 0; i < node->args.size(); i++)` of
`visit(CallNode*)`, entered at index `i` with the vector `argTypes` built so
far; the list argument is `args[i], args[i+1], ...`. -/
def visitArgs (cs : Option Scope) (callee : String) (paramTypes : List DataType)
    (i : Nat) (argTypes : List DataType) : List ExpNode → Except Abort (List ExpNode)
  | [] => Except.ok []
  | arg :: rest =>
    match visitExp cs arg with
    | Except.error a => Except.error a
    | Except.ok arg1 =>
      let argType := arg1.dataType
      let argTypes1 := argTypes ++ [argType]
      match paramTypes[i]? with
      | none => Except.error Abort.undefined
      | some paramType =>
        if !isAssignmentCompatible paramType argType then
          throwSem SemanticErrorType.INVALID_SIGNATURE
            (SemanticErrorContext.Signature callee paramTypes argTypes1)
        else
          match visitArgs cs callee paramTypes (i + 1) argTypes1 rest with
          | Except.error a => Except.error a
          | Except.ok rest1 => Except.ok (arg1 :: rest1)
end

/-- The first statement of `visit(VarDeclNode*)` and `visit(LetDeclNode*)`: the
redeclaration check in the current scope. -/
def checkRedeclared (cs : Option Scope) (name : String) : Except Abort Unit :=
  match cs with
  | none => Except.error Abort.undefined
  | some s =>
    if s.existsInCurrentScope name then
      match s.lookup name with
      | some existing =>
        if existing.kind = SymbolKind.Function then
          throwSem SemanticErrorType.FUNCTION_USED_AS_VARIABLE (SemanticErrorContext.Function name)
        else
          throwSem SemanticErrorType.REDECLARED_IDENTIFIER (SemanticErrorContext.Identifier name)
      | none =>
        throwSem SemanticErrorType.REDECLARED_IDENTIFIER (SemanticErrorContext.Identifier name)
    else
      Except.ok ()

/-- The common body of `visit(VarDeclNode*)` and `visit(LetDeclNode*)`, which
differ in the symbol kind passed to `addSymbol` only.  The result is the
visitor after the visit and the initialiser with its types written. -/
def visitVarOrLet (st : ScopeAndTypeChecker) (kind : SymbolKind) (name : String)
    (type : BaseType) (init : ExpNode) : Except Abort (ScopeAndTypeChecker × ExpNode) :=
  match checkRedeclared st.currentScope name with
  | Except.error a => Except.error a
  | Except.ok _ =>
    let declaredType := baseTypeToDataType type
    match visitExp st.currentScope init with
    | Except.error a => Except.error a
    | Except.ok init1 =>
      let initType := init1.dataType
      if !isAssignmentCompatible declaredType initType then
        throwSem SemanticErrorType.VAR_DECL_TYPE_MISMATCH
          (SemanticErrorContext.IdentifierTypeMismatch name declaredType initType)
      else
        match st.currentScope with
        | none => Except.error Abort.undefined
        | some s =>
          Except.ok ({ st with currentScope := some (s.addSymbol name kind declaredType) }, init1)

/-- The loop of `visit(FuncDeclNode*)` that adds the parameters to the function scope. -/
def addParams (cs : Option Scope) : List ParamNode → Except Abort (Option Scope)
  | [] => Except.ok cs
  | param :: rest =>
    match cs with
    | none => Except.error Abort.undefined
    | some s =>
      if s.existsInCurrentScope param.name then
        throwSem SemanticErrorType.REDECLARED_IDENTIFIER
          (SemanticErrorContext.Identifier param.name)
      else
        addParams (some (s.addSymbol param.name SymbolKind.Variable
          (baseTypeToDataType param.type))) rest

/-- The statement `currentScope = currentScope->parent`. -/
def exitScope (cs : Option Scope) : Except Abort (Option Scope) :=
  match cs with
  | none => Except.error Abort.undefined
  | some s => Except.ok s.parent

/-- The visit `visit(AssignStmtNode*)`; the result is the right-hand side with
its types written. -/
def visitAssign (st : ScopeAndTypeChecker) (name : String) (rhs : ExpNode) :
    Except Abort ExpNode :=
  match lookupCurrent st.currentScope name with
  | Except.error a => Except.error a
  | Except.ok none =>
    throwSem SemanticErrorType.UNDECLARED_IDENTIFIER (SemanticErrorContext.Identifier name)
  | Except.ok (some symbol) =>
    if symbol.kind = SymbolKind.Function then
      throwSem SemanticErrorType.FUNCTION_USED_AS_VARIABLE (SemanticErrorContext.Function name)
    else if symbol.kind = SymbolKind.Constant then
      throwSem SemanticErrorType.VAR_ASSIGN_TO_CONSTANT (SemanticErrorContext.Identifier name)
    else
      match visitExp st.currentScope rhs with
      | Except.error a => Except.error a
      | Except.ok rhs1 =>
        let rhsType := rhs1.dataType
        if !isAssignmentCompatible symbol.type rhsType then
          throwSem SemanticErrorType.VAR_ASSIGN_TYPE_MISMATCH
            (SemanticErrorContext.IdentifierTypeMismatch name symbol.type rhsType)
        else
          Except.ok rhs1

/-- The visit `visit(ReturnStmtNode*)`; `currentFunction` is dereferenced
without a null test. -/
def visitReturn (st : ScopeAndTypeChecker) (expr : ExpNode) : Except Abort ExpNode :=
  match visitExp st.currentScope expr with
  | Except.error a => Except.error a
  | Except.ok expr1 =>
    let returnType := expr1.dataType
    match st.currentFunction with
    | none => Except.error Abort.undefined
    | some f =>
      let expectedType := baseTypeToDataType f.retType
      if !isAssignmentCompatible expectedType returnType then
        throwSem SemanticErrorType.RETURN_TYPE_MISMATCH
          (SemanticErrorContext.ReturnTypeMismatch f.name expectedType returnType)
      else
        Except.ok expr1

/-- The first two statements of `visit(IfStmtNode*)` and `visit(WhileStmtNode*)`:
the condition is typed and must be `BOOL`. -/
def visitCond (st : ScopeAndTypeChecker) (cond : ExpNode) : Except Abort ExpNode :=
  match visitExp st.currentScope cond with
  | Except.error a => Except.error a
  | Except.ok cond1 =>
    if cond1.dataType ≠ DataType.BOOL then
      throwSem SemanticErrorType.CONDITION_NOT_BOOL SemanticErrorContext.valueInit
    else
      Except.ok cond1

mutual
/-- The declaration overloads of `ScopeAndTypeChecker::visit`. -/
def visitDecl (st : ScopeAndTypeChecker) : DeclNode → Except Abort (ScopeAndTypeChecker × DeclNode)
  | DeclNode.VarDecl name type init =>
    match visitVarOrLet st SymbolKind.Variable name type init with
    | Except.error a => Except.error a
    | Except.ok (st1, init1) => Except.ok (st1, DeclNode.VarDecl name type init1)
  | DeclNode.LetDecl name type init =>
    match visitVarOrLet st SymbolKind.Constant name type init with
    | Except.error a => Except.error a
    | Except.ok (st1, init1) => Except.ok (st1, DeclNode.LetDecl name type init1)
  | DeclNode.FuncDecl name params retType body =>
    match st.currentScope with
    | none => Except.error Abort.undefined
    | some s =>
      if s.existsInCurrentScope name then
        throwSem SemanticErrorType.REDECLARED_FUNCTION (SemanticErrorContext.Function name)
      else
        let returnType := baseTypeToDataType retType
        let paramTypes := params.map (fun param => baseTypeToDataType param.type)
        let outer := s.addFunction name returnType paramTypes
        match addParams (some (Scope.mk [] (some outer))) params with
        | Except.error a => Except.error a
        | Except.ok cs1 =>
          let savedFunction := st.currentFunction
          match visitBlock ⟨cs1, some ⟨name, retType⟩⟩ body with
          | Except.error a => Except.error a
          | Except.ok (st2, body1) =>
            match exitScope st2.currentScope with
            | Except.error a => Except.error a
            | Except.ok cs3 =>
              Except.ok (⟨cs3, savedFunction⟩, DeclNode.FuncDecl name params retType body1)
/-- The statement overloads of `ScopeAndTypeChecker::visit`. -/
def visitStmt (st : ScopeAndTypeChecker) : StmtNode → Except Abort (ScopeAndTypeChecker × StmtNode)
  | StmtNode.Assign name rhs =>
    match visitAssign st name rhs with
    | Except.error a => Except.error a
    | Except.ok rhs1 => Except.ok (st, StmtNode.Assign name rhs1)
  | StmtNode.Print expr =>
    match visitExp st.currentScope expr with
    | Except.error a => Except.error a
    | Except.ok expr1 => Except.ok (st, StmtNode.Print expr1)
  | StmtNode.Return expr =>
    match visitReturn st expr with
    | Except.error a => Except.error a
    | Except.ok expr1 => Except.ok (st, StmtNode.Return expr1)
  | StmtNode.If cond thenBlk elseBlk =>
    match visitCond st cond with
    | Except.error a => Except.error a
    | Except.ok cond1 =>
      match visitBlock st thenBlk with
      | Except.error a => Except.error a
      | Except.ok (st1, thenBlk1) =>
        match visitElse st1 elseBlk with
        | Except.error a => Except.error a
        | Except.ok (st2, elseBlk1) => Except.ok (st2, StmtNode.If cond1 thenBlk1 elseBlk1)
  | StmtNode.While cond body =>
    match visitCond st cond with
    | Except.error a => Except.error a
    | Except.ok cond1 =>
      match visitBlock st body with
      | Except.error a => Except.error a
      | Except.ok (st1, body1) => Except.ok (st1, StmtNode.While cond1 body1)
/-- The statement `if (node->elseBlk) node->elseBlk->accept(*this)` of
`visit(IfStmtNode*)`. -/
def visitElse (st : ScopeAndTypeChecker) :
    Option BlockNode → Except Abort (ScopeAndTypeChecker × Option BlockNode)
  | none => Except.ok (st, none)
  | some blk =>
    match visitBlock st blk with
    | Except.error a => Except.error a
    | Except.ok (st1, blk1) => Except.ok (st1, some blk1)
/-- The visit `visit(BlockNode*)`: a child scope, the declarations, then the
statements; `orderedItems` is not read. -/
def visitBlock (st : ScopeAndTypeChecker) : BlockNode → Except Abort (ScopeAndTypeChecker × BlockNode)
  | BlockNode.mk decls stmts orderedItems =>
    match visitDecls { st with currentScope := some (Scope.mk [] st.currentScope) } decls with
    | Except.error a => Except.error a
    | Except.ok (st1, decls1) =>
      match visitStmts st1 stmts with
      | Except.error a => Except.error a
      | Except.ok (st2, stmts1) =>
        match exitScope st2.currentScope with
        | Except.error a => Except.error a
        | Except.ok cs3 =>
          Except.ok ({ st2 with currentScope := cs3 }, BlockNode.mk decls1 stmts1 orderedItems)
/-- The loop `for (auto* decl : ...) decl->accept(*this)`. -/
def visitDecls (st : ScopeAndTypeChecker) :
    List DeclNode → Except Abort (ScopeAndTypeChecker × List DeclNode)
  | [] => Except.ok (st, [])
  | decl :: rest =>
    match visitDecl st decl with
    | Except.error a => Except.error a
    | Except.ok (st1, decl1) =>
      match visitDecls st1 rest with
      | Except.error a => Except.error a
      | Except.ok (st2, rest1) => Except.ok (st2, decl1 :: rest1)
/-- The loop `for (auto* stmt : node->stmts) stmt->accept(*this)`. -/
def visitStmts (st : ScopeAndTypeChecker) :
    List StmtNode → Except Abort (ScopeAndTypeChecker × List StmtNode)
  | [] => Except.ok (st, [])
  | stmt :: rest =>
    match visitStmt st stmt with
    | Except.error a => Except.error a
    | Except.ok (st1, stmt1) =>
      match visitStmts st1 rest with
      | Except.error a => Except.error a
      | Except.ok (st2, rest1) => Except.ok (st2, stmt1 :: rest1)
end

/-- The visit `visit(ProgramNode*)`: a fresh global scope, then the
declarations in order.  `currentFunction` starts as the null pointer. -/
def visitProgram (node : ProgramNode) : Except Abort (ScopeAndTypeChecker × ProgramNode) :=
  match visitDecls ⟨some (Scope.mk [] none), none⟩ node.declarations with
  | Except.error a => Except.error a
  | Except.ok (st1, decls1) => Except.ok (st1, ⟨decls1⟩)


/-! ## semantic_analyzer.cpp: ControlFlowChecker -/

/-- The node an entry of `orderedItems` points at is a declaration of the block:
the entry is `decl i` with `i` inside `decls`.  An index outside the list names
no node and is read as the null pointer. -/
def Item.isDecl (nDecls : Nat) : Item → Bool
  | Item.decl i => decide (i < nDecls)
  | _ => false

mutual
/-- The value `analyzeItems` gives `stmtReturns` for an item that points at this
statement; the chain of `dynamic_cast`s tells `ReturnStmtNode`, `IfStmtNode` and
`WhileStmtNode` apart and leaves `false` for the other statements. -/
def analyzeStmt : StmtNode → Except Abort Bool
  | StmtNode.Return _ => Except.ok true
  | StmtNode.If _ thenBlk elseBlk =>
    match analyzeBlock thenBlk with
    | Except.error a => Except.error a
    | Except.ok thenRet =>
      match analyzeElse elseBlk with
      | Except.error a => Except.error a
      | Except.ok elseRet => Except.ok (elseBlk.isSome && thenRet && elseRet)
  | StmtNode.While _ body =>
    match analyzeBlock body with
    | Except.error a => Except.error a
    | Except.ok _ => Except.ok false
  | StmtNode.Assign _ _ => Except.ok false
  | StmtNode.Print _ => Except.ok false
/-- The statements `bool elseRet = false; if (ifs->elseBlk) elseRet = analyzeBlock(ifs->elseBlk);`. -/
def analyzeElse : Option BlockNode → Except Abort Bool
  | none => Except.ok false
  | some blk => analyzeBlock blk
/-- The function `analyzeBlock` on a block that is not null: `analyzeItems` of
its `orderedItems`.  The entries `stmt i` are read through the list of the
values `analyzeStmt` has on the statements of the block. -/
def analyzeBlock : BlockNode → Except Abort Bool
  | BlockNode.mk decls stmts orderedItems =>
    analyzeItems decls.length (analyzeStmts stmts) false orderedItems
/-- The value of `analyzeStmt` on each statement of a block, in the order of `stmts`. -/
def analyzeStmts : List StmtNode → List (Except Abort Bool)
  | [] => []
  | stmt :: rest => analyzeStmt stmt :: analyzeStmts rest
/-- The loop of `analyzeItems`, entered with the flag `terminated` and the items
still to come.  A null item is skipped; a declaration leaves `stmtReturns` false. -/
def analyzeItems (nDecls : Nat) (results : List (Except Abort Bool)) (terminated : Bool) :
    List Item → Except Abort Bool
  | [] => Except.ok terminated
  | Item.null :: rest => analyzeItems nDecls results terminated rest
  | Item.decl i :: rest =>
    if i < nDecls then
      if terminated then
        throwSem SemanticErrorType.UNREACHABLE_CODE SemanticErrorContext.valueInit
      else
        analyzeItems nDecls results terminated rest
    else
      analyzeItems nDecls results terminated rest
  | Item.stmt i :: rest =>
    match results[i]? with
    | none => analyzeItems nDecls results terminated rest
    | some result =>
      if terminated then
        throwSem SemanticErrorType.UNREACHABLE_CODE SemanticErrorContext.valueInit
      else
        match result with
        | Except.error a => Except.error a
        | Except.ok stmtReturns => analyzeItems nDecls results (terminated || stmtReturns) rest
  | Item.block b :: rest =>
    if terminated then
      throwSem SemanticErrorType.UNREACHABLE_CODE SemanticErrorContext.valueInit
    else
      match analyzeBlock b with
      | Except.error a => Except.error a
      | Except.ok stmtReturns => analyzeItems nDecls results (terminated || stmtReturns) rest
end

/-- The function `analyzeBlock` with its null test: `false` for a null block. -/
def analyzeBlockPtr : Option BlockNode → Except Abort Bool
  | none => Except.ok false
  | some block => analyzeBlock block

/-- The function `typeFromTypeNode`; `none` is a null `TypeNode*`. -/
def typeFromTypeNode : Option BaseType → DataType
  | none => DataType.IOTA
  | some BaseType.Int => DataType.INT
  | some BaseType.Float => DataType.FLOAT
  | some BaseType.Bool => DataType.BOOL

/-- The function `checkFunction` on a function declaration with a body. -/
def checkFunction (name : String) (retType : BaseType) (body : BlockNode) : Except Abort Unit :=
  match analyzeBlock body with
  | Except.error a => Except.error a
  | Except.ok alwaysReturns =>
    if typeFromTypeNode (some retType) ≠ DataType.IOTA ∧ alwaysReturns = false then
      throwSem SemanticErrorType.MISSING_RETURN (SemanticErrorContext.Function name)
    else
      Except.ok ()

/-- The loop of `checkProgram`: every top-level declaration that is a
`FuncDeclNode` is checked, the others are passed over. -/
def checkDecls : List DeclNode → Except Abort Unit
  | [] => Except.ok ()
  | DeclNode.FuncDecl name _ retType body :: rest =>
    match checkFunction name retType body with
    | Except.error a => Except.error a
    | Except.ok _ => checkDecls rest
  | _ :: rest => checkDecls rest

/-- The function `checkProgram` on a program that is not null. -/
def checkProgram (prog : ProgramNode) : Except Abort Unit :=
  checkDecls prog.declarations

/-- The function `SemanticAnalyzer::analyze` for a root that is null or a
`ProgramNode`: the scope-and-type pass, then the control-flow pass on the tree
the first pass has written to.  The result is that tree. -/
def analyze : Option ProgramNode → Except Abort (Option ProgramNode)
  | none => Except.ok none
  | some root =>
    match visitProgram root with
    | Except.error a => Except.error a
    | Except.ok (_, root1) =>
      match checkProgram root1 with
      | Except.error a => Except.error a
      | Except.ok _ => Except.ok (some root1)

/-! ## compiler.cpp and the stage processors -/

inductive Stage
  | LEXING_AND_PARSING
  | SEMANTIC_ANALYSIS
  | OPTIMIZATION
  | CODE_GENERATION
deriving DecidableEq, Repr

/-- The struct `CompilerContext`. -/
structure CompilerContext where
  inputFile : String
  outputFile : String
  ast : Option ProgramNode

/-- The two stage processors that reach outside the program: the lexer and
parser read the source file, the code-generation stage writes the output file.
Each is a function from the context to the value of `process` and the context
it leaves. -/
structure ExternalStages where
  lexingParsing : CompilerContext → Bool × CompilerContext
  codeGeneration : CompilerContext → Bool × CompilerContext

/-- The method `SemanticAnalysisStageProcessor::process`: `false` for a missing
AST and when `analyze` does not return normally. -/
def semanticAnalysisProcess (ctx : CompilerContext) : Bool × CompilerContext :=
  match ctx.ast with
  | none => (false, ctx)
  | some root =>
    match analyze (some root) with
    | Except.error _ => (false, ctx)
    | Except.ok root1 => (true, { ctx with ast := root1 })

/-- The method `OptimizationStageProcessor::process`. -/
def optimizationProcess (ctx : CompilerContext) : Bool × CompilerContext :=
  (true, ctx)

/-- The processor `getStageProcessor(stage)` applied to the context. -/
def stageProcess (ext : ExternalStages) : Stage → CompilerContext → Bool × CompilerContext
  | Stage.LEXING_AND_PARSING => ext.lexingParsing
  | Stage.SEMANTIC_ANALYSIS => semanticAnalysisProcess
  | Stage.OPTIMIZATION => optimizationProcess
  | Stage.CODE_GENERATION => ext.codeGeneration

/-- The member `stageOrder` as the constructor of `Compiler` sets it. -/
def stageOrder : List Stage :=
  [Stage.LEXING_AND_PARSING, Stage.SEMANTIC_ANALYSIS, Stage.OPTIMIZATION, Stage.CODE_GENERATION]

/-- The loop of `Compiler::compile` over the stages still to run.  The result
lists the stages whose `process` was called, each with the value it returned,
and the context at the end. -/
def compileLoop (ext : ExternalStages) :
    List Stage → CompilerContext → List (Stage × Bool) × CompilerContext
  | [], ctx => ([], ctx)
  | stage :: rest, ctx =>
    match stageProcess ext stage ctx with
    | (false, ctx1) => ([(stage, false)], ctx1)
    | (true, ctx1) =>
      match compileLoop ext rest ctx1 with
      | (ran, ctx2) => ((stage, true) :: ran, ctx2)

/-- The method `Compiler::compile`, started from the context of the constructor. -/
def compile (ext : ExternalStages) (sourceFile outputFile : String) :
    List (Stage × Bool) × CompilerContext :=
  compileLoop ext stageOrder ⟨sourceFile, outputFile, none⟩

/-! ## stageprocessor.cpp: CodeGenVisitor -/

/-- The lookup `m.find(key)` of a `std::map` with string keys, kept as an
association list. -/
def StdMap.find {α : Type} (m : List (String × α)) (key : String) : Option α :=
  List.lookup key m

/-- The assignment `m[key] = value`: an entry for the key is replaced. -/
def StdMap.assign {α : Type} (m : List (String × α)) (key : String) (value : α) :
    List (String × α) :=
  (key, value) :: m.filter (fun p => p.1 != key)

/-- The struct `VariableInfo`. -/
structure VariableInfo where
  offset : Int
deriving DecidableEq, Repr

/-- The value an operation on `int` leaves when its exact result is `n`: `n`
itself in the range of `int`, and otherwise `n` reduced modulo `2^32` into that
range.  At an overflow the source is undefined; the reduction is what the
two's-complement arithmetic of the build leaves. -/
def wrapInt (n : Int) : Int :=
  (n + 2 ^ 31) % 2 ^ 32 - 2 ^ 31

/-- The struct `FunctionContext`, without the member `func`, which is written
and never read.  `envStack` lists the vector from its back to its front, so the
head is `envStack.back()`. -/
structure FunctionContext where
  nextLocalOffset : Int
  numParams : Int
  envStack : List (List (String × VariableInfo))
  endLabel : String
deriving DecidableEq, Repr

/-- The members of `CodeGenVisitor`.  Each stream is the list of the lines
written to it, a line being the text up to a newline character.
`currentFunc` points into `functionContexts` and is kept as the key of the
entry it points to. -/
structure CodeGenVisitor where
  dataSection : List String
  textSection : List String
  labelCounter : Int
  currentFunc : Option String
  functionContexts : List (String × FunctionContext)
  hasMainFunction : Bool
deriving DecidableEq, Repr

/-- The state the constructor `CodeGenVisitor()` leaves. -/
def CodeGenVisitor.init : CodeGenVisitor :=
  { dataSection :=
      [".data",
       "newline_str:",
       "    .asciiz \"\\n\"",
       "div_zero_msg:",
       "    .asciiz \"Runtime Error: Division by zero\\n\"",
       "missing_main_msg:",
       "    .asciiz \"Runtime Error: Missing main function\\n\""],
    textSection := [".text"],
    labelCounter := 0,
    currentFunc := none,
    functionContexts := [],
    hasMainFunction := false }

/-- The lines `textSection << ...` appends. -/
def CodeGenVisitor.emit (g : CodeGenVisitor) (lines : List String) : CodeGenVisitor :=
  { g with textSection := g.textSection ++ lines }

/-- The entry `functionContexts[key]`; an absent entry reads as a
default-constructed context. -/
def CodeGenVisitor.ctx (g : CodeGenVisitor) (key : String) : FunctionContext :=
  (StdMap.find g.functionContexts key).getD ⟨0, 0, [], ""⟩

/-- A write to the entry `functionContexts[key]`. -/
def CodeGenVisitor.setCtx (g : CodeGenVisitor) (key : String) (c : FunctionContext) :
    CodeGenVisitor :=
  { g with functionContexts := StdMap.assign g.functionContexts key c }

/-- The method `newLabel`: the label and the visitor after `labelCounter++`. -/
def newLabel (g : CodeGenVisitor) (base : String) : String × CodeGenVisitor :=
  (base ++ "_" ++ toString g.labelCounter,
    { g with labelCounter := wrapInt (g.labelCounter + 1) })

/-- The method `pushEnv`. -/
def pushEnv (g : CodeGenVisitor) : CodeGenVisitor :=
  match g.currentFunc with
  | none => g
  | some key =>
    let c := g.ctx key
    g.setCtx key { c with envStack := [] :: c.envStack }

/-- The method `popEnv`. -/
def popEnv (g : CodeGenVisitor) : CodeGenVisitor :=
  match g.currentFunc with
  | none => g
  | some key =>
    let c := g.ctx key
    match c.envStack with
    | [] => g
    | _ :: rest => g.setCtx key { c with envStack := rest }

/-- The loop of `lookupVariable` over the frames, from the back of the vector. -/
def lookupFrames (name : String) : List (List (String × VariableInfo)) → Option Int
  | [] => none
  | frame :: rest =>
    match StdMap.find frame name with
    | some v => some v.offset
    | none => lookupFrames name rest

/-- The method `lookupVariable`: `some offset` for `true` with `offsetOut`
written, `none` for `false`. -/
def lookupVariable (g : CodeGenVisitor) (name : String) : Option Int :=
  match g.currentFunc with
  | none => none
  | some key => lookupFrames name (g.ctx key).envStack

/-- The method `declareLocalVariable`: the offset it returns and the visitor
it leaves. -/
def declareLocalVariable (g : CodeGenVisitor) (name : String) : Int × CodeGenVisitor :=
  match g.currentFunc with
  | none => (0, g)
  | some key =>
    let c := g.ctx key
    let offset := wrapInt (c.nextLocalOffset - 4)
    let g1 := (g.setCtx key { c with nextLocalOffset := offset }).emit ["    addi $sp, $sp, -4"]
    let c1 := g1.ctx key
    match c1.envStack with
    | [] => (offset, g1.setCtx key { c1 with envStack := [StdMap.assign [] name ⟨offset⟩] })
    | frame :: rest =>
      (offset, g1.setCtx key { c1 with envStack := StdMap.assign frame name ⟨offset⟩ :: rest })

/-- The conversion `static_cast<int>(node->value)` of `visit(FloatLitNode*)`:
for a finite value whose truncation toward zero is in the range of `int`, that
truncation.  For the other values, those with `den = 0` among them, the
conversion is undefined in the source; the model takes `-2^31`, which the
conversion instruction of x86-64 leaves. -/
def Double.toInt (d : Double) : Int :=
  let t := Int.tdiv d.num (Int.ofNat d.den)
  if d.den ≠ 0 ∧ -2 ^ 31 ≤ t ∧ t < 2 ^ 31 then t else -2 ^ 31

/-- The line the `switch` of `visit(BinaryOpNode*)` writes for the operator;
three lines for `Div`. -/
def binOpLines : BinOp → List String
  | BinOp.Add => ["    add $t0, $t1, $t0"]
  | BinOp.Sub => ["    sub $t0, $t1, $t0"]
  | BinOp.Mul => ["    mul $t0, $t1, $t0"]
  | BinOp.Div => ["    beq $t0, $zero, div_by_zero", "    div $t1, $t0", "    mflo $t0"]
  | BinOp.Eq => ["    seq $t0, $t1, $t0"]
  | BinOp.Neq => ["    sne $t0, $t1, $t0"]
  | BinOp.Lt => ["    slt $t0, $t1, $t0"]
  | BinOp.Gt => ["    sgt $t0, $t1, $t0"]
  | BinOp.Le => ["    sle $t0, $t1, $t0"]
  | BinOp.Ge => ["    sge $t0, $t1, $t0"]

mutual
/-- The expression overloads of `CodeGenVisitor::visit`.  The children of a
node are not null in this tree, so the branches for a null child are not
taken. -/
def genExp : ExpNode → CodeGenVisitor → CodeGenVisitor
  | ExpNode.IntLit _ value => fun g => g.emit ["    li $t0, " ++ toString value]
  | ExpNode.FloatLit _ value => fun g => g.emit ["    li $t0, " ++ toString value.toInt]
  | ExpNode.BoolLit _ value => fun g => g.emit ["    li $t0, " ++ (if value then "1" else "0")]
  | ExpNode.Id _ name => fun g =>
    match g.currentFunc with
    | none => g.emit ["    li $t0, 0"]
    | some _ =>
      match lookupVariable g name with
      | some offset => g.emit ["    lw $t0, " ++ toString offset ++ "($fp)"]
      | none => g.emit ["    # Unknown variable " ++ name ++ ", default to 0", "    li $t0, 0"]
  | ExpNode.UnaryOp _ op expr => fun g =>
    let g1 := genExp expr g
    if op = UnOp.Neg then g1.emit ["    subu $t0, $zero, $t0"] else g1
  | ExpNode.BinaryOp _ op left right => fun g =>
    let g1 := (genExp left g).emit ["    addi $sp, $sp, -4", "    sw $t0, 0($sp)"]
    let g2 := (genExp right g1).emit ["    lw $t1, 0($sp)", "    addi $sp, $sp, 4"]
    g2.emit (binOpLines op)
  | ExpNode.Call _ callee args => fun g =>
    match g.currentFunc with
    | none => g.emit ["    li $t0, 0"]
    | some _ =>
      let g1 := (genArgs args g).emit ["    jal " ++ callee]
      let g2 :=
        if args.isEmpty then g1
        else g1.emit ["    addi $sp, $sp, " ++ toString (wrapInt (sizeToInt args.length * 4))]
      g2.emit ["    move $t0, $v0"]
/-- The loop `for (ExpNode* arg : node->args)` of `visit(CallNode*)`. -/
def genArgs : List ExpNode → CodeGenVisitor → CodeGenVisitor
  | [] => fun g => g
  | arg :: rest => fun g =>
    genArgs rest ((genExp arg g).emit ["    addi $sp, $sp, -4", "    sw $t0, 0($sp)"])
end

/-- The body shared by `visit(VarDeclNode*)` and `visit(LetDeclNode*)`. -/
def genLocal (name : String) (init : ExpNode) (g : CodeGenVisitor) : CodeGenVisitor :=
  match g.currentFunc with
  | none => g
  | some _ =>
    match declareLocalVariable (genExp init g) name with
    | (offset, g1) => g1.emit ["    sw $t0, " ++ toString offset ++ "($fp)"]

/-- The loop of `visit(FuncDeclNode*)` that writes the parameter offsets into
the frame `envStack.back()`, entered at index `i`; the list is
`params[i], params[i+1], ...`. -/
def installParams (numParams : Int) : Nat → List ParamNode → List (String × VariableInfo) →
    List (String × VariableInfo)
  | _, [], frame => frame
  | i, param :: rest, frame =>
    if (i : Int) < numParams then
      installParams numParams (i + 1) rest
        (StdMap.assign frame param.name ⟨wrapInt (8 + 4 * (numParams - 1 - (i : Int)))⟩)
    else frame

/-- The part of `visit(FuncDeclNode*)` before the body is visited: the context
is set up and made current, the first frame is pushed and filled with the
parameters, and the prologue is written. -/
def enterFunction (name : String) (params : List ParamNode) (g : CodeGenVisitor) :
    CodeGenVisitor :=
  match newLabel g (name ++ "_end") with
  | (endLabel, g1) =>
    let numParams := sizeToInt params.length
    let g2 := { g1.setCtx name ⟨0, numParams, [], endLabel⟩ with currentFunc := some name }
    let g3 := pushEnv g2
    let c := g3.ctx name
    let g4 :=
      match c.envStack with
      | [] => g3
      | frame :: rest =>
        g3.setCtx name { c with envStack := installParams numParams 0 params frame :: rest }
    g4.emit
      (["", "# Function " ++ name] ++ (if name = "main" then [".globl main"] else []) ++
        [name ++ ":", "    addi $sp, $sp, -8", "    sw $fp, 4($sp)", "    sw $ra, 0($sp)",
         "    move $fp, $sp"])

/-- The part of `visit(FuncDeclNode*)` after the body: the epilogue under the
label read from the context of `name`, then `currentFunc = savedFunc`. -/
def leaveFunction (name : String) (savedFunc : Option String) (g : CodeGenVisitor) :
    CodeGenVisitor :=
  let g1 := g.emit
    ([(g.ctx name).endLabel ++ ":", "    move $sp, $fp", "    lw $ra, 0($sp)",
      "    lw $fp, 4($sp)", "    addi $sp, $sp, 8"] ++
      (if name = "main" then ["    li $v0, 10", "    syscall"] else ["    jr $ra"]))
  { g1 with currentFunc := savedFunc }

mutual
/-- The declaration overloads of `CodeGenVisitor::visit`. -/
def genDecl : DeclNode → CodeGenVisitor → CodeGenVisitor
  | DeclNode.VarDecl name _ init => fun g => genLocal name init g
  | DeclNode.LetDecl name _ init => fun g => genLocal name init g
  | DeclNode.FuncDecl name params _ body => fun g =>
    leaveFunction name g.currentFunc (genBlock body (enterFunction name params g))
/-- The statement overloads of `CodeGenVisitor::visit`. -/
def genStmt : StmtNode → CodeGenVisitor → CodeGenVisitor
  | StmtNode.Assign name rhs => fun g =>
    match g.currentFunc with
    | none => g
    | some _ =>
      let g1 := genExp rhs g
      match lookupVariable g1 name with
      | some offset => g1.emit ["    sw $t0, " ++ toString offset ++ "($fp)"]
      | none => g1.emit ["    # Warning: assignment to unknown variable " ++ name]
  | StmtNode.Print expr => fun g =>
    match g.currentFunc with
    | none => g
    | some _ =>
      (genExp expr g).emit
        ["    move $a0, $t0", "    li $v0, 1", "    syscall",
         "    la $a0, newline_str", "    li $v0, 4", "    syscall"]
  | StmtNode.Return expr => fun g =>
    match g.currentFunc with
    | none => g
    | some key =>
      let g1 := (genExp expr g).emit ["    move $v0, $t0"]
      g1.emit ["    j " ++ (g1.ctx key).endLabel]
  | StmtNode.If cond thenBlk elseBlk => fun g =>
    match g.currentFunc with
    | none => g
    | some _ =>
      match newLabel g "if_else" with
      | (elseLabel, ga) =>
        match newLabel ga "if_end" with
        | (endLabel, gb) =>
          genElse elseBlk elseLabel endLabel (genBlock thenBlk) (genExp cond gb)
  | StmtNode.While cond body => fun g =>
    match g.currentFunc with
    | none => g
    | some _ =>
      match newLabel g "while_start" with
      | (startLabel, ga) =>
        match newLabel ga "while_end" with
        | (endLabel, gb) =>
          let g1 := (genExp cond (gb.emit [startLabel ++ ":"])).emit
            ["    beq $t0, $zero, " ++ endLabel]
          (genBlock body g1).emit ["    j " ++ startLabel, endLabel ++ ":"]
/-- The two branches of `if (node->elseBlk)` in `visit(IfStmtNode*)`, entered
after the condition; `thenCode` is the visit of the then-block. -/
def genElse : Option BlockNode → String → String → (CodeGenVisitor → CodeGenVisitor) →
    CodeGenVisitor → CodeGenVisitor
  | some blk, elseLabel, endLabel, thenCode => fun g =>
    let g1 := (thenCode (g.emit ["    beq $t0, $zero, " ++ elseLabel])).emit
      ["    j " ++ endLabel, elseLabel ++ ":"]
    (genBlock blk g1).emit [endLabel ++ ":"]
  | none, _, endLabel, thenCode => fun g =>
    (thenCode (g.emit ["    beq $t0, $zero, " ++ endLabel])).emit [endLabel ++ ":"]
/-- The visit `visit(BlockNode*)`: a frame is pushed, the entries of
`orderedItems` are visited in order, the frame is popped. -/
def genBlock : BlockNode → CodeGenVisitor → CodeGenVisitor
  | BlockNode.mk decls stmts orderedItems => fun g =>
    match g.currentFunc with
    | none => g
    | some _ => popEnv (genItems (genDecls decls) (genStmts stmts) orderedItems (pushEnv g))
/-- The visit of each declaration of `decls`, by position, for the entries of
`orderedItems` that point to it. -/
def genDecls : List DeclNode → List (CodeGenVisitor → CodeGenVisitor)
  | [] => []
  | decl :: rest => genDecl decl :: genDecls rest
/-- The visit of each statement of `stmts`, by position. -/
def genStmts : List StmtNode → List (CodeGenVisitor → CodeGenVisitor)
  | [] => []
  | stmt :: rest => genStmt stmt :: genStmts rest
/-- The loop `for (ASTNode* item : node->orderedItems) if (item) item->accept(*this)`.
An entry with an index outside its list is read as the null pointer. -/
def genItems (declVisits stmtVisits : List (CodeGenVisitor → CodeGenVisitor)) :
    List Item → CodeGenVisitor → CodeGenVisitor
  | [] => fun g => g
  | Item.null :: rest => genItems declVisits stmtVisits rest
  | Item.decl i :: rest => fun g =>
    match declVisits[i]? with
    | none => genItems declVisits stmtVisits rest g
    | some visit => genItems declVisits stmtVisits rest (visit g)
  | Item.stmt i :: rest => fun g =>
    match stmtVisits[i]? with
    | none => genItems declVisits stmtVisits rest g
    | some visit => genItems declVisits stmtVisits rest (visit g)
  | Item.block b :: rest => fun g => genItems declVisits stmtVisits rest (genBlock b g)
end

/-- The loop of `visit(ProgramNode*)` over the top-level declarations: only a
`FuncDeclNode` is visited. -/
def genTopLevel : List DeclNode → CodeGenVisitor → CodeGenVisitor
  | [] => fun g => g
  | DeclNode.FuncDecl name params retType body :: rest => fun g =>
    let g1 := if name = "main" then { g with hasMainFunction := true } else g
    genTopLevel rest (genDecl (DeclNode.FuncDecl name params retType body) g1)
  | _ :: rest => genTopLevel rest

/-- The lines of the division-by-zero handler. -/
def divByZeroHandler : List String :=
  ["", "# Division-by-zero runtime handler", "div_by_zero:", "    la $a0, div_zero_msg",
   "    li $v0, 4", "    syscall", "    li $v0, 10", "    syscall"]

/-- The lines of the stub `main`. -/
def stubMain : List String :=
  ["", "# Stub main for missing main function", ".globl main", "main:",
   "    la $a0, missing_main_msg", "    li $v0, 4", "    syscall", "    li $v0, 10",
   "    syscall"]

/-- The visit `visit(ProgramNode*)`. -/
def genProgram (node : ProgramNode) (g : CodeGenVisitor) : CodeGenVisitor :=
  let g1 := (genTopLevel node.declarations g).emit divByZeroHandler
  if g1.hasMainFunction then g1 else g1.emit stubMain

/-- The lines of the text `generateCode` builds for a program: the data
section, an empty line, the text section. -/
def generatedLines (program : ProgramNode) : List String :=
  let gen := genProgram program CodeGenVisitor.init
  gen.dataSection ++ [""] ++ gen.textSection

/-- The method `CodeGenerationStageProcessor::generateCode`; every line ends
with a newline character. -/
def generateCode : Option ProgramNode → String
  | none => ""
  | some program => String.join ((generatedLines program).map (fun line => line ++ "\n"))

/-! ## Reading an outcome -/

/-- The exception a visit ended with, if it threw one. -/
def errorOf {α : Type} : Except Abort α → Option SemanticException
  | Except.error (Abort.thrown e) => some e
  | _ => none

/-- The error kind of the exception a visit ended with, if it threw one. -/
def errorTypeOf {α : Type} (r : Except Abort α) : Option SemanticErrorType :=
  (errorOf r).map (fun e => e.errorType)

/-- Whether a visit returned normally. -/
def accepted {α : Type} : Except Abort α → Bool
  | Except.ok _ => true
  | Except.error _ => false

/-- The tables on the parent chain of a scope, the scope's own table first. -/
def Scope.chain : Scope → List SymbolTable
  | Scope.mk t p =>
    match p with
    | some q => t :: Scope.chain q
    | none => [t]

/-- The binding `b` of `name` is the nearest one seen from scope `s`: some table
on the chain holds it and no table before that one has an entry for `name`. -/
def Scope.NearestBinding (s : Scope) (name : String) (b : SymbolInfo) : Prop :=
  ∃ pre t post, s.chain = pre ++ t :: post ∧
    (∀ u ∈ pre, SymbolTable.find u name = none) ∧ SymbolTable.find t name = some b

/-- No table on the chain of `s` has an entry for `name`. -/
def Scope.Unbound (s : Scope) (name : String) : Prop :=
  ∀ t ∈ s.chain, SymbolTable.find t name = none

/-- The sixteen pairs `(target, source)` of data types. -/
def allTypePairs : List (DataType × DataType) :=
  let all := [DataType.IOTA, DataType.INT, DataType.FLOAT, DataType.BOOL]
  all.flatMap (fun target => all.map (fun source => (target, source)))

/-- The pairs `(target, source)` the compatibility test rejects. -/
def incompatiblePairs : List (DataType × DataType) :=
  allTypePairs.filter (fun p => !isAssignmentCompatible p.1 p.2)

/-! ## Example inputs -/

/-- A global scope binding the variable `v : int`, the constant `k : int` and
the function `f(int, int) : float`. -/
def sampleScope : Scope :=
  Scope.mk [("v", ⟨"v", SymbolKind.Variable, DataType.INT, []⟩),
            ("k", ⟨"k", SymbolKind.Constant, DataType.INT, []⟩),
            ("f", ⟨"f", SymbolKind.Function, DataType.FLOAT, [DataType.INT, DataType.INT]⟩)] none

/-- A block scope inside `sampleScope` that rebinds `k` as a `bool` variable. -/
def sampleInner : Scope :=
  Scope.mk [("k", ⟨"k", SymbolKind.Variable, DataType.BOOL, []⟩)] (some sampleScope)

/-- A block whose `orderedItems` lists the declarations, then the statements. -/
def simpleBlock (decls : List DeclNode) (stmts : List StmtNode) : BlockNode :=
  BlockNode.mk decls stmts
    ((List.range decls.length).map Item.decl ++ (List.range stmts.length).map Item.stmt)

/-- The program `func main(): int { let a: int = 1; a = 2; return a; }`. -/
def constAssignProgram : ProgramNode :=
  ⟨[DeclNode.FuncDecl "main" [] BaseType.Int
    (simpleBlock [DeclNode.LetDecl "a" BaseType.Int (ExpNode.IntLit DataType.IOTA 1)]
      [StmtNode.Assign "a" (ExpNode.IntLit DataType.IOTA 2),
       StmtNode.Return (ExpNode.Id DataType.IOTA "a")])]⟩

/-- The program `func main(): int { if (1) { return 0; } return 0; }`. -/
def intConditionProgram : ProgramNode :=
  ⟨[DeclNode.FuncDecl "main" [] BaseType.Int
    (simpleBlock []
      [StmtNode.If (ExpNode.IntLit DataType.IOTA 1)
         (simpleBlock [] [StmtNode.Return (ExpNode.IntLit DataType.IOTA 0)]) none,
       StmtNode.Return (ExpNode.IntLit DataType.IOTA 0)])]⟩

/-- The call `f(1.5, 2)`. -/
def badFirstArgCall : ExpNode :=
  ExpNode.Call DataType.IOTA "f"
    [ExpNode.FloatLit DataType.IOTA ⟨3, 2⟩, ExpNode.IntLit DataType.IOTA 2]

/-- The program `func g(): float { return 1; }`. -/
def returnIntFromFloatProgram : ProgramNode :=
  ⟨[DeclNode.FuncDecl "g" [] BaseType.Float
    (simpleBlock [] [StmtNode.Return (ExpNode.IntLit DataType.IOTA 1)])]⟩

/-- The program `func h(): int { return 1.5; }`. -/
def returnFloatFromIntProgram : ProgramNode :=
  ⟨[DeclNode.FuncDecl "h" [] BaseType.Int
    (simpleBlock [] [StmtNode.Return (ExpNode.FloatLit DataType.IOTA ⟨3, 2⟩)])]⟩

/-- The reference relation of the specification for one item of a block with
statements `stmts`: the item is a `Return`, or an `If` that has an else-block
with `analyzeBlock` true on both blocks, or a nested block with `analyzeBlock`
true. -/
def ItemAlwaysReturns (stmts : List StmtNode) (item : Item) : Prop :=
  (∃ i e, item = Item.stmt i ∧ stmts[i]? = some (StmtNode.Return e)) ∨
  (∃ i c t e, item = Item.stmt i ∧ stmts[i]? = some (StmtNode.If c t (some e)) ∧
    analyzeBlock t = Except.ok true ∧ analyzeBlock e = Except.ok true) ∨
  (∃ b, item = Item.block b ∧ analyzeBlock b = Except.ok true)

/-- The body `return 0; print 1;`. -/
def returnThenPrint : BlockNode :=
  simpleBlock [] [StmtNode.Return (ExpNode.IntLit DataType.IOTA 0),
    StmtNode.Print (ExpNode.IntLit DataType.IOTA 1)]

/-- Whether an analysis returned the value true: the item definitely returns. -/
def definitelyReturns : Except Abort Bool → Bool
  | Except.ok true => true
  | _ => false

/-- In a list of item views (`none` for a null item, otherwise whether the item
definitely returns), some non-null item occurs after an earlier item that
definitely returns. -/
def itemAfterReturn : List (Option (Bool × Bool)) → Bool
  | [] => false
  | none :: rest => itemAfterReturn rest
  | some view :: rest => (view.1 && rest.any Option.isSome) || itemAfterReturn rest

/-- Some item of the list has unreachable code inside one of its blocks. -/
def unreachableInside (views : List (Option (Bool × Bool))) : Bool :=
  views.any (fun view => match view with
    | some (_, inside) => inside
    | none => false)

mutual
/-- Unreachable code inside a statement: in the then-block or the else-block of
an `If`, or in the body of a `While`. -/
def stmtHasUnreachable : StmtNode → Bool
  | StmtNode.If _ thenBlk elseBlk => blockHasUnreachable thenBlk || elseHasUnreachable elseBlk
  | StmtNode.While _ body => blockHasUnreachable body
  | StmtNode.Return _ => false
  | StmtNode.Assign _ _ => false
  | StmtNode.Print _ => false
/-- Unreachable code inside an else-block, if there is one. -/
def elseHasUnreachable : Option BlockNode → Bool
  | none => false
  | some blk => blockHasUnreachable blk
/-- The reference predicate for `UNREACHABLE_CODE` on the `orderedItems` of a
block: in this list, or in a block reached from one of its items, a non-null
item occurs after an earlier item of the same list that definitely returns. -/
def blockHasUnreachable : BlockNode → Bool
  | BlockNode.mk decls stmts orderedItems =>
    itemAfterReturn (itemViews decls.length (stmtViews stmts) orderedItems) ||
      unreachableInside (itemViews decls.length (stmtViews stmts) orderedItems)
/-- For each statement of a block: whether it definitely returns, and whether
it has unreachable code inside. -/
def stmtViews : List StmtNode → List (Bool × Bool)
  | [] => []
  | stmt :: rest => (definitelyReturns (analyzeStmt stmt), stmtHasUnreachable stmt) :: stmtViews rest
/-- The view of each item of a block: `none` for a null item; a declaration
neither returns nor contains a block that is analysed. -/
def itemViews (nDecls : Nat) (views : List (Bool × Bool)) :
    List Item → List (Option (Bool × Bool))
  | [] => []
  | Item.null :: rest => none :: itemViews nDecls views rest
  | Item.decl i :: rest =>
    (if i < nDecls then some (false, false) else none) :: itemViews nDecls views rest
  | Item.stmt i :: rest => views[i]? :: itemViews nDecls views rest
  | Item.block b :: rest =>
    some (definitelyReturns (analyzeBlock b), blockHasUnreachable b) :: itemViews nDecls views rest
end

/-- The body `while (true) { return 1; print 2; }`. -/
def whileReturnThenPrint : BlockNode :=
  simpleBlock [] [StmtNode.While (ExpNode.BoolLit DataType.IOTA true)
    (simpleBlock [] [StmtNode.Return (ExpNode.IntLit DataType.IOTA 1),
      StmtNode.Print (ExpNode.IntLit DataType.IOTA 2)])]
/-- What the analysis of a node does, given whether the node has unreachable
code: it raises `UNREACHABLE_CODE` if so and returns a value if not. -/
def RaisesIff (hasUnreachable : Bool) (result : Except Abort Bool) : Prop :=
  (hasUnreachable = true →
    result = throwSem SemanticErrorType.UNREACHABLE_CODE SemanticErrorContext.valueInit) ∧
  (hasUnreachable = false → ∃ r, result = Except.ok r)

/-- The program `func f(): int { var x: int = 1; } func main(): int { return 0; }`. -/
def missingReturnProgram : ProgramNode :=
  ⟨[DeclNode.FuncDecl "f" [] BaseType.Int
      (simpleBlock [DeclNode.VarDecl "x" BaseType.Int (ExpNode.IntLit DataType.IOTA 1)] []),
    DeclNode.FuncDecl "main" [] BaseType.Int
      (simpleBlock [] [StmtNode.Return (ExpNode.IntLit DataType.IOTA 0)])]⟩

/-- The program `func f(n: int): int { return f(n); }`. -/
def recursiveProgram : ProgramNode :=
  ⟨[DeclNode.FuncDecl "f" [⟨"n", BaseType.Int⟩] BaseType.Int
    (simpleBlock [] [StmtNode.Return
      (ExpNode.Call DataType.IOTA "f" [ExpNode.Id DataType.IOTA "n"])])]⟩

/-- The program `func f(): int { return g(); } func g(): int { return 1; }`. -/
def forwardCallProgram : ProgramNode :=
  ⟨[DeclNode.FuncDecl "f" [] BaseType.Int
      (simpleBlock [] [StmtNode.Return (ExpNode.Call DataType.IOTA "g" [])]),
    DeclNode.FuncDecl "g" [] BaseType.Int
      (simpleBlock [] [StmtNode.Return (ExpNode.IntLit DataType.IOTA 1)])]⟩
/-- The parameter scope of `func f(n: int): int` declared in the empty global scope. -/
def recursionParamScope : Scope :=
  Scope.mk [("n", ⟨"n", SymbolKind.Variable, DataType.INT, []⟩)]
    (some (Scope.mk [("f", ⟨"f", SymbolKind.Function, DataType.INT, [DataType.INT]⟩)] none))

/-- The scope of the body block of that function. -/
def recursionBodyScope : Scope :=
  Scope.mk [] (some recursionParamScope)

/-! ## The tree without its annotations -/

mutual
/-- The expression with every `dataType` back at the initial `IOTA`. -/
def eraseExp : ExpNode → ExpNode
  | ExpNode.IntLit _ v => ExpNode.IntLit DataType.IOTA v
  | ExpNode.FloatLit _ v => ExpNode.FloatLit DataType.IOTA v
  | ExpNode.BoolLit _ v => ExpNode.BoolLit DataType.IOTA v
  | ExpNode.Id _ name => ExpNode.Id DataType.IOTA name
  | ExpNode.UnaryOp _ op expr => ExpNode.UnaryOp DataType.IOTA op (eraseExp expr)
  | ExpNode.BinaryOp _ op left right =>
    ExpNode.BinaryOp DataType.IOTA op (eraseExp left) (eraseExp right)
  | ExpNode.Call _ callee args => ExpNode.Call DataType.IOTA callee (eraseArgs args)
/-- The erasure of each argument of a call. -/
def eraseArgs : List ExpNode → List ExpNode
  | [] => []
  | arg :: rest => eraseExp arg :: eraseArgs rest
end

mutual
/-- The declaration with the annotations of its expressions erased. -/
def eraseDecl : DeclNode → DeclNode
  | DeclNode.VarDecl name type init => DeclNode.VarDecl name type (eraseExp init)
  | DeclNode.LetDecl name type init => DeclNode.LetDecl name type (eraseExp init)
  | DeclNode.FuncDecl name params retType body =>
    DeclNode.FuncDecl name params retType (eraseBlock body)
/-- The statement with the annotations of its expressions erased. -/
def eraseStmt : StmtNode → StmtNode
  | StmtNode.Assign name rhs => StmtNode.Assign name (eraseExp rhs)
  | StmtNode.Print expr => StmtNode.Print (eraseExp expr)
  | StmtNode.Return expr => StmtNode.Return (eraseExp expr)
  | StmtNode.If cond thenBlk elseBlk =>
    StmtNode.If (eraseExp cond) (eraseBlock thenBlk) (eraseElse elseBlk)
  | StmtNode.While cond body => StmtNode.While (eraseExp cond) (eraseBlock body)
/-- The erasure of an else-block, if there is one. -/
def eraseElse : Option BlockNode → Option BlockNode
  | none => none
  | some blk => some (eraseBlock blk)
/-- The block with the annotations in `decls` and `stmts` erased.  The blocks
that only `orderedItems` holds are left as they are. -/
def eraseBlock : BlockNode → BlockNode
  | BlockNode.mk decls stmts orderedItems =>
    BlockNode.mk (eraseDecls decls) (eraseStmts stmts) orderedItems
/-- The erasure of each declaration of a list. -/
def eraseDecls : List DeclNode → List DeclNode
  | [] => []
  | decl :: rest => eraseDecl decl :: eraseDecls rest
/-- The erasure of each statement of a list. -/
def eraseStmts : List StmtNode → List StmtNode
  | [] => []
  | stmt :: rest => eraseStmt stmt :: eraseStmts rest
end

/-- The program with the annotations of its expressions erased. -/
def eraseProgram (p : ProgramNode) : ProgramNode :=
  ⟨eraseDecls p.declarations⟩

/-! ## Invariants of an analysed tree -/

mutual
/-- Every node of the expression has a `dataType` other than `IOTA`. -/
def expAnnotated : ExpNode → Bool
  | ExpNode.IntLit t _ => decide (t ≠ DataType.IOTA)
  | ExpNode.FloatLit t _ => decide (t ≠ DataType.IOTA)
  | ExpNode.BoolLit t _ => decide (t ≠ DataType.IOTA)
  | ExpNode.Id t _ => decide (t ≠ DataType.IOTA)
  | ExpNode.UnaryOp t _ expr => decide (t ≠ DataType.IOTA) && expAnnotated expr
  | ExpNode.BinaryOp t _ left right =>
    decide (t ≠ DataType.IOTA) && expAnnotated left && expAnnotated right
  | ExpNode.Call t _ args => decide (t ≠ DataType.IOTA) && argsAnnotated args
/-- Every argument of a call is annotated at every depth. -/
def argsAnnotated : List ExpNode → Bool
  | [] => true
  | arg :: rest => expAnnotated arg && argsAnnotated rest
end

mutual
/-- Every expression under the declaration is annotated.  With `deep` the
blocks that only `orderedItems` holds are looked at too. -/
def declAnnotated (deep : Bool) : DeclNode → Bool
  | DeclNode.VarDecl _ _ init => expAnnotated init
  | DeclNode.LetDecl _ _ init => expAnnotated init
  | DeclNode.FuncDecl _ _ _ body => blockAnnotated deep body
/-- Every expression under the statement is annotated. -/
def stmtAnnotated (deep : Bool) : StmtNode → Bool
  | StmtNode.Assign _ rhs => expAnnotated rhs
  | StmtNode.Print expr => expAnnotated expr
  | StmtNode.Return expr => expAnnotated expr
  | StmtNode.If cond thenBlk elseBlk =>
    expAnnotated cond && blockAnnotated deep thenBlk && elseAnnotated deep elseBlk
  | StmtNode.While cond body => expAnnotated cond && blockAnnotated deep body
/-- Every expression under the else-block, if there is one, is annotated. -/
def elseAnnotated (deep : Bool) : Option BlockNode → Bool
  | none => true
  | some blk => blockAnnotated deep blk
/-- Every expression under the block is annotated: those of `decls`, those of
`stmts`, and with `deep` those of the blocks that `orderedItems` holds. -/
def blockAnnotated (deep : Bool) : BlockNode → Bool
  | BlockNode.mk decls stmts orderedItems =>
    declsAnnotated deep decls && stmtsAnnotated deep stmts &&
      (!deep || itemsAnnotated deep orderedItems)
/-- Every expression under the declarations of a list is annotated. -/
def declsAnnotated (deep : Bool) : List DeclNode → Bool
  | [] => true
  | decl :: rest => declAnnotated deep decl && declsAnnotated deep rest
/-- Every expression under the statements of a list is annotated. -/
def stmtsAnnotated (deep : Bool) : List StmtNode → Bool
  | [] => true
  | stmt :: rest => stmtAnnotated deep stmt && stmtsAnnotated deep rest
/-- Every expression under the blocks among the entries is annotated; the other
entries point into `decls` and `stmts`. -/
def itemsAnnotated (deep : Bool) : List Item → Bool
  | [] => true
  | Item.block b :: rest => blockAnnotated deep b && itemsAnnotated deep rest
  | Item.decl _ :: rest => itemsAnnotated deep rest
  | Item.stmt _ :: rest => itemsAnnotated deep rest
  | Item.null :: rest => itemsAnnotated deep rest
end

/-- Every expression node of the program has a `dataType` in `INT`, `FLOAT`,
`BOOL`: with `deep = true` at any depth, with `deep = false` those reached
through `decls` and `stmts`. -/
def programAnnotated (deep : Bool) (p : ProgramNode) : Bool :=
  declsAnnotated deep p.declarations

/-- The member `name` of a declaration node. -/
def DeclNode.name : DeclNode → String
  | DeclNode.VarDecl name _ _ => name
  | DeclNode.LetDecl name _ _ => name
  | DeclNode.FuncDecl name _ _ _ => name

mutual
/-- Below the declaration no two parameters of one function and no two
declarations of one block share a name.  With `deep` the blocks that only
`orderedItems` holds are looked at too. -/
def declNamesUnique (deep : Bool) : DeclNode → Bool
  | DeclNode.VarDecl _ _ _ => true
  | DeclNode.LetDecl _ _ _ => true
  | DeclNode.FuncDecl _ params _ body =>
    decide ((params.map (fun param => param.name)).Nodup) && blockNamesUnique deep body
/-- Below the statement no two declarations of one block share a name. -/
def stmtNamesUnique (deep : Bool) : StmtNode → Bool
  | StmtNode.Assign _ _ => true
  | StmtNode.Print _ => true
  | StmtNode.Return _ => true
  | StmtNode.If _ thenBlk elseBlk =>
    blockNamesUnique deep thenBlk && elseNamesUnique deep elseBlk
  | StmtNode.While _ body => blockNamesUnique deep body
/-- The same for the else-block, if there is one. -/
def elseNamesUnique (deep : Bool) : Option BlockNode → Bool
  | none => true
  | some blk => blockNamesUnique deep blk
/-- The declarations of the block have distinct names, and so have those of
every block below it. -/
def blockNamesUnique (deep : Bool) : BlockNode → Bool
  | BlockNode.mk decls stmts orderedItems =>
    decide ((decls.map DeclNode.name).Nodup) && declsNamesUnique deep decls &&
      stmtsNamesUnique deep stmts && (!deep || itemsNamesUnique deep orderedItems)
/-- The same below each declaration of a list. -/
def declsNamesUnique (deep : Bool) : List DeclNode → Bool
  | [] => true
  | decl :: rest => declNamesUnique deep decl && declsNamesUnique deep rest
/-- The same below each statement of a list. -/
def stmtsNamesUnique (deep : Bool) : List StmtNode → Bool
  | [] => true
  | stmt :: rest => stmtNamesUnique deep stmt && stmtsNamesUnique deep rest
/-- The same for the blocks among the entries of `orderedItems`. -/
def itemsNamesUnique (deep : Bool) : List Item → Bool
  | [] => true
  | Item.block b :: rest => blockNamesUnique deep b && itemsNamesUnique deep rest
  | Item.decl _ :: rest => itemsNamesUnique deep rest
  | Item.stmt _ :: rest => itemsNamesUnique deep rest
  | Item.null :: rest => itemsNamesUnique deep rest
end

/-- No two declarations of the same scope of the program share a name: the
top-level declarations, the parameters of one function, the declarations of one
block.  With `deep = false` only the blocks reached through `decls` and `stmts`
are looked at, with `deep = true` every block is. -/
def programNamesUnique (deep : Bool) (p : ProgramNode) : Bool :=
  decide ((p.declarations.map DeclNode.name).Nodup) && declsNamesUnique deep p.declarations

/-- The program `func main(): int { { print 1; } return 0; }`: the inner block
is an entry of the body's `orderedItems`. -/
def nestedPrintProgram : ProgramNode :=
  ⟨[DeclNode.FuncDecl "main" [] BaseType.Int
    (BlockNode.mk [] [StmtNode.Return (ExpNode.IntLit DataType.IOTA 0)]
      [Item.block (simpleBlock [] [StmtNode.Print (ExpNode.IntLit DataType.IOTA 1)]),
       Item.stmt 0])]⟩

/-- The program `func main(): int { { var x: int = 1; var x: int = 2; } return 0; }`. -/
def nestedRedeclProgram : ProgramNode :=
  ⟨[DeclNode.FuncDecl "main" [] BaseType.Int
    (BlockNode.mk [] [StmtNode.Return (ExpNode.IntLit DataType.IOTA 0)]
      [Item.block (simpleBlock
        [DeclNode.VarDecl "x" BaseType.Int (ExpNode.IntLit DataType.IOTA 1),
         DeclNode.VarDecl "x" BaseType.Int (ExpNode.IntLit DataType.IOTA 2)] []),
       Item.stmt 0])]⟩

/-- The step from state `st` to state `st1` binds exactly `names` in the current
scope: each of them was absent from the scope's own table and is present
afterwards, every other name has the entry it had (so no binding is replaced),
and the parent and the current function are as before. -/
def DeclaresFresh (names : List String) (st st1 : ScopeAndTypeChecker) : Prop :=
  ∃ S S1, st.currentScope = some S ∧ st1 = ⟨some S1, st.currentFunction⟩ ∧
    S1.parent = S.parent ∧
    (∀ n ∈ names, SymbolTable.find S.symbolTable n = none ∧
      (SymbolTable.find S1.symbolTable n).isSome = true) ∧
    (∀ m, m ∉ names → SymbolTable.find S1.symbolTable m = SymbolTable.find S.symbolTable m)

/-- Every binding a lookup from the scope can return has a type other than
`IOTA`. -/
def ScopeTyped (cs : Option Scope) : Prop :=
  ∀ S name b, cs = some S → S.lookup name = some b → b.type ≠ DataType.IOTA

/-! ## Reading the generated text -/

/-- The visitor with its text section replaced. -/
def CodeGenVisitor.withText (g : CodeGenVisitor) (text : List String) : CodeGenVisitor :=
  { g with textSection := text }

/-- The lines the visit of the expression writes when it starts in state `g`. -/
def expCode (g : CodeGenVisitor) (e : ExpNode) : List String :=
  (genExp e (g.withText [])).textSection

/-- The lines the argument loop of a call writes when it starts in state `g`. -/
def argsCode (g : CodeGenVisitor) (args : List ExpNode) : List String :=
  (genArgs args (g.withText [])).textSection

/-- The two lines that push `$t0`. -/
def pushT0 : List String :=
  ["    addi $sp, $sp, -4", "    sw $t0, 0($sp)"]

/-- The code of the arguments of a call as the specification gives it: for each
argument from left to right, its code and then the push of `$t0`. -/
def specPushedArgs (g : CodeGenVisitor) (args : List ExpNode) : List String :=
  args.flatMap (fun arg => expCode g arg ++ pushT0)

/-- The operator step of a binary operation as the specification lists it: one
instruction `<mnemonic> $t0, $t1, $t0`, and for `Div` the test for zero, the
division and the move from `lo`. -/
def specBinOpLines (op : BinOp) : List String :=
  match op with
  | BinOp.Div => ["    beq $t0, $zero, div_by_zero", "    div $t1, $t0", "    mflo $t0"]
  | BinOp.Add => ["    add" ++ " $t0, $t1, $t0"]
  | BinOp.Sub => ["    sub" ++ " $t0, $t1, $t0"]
  | BinOp.Mul => ["    mul" ++ " $t0, $t1, $t0"]
  | BinOp.Eq => ["    seq" ++ " $t0, $t1, $t0"]
  | BinOp.Neq => ["    sne" ++ " $t0, $t1, $t0"]
  | BinOp.Lt => ["    slt" ++ " $t0, $t1, $t0"]
  | BinOp.Gt => ["    sgt" ++ " $t0, $t1, $t0"]
  | BinOp.Le => ["    sle" ++ " $t0, $t1, $t0"]
  | BinOp.Ge => ["    sge" ++ " $t0, $t1, $t0"]

/-- The visitor right after the prologue of a top-level `func main()`. -/
def insideMain : CodeGenVisitor :=
  enterFunction "main" [] CodeGenVisitor.init

/-- The program `var x: int = 1; func main(): int { return x; }`. -/
def globalVarProgram : ProgramNode :=
  ⟨[DeclNode.VarDecl "x" BaseType.Int (ExpNode.IntLit DataType.IOTA 1),
    DeclNode.FuncDecl "main" [] BaseType.Int
      (simpleBlock [] [StmtNode.Return (ExpNode.Id DataType.IOTA "x")])]⟩

/-- The pieces of text the visits of declarations, statements and expressions
write at once. -/
inductive Chunk : List String → Prop
  | loadImmediate (value : String) : Chunk ["    li $t0, " ++ value]
  | loadVariable (offset : String) : Chunk ["    lw $t0, " ++ offset ++ "($fp)"]
  | unknownVariable (name : String) :
    Chunk ["    # Unknown variable " ++ name ++ ", default to 0", "    li $t0, 0"]
  | negate : Chunk ["    subu $t0, $zero, $t0"]
  | push : Chunk ["    addi $sp, $sp, -4", "    sw $t0, 0($sp)"]
  | pop : Chunk ["    lw $t1, 0($sp)", "    addi $sp, $sp, 4"]
  | operator (op : BinOp) : Chunk (binOpLines op)
  | call (callee : String) : Chunk ["    jal " ++ callee]
  | popArguments (bytes : String) : Chunk ["    addi $sp, $sp, " ++ bytes]
  | result : Chunk ["    move $t0, $v0"]
  | allocate : Chunk ["    addi $sp, $sp, -4"]
  | store (offset : String) : Chunk ["    sw $t0, " ++ offset ++ "($fp)"]
  | unknownAssignment (name : String) :
    Chunk ["    # Warning: assignment to unknown variable " ++ name]
  | print :
    Chunk ["    move $a0, $t0", "    li $v0, 1", "    syscall",
      "    la $a0, newline_str", "    li $v0, 4", "    syscall"]
  | returnValue : Chunk ["    move $v0, $t0"]
  | jump (label : String) : Chunk ["    j " ++ label]
  | branch (label : String) : Chunk ["    beq $t0, $zero, " ++ label]
  | label (name : String) : Chunk [name ++ ":"]
  | prologue (name : String) :
    Chunk (["", "# Function " ++ name] ++ (if name = "main" then [".globl main"] else []) ++
      [name ++ ":", "    addi $sp, $sp, -8", "    sw $fp, 4($sp)", "    sw $ra, 0($sp)",
       "    move $fp, $sp"])
  | epilogue (name label : String) :
    Chunk ([label ++ ":", "    move $sp, $fp", "    lw $ra, 0($sp)",
      "    lw $fp, 4($sp)", "    addi $sp, $sp, 8"] ++
      (if name = "main" then ["    li $v0, 10", "    syscall"] else ["    jr $ra"]))

/-- A text made of chunks. -/
inductive Written : List String → Prop
  | nil : Written []
  | chunk (c : List String) : Chunk c → Written c
  | append (a b : List String) : Written a → Written b → Written (a ++ b)

/-- The visitor `g1` is `g` with chunks added to the text section; the data
section and `hasMainFunction` are the same. -/
def Extends (g g1 : CodeGenVisitor) : Prop :=
  g1.dataSection = g.dataSection ∧ g1.hasMainFunction = g.hasMainFunction ∧
    ∃ lines, Written lines ∧ g1.textSection = g.textSection ++ lines

/-- Every line `div $t1, $t0` of the list comes right after a line
`beq $t0, $zero, div_by_zero`; `prev` is the line before the list. -/
def divGuardedFrom (prev : String) : List String → Bool
  | [] => true
  | line :: rest =>
    (line != "    div $t1, $t0" || prev == "    beq $t0, $zero, div_by_zero") &&
      divGuardedFrom line rest

/-- Some top-level declaration of the list is a function named `main`. -/
def hasTopLevelMain : List DeclNode → Bool
  | [] => false
  | DeclNode.FuncDecl name _ _ _ :: rest => name == "main" || hasTopLevelMain rest
  | _ :: rest => hasTopLevelMain rest

/-- The program
`func f(a: int): int { func f(b: int): int { return b; } return a; }`. -/
def nestedSameNameProgram : ProgramNode :=
  ⟨[DeclNode.FuncDecl "f" [⟨"a", BaseType.Int⟩] BaseType.Int
      (simpleBlock
        [DeclNode.FuncDecl "f" [⟨"b", BaseType.Int⟩] BaseType.Int
          (simpleBlock [] [StmtNode.Return (ExpNode.Id DataType.IOTA "b")])]
        [StmtNode.Return (ExpNode.Id DataType.IOTA "a")])]⟩

/-- The program `func f(): int { func main(): int { return 1; } return 0; }`. -/
def nestedMainProgram : ProgramNode :=
  ⟨[DeclNode.FuncDecl "f" [] BaseType.Int
      (simpleBlock
        [DeclNode.FuncDecl "main" [] BaseType.Int
          (simpleBlock [] [StmtNode.Return (ExpNode.IntLit DataType.IOTA 1)])]
        [StmtNode.Return (ExpNode.IntLit DataType.IOTA 0)])]⟩

/-- The program
`func div_by_zero(): int { return 0; } func main(): int { return 0; }`. -/
def handlerNameProgram : ProgramNode :=
  ⟨[DeclNode.FuncDecl "div_by_zero" [] BaseType.Int
      (simpleBlock [] [StmtNode.Return (ExpNode.IntLit DataType.IOTA 0)]),
    DeclNode.FuncDecl "main" [] BaseType.Int
      (simpleBlock [] [StmtNode.Return (ExpNode.IntLit DataType.IOTA 0)])]⟩

/-- The program `func f(): int { return 1; } func f_end_0(): int { return 2; }`. -/
def endLabelNameProgram : ProgramNode :=
  ⟨[DeclNode.FuncDecl "f" [] BaseType.Int
      (simpleBlock [] [StmtNode.Return (ExpNode.IntLit DataType.IOTA 1)]),
    DeclNode.FuncDecl "f_end_0" [] BaseType.Int
      (simpleBlock [] [StmtNode.Return (ExpNode.IntLit DataType.IOTA 2)])]⟩

/-- The lines of the chunks that do not depend on the program. -/
def chunkLiteralLines : List String :=
  ["", "    li $t0, 0", "    subu $t0, $zero, $t0", "    addi $sp, $sp, -4", "    sw $t0, 0($sp)",
   "    lw $t1, 0($sp)", "    addi $sp, $sp, 4", "    add $t0, $t1, $t0", "    sub $t0, $t1, $t0",
   "    mul $t0, $t1, $t0", "    beq $t0, $zero, div_by_zero", "    div $t1, $t0", "    mflo $t0",
   "    seq $t0, $t1, $t0", "    sne $t0, $t1, $t0", "    slt $t0, $t1, $t0",
   "    sgt $t0, $t1, $t0", "    sle $t0, $t1, $t0", "    sge $t0, $t1, $t0",
   "    move $t0, $v0", "    move $a0, $t0", "    li $v0, 1", "    syscall",
   "    la $a0, newline_str", "    li $v0, 4", "    move $v0, $t0", ".globl main",
   "    addi $sp, $sp, -8", "    sw $fp, 4($sp)", "    sw $ra, 0($sp)", "    move $fp, $sp",
   "    move $sp, $fp", "    lw $ra, 0($sp)", "    lw $fp, 4($sp)", "    addi $sp, $sp, 8",
   "    li $v0, 10", "    jr $ra"]

/-- The fixed beginnings of the lines of the chunks that carry a name, a label
or a number of the program. -/
def chunkLineStarts : List String :=
  ["    li $t0, ", "    lw $t0, ", "    # Unknown variable ", "    jal ", "    addi $sp, $sp, ",
   "    sw $t0, ", "    # Warning: assignment to unknown variable ", "    j ",
   "    beq $t0, $zero, ", "# Function "]

/-- The line is none of the fixed lines of the chunks, begins like none of the
others and does not end in a colon, so no chunk can hold it. -/
def lineOutsideChunks (t : String) : Bool :=
  decide (t ∉ chunkLiteralLines) &&
    chunkLineStarts.all (fun start => t.data.take start.data.length != start.data) &&
    (t.data.reverse.take 1 != [':'])

/-- The block with its `orderedItems` replaced. -/
def BlockNode.setOrderedItems (items : List Item) : BlockNode → BlockNode
  | BlockNode.mk decls stmts _ => BlockNode.mk decls stmts items

/-- The program `func main(): int { print x; var x: int = 1; return 0; }`: in
the body, `orderedItems` has the statement `print x` before the declaration. -/
def useBeforeDeclProgram : ProgramNode :=
  ⟨[DeclNode.FuncDecl "main" [] BaseType.Int
    (BlockNode.mk [DeclNode.VarDecl "x" BaseType.Int (ExpNode.IntLit DataType.IOTA 1)]
      [StmtNode.Print (ExpNode.Id DataType.IOTA "x"),
       StmtNode.Return (ExpNode.IntLit DataType.IOTA 0)]
      [Item.stmt 0, Item.decl 0, Item.stmt 1])]⟩

/-- An exception of the outcome, if it ends with one, is neither
`UNREACHABLE_CODE` nor `MISSING_RETURN`. -/
def NoFlowError {α : Type} (r : Except Abort α) : Prop :=
  ∀ e, r = Except.error (Abort.thrown e) →
    e.errorType ≠ SemanticErrorType.UNREACHABLE_CODE ∧
      e.errorType ≠ SemanticErrorType.MISSING_RETURN

/-- The program `func main(): int { return x; print 1; }`: `x` is not
declared, and `print 1` follows a `return`. -/
def typeErrorAndUnreachableProgram : ProgramNode :=
  ⟨[DeclNode.FuncDecl "main" [] BaseType.Int
    (simpleBlock []
      [StmtNode.Return (ExpNode.Id DataType.IOTA "x"),
       StmtNode.Print (ExpNode.IntLit DataType.IOTA 1)])]⟩

mutual
/-- Whether the expression contains the node `Id x`. -/
def mentionsId (x : String) : ExpNode → Bool
  | ExpNode.IntLit _ _ => false
  | ExpNode.FloatLit _ _ => false
  | ExpNode.BoolLit _ _ => false
  | ExpNode.Id _ name => decide (name = x)
  | ExpNode.UnaryOp _ _ expr => mentionsId x expr
  | ExpNode.BinaryOp _ _ left right => mentionsId x left || mentionsId x right
  | ExpNode.Call _ _ args => mentionsIdArgs x args
/-- Whether one of the expressions contains the node `Id x`. -/
def mentionsIdArgs (x : String) : List ExpNode → Bool
  | [] => false
  | arg :: rest => mentionsId x arg || mentionsIdArgs x rest
end

/-- The program
`func f(a: bool): float { var a: float = 1.5; return a; } func main(): int { return 0; }`. -/
def shadowParamProgram : ProgramNode :=
  ⟨[DeclNode.FuncDecl "f" [⟨"a", BaseType.Bool⟩] BaseType.Float
      (simpleBlock [DeclNode.VarDecl "a" BaseType.Float (ExpNode.FloatLit DataType.IOTA ⟨3, 2⟩)]
        [StmtNode.Return (ExpNode.Id DataType.IOTA "a")]),
    DeclNode.FuncDecl "main" [] BaseType.Int
      (simpleBlock [] [StmtNode.Return (ExpNode.IntLit DataType.IOTA 0)])]⟩

/-- The tree `shadowParamProgram` with the types the checker writes. -/
def shadowParamTyped : ProgramNode :=
  ⟨[DeclNode.FuncDecl "f" [⟨"a", BaseType.Bool⟩] BaseType.Float
      (simpleBlock [DeclNode.VarDecl "a" BaseType.Float (ExpNode.FloatLit DataType.FLOAT ⟨3, 2⟩)]
        [StmtNode.Return (ExpNode.Id DataType.FLOAT "a")]),
    DeclNode.FuncDecl "main" [] BaseType.Int
      (simpleBlock [] [StmtNode.Return (ExpNode.IntLit DataType.INT 0)])]⟩

/-! ## Erasure at every depth -/

mutual
/-- The declaration with the annotations of its expressions erased, also in the
blocks that only `orderedItems` holds. -/
def eraseDeepDecl : DeclNode → DeclNode
  | DeclNode.VarDecl name type init => DeclNode.VarDecl name type (eraseExp init)
  | DeclNode.LetDecl name type init => DeclNode.LetDecl name type (eraseExp init)
  | DeclNode.FuncDecl name params retType body =>
    DeclNode.FuncDecl name params retType (eraseDeepBlock body)
/-- The statement with the annotations of its expressions erased at every depth. -/
def eraseDeepStmt : StmtNode → StmtNode
  | StmtNode.Assign name rhs => StmtNode.Assign name (eraseExp rhs)
  | StmtNode.Print expr => StmtNode.Print (eraseExp expr)
  | StmtNode.Return expr => StmtNode.Return (eraseExp expr)
  | StmtNode.If cond thenBlk elseBlk =>
    StmtNode.If (eraseExp cond) (eraseDeepBlock thenBlk) (eraseDeepElse elseBlk)
  | StmtNode.While cond body => StmtNode.While (eraseExp cond) (eraseDeepBlock body)
/-- The erasure at every depth of an else-block, if there is one. -/
def eraseDeepElse : Option BlockNode → Option BlockNode
  | none => none
  | some blk => some (eraseDeepBlock blk)
/-- The block with the annotations erased in `decls`, in `stmts` and in the
blocks among the entries of `orderedItems`. -/
def eraseDeepBlock : BlockNode → BlockNode
  | BlockNode.mk decls stmts orderedItems =>
    BlockNode.mk (eraseDeepDecls decls) (eraseDeepStmts stmts) (eraseDeepItems orderedItems)
/-- The erasure at every depth of each declaration of a list. -/
def eraseDeepDecls : List DeclNode → List DeclNode
  | [] => []
  | decl :: rest => eraseDeepDecl decl :: eraseDeepDecls rest
/-- The erasure at every depth of each statement of a list. -/
def eraseDeepStmts : List StmtNode → List StmtNode
  | [] => []
  | stmt :: rest => eraseDeepStmt stmt :: eraseDeepStmts rest
/-- The entries with the blocks among them erased; an entry that points into
`decls` or `stmts` stays the same index. -/
def eraseDeepItems : List Item → List Item
  | [] => []
  | Item.block b :: rest => Item.block (eraseDeepBlock b) :: eraseDeepItems rest
  | Item.decl i :: rest => Item.decl i :: eraseDeepItems rest
  | Item.stmt i :: rest => Item.stmt i :: eraseDeepItems rest
  | Item.null :: rest => Item.null :: eraseDeepItems rest
end

/-- The program with every annotation erased. -/
def eraseDeepProgram (p : ProgramNode) : ProgramNode :=
  ⟨eraseDeepDecls p.declarations⟩

/-- The labels of successive calls of `newLabel`, one for each base, from
visitor `g` on. -/
def newLabels (g : CodeGenVisitor) : List String → List String
  | [] => []
  | base :: rest => (newLabel g base).1 :: newLabels (newLabel g base).2 rest

/-- The number a list of decimal digits stands for. -/
def decimalValue (digits : List Char) : Nat :=
  digits.foldl (fun acc c => 10 * acc + (c.toNat - 48)) 0

/-! ## Reading the stack arithmetic of a text -/

/-- The text of an instruction that moves `$sp`, up to its immediate. -/
def spInstruction : List Char := "    addi $sp, $sp, ".data

/-- The number a non-empty list of decimal digits stands for. -/
def parseDecimal (digits : List Char) : Option Nat :=
  if !digits.isEmpty && digits.all Char.isDigit then some (decimalValue digits) else none

/-- The number a decimal numeral with an optional minus sign stands for. -/
def parseImmediate : List Char → Option Int
  | [] => none
  | c :: rest =>
    if c = '-' then (parseDecimal rest).map (fun v => -Int.ofNat v)
    else (parseDecimal (c :: rest)).map Int.ofNat

/-- The immediate `k` of a line `    addi $sp, $sp, k`; `none` for another line. -/
def spImmediate (line : String) : Option Int :=
  if line.data.take spInstruction.length = spInstruction then
    parseImmediate (line.data.drop spInstruction.length)
  else none

/-- The amount a line adds to `$sp` by an `addi`; zero for another line. -/
def spDelta (line : String) : Int :=
  (spImmediate line).getD 0

/-- The sum of the immediates of the `addi $sp, $sp, k` lines. -/
def spSum (lines : List String) : Int :=
  (lines.map spDelta).sum

/-- The lines add `total` to `$sp` in all, and after each of their prefixes the
sum added so far is at most `bound`. -/
def StackShape (lines : List String) (total bound : Int) : Prop :=
  spSum lines = total ∧ ∀ n, spSum (lines.take n) ≤ bound

mutual
/-- Every call below the expression has fewer than `2^29` arguments, so that
the product `static_cast<int>(args.size()) * 4` is in the range of `int`. -/
def argCountsFit : ExpNode → Bool
  | ExpNode.IntLit _ _ => true
  | ExpNode.FloatLit _ _ => true
  | ExpNode.BoolLit _ _ => true
  | ExpNode.Id _ _ => true
  | ExpNode.UnaryOp _ _ expr => argCountsFit expr
  | ExpNode.BinaryOp _ _ left right => argCountsFit left && argCountsFit right
  | ExpNode.Call _ _ args => decide (args.length < 2 ^ 29) && argsCountsFit args
/-- The same for each expression of a list. -/
def argsCountsFit : List ExpNode → Bool
  | [] => true
  | arg :: rest => argCountsFit arg && argsCountsFit rest
end

/-- The expression `f(1, 2) + x`. -/
def callPlusIdExp : ExpNode :=
  ExpNode.BinaryOp DataType.IOTA BinOp.Add
    (ExpNode.Call DataType.IOTA "f"
      [ExpNode.IntLit DataType.IOTA 1, ExpNode.IntLit DataType.IOTA 2])
    (ExpNode.Id DataType.IOTA "x")

/-! ## Reading the code of an `if` -/

/-- The lines the visit of the block writes when it starts in state `g`. -/
def blockCode (b : BlockNode) (g : CodeGenVisitor) : List String :=
  (genBlock b g).textSection.drop g.textSection.length

/-- The first label an `if` visited in state `g` draws. -/
def ifElseLabel (g : CodeGenVisitor) : String :=
  "if_else_" ++ toString g.labelCounter

/-- The second label an `if` visited in state `g` draws. -/
def ifEndLabel (g : CodeGenVisitor) : String :=
  "if_end_" ++ toString (wrapInt (g.labelCounter + 1))

/-- The state in which the then-block of an `if` visited in state `g` is
entered: both labels drawn, the condition and the branch to `target` written. -/
def ifThenState (g : CodeGenVisitor) (cond : ExpNode) (target : String) : CodeGenVisitor :=
  (genExp cond { g with labelCounter := wrapInt (wrapInt (g.labelCounter + 1) + 1) }).emit
    ["    beq $t0, $zero, " ++ target]

/-- The state in which the else-block of an `if` visited in state `g` is entered. -/
def ifElseState (g : CodeGenVisitor) (cond : ExpNode) (thenBlk : BlockNode) : CodeGenVisitor :=
  (genBlock thenBlk (ifThenState g cond (ifElseLabel g))).emit
    ["    j " ++ ifEndLabel g, ifElseLabel g ++ ":"]

/-- The statement `if (true) { print 1; } else { print 2; }`. -/
def sampleIfElse : StmtNode :=
  StmtNode.If (ExpNode.BoolLit DataType.IOTA true)
    (simpleBlock [] [StmtNode.Print (ExpNode.IntLit DataType.IOTA 1)])
    (some (simpleBlock [] [StmtNode.Print (ExpNode.IntLit DataType.IOTA 2)]))

/-- The lines of the prologue of a function. -/
def prologueLines (name : String) : List String :=
  ["", "# Function " ++ name] ++ (if name = "main" then [".globl main"] else []) ++
    [name ++ ":", "    addi $sp, $sp, -8", "    sw $fp, 4($sp)", "    sw $ra, 0($sp)",
     "    move $fp, $sp"]

/-- The program
`func f(): int { var a: int = 1; func f(): int { return 0; } var b: int = 2; return 0; }`. -/
def localAfterNestedProgram : ProgramNode :=
  ⟨[DeclNode.FuncDecl "f" [] BaseType.Int
      (simpleBlock
        [DeclNode.VarDecl "a" BaseType.Int (ExpNode.IntLit DataType.IOTA 1),
         DeclNode.FuncDecl "f" [] BaseType.Int
           (simpleBlock [] [StmtNode.Return (ExpNode.IntLit DataType.IOTA 0)]),
         DeclNode.VarDecl "b" BaseType.Int (ExpNode.IntLit DataType.IOTA 2)]
        [StmtNode.Return (ExpNode.IntLit DataType.IOTA 0)])]⟩

/-- The statement `if (true) { if (1) { } }`. -/
def nestedIntConditionStmt : StmtNode :=
  StmtNode.If (ExpNode.BoolLit DataType.IOTA true)
    (simpleBlock [] [StmtNode.If (ExpNode.IntLit DataType.IOTA 1) (simpleBlock [] []) none])
    none

/-- A lexing and parsing stage that fails, and a code-generation stage that
succeeds. -/
def failingParse : ExternalStages :=
  ⟨fun ctx => (false, ctx), fun ctx => (true, ctx)⟩

/-- A lexing and parsing stage that leaves the given AST, and a
code-generation stage that succeeds and records its run in `outputFile`. -/
def parseTo (root : ProgramNode) : ExternalStages :=
  ⟨fun ctx => (true, { ctx with ast := some root }),
   fun ctx => (true, { ctx with outputFile := "written" })⟩

mutual
/-- The visit of the expression in scope `S` comes to a node `Id x`: every
operand, callee and argument that is visited before that node is accepted. -/
def reachesId (S : Scope) (x : String) : ExpNode → Bool
  | ExpNode.IntLit _ _ => false
  | ExpNode.FloatLit _ _ => false
  | ExpNode.BoolLit _ _ => false
  | ExpNode.Id _ name => decide (name = x)
  | ExpNode.UnaryOp _ _ expr => reachesId S x expr
  | ExpNode.BinaryOp _ _ left right =>
    reachesId S x left || (accepted (visitExp (some S) left) && reachesId S x right)
  | ExpNode.Call _ callee args =>
    match S.lookup callee with
    | none => false
    | some symbol =>
      decide (symbol.kind = SymbolKind.Function) &&
        decide (args.length = symbol.paramTypes.length) &&
          reachesIdArgs S x symbol.paramTypes 0 args
/-- The visit of the arguments `args[i], args[i+1], ...` of a call comes to a
node `Id x`: the arguments before the one that holds it are accepted and
compatible with their parameter types. -/
def reachesIdArgs (S : Scope) (x : String) (paramTypes : List DataType) :
    Nat → List ExpNode → Bool
  | _, [] => false
  | i, arg :: rest =>
    reachesId S x arg ||
      (match visitExp (some S) arg with
       | Except.error _ => false
       | Except.ok arg1 =>
         match paramTypes[i]? with
         | none => false
         | some paramType =>
           isAssignmentCompatible paramType arg1.dataType &&
             reachesIdArgs S x paramTypes (i + 1) rest)
end

mutual
/-- The annotations of the nodes `Id x` of the expression. -/
def idTypes (x : String) : ExpNode → List DataType
  | ExpNode.IntLit _ _ => []
  | ExpNode.FloatLit _ _ => []
  | ExpNode.BoolLit _ _ => []
  | ExpNode.Id dt name => if name = x then [dt] else []
  | ExpNode.UnaryOp _ _ expr => idTypes x expr
  | ExpNode.BinaryOp _ _ left right => idTypes x left ++ idTypes x right
  | ExpNode.Call _ _ args => idTypesArgs x args
/-- The annotations of the nodes `Id x` of the expressions of a list. -/
def idTypesArgs (x : String) : List ExpNode → List DataType
  | [] => []
  | arg :: rest => idTypes x arg ++ idTypesArgs x rest
end

/-- The expression `1 + x`. -/
def onePlusX : ExpNode :=
  ExpNode.BinaryOp DataType.IOTA BinOp.Add (ExpNode.IntLit DataType.IOTA 1)
    (ExpNode.Id DataType.IOTA "x")

/-- The expression `v + x`. -/
def vPlusX : ExpNode :=
  ExpNode.BinaryOp DataType.IOTA BinOp.Add (ExpNode.Id DataType.IOTA "v")
    (ExpNode.Id DataType.IOTA "x")

/-- The expression `y + x`. -/
def yPlusX : ExpNode :=
  ExpNode.BinaryOp DataType.IOTA BinOp.Add (ExpNode.Id DataType.IOTA "y")
    (ExpNode.Id DataType.IOTA "x")

/-- The expression `f(1, -x)`. -/
def callWithNegX : ExpNode :=
  ExpNode.Call DataType.IOTA "f"
    [ExpNode.IntLit DataType.IOTA 1,
     ExpNode.UnaryOp DataType.IOTA UnOp.Neg (ExpNode.Id DataType.IOTA "x")]

/-! ## The names the fallback for an unknown identifier can be reached for -/

/-- The comment line the fallback of `visit(IdNode*)` writes for `name`. -/
def unknownVariableLine (name : String) : String :=
  "    # Unknown variable " ++ name ++ ", default to 0"

/-- The names of the `var` and `let` declarations of a list. -/
def declaredVariables : List DeclNode → List String
  | [] => []
  | DeclNode.VarDecl name _ _ :: rest => name :: declaredVariables rest
  | DeclNode.LetDecl name _ _ :: rest => name :: declaredVariables rest
  | DeclNode.FuncDecl _ _ _ _ :: rest => declaredVariables rest

mutual
/-- Whether an expression of the declaration contains the node `Id x`; for a
function, whether its body does. -/
def declMentions (x : String) : DeclNode → Bool
  | DeclNode.VarDecl _ _ init => mentionsId x init
  | DeclNode.LetDecl _ _ init => mentionsId x init
  | DeclNode.FuncDecl _ _ _ body => blockMentions x body
/-- Whether an expression of the statement, or of a block of it, contains the
node `Id x`. -/
def stmtMentions (x : String) : StmtNode → Bool
  | StmtNode.Assign _ rhs => mentionsId x rhs
  | StmtNode.Print expr => mentionsId x expr
  | StmtNode.Return expr => mentionsId x expr
  | StmtNode.If cond thenBlk elseBlk =>
    mentionsId x cond || blockMentions x thenBlk || elseMentions x elseBlk
  | StmtNode.While cond body => mentionsId x cond || blockMentions x body
/-- Whether the else-block, if there is one, contains the node `Id x`. -/
def elseMentions (x : String) : Option BlockNode → Bool
  | none => false
  | some blk => blockMentions x blk
/-- Whether a declaration or a statement of the block contains the node `Id x`. -/
def blockMentions (x : String) : BlockNode → Bool
  | BlockNode.mk decls stmts _ => declsMentions x decls || stmtsMentions x stmts
/-- Whether one of the declarations contains the node `Id x`. -/
def declsMentions (x : String) : List DeclNode → Bool
  | [] => false
  | decl :: rest => declMentions x decl || declsMentions x rest
/-- Whether one of the statements contains the node `Id x`. -/
def stmtsMentions (x : String) : List StmtNode → Bool
  | [] => false
  | stmt :: rest => stmtMentions x stmt || stmtsMentions x rest
end

mutual
/-- The names of the functions declared in the declaration, at any depth. -/
def declFuncNames : DeclNode → List String
  | DeclNode.VarDecl _ _ _ => []
  | DeclNode.LetDecl _ _ _ => []
  | DeclNode.FuncDecl name _ _ body => name :: blockFuncNames body
/-- The names of the functions declared in the blocks of the statement. -/
def stmtFuncNames : StmtNode → List String
  | StmtNode.Assign _ _ => []
  | StmtNode.Print _ => []
  | StmtNode.Return _ => []
  | StmtNode.If _ thenBlk elseBlk => blockFuncNames thenBlk ++ elseFuncNames elseBlk
  | StmtNode.While _ body => blockFuncNames body
/-- The names of the functions declared in the else-block, if there is one. -/
def elseFuncNames : Option BlockNode → List String
  | none => []
  | some blk => blockFuncNames blk
/-- The names of the functions declared in the block, at any depth. -/
def blockFuncNames : BlockNode → List String
  | BlockNode.mk decls stmts _ => declsFuncNames decls ++ stmtsFuncNames stmts
/-- The names of the functions declared in the declarations, at any depth. -/
def declsFuncNames : List DeclNode → List String
  | [] => []
  | decl :: rest => declFuncNames decl ++ declsFuncNames rest
/-- The names of the functions declared in the statements. -/
def stmtsFuncNames : List StmtNode → List String
  | [] => []
  | stmt :: rest => stmtFuncNames stmt ++ stmtsFuncNames rest
end

/-- The list `orderedItems` is in order from its entry on, when `d` declarations
and `j` statements are listed before it: the entries from there on are the
declarations `d, d+1, ...` and the statements `j, j+1, ...` of the block, each
once and in its order, with no other entry. -/
def itemsOrdered (nDecls nStmts : Nat) : Nat → Nat → List Item → Bool
  | d, j, [] => decide (d = nDecls) && decide (j = nStmts)
  | d, j, Item.decl i :: rest =>
    decide (i = d) && decide (d < nDecls) && itemsOrdered nDecls nStmts (d + 1) j rest
  | d, j, Item.stmt i :: rest =>
    decide (i = j) && decide (j < nStmts) && itemsOrdered nDecls nStmts d (j + 1) rest
  | _, _, Item.block _ :: _ => false
  | _, _, Item.null :: _ => false

mutual
/-- The declaration is well listed: for a function, fewer than `2^31`
parameters, no function of the same name declared inside it, and a body that is
well listed. -/
def declOrdered : DeclNode → Bool
  | DeclNode.VarDecl _ _ _ => true
  | DeclNode.LetDecl _ _ _ => true
  | DeclNode.FuncDecl name params _ body =>
    decide (params.length < 2 ^ 31) && decide (name ∉ blockFuncNames body) && blockOrdered body
/-- The blocks of the statement are well listed. -/
def stmtOrdered : StmtNode → Bool
  | StmtNode.Assign _ _ => true
  | StmtNode.Print _ => true
  | StmtNode.Return _ => true
  | StmtNode.If _ thenBlk elseBlk => blockOrdered thenBlk && elseOrdered elseBlk
  | StmtNode.While _ body => blockOrdered body
/-- The else-block, if there is one, is well listed. -/
def elseOrdered : Option BlockNode → Bool
  | none => true
  | some blk => blockOrdered blk
/-- The block is well listed: `orderedItems` lists exactly the declarations and
the statements of the block, each once and each kind in its order, and the
same holds inside its declarations and statements. -/
def blockOrdered : BlockNode → Bool
  | BlockNode.mk decls stmts orderedItems =>
    itemsOrdered decls.length stmts.length 0 0 orderedItems && declsOrdered decls &&
      stmtsOrdered stmts
/-- Every declaration of the list is well listed. -/
def declsOrdered : List DeclNode → Bool
  | [] => true
  | decl :: rest => declOrdered decl && declsOrdered rest
/-- Every statement of the list is well listed. -/
def stmtsOrdered : List StmtNode → Bool
  | [] => true
  | stmt :: rest => stmtOrdered stmt && stmtsOrdered rest
end

/-- The names a statement of the block mentions although `orderedItems` lists
the `var` or `let` of that name after the statement; `d` is the number of
declarations listed before the entries. -/
def itemsLate (decls : List DeclNode) (stmts : List StmtNode) : Nat → List Item → List String
  | _, [] => []
  | d, Item.decl _ :: rest => itemsLate decls stmts (d + 1) rest
  | d, Item.stmt j :: rest =>
    (match stmts[j]? with
     | some stmt => (declaredVariables (decls.drop d)).filter (fun n => stmtMentions n stmt)
     | none => []) ++ itemsLate decls stmts d rest
  | d, Item.block _ :: rest => itemsLate decls stmts d rest
  | d, Item.null :: rest => itemsLate decls stmts d rest

mutual
/-- The names mentioned before their declaration in a block of the declaration. -/
def declLate : DeclNode → List String
  | DeclNode.VarDecl _ _ _ => []
  | DeclNode.LetDecl _ _ _ => []
  | DeclNode.FuncDecl _ _ _ body => blockLate body
/-- The names mentioned before their declaration in a block of the statement. -/
def stmtLate : StmtNode → List String
  | StmtNode.Assign _ _ => []
  | StmtNode.Print _ => []
  | StmtNode.Return _ => []
  | StmtNode.If _ thenBlk elseBlk => blockLate thenBlk ++ elseLate elseBlk
  | StmtNode.While _ body => blockLate body
/-- The names mentioned before their declaration in the else-block. -/
def elseLate : Option BlockNode → List String
  | none => []
  | some blk => blockLate blk
/-- The names a statement mentions before the block, or a block inside it,
lists the declaration of that name. -/
def blockLate : BlockNode → List String
  | BlockNode.mk decls stmts orderedItems =>
    itemsLate decls stmts 0 orderedItems ++ (declsLate decls ++ stmtsLate stmts)
/-- The names mentioned before their declaration in a block of the declarations. -/
def declsLate : List DeclNode → List String
  | [] => []
  | decl :: rest => declLate decl ++ declsLate rest
/-- The names mentioned before their declaration in a block of the statements. -/
def stmtsLate : List StmtNode → List String
  | [] => []
  | stmt :: rest => stmtLate stmt ++ stmtsLate rest
end

mutual
/-- The names a function nested in the declaration mentions and a function
around it declares; `outer` lists the parameters of the functions around the
declaration and the variables and constants of the blocks around it. -/
def declOuter (outer : List String) : DeclNode → List String
  | DeclNode.VarDecl _ _ _ => []
  | DeclNode.LetDecl _ _ _ => []
  | DeclNode.FuncDecl _ params _ body =>
    outer.filter (fun n => blockMentions n body) ++
      blockOuter (params.map (fun param => param.name) ++ outer) body
/-- The names a function nested in the statement mentions and a function around
it declares. -/
def stmtOuter (outer : List String) : StmtNode → List String
  | StmtNode.Assign _ _ => []
  | StmtNode.Print _ => []
  | StmtNode.Return _ => []
  | StmtNode.If _ thenBlk elseBlk => blockOuter outer thenBlk ++ elseOuter outer elseBlk
  | StmtNode.While _ body => blockOuter outer body
/-- The names a function nested in the else-block mentions and a function
around it declares. -/
def elseOuter (outer : List String) : Option BlockNode → List String
  | none => []
  | some blk => blockOuter outer blk
/-- The names a function nested in the block mentions and a function around it
declares; the variables and constants of the block itself count as declared
around its nested functions. -/
def blockOuter (outer : List String) : BlockNode → List String
  | BlockNode.mk decls stmts _ =>
    declsOuter (declaredVariables decls ++ outer) decls ++
      stmtsOuter (declaredVariables decls ++ outer) stmts
/-- The names a function nested in one of the declarations mentions and a
function around it declares. -/
def declsOuter (outer : List String) : List DeclNode → List String
  | [] => []
  | decl :: rest => declOuter outer decl ++ declsOuter outer rest
/-- The names a function nested in one of the statements mentions and a
function around it declares. -/
def stmtsOuter (outer : List String) : List StmtNode → List String
  | [] => []
  | stmt :: rest => stmtOuter outer stmt ++ stmtsOuter outer rest
end

/-- The scope a declaration the checker accepts leaves: the scope with the
symbol of the declaration added. -/
def declScope : DeclNode → Scope → Scope
  | DeclNode.VarDecl name type _, s =>
    s.addSymbol name SymbolKind.Variable (baseTypeToDataType type)
  | DeclNode.LetDecl name type _, s =>
    s.addSymbol name SymbolKind.Constant (baseTypeToDataType type)
  | DeclNode.FuncDecl name params retType _, s =>
    s.addFunction name (baseTypeToDataType retType)
      (params.map (fun param => baseTypeToDataType param.type))

/-- The scope the declarations of a list leave, one after the other. -/
def declsScope : List DeclNode → Scope → Scope
  | [], s => s
  | decl :: rest, s => declsScope rest (declScope decl s)

/-- Every fallback comment among the lines is for a name of the list. -/
def FallbackOnly (names : List String) (lines : List String) : Prop :=
  ∀ name, unknownVariableLine name ∈ lines → name ∈ names

/-- The visitor is inside the function `key` with the frames `frames`. -/
def Inside (key : String) (frames : List (List (String × VariableInfo)))
    (g : CodeGenVisitor) : Prop :=
  g.currentFunc = some key ∧ (g.ctx key).envStack = frames

/-- The visitor `g1` is `g` with lines added whose fallback comments are for
names of the list only. -/
def TextOk (names : List String) (g g1 : CodeGenVisitor) : Prop :=
  ∃ lines, g1.textSection = g.textSection ++ lines ∧ FallbackOnly names lines

/-- A variable or constant that the checker finds from `S` under a name with
the property `M` is in a frame of the generator or in the list. -/
def Covers (names : List String) (M : String → Prop) (S : Scope)
    (frames : List (List (String × VariableInfo))) : Prop :=
  ∀ n symbol, M n → S.lookup n = some symbol → symbol.kind ≠ SymbolKind.Function →
    (lookupFrames n frames).isSome = true ∨ n ∈ names

/-- A variable or constant that the checker finds from `S` has a name of one
of the two lists. -/
def Visible (names outer : List String) (S : Scope) : Prop :=
  ∀ n symbol, S.lookup n = some symbol → symbol.kind ≠ SymbolKind.Function →
    n ∈ outer ∨ n ∈ names

/-- A visit took the visitor from `g` to `g1`: it is inside `key` with the
frames `frames`, the lines added have fallback comments for names of the list
only, and the context of a function other than `key` and those of `funcs` is
as before. -/
def Sim (names : List String) (key : String) (frames : List (List (String × VariableInfo)))
    (funcs : List String) (g g1 : CodeGenVisitor) : Prop :=
  Inside key frames g1 ∧ TextOk names g g1 ∧
    ∀ k, k ≠ key → k ∉ funcs → g1.ctx k = g.ctx k

/-- The line does not start like a comment of the body of a function. -/
def notBodyComment (line : String) : Bool :=
  decide (line.data.take 5 ≠ "    #".data)

/-- What the simulation shows of a statement: when the checker accepts it in
`S` and the generator visits it inside `key`, with every name that the
statement mentions and the checker finds either in a frame or in the list, the
lines written have fallback comments for names of the list only. -/
def StmtSim (names : List String) (s : StmtNode) : Prop :=
  ∀ (outer : List String) (key : String) (frames : List (List (String × VariableInfo)))
    (st st1 : ScopeAndTypeChecker) (s1 : StmtNode) (S : Scope) (g : CodeGenVisitor),
    stmtOrdered s = true → (∀ n ∈ stmtLate s, n ∈ names) →
    (∀ n ∈ stmtOuter outer s, n ∈ names) → key ∉ stmtFuncNames s →
    visitStmt st s = Except.ok (st1, s1) → st.currentScope = some S → Inside key frames g →
    Covers names (fun n => stmtMentions n s = true) S frames → Visible names outer S →
    Sim names key frames (stmtFuncNames s) g (genStmt s g)

/-- What the simulation shows of a block. -/
def BlockSim (names : List String) (b : BlockNode) : Prop :=
  ∀ (outer : List String) (key : String) (frames : List (List (String × VariableInfo)))
    (st st1 : ScopeAndTypeChecker) (b1 : BlockNode) (S : Scope) (g : CodeGenVisitor),
    blockOrdered b = true → (∀ n ∈ blockLate b, n ∈ names) →
    (∀ n ∈ blockOuter outer b, n ∈ names) → key ∉ blockFuncNames b →
    visitBlock st b = Except.ok (st1, b1) → st.currentScope = some S → Inside key frames g →
    Covers names (fun n => blockMentions n b = true) S frames → Visible names outer S →
    Sim names key frames (blockFuncNames b) g (genBlock b g)

/-- What the simulation shows of a declaration inside a block: the frame at the
back of the stack may get a name, and what was covered stays covered in the
scope the declaration leaves. -/
def DeclSim (names : List String) (d : DeclNode) : Prop :=
  ∀ (outer : List String) (key : String) (frame : List (String × VariableInfo))
    (frames : List (List (String × VariableInfo))) (st st1 : ScopeAndTypeChecker)
    (d1 : DeclNode) (C : Scope) (g : CodeGenVisitor) (M : String → Prop),
    declOrdered d = true → (∀ n ∈ declLate d, n ∈ names) →
    (∀ n ∈ declOuter outer d, n ∈ names) → key ∉ declFuncNames d →
    (∀ n, declMentions n d = true → M n) →
    visitDecl st d = Except.ok (st1, d1) → st.currentScope = some C →
    Inside key (frame :: frames) g → Covers names M C (frame :: frames) →
    Visible names outer C →
    ∃ frame1, Sim names key (frame1 :: frames) (declFuncNames d) g (genDecl d g) ∧
      Covers names M (declScope d C) (frame1 :: frames)

/-- What the simulation shows of the two branches of an `if`, entered after the
condition; `thenCode` is the visit of the then-block, of which the simulation
holds with the functions `funcs`. -/
def ElseSim (names : List String) (e : Option BlockNode) : Prop :=
  ∀ (outer : List String) (key : String) (frames : List (List (String × VariableInfo)))
    (st st1 : ScopeAndTypeChecker) (e1 : Option BlockNode) (S : Scope)
    (elseLabel endLabel : String) (thenCode : CodeGenVisitor → CodeGenVisitor)
    (funcs : List String) (g : CodeGenVisitor),
    elseOrdered e = true → (∀ n ∈ elseLate e, n ∈ names) →
    (∀ n ∈ elseOuter outer e, n ∈ names) → key ∉ elseFuncNames e →
    visitElse st e = Except.ok (st1, e1) → st.currentScope = some S →
    Covers names (fun n => elseMentions n e = true) S frames → Visible names outer S →
    (∀ g1, Inside key frames g1 → Sim names key frames funcs g1 (thenCode g1)) →
    Inside key frames g →
    Sim names key frames (funcs ++ elseFuncNames e) g (genElse e elseLabel endLabel thenCode g)

/-- Every block of the program lists in `orderedItems` exactly its declarations
and its statements, each once and each kind in its order; no function is
declared inside a function of its own name; a function has fewer than `2^31`
parameters. -/
def programOrdered (p : ProgramNode) : Bool :=
  declsOrdered p.declarations

/-- The names a statement mentions although its block lists the declaration of
the name after the statement. -/
def lateNames (p : ProgramNode) : List String :=
  declsLate p.declarations

/-- The names a nested function mentions and a function around it declares, as
a parameter or as a variable or constant of a block around the nested
function. -/
def outerNames (p : ProgramNode) : List String :=
  declsOuter [] p.declarations

/-- The program
`var limit: int = 1;
 func f(a: int): int {
   var b: int = a; print b; func g(c: int): int { return c; } let d: int = g(b);
   if (d < limit) { print d; } return limit; }
 func main(): int { return f(2); }`,
with `orderedItems` in the order of the text. -/
def mixedOrderProgram : ProgramNode :=
  ⟨[DeclNode.VarDecl "limit" BaseType.Int (ExpNode.IntLit DataType.IOTA 1),
    DeclNode.FuncDecl "f" [⟨"a", BaseType.Int⟩] BaseType.Int
      (BlockNode.mk
        [DeclNode.VarDecl "b" BaseType.Int (ExpNode.Id DataType.IOTA "a"),
         DeclNode.FuncDecl "g" [⟨"c", BaseType.Int⟩] BaseType.Int
           (simpleBlock [] [StmtNode.Return (ExpNode.Id DataType.IOTA "c")]),
         DeclNode.LetDecl "d" BaseType.Int
           (ExpNode.Call DataType.IOTA "g" [ExpNode.Id DataType.IOTA "b"])]
        [StmtNode.Print (ExpNode.Id DataType.IOTA "b"),
         StmtNode.If (ExpNode.BinaryOp DataType.IOTA BinOp.Lt (ExpNode.Id DataType.IOTA "d")
             (ExpNode.Id DataType.IOTA "limit"))
           (simpleBlock [] [StmtNode.Print (ExpNode.Id DataType.IOTA "d")]) none,
         StmtNode.Return (ExpNode.Id DataType.IOTA "limit")]
        [Item.decl 0, Item.stmt 0, Item.decl 1, Item.decl 2, Item.stmt 1, Item.stmt 2]),
    DeclNode.FuncDecl "main" [] BaseType.Int
      (simpleBlock [] [StmtNode.Return (ExpNode.Call DataType.IOTA "f"
        [ExpNode.IntLit DataType.IOTA 2])])]⟩

/-- The tree `mixedOrderProgram` with the types the checker writes. -/
def mixedOrderTyped : ProgramNode :=
  ⟨[DeclNode.VarDecl "limit" BaseType.Int (ExpNode.IntLit DataType.INT 1),
    DeclNode.FuncDecl "f" [⟨"a", BaseType.Int⟩] BaseType.Int
      (BlockNode.mk
        [DeclNode.VarDecl "b" BaseType.Int (ExpNode.Id DataType.INT "a"),
         DeclNode.FuncDecl "g" [⟨"c", BaseType.Int⟩] BaseType.Int
           (simpleBlock [] [StmtNode.Return (ExpNode.Id DataType.INT "c")]),
         DeclNode.LetDecl "d" BaseType.Int
           (ExpNode.Call DataType.INT "g" [ExpNode.Id DataType.INT "b"])]
        [StmtNode.Print (ExpNode.Id DataType.INT "b"),
         StmtNode.If (ExpNode.BinaryOp DataType.BOOL BinOp.Lt (ExpNode.Id DataType.INT "d")
             (ExpNode.Id DataType.INT "limit"))
           (simpleBlock [] [StmtNode.Print (ExpNode.Id DataType.INT "d")]) none,
         StmtNode.Return (ExpNode.Id DataType.INT "limit")]
        [Item.decl 0, Item.stmt 0, Item.decl 1, Item.decl 2, Item.stmt 1, Item.stmt 2]),
    DeclNode.FuncDecl "main" [] BaseType.Int
      (simpleBlock [] [StmtNode.Return (ExpNode.Call DataType.INT "f"
        [ExpNode.IntLit DataType.INT 2])])]⟩

/-- The program
`func f(a: int): int { func g(): int { return a; } return g(); }
 func main(): int { return 0; }`. -/
def nestedReadProgram : ProgramNode :=
  ⟨[DeclNode.FuncDecl "f" [⟨"a", BaseType.Int⟩] BaseType.Int
      (simpleBlock
        [DeclNode.FuncDecl "g" [] BaseType.Int
          (simpleBlock [] [StmtNode.Return (ExpNode.Id DataType.IOTA "a")])]
        [StmtNode.Return (ExpNode.Call DataType.IOTA "g" [])]),
    DeclNode.FuncDecl "main" [] BaseType.Int
      (simpleBlock [] [StmtNode.Return (ExpNode.IntLit DataType.IOTA 0)])]⟩

/-! ## Lemmas on scopes -/

theorem Scope.lookup_mk (t : SymbolTable) (p : Option Scope) (name : String) :
    (Scope.mk t p).lookup name =
      match SymbolTable.find t name with
      | some info => some info
      | none =>
        match p with
        | some q => q.lookup name
        | none => none := by
  cases h : SymbolTable.find t name <;> cases p <;> simp [Scope.lookup, h]

theorem Scope.lookup_of_find (s : Scope) (name : String) (b : SymbolInfo)
    (h : SymbolTable.find s.symbolTable name = some b) : s.lookup name = some b := by
  cases s with
  | mk t p => simp only [Scope.symbolTable] at h; rw [Scope.lookup_mk, h]

theorem Scope.lookup_of_unbound : ∀ (s : Scope) (name : String),
    s.Unbound name → s.lookup name = none
  | Scope.mk t none, name, h => by
    have ht : SymbolTable.find t name = none := h t (by simp [Scope.chain])
    rw [Scope.lookup_mk, ht]
  | Scope.mk t (some q), name, h => by
    have ht : SymbolTable.find t name = none := h t (by simp [Scope.chain])
    have hq : q.Unbound name := fun u hu => h u (by simp [Scope.chain, hu])
    rw [Scope.lookup_mk, ht]
    exact Scope.lookup_of_unbound q name hq

theorem Scope.lookup_of_nearest : ∀ (s : Scope) (name : String) (b : SymbolInfo),
    s.NearestBinding name b → s.lookup name = some b
  | Scope.mk t none, name, b, ⟨pre, u, post, hc, hpre, hu⟩ => by
    cases pre with
    | nil =>
      simp [Scope.chain] at hc
      rw [Scope.lookup_mk, hc.1, hu]
    | cons x xs => simp [Scope.chain] at hc
  | Scope.mk t (some q), name, b, ⟨pre, u, post, hc, hpre, hu⟩ => by
    cases pre with
    | nil =>
      simp [Scope.chain] at hc
      rw [Scope.lookup_mk, hc.1, hu]
    | cons x xs =>
      simp [Scope.chain] at hc
      have ht : SymbolTable.find t name = none := by
        rw [hc.1]; exact hpre x (by simp)
      rw [Scope.lookup_mk, ht]
      exact Scope.lookup_of_nearest q name b
        ⟨xs, u, post, hc.2, fun v hv => hpre v (by simp [hv]), hu⟩

/-! ## Lemmas on the expression visitor -/

theorem visitExp_binaryOp (cs : Option Scope) (dt : DataType) (op : BinOp)
    (left right left1 right1 : ExpNode)
    (hl : visitExp cs left = Except.ok left1) (hr : visitExp cs right = Except.ok right1) :
    visitExp cs (ExpNode.BinaryOp dt op left right) =
      match binaryOpType op left1.dataType right1.dataType with
      | Except.error a => Except.error a
      | Except.ok t => Except.ok (ExpNode.BinaryOp t op left1 right1) := by
  simp [visitExp, hl, hr]

/-! ## The compatibility relation -/

/-- C1, amended: `isAssignmentCompatible target source` holds exactly when
`target = source` or the pair is `(FLOAT, INT)`, `(BOOL, INT)` or `(INT, BOOL)`;
the remaining pairs, all rejected, are nine of the sixteen. -/
theorem isAssignmentCompatible_table :
    (∀ target source : DataType,
      isAssignmentCompatible target source = true ↔
        (target = source ∨ (target, source) = (DataType.FLOAT, DataType.INT) ∨
          (target, source) = (DataType.BOOL, DataType.INT) ∨
          (target, source) = (DataType.INT, DataType.BOOL))) ∧
    allTypePairs.length = 16 ∧
    incompatiblePairs.length = 9 ∧
    (∀ p ∈ incompatiblePairs, isAssignmentCompatible p.1 p.2 = false) := by
  refine ⟨?_, by decide, by decide, by decide⟩
  intro target source
  cases target <;> cases source <;> decide

/-- C1, as stated, fails on the count: the pairs outside the table, which are
the pairs `isAssignmentCompatible` rejects, are nine and not twelve. -/
theorem isAssignmentCompatible_rejects_nine_not_twelve :
    incompatiblePairs =
        allTypePairs.filter (fun p => !decide (p.1 = p.2 ∨ p = (DataType.FLOAT, DataType.INT) ∨
          p = (DataType.BOOL, DataType.INT) ∨ p = (DataType.INT, DataType.BOOL))) ∧
      incompatiblePairs.length = 9 ∧ incompatiblePairs.length ≠ 12 := by
  decide

/-- C2, amended: `isAssignmentCompatible(FLOAT, BOOL)` is false and
`isAssignmentCompatible(BOOL, INT)` holds; of the pair `INT`, `FLOAT` it is
`isAssignmentCompatible(FLOAT, INT)` that holds, `isAssignmentCompatible(INT, FLOAT)`
is false. -/
theorem isAssignmentCompatible_directional :
    isAssignmentCompatible DataType.FLOAT DataType.BOOL = false ∧
    isAssignmentCompatible DataType.BOOL DataType.INT = true ∧
    isAssignmentCompatible DataType.FLOAT DataType.INT = true ∧
    isAssignmentCompatible DataType.INT DataType.FLOAT = false := by
  decide

/-- C2, as stated, fails: with target `INT` and source `FLOAT` the test is false. -/
theorem isAssignmentCompatible_int_from_float_rejected :
    ¬ (isAssignmentCompatible DataType.FLOAT DataType.BOOL = false ∧
        isAssignmentCompatible DataType.BOOL DataType.INT = true ∧
        isAssignmentCompatible DataType.INT DataType.FLOAT = true) := by
  decide

/-! ## Binary operators -/

/-- C3: for an arithmetic operator whose operands type to `L` and `R`, the
visit returns iff both are `INT` or `FLOAT`; the type written is `FLOAT` if one
of them is `FLOAT` and `INT` otherwise; a rejected node throws
`INVALID_BINARY_OPERATION` with the operator's text, `expectedType = L` and
`actualType = R`. -/
theorem binaryOp_arithmetic (cs : Option Scope) (dt : DataType) (op : BinOp)
    (left right left1 right1 : ExpNode)
    (hop : op = BinOp.Add ∨ op = BinOp.Sub ∨ op = BinOp.Mul ∨ op = BinOp.Div)
    (hl : visitExp cs left = Except.ok left1) (hr : visitExp cs right = Except.ok right1) :
    (accepted (visitExp cs (ExpNode.BinaryOp dt op left right)) = true ↔
      ((left1.dataType = DataType.INT ∨ left1.dataType = DataType.FLOAT) ∧
        (right1.dataType = DataType.INT ∨ right1.dataType = DataType.FLOAT))) ∧
    (∀ node, visitExp cs (ExpNode.BinaryOp dt op left right) = Except.ok node →
      node = ExpNode.BinaryOp node.dataType op left1 right1 ∧
      node.dataType =
        if left1.dataType = DataType.FLOAT ∨ right1.dataType = DataType.FLOAT
        then DataType.FLOAT else DataType.INT) ∧
    (accepted (visitExp cs (ExpNode.BinaryOp dt op left right)) = false →
      ∃ ctx, visitExp cs (ExpNode.BinaryOp dt op left right) =
          throwSem SemanticErrorType.INVALID_BINARY_OPERATION ctx ∧
        (op = BinOp.Add → ctx.op = "+") ∧ (op = BinOp.Sub → ctx.op = "-") ∧
        (op = BinOp.Mul → ctx.op = "*") ∧ (op = BinOp.Div → ctx.op = "/") ∧
        ctx.expectedType = some left1.dataType ∧ ctx.actualType = some right1.dataType) := by
  rw [visitExp_binaryOp cs dt op left right left1 right1 hl hr]
  generalize left1.dataType = L
  generalize right1.dataType = R
  rcases hop with h | h | h | h <;> subst h <;> cases L <;> cases R <;>
    simp [binaryOpType, isNumeric, accepted, throwSem, arithOpStr, ExpNode.dataType,
      SemanticErrorContext.InvalidOperationBetweenTypes, SemanticErrorContext.uninit]

/-- C3 at `1 + true` and `1 + 2` in the empty global scope. -/
theorem binaryOp_arithmetic_witness :
    accepted (visitExp (some (Scope.mk [] none)) (ExpNode.BinaryOp DataType.IOTA BinOp.Add
      (ExpNode.IntLit DataType.IOTA 1) (ExpNode.BoolLit DataType.IOTA true))) = false ∧
    accepted (visitExp (some (Scope.mk [] none)) (ExpNode.BinaryOp DataType.IOTA BinOp.Add
      (ExpNode.IntLit DataType.IOTA 1) (ExpNode.IntLit DataType.IOTA 2))) = true :=
  ⟨by
    have h := (binaryOp_arithmetic (some (Scope.mk [] none)) DataType.IOTA BinOp.Add
      (ExpNode.IntLit DataType.IOTA 1) (ExpNode.BoolLit DataType.IOTA true)
      (ExpNode.IntLit DataType.INT 1) (ExpNode.BoolLit DataType.BOOL true)
      (Or.inl rfl) rfl rfl).1
    cases hacc : accepted (visitExp (some (Scope.mk [] none)) (ExpNode.BinaryOp DataType.IOTA
      BinOp.Add (ExpNode.IntLit DataType.IOTA 1) (ExpNode.BoolLit DataType.IOTA true)))
    · rfl
    · exact absurd (h.mp hacc) (by decide),
   ((binaryOp_arithmetic (some (Scope.mk [] none)) DataType.IOTA BinOp.Add
      (ExpNode.IntLit DataType.IOTA 1) (ExpNode.IntLit DataType.IOTA 2)
      (ExpNode.IntLit DataType.INT 1) (ExpNode.IntLit DataType.INT 2)
      (Or.inl rfl) rfl rfl).1).mpr (by decide)⟩

/-- C4: for a comparison or equality operator whose operands type to `L` and
`R`, the visit returns iff both are `INT` or `FLOAT`, or `L = R`; the type
written is `BOOL`; a rejected node throws `INVALID_BINARY_OPERATION`.  A `BOOL`
compared with an `INT` is rejected, though each is assignment-compatible with
the other. -/
theorem binaryOp_comparison (cs : Option Scope) (dt : DataType) (op : BinOp)
    (left right left1 right1 : ExpNode)
    (hop : op = BinOp.Lt ∨ op = BinOp.Gt ∨ op = BinOp.Le ∨ op = BinOp.Ge ∨
      op = BinOp.Eq ∨ op = BinOp.Neq)
    (hl : visitExp cs left = Except.ok left1) (hr : visitExp cs right = Except.ok right1) :
    (accepted (visitExp cs (ExpNode.BinaryOp dt op left right)) = true ↔
      (((left1.dataType = DataType.INT ∨ left1.dataType = DataType.FLOAT) ∧
          (right1.dataType = DataType.INT ∨ right1.dataType = DataType.FLOAT)) ∨
        left1.dataType = right1.dataType)) ∧
    (∀ node, visitExp cs (ExpNode.BinaryOp dt op left right) = Except.ok node →
      node = ExpNode.BinaryOp DataType.BOOL op left1 right1 ∧ node.dataType = DataType.BOOL) ∧
    (accepted (visitExp cs (ExpNode.BinaryOp dt op left right)) = false →
      errorTypeOf (visitExp cs (ExpNode.BinaryOp dt op left right)) =
        some SemanticErrorType.INVALID_BINARY_OPERATION) ∧
    (left1.dataType = DataType.BOOL → right1.dataType = DataType.INT →
      errorTypeOf (visitExp cs (ExpNode.BinaryOp dt op left right)) =
        some SemanticErrorType.INVALID_BINARY_OPERATION) ∧
    isAssignmentCompatible DataType.BOOL DataType.INT = true ∧
    isAssignmentCompatible DataType.INT DataType.BOOL = true := by
  rw [visitExp_binaryOp cs dt op left right left1 right1 hl hr]
  generalize left1.dataType = L
  generalize right1.dataType = R
  refine ⟨?_, ?_, ?_, ?_, by decide, by decide⟩ <;>
    rcases hop with h | h | h | h | h | h <;> subst h <;> cases L <;> cases R <;>
    simp [binaryOpType, isNumeric, accepted, throwSem, errorTypeOf, errorOf, ExpNode.dataType]

/-- C4 at `true == 1` in the empty global scope. -/
theorem binaryOp_comparison_witness :
    errorTypeOf (visitExp (some (Scope.mk [] none)) (ExpNode.BinaryOp DataType.IOTA BinOp.Eq
      (ExpNode.BoolLit DataType.IOTA true) (ExpNode.IntLit DataType.IOTA 1))) =
        some SemanticErrorType.INVALID_BINARY_OPERATION :=
  (binaryOp_comparison (some (Scope.mk [] none)) DataType.IOTA BinOp.Eq
    (ExpNode.BoolLit DataType.IOTA true) (ExpNode.IntLit DataType.IOTA 1)
    (ExpNode.BoolLit DataType.BOOL true) (ExpNode.IntLit DataType.INT 1)
    (by decide) rfl rfl).2.2.2.1 rfl rfl

/-! ## Declarations of variables and constants -/

theorem SymbolTable.find_assign_same (t : SymbolTable) (name : String) (info : SymbolInfo) :
    SymbolTable.find (SymbolTable.assign t name info) name = some info := by
  simp [SymbolTable.find, SymbolTable.assign, List.lookup]

theorem SymbolTable.find_filter_ne (name other : String) (h : other ≠ name) :
    ∀ t : SymbolTable,
      SymbolTable.find (t.filter (fun p => p.1 != name)) other = SymbolTable.find t other
  | [] => rfl
  | (k, v) :: rest => by
    have ih := SymbolTable.find_filter_ne name other h rest
    simp only [SymbolTable.find] at ih ⊢
    by_cases hk : k = name
    · subst hk
      have hne : (other == k) = false := by simpa using h
      simp [List.filter, List.lookup, hne, ih]
    · have hk2 : (k != name) = true := by simpa using hk
      simp only [List.filter, hk2, List.lookup, ih]

theorem SymbolTable.find_assign_other (t : SymbolTable) (name other : String)
    (info : SymbolInfo) (h : other ≠ name) :
    SymbolTable.find (SymbolTable.assign t name info) other = SymbolTable.find t other := by
  have hne : (other == name) = false := by simpa using h
  have hf := SymbolTable.find_filter_ne name other h t
  simp only [SymbolTable.find] at hf
  simp only [SymbolTable.find, SymbolTable.assign, List.lookup, hne, hf]

theorem checkRedeclared_of_find_some (S : Scope) (name : String) (b : SymbolInfo)
    (h : SymbolTable.find S.symbolTable name = some b) :
    checkRedeclared (some S) name =
      if b.kind = SymbolKind.Function then
        throwSem SemanticErrorType.FUNCTION_USED_AS_VARIABLE (SemanticErrorContext.Function name)
      else
        throwSem SemanticErrorType.REDECLARED_IDENTIFIER
          (SemanticErrorContext.Identifier name) := by
  simp [checkRedeclared, Scope.existsInCurrentScope, h, Scope.lookup_of_find S name b h]

theorem checkRedeclared_of_find_none (S : Scope) (name : String)
    (h : SymbolTable.find S.symbolTable name = none) :
    checkRedeclared (some S) name = Except.ok () := by
  simp [checkRedeclared, Scope.existsInCurrentScope, h]

/-- C5: visiting `var n: ty = init` or `let n: ty = init` in current scope `S`.
If `n` has an entry in the table of `S` itself the visit throws
`FUNCTION_USED_AS_VARIABLE` when that entry is a function and
`REDECLARED_IDENTIFIER` otherwise, whatever the initialiser is.  Otherwise the
initialiser is typed, and its failure is the failure of the visit.  Otherwise an
incompatible initialiser type gives `VAR_DECL_TYPE_MISMATCH` with identifier
`n`, the declared type as expected and the initialiser type as actual.
Otherwise `n` is added to `S` with the declared type, as a `Variable` for `var`
and a `Constant` for `let`; the other entries and the parent of `S` stay. -/
theorem varDecl_letDecl_order (S : Scope) (cf : Option FuncRef) (n : String)
    (ty : BaseType) (init : ExpNode) :
    (∀ b, SymbolTable.find S.symbolTable n = some b → b.kind = SymbolKind.Function →
      visitDecl ⟨some S, cf⟩ (DeclNode.VarDecl n ty init) =
          throwSem SemanticErrorType.FUNCTION_USED_AS_VARIABLE (SemanticErrorContext.Function n) ∧
        visitDecl ⟨some S, cf⟩ (DeclNode.LetDecl n ty init) =
          throwSem SemanticErrorType.FUNCTION_USED_AS_VARIABLE
            (SemanticErrorContext.Function n)) ∧
    (∀ b, SymbolTable.find S.symbolTable n = some b → b.kind ≠ SymbolKind.Function →
      visitDecl ⟨some S, cf⟩ (DeclNode.VarDecl n ty init) =
          throwSem SemanticErrorType.REDECLARED_IDENTIFIER (SemanticErrorContext.Identifier n) ∧
        visitDecl ⟨some S, cf⟩ (DeclNode.LetDecl n ty init) =
          throwSem SemanticErrorType.REDECLARED_IDENTIFIER
            (SemanticErrorContext.Identifier n)) ∧
    (SymbolTable.find S.symbolTable n = none →
      (∀ a, visitExp (some S) init = Except.error a →
        visitDecl ⟨some S, cf⟩ (DeclNode.VarDecl n ty init) = Except.error a ∧
          visitDecl ⟨some S, cf⟩ (DeclNode.LetDecl n ty init) = Except.error a) ∧
      (∀ init1, visitExp (some S) init = Except.ok init1 →
        isAssignmentCompatible (baseTypeToDataType ty) init1.dataType = false →
        ∃ ctx, ctx.identifier = n ∧ ctx.expectedType = some (baseTypeToDataType ty) ∧
          ctx.actualType = some init1.dataType ∧
          visitDecl ⟨some S, cf⟩ (DeclNode.VarDecl n ty init) =
            throwSem SemanticErrorType.VAR_DECL_TYPE_MISMATCH ctx ∧
          visitDecl ⟨some S, cf⟩ (DeclNode.LetDecl n ty init) =
            throwSem SemanticErrorType.VAR_DECL_TYPE_MISMATCH ctx) ∧
      (∀ init1, visitExp (some S) init = Except.ok init1 →
        isAssignmentCompatible (baseTypeToDataType ty) init1.dataType = true →
        ∃ Sv Sl : Scope,
          visitDecl ⟨some S, cf⟩ (DeclNode.VarDecl n ty init) =
            Except.ok (⟨some Sv, cf⟩, DeclNode.VarDecl n ty init1) ∧
          visitDecl ⟨some S, cf⟩ (DeclNode.LetDecl n ty init) =
            Except.ok (⟨some Sl, cf⟩, DeclNode.LetDecl n ty init1) ∧
          SymbolTable.find Sv.symbolTable n =
            some ⟨n, SymbolKind.Variable, baseTypeToDataType ty, []⟩ ∧
          SymbolTable.find Sl.symbolTable n =
            some ⟨n, SymbolKind.Constant, baseTypeToDataType ty, []⟩ ∧
          (∀ m, m ≠ n → SymbolTable.find Sv.symbolTable m = SymbolTable.find S.symbolTable m ∧
            SymbolTable.find Sl.symbolTable m = SymbolTable.find S.symbolTable m) ∧
          Sv.parent = S.parent ∧ Sl.parent = S.parent)) := by
  refine ⟨?_, ?_, ?_⟩
  · intro b hb hk
    simp [visitDecl, visitVarOrLet, checkRedeclared_of_find_some S n b hb, hk, throwSem]
  · intro b hb hk
    simp [visitDecl, visitVarOrLet, checkRedeclared_of_find_some S n b hb, hk, throwSem]
  · intro hnone
    refine ⟨?_, ?_, ?_⟩
    · intro a ha
      simp [visitDecl, visitVarOrLet, checkRedeclared_of_find_none S n hnone, ha]
    · intro init1 hi hc
      refine ⟨SemanticErrorContext.IdentifierTypeMismatch n (baseTypeToDataType ty)
        init1.dataType, rfl, rfl, rfl, ?_, ?_⟩ <;>
        simp [visitDecl, visitVarOrLet, checkRedeclared_of_find_none S n hnone, hi, hc, throwSem]
    · intro init1 hi hc
      refine ⟨S.addSymbol n SymbolKind.Variable (baseTypeToDataType ty),
        S.addSymbol n SymbolKind.Constant (baseTypeToDataType ty), ?_, ?_,
        SymbolTable.find_assign_same _ _ _, SymbolTable.find_assign_same _ _ _, ?_, rfl, rfl⟩
      · simp [visitDecl, visitVarOrLet, checkRedeclared_of_find_none S n hnone, hi, hc]
      · simp [visitDecl, visitVarOrLet, checkRedeclared_of_find_none S n hnone, hi, hc]
      · intro m hm
        exact ⟨SymbolTable.find_assign_other _ _ _ _ hm, SymbolTable.find_assign_other _ _ _ _ hm⟩

/-- C5 in `sampleScope`: `var f: int = 1` names a function, `let v: int = 1`
names a variable, and `var x: bool = 1.5` has an incompatible initialiser. -/
theorem varDecl_letDecl_order_witness :
    visitDecl ⟨some sampleScope, none⟩
        (DeclNode.VarDecl "f" BaseType.Int (ExpNode.IntLit DataType.IOTA 1)) =
      throwSem SemanticErrorType.FUNCTION_USED_AS_VARIABLE (SemanticErrorContext.Function "f") ∧
    visitDecl ⟨some sampleScope, none⟩
        (DeclNode.LetDecl "v" BaseType.Int (ExpNode.IntLit DataType.IOTA 1)) =
      throwSem SemanticErrorType.REDECLARED_IDENTIFIER (SemanticErrorContext.Identifier "v") ∧
    errorTypeOf (visitDecl ⟨some sampleScope, none⟩
        (DeclNode.VarDecl "x" BaseType.Bool (ExpNode.FloatLit DataType.IOTA ⟨3, 2⟩))) =
      some SemanticErrorType.VAR_DECL_TYPE_MISMATCH :=
  ⟨((varDecl_letDecl_order sampleScope none "f" BaseType.Int (ExpNode.IntLit DataType.IOTA 1)).1
      ⟨"f", SymbolKind.Function, DataType.FLOAT, [DataType.INT, DataType.INT]⟩ rfl rfl).1,
   ((varDecl_letDecl_order sampleScope none "v" BaseType.Int (ExpNode.IntLit DataType.IOTA 1)).2.1
      ⟨"v", SymbolKind.Variable, DataType.INT, []⟩ rfl (by decide)).2,
   by
    obtain ⟨ctx, _, _, _, hv, _⟩ :=
      ((varDecl_letDecl_order sampleScope none "x" BaseType.Bool
        (ExpNode.FloatLit DataType.IOTA ⟨3, 2⟩)).2.2 rfl).2.1
        (ExpNode.FloatLit DataType.FLOAT ⟨3, 2⟩) rfl rfl
    rw [hv]; rfl⟩

/-! ## Assignment -/

/-- C6: visiting `n = rhs` in current scope `S`.  If no scope of the chain binds
`n` the visit throws `UNDECLARED_IDENTIFIER`; if the nearest binding is a
function, `FUNCTION_USED_AS_VARIABLE`; if it is a constant,
`VAR_ASSIGN_TO_CONSTANT` for `n`, whatever `rhs` is (it is not typed).  For a
variable the right-hand side is typed, and once it types the visit throws
`VAR_ASSIGN_TYPE_MISMATCH` iff the variable's type is not assignment-compatible
with the type of `rhs`, and returns otherwise.  The program
`func main(): int { let a: int = 1; a = 2; return a; }` gives
`VAR_ASSIGN_TO_CONSTANT` for `a`. -/
theorem assign_order (S : Scope) (cf : Option FuncRef) (n : String) (rhs : ExpNode) :
    (S.Unbound n →
      visitStmt ⟨some S, cf⟩ (StmtNode.Assign n rhs) =
        throwSem SemanticErrorType.UNDECLARED_IDENTIFIER (SemanticErrorContext.Identifier n)) ∧
    (∀ b, S.NearestBinding n b → b.kind = SymbolKind.Function →
      visitStmt ⟨some S, cf⟩ (StmtNode.Assign n rhs) =
        throwSem SemanticErrorType.FUNCTION_USED_AS_VARIABLE (SemanticErrorContext.Function n)) ∧
    (∀ b, S.NearestBinding n b → b.kind = SymbolKind.Constant →
      visitStmt ⟨some S, cf⟩ (StmtNode.Assign n rhs) =
        throwSem SemanticErrorType.VAR_ASSIGN_TO_CONSTANT (SemanticErrorContext.Identifier n)) ∧
    (∀ b, S.NearestBinding n b → b.kind = SymbolKind.Variable →
      (∀ a, visitExp (some S) rhs = Except.error a →
        visitStmt ⟨some S, cf⟩ (StmtNode.Assign n rhs) = Except.error a) ∧
      (∀ rhs1, visitExp (some S) rhs = Except.ok rhs1 →
        (errorTypeOf (visitStmt ⟨some S, cf⟩ (StmtNode.Assign n rhs)) =
            some SemanticErrorType.VAR_ASSIGN_TYPE_MISMATCH ↔
          isAssignmentCompatible b.type rhs1.dataType = false) ∧
        (isAssignmentCompatible b.type rhs1.dataType = false →
          ∃ ctx, ctx.identifier = n ∧ ctx.expectedType = some b.type ∧
            ctx.actualType = some rhs1.dataType ∧
            visitStmt ⟨some S, cf⟩ (StmtNode.Assign n rhs) =
              throwSem SemanticErrorType.VAR_ASSIGN_TYPE_MISMATCH ctx) ∧
        (isAssignmentCompatible b.type rhs1.dataType = true →
          visitStmt ⟨some S, cf⟩ (StmtNode.Assign n rhs) =
            Except.ok (⟨some S, cf⟩, StmtNode.Assign n rhs1)))) ∧
    errorOf (visitProgram constAssignProgram) =
      some ⟨SemanticErrorType.VAR_ASSIGN_TO_CONSTANT, SemanticErrorContext.Identifier "a"⟩ := by
  refine ⟨?_, ?_, ?_, ?_, by rfl⟩
  · intro hu
    simp [visitStmt, visitAssign, lookupCurrent, Scope.lookup_of_unbound S n hu, throwSem]
  · intro b hb hk
    simp [visitStmt, visitAssign, lookupCurrent, Scope.lookup_of_nearest S n b hb, hk, throwSem]
  · intro b hb hk
    simp [visitStmt, visitAssign, lookupCurrent, Scope.lookup_of_nearest S n b hb, hk, throwSem]
  · intro b hb hk
    refine ⟨?_, ?_⟩
    · intro a ha
      simp [visitStmt, visitAssign, lookupCurrent, Scope.lookup_of_nearest S n b hb, hk, ha]
    · intro rhs1 h1
      refine ⟨?_, ?_, ?_⟩
      · cases hc : isAssignmentCompatible b.type rhs1.dataType <;>
          simp [visitStmt, visitAssign, lookupCurrent, Scope.lookup_of_nearest S n b hb, hk, h1,
            hc, throwSem, errorTypeOf, errorOf]
      · intro hc
        refine ⟨SemanticErrorContext.IdentifierTypeMismatch n b.type rhs1.dataType,
          rfl, rfl, rfl, ?_⟩
        simp [visitStmt, visitAssign, lookupCurrent, Scope.lookup_of_nearest S n b hb, hk, h1,
          hc, throwSem]
      · intro hc
        simp [visitStmt, visitAssign, lookupCurrent, Scope.lookup_of_nearest S n b hb, hk, h1, hc]

/-- C6 in `sampleInner`, whose parent `sampleScope` binds `v`, `k` and `f`:
`k = 1.5` reaches the inner variable `k : bool`, not the outer constant, and is a
type mismatch; `f = 1` names a function; `zz = 1` is undeclared. -/
theorem assign_order_witness :
    errorTypeOf (visitStmt ⟨some sampleInner, none⟩
        (StmtNode.Assign "k" (ExpNode.FloatLit DataType.IOTA ⟨3, 2⟩))) =
      some SemanticErrorType.VAR_ASSIGN_TYPE_MISMATCH ∧
    visitStmt ⟨some sampleInner, none⟩ (StmtNode.Assign "f" (ExpNode.IntLit DataType.IOTA 1)) =
      throwSem SemanticErrorType.FUNCTION_USED_AS_VARIABLE (SemanticErrorContext.Function "f") ∧
    visitStmt ⟨some sampleInner, none⟩ (StmtNode.Assign "zz" (ExpNode.IntLit DataType.IOTA 1)) =
      throwSem SemanticErrorType.UNDECLARED_IDENTIFIER (SemanticErrorContext.Identifier "zz") :=
  ⟨((((assign_order sampleInner none "k" (ExpNode.FloatLit DataType.IOTA ⟨3, 2⟩)).2.2.2.1
      ⟨"k", SymbolKind.Variable, DataType.BOOL, []⟩
      ⟨[], sampleInner.symbolTable, [sampleScope.symbolTable], rfl, by simp, rfl⟩ rfl).2
      (ExpNode.FloatLit DataType.FLOAT ⟨3, 2⟩) rfl).1).mpr rfl,
   (assign_order sampleInner none "f" (ExpNode.IntLit DataType.IOTA 1)).2.1
      ⟨"f", SymbolKind.Function, DataType.FLOAT, [DataType.INT, DataType.INT]⟩
      ⟨[sampleInner.symbolTable], sampleScope.symbolTable, [], rfl, by
        intro u hu
        simp only [List.mem_singleton] at hu
        subst hu; rfl, rfl⟩ rfl,
   (assign_order sampleInner none "zz" (ExpNode.IntLit DataType.IOTA 1)).1 (by
      intro t ht
      have hc : sampleInner.chain = [sampleInner.symbolTable, sampleScope.symbolTable] := rfl
      rw [hc] at ht
      simp only [List.mem_cons, List.mem_singleton, List.not_mem_nil, or_false] at ht
      rcases ht with h | h <;> subst h <;> rfl)⟩

/-! ## Conditions of `if` and `while` -/

theorem visitBlock_empty (st : ScopeAndTypeChecker) :
    visitBlock st (BlockNode.mk [] [] []) = Except.ok (st, BlockNode.mk [] [] []) := by
  simp [visitBlock, visitDecls, visitStmts, exitScope, Scope.parent]

theorem errorTypeOf_error {α : Type} (a : Abort) :
    errorTypeOf (Except.error a : Except Abort α) =
      errorTypeOf (Except.error a : Except Abort Unit) := by
  cases a <;> rfl

theorem errorTypeOf_ok {α : Type} (v : α) :
    errorTypeOf (Except.ok v : Except Abort α) = none := rfl

/-- C7 (as amended): for an `if` or a `while` whose condition types to `T`.
When `T` is not `BOOL` the statement fails with `CONDITION_NOT_BOOL` whatever
its blocks are (they are not visited); when `T` is `BOOL` the outcome of the
statement is the outcome of visiting its blocks.  So, for every choice of
blocks, the statement fails with `CONDITION_NOT_BOOL` iff `T` is not `BOOL` or
the visit of its blocks fails with that error.  The program
`func main(): int { if (1) { return 0; } return 0; }` is rejected with
`CONDITION_NOT_BOOL` although `isAssignmentCompatible(BOOL, INT)` holds. -/
theorem condition_must_be_bool (st : ScopeAndTypeChecker) (cond cond1 : ExpNode)
    (hc : visitExp st.currentScope cond = Except.ok cond1) :
    (cond1.dataType ≠ DataType.BOOL → ∀ thenBlk elseBlk body,
      visitStmt st (StmtNode.If cond thenBlk elseBlk) =
          throwSem SemanticErrorType.CONDITION_NOT_BOOL SemanticErrorContext.valueInit ∧
        visitStmt st (StmtNode.While cond body) =
          throwSem SemanticErrorType.CONDITION_NOT_BOOL SemanticErrorContext.valueInit) ∧
    (cond1.dataType = DataType.BOOL → ∀ thenBlk elseBlk body,
      visitStmt st (StmtNode.If cond thenBlk elseBlk) =
          (match visitBlock st thenBlk with
           | Except.error a => Except.error a
           | Except.ok (st1, thenBlk1) =>
             match visitElse st1 elseBlk with
             | Except.error a => Except.error a
             | Except.ok (st2, elseBlk1) =>
               Except.ok (st2, StmtNode.If cond1 thenBlk1 elseBlk1)) ∧
        visitStmt st (StmtNode.While cond body) =
          (match visitBlock st body with
           | Except.error a => Except.error a
           | Except.ok (st1, body1) => Except.ok (st1, StmtNode.While cond1 body1))) ∧
    (∀ thenBlk elseBlk,
      errorTypeOf (visitStmt st (StmtNode.If cond thenBlk elseBlk)) =
          some SemanticErrorType.CONDITION_NOT_BOOL ↔
        cond1.dataType ≠ DataType.BOOL ∨
        errorTypeOf (visitBlock st thenBlk) = some SemanticErrorType.CONDITION_NOT_BOOL ∨
        ∃ st1 thenBlk1, visitBlock st thenBlk = Except.ok (st1, thenBlk1) ∧
          errorTypeOf (visitElse st1 elseBlk) = some SemanticErrorType.CONDITION_NOT_BOOL) ∧
    (∀ body,
      errorTypeOf (visitStmt st (StmtNode.While cond body)) =
          some SemanticErrorType.CONDITION_NOT_BOOL ↔
        cond1.dataType ≠ DataType.BOOL ∨
        errorTypeOf (visitBlock st body) = some SemanticErrorType.CONDITION_NOT_BOOL) ∧
    errorTypeOf (visitProgram intConditionProgram) =
      some SemanticErrorType.CONDITION_NOT_BOOL ∧
    isAssignmentCompatible DataType.BOOL DataType.INT = true := by
  have hne : cond1.dataType ≠ DataType.BOOL → ∀ thenBlk elseBlk body,
      visitStmt st (StmtNode.If cond thenBlk elseBlk) =
          throwSem SemanticErrorType.CONDITION_NOT_BOOL SemanticErrorContext.valueInit ∧
        visitStmt st (StmtNode.While cond body) =
          throwSem SemanticErrorType.CONDITION_NOT_BOOL SemanticErrorContext.valueInit := by
    intro hT thenBlk elseBlk body
    simp [visitStmt, visitCond, hc, hT, throwSem]
  have heq : cond1.dataType = DataType.BOOL → ∀ thenBlk elseBlk body,
      visitStmt st (StmtNode.If cond thenBlk elseBlk) =
          (match visitBlock st thenBlk with
           | Except.error a => Except.error a
           | Except.ok (st1, thenBlk1) =>
             match visitElse st1 elseBlk with
             | Except.error a => Except.error a
             | Except.ok (st2, elseBlk1) =>
               Except.ok (st2, StmtNode.If cond1 thenBlk1 elseBlk1)) ∧
        visitStmt st (StmtNode.While cond body) =
          (match visitBlock st body with
           | Except.error a => Except.error a
           | Except.ok (st1, body1) => Except.ok (st1, StmtNode.While cond1 body1)) := by
    intro hT thenBlk elseBlk body
    simp [visitStmt, visitCond, hc, hT]
  refine ⟨hne, heq, ?_, ?_, by rfl, by decide⟩
  · intro thenBlk elseBlk
    by_cases hT : cond1.dataType = DataType.BOOL
    · rw [(heq hT thenBlk elseBlk thenBlk).1]
      cases hb : visitBlock st thenBlk with
      | error a =>
        simp only [hT, ne_eq, not_true_eq_false, false_or, errorTypeOf_error, reduceCtorEq,
          false_and, exists_false, or_false]
      | ok r =>
        obtain ⟨st1, thenBlk1⟩ := r
        cases he : visitElse st1 elseBlk with
        | error a =>
          simp only [hT, ne_eq, not_true_eq_false, false_or, errorTypeOf_error, errorTypeOf_ok,
            reduceCtorEq, Except.ok.injEq, Prod.mk.injEq, he]
          constructor
          · intro h
            exact ⟨st1, thenBlk1, ⟨rfl, rfl⟩, by rw [he, errorTypeOf_error]; exact h⟩
          · rintro ⟨s2, b2, ⟨h1, _⟩, h3⟩
            rw [← h1, he, errorTypeOf_error] at h3
            exact h3
        | ok r2 =>
          simp only [hT, ne_eq, not_true_eq_false, false_or, errorTypeOf_ok, reduceCtorEq,
            Except.ok.injEq, Prod.mk.injEq, he, false_iff, not_exists, not_and]
          rintro s2 b2 ⟨h1, _⟩
          rw [← h1, he, errorTypeOf_ok]
          exact fun h => by cases h
    · rw [(hne hT thenBlk elseBlk thenBlk).1]
      simp [hT, throwSem, errorTypeOf, errorOf]
  · intro body
    by_cases hT : cond1.dataType = DataType.BOOL
    · rw [(heq hT body none body).2]
      cases hb : visitBlock st body with
      | error a =>
        simp only [hT, ne_eq, not_true_eq_false, false_or, errorTypeOf_error]
      | ok r =>
        simp only [hT, ne_eq, not_true_eq_false, false_or, errorTypeOf_ok]
    · rw [(hne hT body none body).2]
      simp [hT, throwSem, errorTypeOf, errorOf]

/-- C7 (as stated, refuted): in `if (true) { if (1) { } }` the condition of the
outer `if` types to `BOOL`, yet the checker fails on the statement with
`CONDITION_NOT_BOOL`, raised for the condition of the `if` inside its block. -/
theorem bool_condition_fails_with_condition_not_bool :
    visitExp (some sampleScope) (ExpNode.BoolLit DataType.IOTA true) =
      Except.ok (ExpNode.BoolLit DataType.BOOL true) ∧
    errorTypeOf (visitStmt ⟨some sampleScope, none⟩ nestedIntConditionStmt) =
      some SemanticErrorType.CONDITION_NOT_BOOL := by
  exact ⟨rfl, rfl⟩

/-- C7 at `if (1) { return 0; }` and `while (1) { return 0; }`, visited in
`sampleScope`. -/
theorem condition_must_be_bool_witness :
    visitStmt ⟨some sampleScope, none⟩ (StmtNode.If (ExpNode.IntLit DataType.IOTA 1)
        (simpleBlock [] [StmtNode.Return (ExpNode.IntLit DataType.IOTA 0)]) none) =
      throwSem SemanticErrorType.CONDITION_NOT_BOOL SemanticErrorContext.valueInit ∧
    visitStmt ⟨some sampleScope, none⟩ (StmtNode.While (ExpNode.IntLit DataType.IOTA 1)
        (simpleBlock [] [StmtNode.Return (ExpNode.IntLit DataType.IOTA 0)])) =
      throwSem SemanticErrorType.CONDITION_NOT_BOOL SemanticErrorContext.valueInit :=
  (condition_must_be_bool ⟨some sampleScope, none⟩ (ExpNode.IntLit DataType.IOTA 1)
    (ExpNode.IntLit DataType.INT 1) rfl).1 (by decide)
    (simpleBlock [] [StmtNode.Return (ExpNode.IntLit DataType.IOTA 0)]) none
    (simpleBlock [] [StmtNode.Return (ExpNode.IntLit DataType.IOTA 0)])

/-! ## Calls -/

theorem sizeToInt_of_lt (n : Nat) (h : n < 2 ^ 31) : sizeToInt n = Int.ofNat n := by
  have h2 : n % 2 ^ 32 = n := Nat.mod_eq_of_lt (by omega)
  unfold sizeToInt
  rw [h2, if_pos h]

theorem wrapInt_of_range (n : Int) (h1 : -2 ^ 31 ≤ n) (h2 : n < 2 ^ 31) : wrapInt n = n := by
  unfold wrapInt
  omega

theorem wrapInt_size_mul (n : Nat) (h : n < 2 ^ 29) :
    wrapInt (sizeToInt n * 4) = 4 * (n : Int) := by
  rw [sizeToInt_of_lt n (by omega)]
  have hn : (Int.ofNat n : Int) = (n : Int) := rfl
  rw [hn, wrapInt_of_range _ (by omega) (by omega)]
  omega

theorem getElem?_append_length {α : Type} (done : List α) (p : α) (rest : List α) :
    (done ++ p :: rest)[done.length]? = some p := by
  induction done with
  | nil => simp
  | cons x xs ih => simpa using ih

theorem visitArgs_cons (cs : Option Scope) (callee : String) (paramTypes : List DataType)
    (i : Nat) (argTypes : List DataType) (arg arg1 : ExpNode) (rest : List ExpNode)
    (paramType : DataType)
    (harg : visitExp cs arg = Except.ok arg1) (hidx : paramTypes[i]? = some paramType) :
    visitArgs cs callee paramTypes i argTypes (arg :: rest) =
      if isAssignmentCompatible paramType arg1.dataType = false then
        throwSem SemanticErrorType.INVALID_SIGNATURE
          (SemanticErrorContext.Signature callee paramTypes (argTypes ++ [arg1.dataType]))
      else
        match visitArgs cs callee paramTypes (i + 1) (argTypes ++ [arg1.dataType]) rest with
        | Except.error a => Except.error a
        | Except.ok rest1 => Except.ok (arg1 :: rest1) := by
  rw [visitArgs]
  simp only [harg, hidx]
  cases isAssignmentCompatible paramType arg1.dataType <;> rfl

theorem visitArgs_reject (cs : Option Scope) (callee : String) (bad bad1 : ExpNode)
    (post : List ExpNode) (p : DataType) (tpost : List DataType)
    (hbad : visitExp cs bad = Except.ok bad1)
    (hp : isAssignmentCompatible p bad1.dataType = false)
    (pre pre1 : List ExpNode)
    (hpre : List.Forall₂ (fun a a1 => visitExp cs a = Except.ok a1) pre pre1) :
    ∀ (done tpre acc : List DataType),
      List.Forall₂ (fun q a1 => isAssignmentCompatible q (ExpNode.dataType a1) = true) tpre pre1 →
      visitArgs cs callee (done ++ (tpre ++ p :: tpost)) done.length acc (pre ++ bad :: post) =
        throwSem SemanticErrorType.INVALID_SIGNATURE
          (SemanticErrorContext.Signature callee (done ++ (tpre ++ p :: tpost))
            (acc ++ (pre1 ++ [bad1]).map ExpNode.dataType)) := by
  induction hpre with
  | nil =>
    intro done tpre acc hcompat
    cases hcompat
    rw [List.nil_append, List.nil_append,
      visitArgs_cons cs callee _ _ acc bad bad1 post p hbad (getElem?_append_length done p tpost)]
    simp [hp]
  | @cons a a1 pre pre1 ha _ ih =>
    intro done tpre acc hcompat
    cases hcompat with
    | @cons q _ tpre' _ hq hrest =>
      have h := ih (done ++ [q]) tpre' (acc ++ [a1.dataType]) hrest
      simp only [List.append_assoc, List.singleton_append, List.length_append,
        List.length_singleton] at h
      rw [List.cons_append, List.cons_append,
        visitArgs_cons cs callee _ _ acc a a1 _ q ha (getElem?_append_length done q _), h]
      simp [hq, throwSem]

theorem visitArgs_error (cs : Option Scope) (callee : String) (bad : ExpNode) (e : Abort)
    (post : List ExpNode) (todo : List DataType)
    (hbad : visitExp cs bad = Except.error e)
    (pre pre1 : List ExpNode)
    (hpre : List.Forall₂ (fun a a1 => visitExp cs a = Except.ok a1) pre pre1) :
    ∀ (done tpre acc : List DataType),
      List.Forall₂ (fun q a1 => isAssignmentCompatible q (ExpNode.dataType a1) = true) tpre pre1 →
      visitArgs cs callee (done ++ (tpre ++ todo)) done.length acc (pre ++ bad :: post) =
        Except.error e := by
  induction hpre with
  | nil =>
    intro done tpre acc hcompat
    cases hcompat
    simp [visitArgs, hbad]
  | @cons a a1 pre pre1 ha _ ih =>
    intro done tpre acc hcompat
    cases hcompat with
    | @cons q _ tpre' _ hq hrest =>
      have h := ih (done ++ [q]) tpre' (acc ++ [a1.dataType]) hrest
      simp only [List.append_assoc, List.singleton_append, List.length_append,
        List.length_singleton] at h
      rw [List.cons_append, List.cons_append,
        visitArgs_cons cs callee _ _ acc a a1 _ q ha (getElem?_append_length done q _), h]
      simp [hq, throwSem]

theorem visitArgs_accept (cs : Option Scope) (callee : String)
    (args args1 : List ExpNode)
    (hargs : List.Forall₂ (fun a a1 => visitExp cs a = Except.ok a1) args args1) :
    ∀ (done todo acc : List DataType),
      List.Forall₂ (fun q a1 => isAssignmentCompatible q (ExpNode.dataType a1) = true) todo args1 →
      visitArgs cs callee (done ++ todo) done.length acc args = Except.ok args1 := by
  induction hargs with
  | nil =>
    intro done todo acc _
    simp [visitArgs]
  | @cons a a1 pre pre1 ha _ ih =>
    intro done todo acc hcompat
    cases hcompat with
    | @cons q _ todo' _ hq hrest =>
      have h := ih (done ++ [q]) todo' (acc ++ [a1.dataType]) hrest
      simp only [List.append_assoc, List.singleton_append, List.length_append,
        List.length_singleton] at h
      rw [visitArgs_cons cs callee _ _ acc a a1 _ q ha (getElem?_append_length done q _), h]
      simp [hq, throwSem]

/-- C8: visiting the call `c(args)` in current scope `S`.  If no scope of the
chain binds `c` the visit throws `UNDECLARED_FUNCTION`; if the nearest binding
is not a function, `NOT_A_FUNCTION`; if the argument count differs from the
parameter count, `WRONG_NUMBER_OF_ARGUMENTS` with the two counts (each as long
as it fits the `int` field); all three for arbitrary arguments, none of which is
typed.  Otherwise the arguments are typed
from the left: at the first argument that types to a type not
assignment-compatible with its parameter type the visit throws
`INVALID_SIGNATURE`, the arguments after it being arbitrary; a typing failure of
an argument after compatible ones is the failure of the visit; and when every
argument types to a compatible type the node gets the callee's return type. -/
theorem call_order (S : Scope) (dt : DataType) (c : String) (args : List ExpNode) :
    (S.Unbound c →
      visitExp (some S) (ExpNode.Call dt c args) =
        throwSem SemanticErrorType.UNDECLARED_FUNCTION (SemanticErrorContext.Function c)) ∧
    (∀ b, S.NearestBinding c b → b.kind ≠ SymbolKind.Function →
      visitExp (some S) (ExpNode.Call dt c args) =
        throwSem SemanticErrorType.NOT_A_FUNCTION (SemanticErrorContext.Identifier c)) ∧
    (∀ b, S.NearestBinding c b → b.kind = SymbolKind.Function →
      (args.length ≠ b.paramTypes.length →
        ∃ ctx, ctx.functionName = c ∧
          (b.paramTypes.length < 2 ^ 31 →
            ctx.expectedArgs = some (Int.ofNat b.paramTypes.length)) ∧
          (args.length < 2 ^ 31 → ctx.actualArgs = some (Int.ofNat args.length)) ∧
          visitExp (some S) (ExpNode.Call dt c args) =
            throwSem SemanticErrorType.WRONG_NUMBER_OF_ARGUMENTS ctx) ∧
      (args.length = b.paramTypes.length →
        (∀ pre bad post pre1 bad1 tpre p tpost,
          args = pre ++ bad :: post → b.paramTypes = tpre ++ p :: tpost →
          List.Forall₂ (fun a a1 => visitExp (some S) a = Except.ok a1) pre pre1 →
          List.Forall₂ (fun q a1 => isAssignmentCompatible q (ExpNode.dataType a1) = true)
            tpre pre1 →
          visitExp (some S) bad = Except.ok bad1 →
          isAssignmentCompatible p bad1.dataType = false →
          errorTypeOf (visitExp (some S) (ExpNode.Call dt c args)) =
            some SemanticErrorType.INVALID_SIGNATURE) ∧
        (∀ pre bad post pre1 tpre tpost e,
          args = pre ++ bad :: post → b.paramTypes = tpre ++ tpost →
          List.Forall₂ (fun a a1 => visitExp (some S) a = Except.ok a1) pre pre1 →
          List.Forall₂ (fun q a1 => isAssignmentCompatible q (ExpNode.dataType a1) = true)
            tpre pre1 →
          visitExp (some S) bad = Except.error e →
          visitExp (some S) (ExpNode.Call dt c args) = Except.error e) ∧
        (∀ args1,
          List.Forall₂ (fun a a1 => visitExp (some S) a = Except.ok a1) args args1 →
          List.Forall₂ (fun q a1 => isAssignmentCompatible q (ExpNode.dataType a1) = true)
            b.paramTypes args1 →
          visitExp (some S) (ExpNode.Call dt c args) = Except.ok (ExpNode.Call b.type c args1) ∧
            (ExpNode.Call b.type c args1).dataType = b.type))) := by
  refine ⟨?_, ?_, ?_⟩
  · intro hu
    simp [visitExp, lookupCurrent, Scope.lookup_of_unbound S c hu, throwSem]
  · intro b hb hk
    simp [visitExp, lookupCurrent, Scope.lookup_of_nearest S c b hb, hk, throwSem]
  · intro b hb hk
    refine ⟨?_, ?_⟩
    · intro hlen
      refine ⟨SemanticErrorContext.ArgCount c (sizeToInt b.paramTypes.length)
        (sizeToInt args.length), rfl, ?_, ?_, ?_⟩
      · intro h
        simp [SemanticErrorContext.ArgCount, sizeToInt_of_lt _ h]
      · intro h
        simp [SemanticErrorContext.ArgCount, sizeToInt_of_lt _ h]
      simp [visitExp, lookupCurrent, Scope.lookup_of_nearest S c b hb, hk, hlen, throwSem]
    · intro hlen
      refine ⟨?_, ?_, ?_⟩
      · intro pre bad post pre1 bad1 tpre p tpost hargs hpt hpre hcompat hbad hp
        have h := visitArgs_reject (some S) c bad bad1 post p tpost hbad hp pre pre1 hpre
          [] tpre [] hcompat
        simp only [List.nil_append, List.length_nil] at h
        rw [← hargs, ← hpt] at h
        simp [visitExp, lookupCurrent, Scope.lookup_of_nearest S c b hb, hk, hlen, h, throwSem,
          errorTypeOf, errorOf]
      · intro pre bad post pre1 tpre tpost e hargs hpt hpre hcompat hbad
        have h := visitArgs_error (some S) c bad e post tpost hbad pre pre1 hpre
          [] tpre [] hcompat
        simp only [List.nil_append, List.length_nil] at h
        rw [← hargs, ← hpt] at h
        simp [visitExp, lookupCurrent, Scope.lookup_of_nearest S c b hb, hk, hlen, h]
      · intro args1 hargs hcompat
        have h := visitArgs_accept (some S) c args args1 hargs [] b.paramTypes [] hcompat
        simp only [List.nil_append, List.length_nil] at h
        simp [visitExp, lookupCurrent, Scope.lookup_of_nearest S c b hb, hk, hlen, h,
          ExpNode.dataType]

/-- C8 in `sampleScope`, where `f` is `f(int, int) : float` and `v` a variable:
`f(1.5, 2)` is an invalid signature, `f(1)` has the wrong number of arguments,
`v(1)` is not a function, `g()` is undeclared, and `f(1, true)` gets type `FLOAT`. -/
theorem call_order_witness :
    errorTypeOf (visitExp (some sampleScope) badFirstArgCall) =
      some SemanticErrorType.INVALID_SIGNATURE ∧
    errorTypeOf (visitExp (some sampleScope)
        (ExpNode.Call DataType.IOTA "f" [ExpNode.IntLit DataType.IOTA 1])) =
      some SemanticErrorType.WRONG_NUMBER_OF_ARGUMENTS ∧
    visitExp (some sampleScope) (ExpNode.Call DataType.IOTA "v" [ExpNode.IntLit DataType.IOTA 1]) =
      throwSem SemanticErrorType.NOT_A_FUNCTION (SemanticErrorContext.Identifier "v") ∧
    visitExp (some sampleScope) (ExpNode.Call DataType.IOTA "g" []) =
      throwSem SemanticErrorType.UNDECLARED_FUNCTION (SemanticErrorContext.Function "g") ∧
    visitExp (some sampleScope) (ExpNode.Call DataType.IOTA "f"
        [ExpNode.IntLit DataType.IOTA 1, ExpNode.BoolLit DataType.IOTA true]) =
      Except.ok (ExpNode.Call DataType.FLOAT "f"
        [ExpNode.IntLit DataType.INT 1, ExpNode.BoolLit DataType.BOOL true]) :=
  have hf : sampleScope.NearestBinding "f"
      ⟨"f", SymbolKind.Function, DataType.FLOAT, [DataType.INT, DataType.INT]⟩ :=
    ⟨[], sampleScope.symbolTable, [], rfl, by simp, rfl⟩
  have hv : sampleScope.NearestBinding "v" ⟨"v", SymbolKind.Variable, DataType.INT, []⟩ :=
    ⟨[], sampleScope.symbolTable, [], rfl, by simp, rfl⟩
  ⟨(((call_order sampleScope DataType.IOTA "f"
        [ExpNode.FloatLit DataType.IOTA ⟨3, 2⟩, ExpNode.IntLit DataType.IOTA 2]).2.2
        _ hf rfl).2 rfl).1 [] (ExpNode.FloatLit DataType.IOTA ⟨3, 2⟩)
        [ExpNode.IntLit DataType.IOTA 2] [] (ExpNode.FloatLit DataType.FLOAT ⟨3, 2⟩)
        [] DataType.INT [DataType.INT] rfl rfl List.Forall₂.nil List.Forall₂.nil rfl rfl,
   by
    obtain ⟨ctx, _, _, _, h⟩ := ((call_order sampleScope DataType.IOTA "f"
      [ExpNode.IntLit DataType.IOTA 1]).2.2 _ hf rfl).1 (by decide)
    rw [h]; rfl,
   (call_order sampleScope DataType.IOTA "v" [ExpNode.IntLit DataType.IOTA 1]).2.1 _ hv
      (by decide),
   (call_order sampleScope DataType.IOTA "g" []).1 (by
      intro t ht
      have hc : sampleScope.chain = [sampleScope.symbolTable] := rfl
      rw [hc] at ht
      simp only [List.mem_singleton] at ht
      subst ht; rfl),
   ((((call_order sampleScope DataType.IOTA "f"
        [ExpNode.IntLit DataType.IOTA 1, ExpNode.BoolLit DataType.IOTA true]).2.2
        _ hf rfl).2 rfl).2.2
        [ExpNode.IntLit DataType.INT 1, ExpNode.BoolLit DataType.BOOL true]
        (List.Forall₂.cons rfl (List.Forall₂.cons rfl List.Forall₂.nil))
        (List.Forall₂.cons rfl (List.Forall₂.cons rfl List.Forall₂.nil))).1⟩

/-- C9 at the call `f(1.5, 2)` of `f(int, int)` in `sampleScope`: the visit throws
`INVALID_SIGNATURE` at the first argument; `signatureExpected` is the whole
parameter list `[INT, INT]`, but `signatureActual` is `[FLOAT]`, the types
collected so far, one entry for a call with two arguments. -/
theorem invalid_signature_actual_is_partial :
    visitExp (some sampleScope) badFirstArgCall =
      throwSem SemanticErrorType.INVALID_SIGNATURE
        (SemanticErrorContext.Signature "f" [DataType.INT, DataType.INT] [DataType.FLOAT]) ∧
    (∀ e, errorOf (visitExp (some sampleScope) badFirstArgCall) = some e →
      e.errorType = SemanticErrorType.INVALID_SIGNATURE ∧
      e.context.signatureExpected = [DataType.INT, DataType.INT] ∧
      e.context.signatureActual = [DataType.FLOAT] ∧
      e.context.signatureActual.length = 1) ∧
    (match badFirstArgCall with
     | ExpNode.Call _ _ args => args.length
     | _ => 0) = 2 := by
  refine ⟨by rfl, ?_, by rfl⟩
  intro e he
  have h : errorOf (visitExp (some sampleScope) badFirstArgCall) =
      some ⟨SemanticErrorType.INVALID_SIGNATURE,
        SemanticErrorContext.Signature "f" [DataType.INT, DataType.INT] [DataType.FLOAT]⟩ := by
    rfl
  rw [h] at he
  cases he
  exact ⟨rfl, rfl, rfl, rfl⟩

/-! ## Return -/

/-- C10: for `return expr` visited inside function `f` (the visitor's
`currentFunction`), with `expr` typing to `T`, the visit throws
`RETURN_TYPE_MISMATCH` iff `isAssignmentCompatible(f's return type, T)` is
false, with `functionName` the name of `f`, the return type as expected and
`T` as actual; otherwise it returns.  Returning an `INT` from a `float`
function is accepted and returning a `FLOAT` from an `int` function is
rejected. -/
theorem return_type_check (cs : Option Scope) (f : FuncRef) (expr expr1 : ExpNode)
    (he : visitExp cs expr = Except.ok expr1) :
    (errorTypeOf (visitStmt ⟨cs, some f⟩ (StmtNode.Return expr)) =
        some SemanticErrorType.RETURN_TYPE_MISMATCH ↔
      isAssignmentCompatible (baseTypeToDataType f.retType) expr1.dataType = false) ∧
    (isAssignmentCompatible (baseTypeToDataType f.retType) expr1.dataType = false →
      ∃ ctx, ctx.functionName = f.name ∧
        ctx.expectedType = some (baseTypeToDataType f.retType) ∧
        ctx.actualType = some expr1.dataType ∧
        visitStmt ⟨cs, some f⟩ (StmtNode.Return expr) =
          throwSem SemanticErrorType.RETURN_TYPE_MISMATCH ctx) ∧
    (isAssignmentCompatible (baseTypeToDataType f.retType) expr1.dataType = true →
      visitStmt ⟨cs, some f⟩ (StmtNode.Return expr) =
        Except.ok (⟨cs, some f⟩, StmtNode.Return expr1)) ∧
    (f.retType = BaseType.Float → expr1.dataType = DataType.INT →
      accepted (visitStmt ⟨cs, some f⟩ (StmtNode.Return expr)) = true) ∧
    (f.retType = BaseType.Int → expr1.dataType = DataType.FLOAT →
      errorTypeOf (visitStmt ⟨cs, some f⟩ (StmtNode.Return expr)) =
        some SemanticErrorType.RETURN_TYPE_MISMATCH) ∧
    accepted (visitProgram returnIntFromFloatProgram) = true ∧
    errorOf (visitProgram returnFloatFromIntProgram) =
      some ⟨SemanticErrorType.RETURN_TYPE_MISMATCH,
        SemanticErrorContext.ReturnTypeMismatch "h" DataType.INT DataType.FLOAT⟩ := by
  refine ⟨?_, ?_, ?_, ?_, ?_, by rfl, by rfl⟩
  · cases hc : isAssignmentCompatible (baseTypeToDataType f.retType) expr1.dataType <;>
      simp [visitStmt, visitReturn, he, hc, throwSem, errorTypeOf, errorOf]
  · intro hc
    refine ⟨SemanticErrorContext.ReturnTypeMismatch f.name (baseTypeToDataType f.retType)
      expr1.dataType, rfl, rfl, rfl, ?_⟩
    simp [visitStmt, visitReturn, he, hc, throwSem]
  · intro hc
    simp [visitStmt, visitReturn, he, hc]
  · intro hf hT
    simp [visitStmt, visitReturn, he, hf, hT, baseTypeToDataType, isAssignmentCompatible,
      accepted]
  · intro hf hT
    simp [visitStmt, visitReturn, he, hf, hT, baseTypeToDataType, isAssignmentCompatible,
      throwSem, errorTypeOf, errorOf]

/-- C10 at `return 1.5` inside `func h(): int`, visited in `sampleScope`. -/
theorem return_type_check_witness :
    errorTypeOf (visitStmt ⟨some sampleScope, some ⟨"h", BaseType.Int⟩⟩
        (StmtNode.Return (ExpNode.FloatLit DataType.IOTA ⟨3, 2⟩))) =
      some SemanticErrorType.RETURN_TYPE_MISMATCH :=
  ((return_type_check (some sampleScope) ⟨"h", BaseType.Int⟩
    (ExpNode.FloatLit DataType.IOTA ⟨3, 2⟩) (ExpNode.FloatLit DataType.FLOAT ⟨3, 2⟩) rfl).1).mpr rfl

/-! ## Lookup along the scope chain -/

theorem Scope.nearest_of_lookup : ∀ (s : Scope) (name : String) (b : SymbolInfo),
    s.lookup name = some b → s.NearestBinding name b
  | Scope.mk t none, name, b, h => by
    rw [Scope.lookup_mk] at h
    cases ht : SymbolTable.find t name with
    | none => simp [ht] at h
    | some info =>
      simp only [ht, Option.some.injEq] at h
      subst h
      exact ⟨[], t, [], by simp [Scope.chain], by simp, ht⟩
  | Scope.mk t (some q), name, b, h => by
    rw [Scope.lookup_mk] at h
    cases ht : SymbolTable.find t name with
    | some info =>
      simp only [ht, Option.some.injEq] at h
      subst h
      exact ⟨[], t, q.chain, by simp [Scope.chain], by simp, ht⟩
    | none =>
      simp only [ht] at h
      obtain ⟨pre, u, post, hc, hpre, hu⟩ := Scope.nearest_of_lookup q name b h
      refine ⟨t :: pre, u, post, by simp [Scope.chain, hc], ?_, hu⟩
      intro v hv
      rcases List.mem_cons.mp hv with hv | hv
      · rw [hv]; exact ht
      · exact hpre v hv

theorem Scope.unbound_of_lookup_none : ∀ (s : Scope) (name : String),
    s.lookup name = none → s.Unbound name
  | Scope.mk t none, name, h => by
    rw [Scope.lookup_mk] at h
    cases ht : SymbolTable.find t name with
    | some info => simp [ht] at h
    | none =>
      intro u hu
      simp only [Scope.chain, List.mem_singleton] at hu
      rw [hu]; exact ht
  | Scope.mk t (some q), name, h => by
    rw [Scope.lookup_mk] at h
    cases ht : SymbolTable.find t name with
    | some info => simp [ht] at h
    | none =>
      simp only [ht] at h
      intro u hu
      simp only [Scope.chain, List.mem_cons] at hu
      rcases hu with hu | hu
      · rw [hu]; exact ht
      · exact Scope.unbound_of_lookup_none q name h u hu

/-- C13: on every scope `S` (a finite chain of parent links) and for every name
`n`, `lookup` returns the symbol stored in the first table, walking from `S`
towards the root, that has an entry for `n`; it returns null iff no table on
the chain has an entry for `n`.  A binding in an inner scope hides whatever the
enclosing scope `S` binds to the same name. -/
theorem lookup_nearest_binding (S : Scope) (n : String) :
    (∀ b, S.lookup n = some b ↔ S.NearestBinding n b) ∧
    (S.lookup n = none ↔ S.Unbound n) ∧
    (∀ (inner : SymbolTable) (b : SymbolInfo), SymbolTable.find inner n = some b →
      (Scope.mk inner (some S)).lookup n = some b) :=
  ⟨fun b => ⟨Scope.nearest_of_lookup S n b, Scope.lookup_of_nearest S n b⟩,
   ⟨Scope.unbound_of_lookup_none S n, Scope.lookup_of_unbound S n⟩,
   fun inner b h => Scope.lookup_of_find (Scope.mk inner (some S)) n b h⟩

/-- C13 in `sampleInner`: `k` resolves to the inner `bool` variable although the
parent binds a constant `k`, `v` resolves to the parent's variable, and `zz`
resolves to null. -/
theorem lookup_nearest_binding_witness :
    sampleInner.lookup "k" = some ⟨"k", SymbolKind.Variable, DataType.BOOL, []⟩ ∧
    sampleScope.lookup "k" = some ⟨"k", SymbolKind.Constant, DataType.INT, []⟩ ∧
    sampleInner.lookup "v" = some ⟨"v", SymbolKind.Variable, DataType.INT, []⟩ ∧
    sampleInner.lookup "zz" = none :=
  ⟨(lookup_nearest_binding sampleScope "k").2.2 sampleInner.symbolTable _ rfl,
   ((lookup_nearest_binding sampleScope "k").1 _).mpr
     ⟨[], sampleScope.symbolTable, [], rfl, by simp, rfl⟩,
   ((lookup_nearest_binding sampleInner "v").1 _).mpr
     ⟨[sampleInner.symbolTable], sampleScope.symbolTable, [], rfl, by
        intro u hu
        simp only [List.mem_singleton] at hu
        subst hu; rfl, rfl⟩,
   (lookup_nearest_binding sampleInner "zz").2.1.mpr (by
      intro t ht
      have hc : sampleInner.chain = [sampleInner.symbolTable, sampleScope.symbolTable] := rfl
      rw [hc] at ht
      simp only [List.mem_cons, List.mem_singleton, List.not_mem_nil, or_false] at ht
      rcases ht with h | h <;> subst h <;> rfl)⟩

/-! ## Return outside a function -/

/-- C11, amended: a `return expr` visited while `currentFunction` is null first
has `expr` typed, whose failure is the failure of the visit; once `expr` types,
the null `currentFunction` is dereferenced, which is undefined behaviour.  In
neither case does the visit throw `RETURN_OUTSIDE_FUNCTION`. -/
theorem return_without_function (cs : Option Scope) (expr : ExpNode) :
    (∀ a, visitExp cs expr = Except.error a →
      visitStmt ⟨cs, none⟩ (StmtNode.Return expr) = Except.error a) ∧
    (∀ expr1, visitExp cs expr = Except.ok expr1 →
      visitStmt ⟨cs, none⟩ (StmtNode.Return expr) = Except.error Abort.undefined) ∧
    (∀ expr1, visitExp cs expr = Except.ok expr1 →
      errorTypeOf (visitStmt ⟨cs, none⟩ (StmtNode.Return expr)) ≠
        some SemanticErrorType.RETURN_OUTSIDE_FUNCTION) := by
  refine ⟨?_, ?_, ?_⟩
  · intro a ha
    simp [visitStmt, visitReturn, ha]
  · intro expr1 h1
    simp [visitStmt, visitReturn, h1]
  · intro expr1 h1
    simp [visitStmt, visitReturn, h1, errorTypeOf, errorOf]

/-- C11, as stated, fails: `return 0` visited in `sampleScope` with no current
function does not throw `RETURN_OUTSIDE_FUNCTION`; the visit has no defined
outcome. -/
theorem return_outside_function_not_thrown :
    visitStmt ⟨some sampleScope, none⟩ (StmtNode.Return (ExpNode.IntLit DataType.IOTA 0)) =
        Except.error Abort.undefined ∧
      errorTypeOf (visitStmt ⟨some sampleScope, none⟩
          (StmtNode.Return (ExpNode.IntLit DataType.IOTA 0))) ≠
        some SemanticErrorType.RETURN_OUTSIDE_FUNCTION :=
  ⟨rfl, by decide⟩

/-! ## The control-flow checker -/

theorem analyzeStmts_getElem? : ∀ (stmts : List StmtNode) (i : Nat),
    (analyzeStmts stmts)[i]? = (stmts[i]?).map analyzeStmt
  | [], i => by simp [analyzeStmts]
  | s :: rest, 0 => by simp [analyzeStmts]
  | s :: rest, i + 1 => by simpa [analyzeStmts] using analyzeStmts_getElem? rest i

theorem analyzeStmt_ok_true (s : StmtNode) :
    analyzeStmt s = Except.ok true ↔
      ((∃ e, s = StmtNode.Return e) ∨
        (∃ c t e, s = StmtNode.If c t (some e) ∧
          analyzeBlock t = Except.ok true ∧ analyzeBlock e = Except.ok true)) := by
  cases s with
  | Return e => simp [analyzeStmt]
  | Assign n e => simp [analyzeStmt]
  | Print e => simp [analyzeStmt]
  | While c body =>
    cases hb : analyzeBlock body <;> simp [analyzeStmt, hb]
  | If c t e =>
    cases e with
    | none =>
      cases ht : analyzeBlock t <;> simp [analyzeStmt, analyzeElse, ht]
    | some e =>
      cases ht : analyzeBlock t with
      | error a => simp [analyzeStmt, analyzeElse, ht]
      | ok tr =>
        cases he : analyzeBlock e with
        | error a => simp [analyzeStmt, analyzeElse, ht, he]
        | ok er =>
          cases tr <;> cases er <;> simp [analyzeStmt, analyzeElse, ht, he]
          exact ⟨c, t, e, ⟨rfl, rfl, rfl⟩, ht, he⟩

theorem analyzeItems_ok_iff (nDecls : Nat) (stmts : List StmtNode) :
    ∀ (items : List Item) (terminated r : Bool),
      analyzeItems nDecls (analyzeStmts stmts) terminated items = Except.ok r →
      (r = true ↔ (terminated = true ∨ ∃ item ∈ items, ItemAlwaysReturns stmts item))
  | [], terminated, r, h => by
    simp [analyzeItems] at h
    simp [h]
  | Item.null :: rest, terminated, r, h => by
    rw [analyzeItems] at h
    rw [analyzeItems_ok_iff nDecls stmts rest terminated r h]
    simp [ItemAlwaysReturns]
  | Item.decl i :: rest, terminated, r, h => by
    rw [analyzeItems] at h
    have hrest : analyzeItems nDecls (analyzeStmts stmts) terminated rest = Except.ok r := by
      by_cases hi : i < nDecls
      · cases terminated <;> simp [hi, throwSem] at h ⊢
        exact h
      · simpa [hi] using h
    rw [analyzeItems_ok_iff nDecls stmts rest terminated r hrest]
    simp [ItemAlwaysReturns]
  | Item.stmt i :: rest, terminated, r, h => by
    rw [analyzeItems, analyzeStmts_getElem?] at h
    cases hs : stmts[i]? with
    | none =>
      simp only [hs, Option.map_none'] at h
      rw [analyzeItems_ok_iff nDecls stmts rest terminated r h]
      simp [ItemAlwaysReturns, hs]
    | some s =>
      simp only [hs, Option.map_some'] at h
      cases terminated with
      | true => simp [throwSem] at h
      | false =>
        simp only [Bool.false_eq_true, if_false] at h
        cases hr : analyzeStmt s with
        | error a => simp [hr] at h
        | ok sr =>
          simp only [hr, Bool.false_or] at h
          rw [analyzeItems_ok_iff nDecls stmts rest sr r h]
          have hiff := analyzeStmt_ok_true s
          rw [hr] at hiff
          simp only [Except.ok.injEq] at hiff
          rw [hiff]
          simp [ItemAlwaysReturns, hs]
  | Item.block b :: rest, terminated, r, h => by
    rw [analyzeItems] at h
    cases terminated with
    | true => simp [throwSem] at h
    | false =>
      simp only [Bool.false_eq_true, if_false] at h
      cases hr : analyzeBlock b with
      | error a => simp [hr] at h
      | ok sr =>
        simp only [hr, Bool.false_or] at h
        rw [analyzeItems_ok_iff nDecls stmts rest sr r h]
        simp [ItemAlwaysReturns, hr]


/-- C16: when `analyzeItems` on the `orderedItems` of a block does not raise,
its result is true iff some item is a `Return`, or an `If` with an else-block
and `analyzeBlock` true on both blocks, or a nested block with `analyzeBlock`
true (null items and declarations never count).  A `While` item never counts
whatever its body is, nor does an `If` without else, an `Assign` or a `Print`.
`analyzeBlock` of a block is `analyzeItems` of its `orderedItems`, and
`analyzeBlock` of a null block is false. -/
theorem analyzeItems_reference (decls : List DeclNode) (stmts : List StmtNode)
    (items : List Item) (r : Bool)
    (h : analyzeItems decls.length (analyzeStmts stmts) false items = Except.ok r) :
    (r = true ↔ ∃ item ∈ items, ItemAlwaysReturns stmts item) ∧
    (∀ i, ¬ ItemAlwaysReturns stmts (Item.decl i)) ∧ ¬ ItemAlwaysReturns stmts Item.null ∧
    (∀ c body, analyzeStmt (StmtNode.While c body) ≠ Except.ok true) ∧
    (∀ c t, analyzeStmt (StmtNode.If c t none) ≠ Except.ok true) ∧
    (∀ n e, analyzeStmt (StmtNode.Assign n e) = Except.ok false) ∧
    (∀ e, analyzeStmt (StmtNode.Print e) = Except.ok false) ∧
    analyzeBlock (BlockNode.mk decls stmts items) =
      analyzeItems decls.length (analyzeStmts stmts) false items ∧
    analyzeBlockPtr (some (BlockNode.mk decls stmts items)) = Except.ok r ∧
    analyzeBlockPtr none = Except.ok false := by
  refine ⟨?_, ?_, ?_, ?_, ?_, ?_, ?_, ?_, ?_, rfl⟩
  · simpa using analyzeItems_ok_iff decls.length stmts items false r h
  · intro i
    simp [ItemAlwaysReturns]
  · simp [ItemAlwaysReturns]
  · intro c body hw
    have := (analyzeStmt_ok_true (StmtNode.While c body)).mp hw
    simp at this
  · intro c t hi
    have := (analyzeStmt_ok_true (StmtNode.If c t none)).mp hi
    simp at this
  · intro n e
    simp [analyzeStmt]
  · intro e
    simp [analyzeStmt]
  · simp [analyzeBlock]
  · simp [analyzeBlockPtr, analyzeBlock, h]

/-- C16 at the body `if (true) { return 1; } else { return 2; }`: the analysis
does not raise and gives true. -/
theorem analyzeItems_reference_witness :
    ∃ item ∈ [Item.stmt 0], ItemAlwaysReturns
      [StmtNode.If (ExpNode.BoolLit DataType.IOTA true)
        (simpleBlock [] [StmtNode.Return (ExpNode.IntLit DataType.IOTA 1)])
        (some (simpleBlock [] [StmtNode.Return (ExpNode.IntLit DataType.IOTA 2)]))] item :=
  (analyzeItems_reference []
    [StmtNode.If (ExpNode.BoolLit DataType.IOTA true)
      (simpleBlock [] [StmtNode.Return (ExpNode.IntLit DataType.IOTA 1)])
      (some (simpleBlock [] [StmtNode.Return (ExpNode.IntLit DataType.IOTA 2)]))]
    [Item.stmt 0] true rfl).1.mp rfl

theorem stmtViews_getElem? : ∀ (stmts : List StmtNode) (i : Nat),
    (stmtViews stmts)[i]? =
      (stmts[i]?).map (fun s => (definitelyReturns (analyzeStmt s), stmtHasUnreachable s))
  | [], i => by simp [stmtViews]
  | s :: rest, 0 => by simp [stmtViews]
  | s :: rest, i + 1 => by simpa [stmtViews] using stmtViews_getElem? rest i

theorem analyzeItems_raisesIff (nDecls : Nat) (stmts : List StmtNode)
    (hstmts : ∀ s ∈ stmts, RaisesIff (stmtHasUnreachable s) (analyzeStmt s)) :
    ∀ (items : List Item) (terminated : Bool),
      (∀ b, Item.block b ∈ items → RaisesIff (blockHasUnreachable b) (analyzeBlock b)) →
      RaisesIff
        ((terminated && (itemViews nDecls (stmtViews stmts) items).any Option.isSome) ||
          (itemAfterReturn (itemViews nDecls (stmtViews stmts) items) ||
            unreachableInside (itemViews nDecls (stmtViews stmts) items)))
        (analyzeItems nDecls (analyzeStmts stmts) terminated items)
  | [], terminated, _ => by
    simp [RaisesIff, itemViews, itemAfterReturn, unreachableInside, analyzeItems]
  | Item.null :: rest, terminated, hb => by
    have ih := analyzeItems_raisesIff nDecls stmts hstmts rest terminated
      (fun b hmem => hb b (List.mem_cons_of_mem _ hmem))
    rw [analyzeItems]
    simpa [itemViews, itemAfterReturn, unreachableInside] using ih
  | Item.decl i :: rest, terminated, hb => by
    have ih := analyzeItems_raisesIff nDecls stmts hstmts rest terminated
      (fun b hmem => hb b (List.mem_cons_of_mem _ hmem))
    rw [analyzeItems]
    by_cases hi : i < nDecls
    · cases terminated with
      | true => simp [RaisesIff, itemViews, hi]
      | false =>
        simpa [itemViews, itemAfterReturn, unreachableInside, hi] using ih
    · simpa [itemViews, itemAfterReturn, unreachableInside, hi] using ih
  | Item.stmt i :: rest, terminated, hb => by
    rw [analyzeItems, analyzeStmts_getElem?]
    cases hs : stmts[i]? with
    | none =>
      have ih := analyzeItems_raisesIff nDecls stmts hstmts rest terminated
        (fun b hmem => hb b (List.mem_cons_of_mem _ hmem))
      simpa [itemViews, itemAfterReturn, unreachableInside, stmtViews_getElem?, hs] using ih
    | some s =>
      have hsmem : s ∈ stmts := List.getElem?_mem hs
      have hP := hstmts s hsmem
      cases terminated with
      | true => simp [RaisesIff, itemViews, stmtViews_getElem?, hs]
      | false =>
        cases hu : stmtHasUnreachable s with
        | true =>
          have h1 := hP.1 hu
          simp [RaisesIff, itemViews, itemAfterReturn, unreachableInside, stmtViews_getElem?,
            hs, hu, h1, throwSem]
        | false =>
          obtain ⟨sr, h2⟩ := hP.2 hu
          have ih := analyzeItems_raisesIff nDecls stmts hstmts rest sr
            (fun b hmem => hb b (List.mem_cons_of_mem _ hmem))
          cases sr <;>
            simpa [itemViews, itemAfterReturn, unreachableInside, stmtViews_getElem?, hs, hu,
              h2, definitelyReturns, Bool.or_assoc] using ih
  | Item.block b :: rest, terminated, hb => by
    rw [analyzeItems]
    have hP := hb b (List.mem_cons_self _ _)
    cases terminated with
    | true => simp [RaisesIff, itemViews]
    | false =>
      cases hu : blockHasUnreachable b with
      | true =>
        have h1 := hP.1 hu
        simp [RaisesIff, itemViews, itemAfterReturn, unreachableInside, hu, h1, throwSem]
      | false =>
        obtain ⟨sr, h2⟩ := hP.2 hu
        have ih := analyzeItems_raisesIff nDecls stmts hstmts rest sr
          (fun b hmem => hb b (List.mem_cons_of_mem _ hmem))
        cases sr <;>
          simpa [itemViews, itemAfterReturn, unreachableInside, hu, h2, definitelyReturns,
            Bool.or_assoc] using ih


mutual
theorem analyzeStmt_raisesIff : ∀ s : StmtNode, RaisesIff (stmtHasUnreachable s) (analyzeStmt s)
  | StmtNode.Return _ => by simp [RaisesIff, stmtHasUnreachable, analyzeStmt]
  | StmtNode.Assign _ _ => by simp [RaisesIff, stmtHasUnreachable, analyzeStmt]
  | StmtNode.Print _ => by simp [RaisesIff, stmtHasUnreachable, analyzeStmt]
  | StmtNode.While _ body => by
    have hb := analyzeBlock_raisesIff body
    cases hu : blockHasUnreachable body with
    | true => simp [RaisesIff, stmtHasUnreachable, analyzeStmt, hu, hb.1 hu, throwSem]
    | false =>
      obtain ⟨r, hr⟩ := hb.2 hu
      simp [RaisesIff, stmtHasUnreachable, analyzeStmt, hu, hr]
  | StmtNode.If _ thenBlk elseBlk => by
    have ht := analyzeBlock_raisesIff thenBlk
    have he := analyzeElse_raisesIff elseBlk
    cases hu : blockHasUnreachable thenBlk with
    | true => simp [RaisesIff, stmtHasUnreachable, analyzeStmt, hu, ht.1 hu, throwSem]
    | false =>
      obtain ⟨r, hr⟩ := ht.2 hu
      cases hv : elseHasUnreachable elseBlk with
      | true => simp [RaisesIff, stmtHasUnreachable, analyzeStmt, hu, hv, hr, he.1 hv, throwSem]
      | false =>
        obtain ⟨r2, hr2⟩ := he.2 hv
        simp [RaisesIff, stmtHasUnreachable, analyzeStmt, hu, hv, hr, hr2]
theorem analyzeElse_raisesIff :
    ∀ e : Option BlockNode, RaisesIff (elseHasUnreachable e) (analyzeElse e)
  | none => by simp [RaisesIff, elseHasUnreachable, analyzeElse]
  | some blk => by
    have hb := analyzeBlock_raisesIff blk
    simpa [elseHasUnreachable, analyzeElse] using hb
theorem analyzeBlock_raisesIff :
    ∀ b : BlockNode, RaisesIff (blockHasUnreachable b) (analyzeBlock b)
  | BlockNode.mk decls stmts orderedItems => by
    have h := analyzeItems_raisesIff decls.length stmts (analyzeStmts_raisesIff stmts)
      orderedItems false (analyzeItemBlocks_raisesIff orderedItems)
    simpa [blockHasUnreachable, analyzeBlock] using h
theorem analyzeStmts_raisesIff :
    ∀ stmts : List StmtNode, ∀ s ∈ stmts, RaisesIff (stmtHasUnreachable s) (analyzeStmt s)
  | [], _, h => by simp at h
  | stmt :: rest, s, h => by
    rcases List.mem_cons.mp h with h | h
    · rw [h]; exact analyzeStmt_raisesIff stmt
    · exact analyzeStmts_raisesIff rest s h
theorem analyzeItemBlocks_raisesIff :
    ∀ items : List Item, ∀ b, Item.block b ∈ items →
      RaisesIff (blockHasUnreachable b) (analyzeBlock b)
  | [], _, h => by simp at h
  | Item.block b0 :: rest, b, h => by
    rcases List.mem_cons.mp h with h | h
    · cases h; exact analyzeBlock_raisesIff b0
    · exact analyzeItemBlocks_raisesIff rest b h
  | Item.null :: rest, b, h => by
    rcases List.mem_cons.mp h with h | h
    · cases h
    · exact analyzeItemBlocks_raisesIff rest b h
  | Item.decl _ :: rest, b, h => by
    rcases List.mem_cons.mp h with h | h
    · cases h
    · exact analyzeItemBlocks_raisesIff rest b h
  | Item.stmt _ :: rest, b, h => by
    rcases List.mem_cons.mp h with h | h
    · cases h
    · exact analyzeItemBlocks_raisesIff rest b h
end

theorem itemAfterReturn_iff : ∀ views : List (Option (Bool × Bool)),
    itemAfterReturn views = true ↔
      ∃ pre x mid y post, views = pre ++ some x :: (mid ++ some y :: post) ∧ x.1 = true
  | [] => by simp [itemAfterReturn]
  | none :: rest => by
    rw [itemAfterReturn, itemAfterReturn_iff rest]
    constructor
    · rintro ⟨pre, x, mid, y, post, h, hx⟩
      exact ⟨none :: pre, x, mid, y, post, by simp [h], hx⟩
    · rintro ⟨pre, x, mid, y, post, h, hx⟩
      cases pre with
      | nil => simp at h
      | cons p pre =>
        simp only [List.cons_append, List.cons.injEq] at h
        exact ⟨pre, x, mid, y, post, h.2, hx⟩
  | some view :: rest => by
    rw [itemAfterReturn, Bool.or_eq_true, itemAfterReturn_iff rest]
    constructor
    · rintro (h | ⟨pre, x, mid, y, post, h, hx⟩)
      · simp only [Bool.and_eq_true, List.any_eq_true] at h
        obtain ⟨hv, o, ho, hsome⟩ := h
        obtain ⟨mid, post, hsplit⟩ := List.append_of_mem ho
        cases o with
        | none => simp at hsome
        | some y => exact ⟨[], view, mid, y, post, by simp [hsplit], hv⟩
      · exact ⟨some view :: pre, x, mid, y, post, by simp [h], hx⟩
    · rintro ⟨pre, x, mid, y, post, h, hx⟩
      cases pre with
      | nil =>
        simp only [List.nil_append, List.cons.injEq, Option.some.injEq] at h
        left
        simp only [Bool.and_eq_true, List.any_eq_true]
        refine ⟨by rw [h.1]; exact hx, some y, ?_, rfl⟩
        rw [h.2]; simp
      | cons p pre =>
        simp only [List.cons_append, List.cons.injEq] at h
        right
        exact ⟨pre, x, mid, y, post, h.2, hx⟩

/-- C17: `analyzeItems` on the `orderedItems` of a block raises
`UNREACHABLE_CODE` iff, in that list or in a then-block, else-block, while-body
or nested block reached from it, a non-null item occurs after an earlier item
of the same list that definitely returns; it raises nothing else, and returns
a value otherwise.  The body `return 0; print 1;` raises it, and so does a
block holding `while (true) { return 1; print 2; }`. -/
theorem unreachable_code_iff (decls : List DeclNode) (stmts : List StmtNode)
    (items : List Item) :
    (analyzeItems decls.length (analyzeStmts stmts) false items =
        throwSem SemanticErrorType.UNREACHABLE_CODE SemanticErrorContext.valueInit ↔
      blockHasUnreachable (BlockNode.mk decls stmts items) = true) ∧
    (blockHasUnreachable (BlockNode.mk decls stmts items) = false ↔
      ∃ r, analyzeItems decls.length (analyzeStmts stmts) false items = Except.ok r) ∧
    (blockHasUnreachable (BlockNode.mk decls stmts items) =
      (itemAfterReturn (itemViews decls.length (stmtViews stmts) items) ||
        unreachableInside (itemViews decls.length (stmtViews stmts) items))) ∧
    (itemAfterReturn (itemViews decls.length (stmtViews stmts) items) = true ↔
      ∃ pre x mid y post, itemViews decls.length (stmtViews stmts) items =
        pre ++ some x :: (mid ++ some y :: post) ∧ x.1 = true) ∧
    analyzeBlock returnThenPrint =
      throwSem SemanticErrorType.UNREACHABLE_CODE SemanticErrorContext.valueInit ∧
    analyzeBlock whileReturnThenPrint =
      throwSem SemanticErrorType.UNREACHABLE_CODE SemanticErrorContext.valueInit := by
  have h := analyzeBlock_raisesIff (BlockNode.mk decls stmts items)
  have hdef : analyzeBlock (BlockNode.mk decls stmts items) =
      analyzeItems decls.length (analyzeStmts stmts) false items := by
    simp [analyzeBlock]
  rw [hdef] at h
  refine ⟨⟨?_, h.1⟩, ⟨h.2, ?_⟩, by simp [blockHasUnreachable], itemAfterReturn_iff _,
    by rfl, by rfl⟩
  · intro hr
    cases hu : blockHasUnreachable (BlockNode.mk decls stmts items) with
    | true => rfl
    | false =>
      obtain ⟨r, hok⟩ := h.2 hu
      rw [hok] at hr
      simp [throwSem] at hr
  · rintro ⟨r, hok⟩
    cases hu : blockHasUnreachable (BlockNode.mk decls stmts items) with
    | false => rfl
    | true =>
      have := h.1 hu
      rw [hok] at this
      simp [throwSem] at this

/-! ## Missing return -/

theorem checkFunction_ok (name : String) (retType : BaseType) (body : BlockNode) :
    (checkFunction name retType body = Except.ok () ↔ analyzeBlock body = Except.ok true) ∧
    (analyzeBlock body = Except.ok false →
      checkFunction name retType body =
        throwSem SemanticErrorType.MISSING_RETURN (SemanticErrorContext.Function name)) := by
  cases hb : analyzeBlock body with
  | error a => simp [checkFunction, hb]
  | ok r =>
    cases r <;> cases retType <;> simp [checkFunction, hb, typeFromTypeNode, throwSem]

theorem checkDecls_varDecl (n : String) (t : BaseType) (e : ExpNode) (rest : List DeclNode) :
    checkDecls (DeclNode.VarDecl n t e :: rest) = checkDecls rest := by
  simp [checkDecls]

theorem checkDecls_letDecl (n : String) (t : BaseType) (e : ExpNode) (rest : List DeclNode) :
    checkDecls (DeclNode.LetDecl n t e :: rest) = checkDecls rest := by
  simp [checkDecls]

theorem checkDecls_ok : ∀ decls : List DeclNode, checkDecls decls = Except.ok () →
    ∀ name params retType body, DeclNode.FuncDecl name params retType body ∈ decls →
      analyzeBlock body = Except.ok true
  | [], _, _, _, _, _, hmem => by simp at hmem
  | DeclNode.FuncDecl n ps r b :: rest, h, name, params, retType, body, hmem => by
    rw [checkDecls] at h
    cases hf : checkFunction n r b with
    | error a => simp [hf] at h
    | ok u =>
      simp only [hf] at h
      rcases List.mem_cons.mp hmem with hm | hm
      · cases hm
        exact (checkFunction_ok n r b).1.mp hf
      · exact checkDecls_ok rest h name params retType body hm
  | DeclNode.VarDecl _ _ _ :: rest, h, name, params, retType, body, hmem => by
    rw [checkDecls_varDecl] at h
    rcases List.mem_cons.mp hmem with hm | hm
    · cases hm
    · exact checkDecls_ok rest h name params retType body hm
  | DeclNode.LetDecl _ _ _ :: rest, h, name, params, retType, body, hmem => by
    rw [checkDecls_letDecl] at h
    rcases List.mem_cons.mp hmem with hm | hm
    · cases hm
    · exact checkDecls_ok rest h name params retType body hm

theorem checkDecls_missing (name : String) (params : List ParamNode) (retType : BaseType)
    (body : BlockNode) (post : List DeclNode) (hbody : analyzeBlock body = Except.ok false) :
    ∀ pre : List DeclNode,
      (∀ n ps r b, DeclNode.FuncDecl n ps r b ∈ pre → analyzeBlock b = Except.ok true) →
      checkDecls (pre ++ DeclNode.FuncDecl name params retType body :: post) =
        throwSem SemanticErrorType.MISSING_RETURN (SemanticErrorContext.Function name)
  | [], _ => by
    rw [List.nil_append, checkDecls, (checkFunction_ok name retType body).2 hbody]
    rfl
  | DeclNode.FuncDecl n ps r b :: rest, hpre => by
    have hb := hpre n ps r b (List.mem_cons_self _ _)
    have hf := (checkFunction_ok n r b).1.mpr hb
    rw [List.cons_append, checkDecls, hf]
    exact checkDecls_missing name params retType body post hbody rest
      (fun n ps r b hm => hpre n ps r b (List.mem_cons_of_mem _ hm))
  | DeclNode.VarDecl _ _ _ :: rest, hpre => by
    rw [List.cons_append, checkDecls_varDecl]
    exact checkDecls_missing name params retType body post hbody rest
      (fun n ps r b hm => hpre n ps r b (List.mem_cons_of_mem _ hm))
  | DeclNode.LetDecl _ _ _ :: rest, hpre => by
    rw [List.cons_append, checkDecls_letDecl]
    exact checkDecls_missing name params retType body post hbody rest
      (fun n ps r b hm => hpre n ps r b (List.mem_cons_of_mem _ hm))

/-- C18: when `analyze` succeeds on a program, every top-level function of the
tree has a body on which `analyzeBlock` is true.  Conversely, when the
scope-and-type pass succeeds, the bodies of the top-level functions before `f`
always return (so no analysis raises up to `f`) and the body of `f` does not
always return, `analyze` fails with `MISSING_RETURN` for `f`.  The program
`func f(): int { var x: int = 1; } func main(): int { return 0; }` gives
`MISSING_RETURN` for `f`. -/
theorem missing_return_check (p : ProgramNode) :
    (∀ p1, analyze (some p) = Except.ok (some p1) →
      ∀ name params retType body,
        DeclNode.FuncDecl name params retType body ∈ p1.declarations →
        analyzeBlock body = Except.ok true) ∧
    (∀ st p1 pre name params retType body post,
      visitProgram p = Except.ok (st, p1) →
      p1.declarations = pre ++ DeclNode.FuncDecl name params retType body :: post →
      (∀ n ps r b, DeclNode.FuncDecl n ps r b ∈ pre → analyzeBlock b = Except.ok true) →
      analyzeBlock body = Except.ok false →
      analyze (some p) =
        throwSem SemanticErrorType.MISSING_RETURN (SemanticErrorContext.Function name)) ∧
    errorOf (analyze (some missingReturnProgram)) =
      some ⟨SemanticErrorType.MISSING_RETURN, SemanticErrorContext.Function "f"⟩ := by
  refine ⟨?_, ?_, by rfl⟩
  · intro p1 h name params retType body hmem
    simp only [analyze] at h
    cases hv : visitProgram p with
    | error a => simp [hv] at h
    | ok res =>
      obtain ⟨st, q⟩ := res
      simp only [hv] at h
      cases hc : checkProgram q with
      | error a => simp [hc] at h
      | ok u =>
        simp only [hc, Except.ok.injEq, Option.some.injEq] at h
        subst h
        exact checkDecls_ok q.declarations hc name params retType body hmem
  · intro st p1 pre name params retType body post hv hsplit hpre hbody
    have hc := checkDecls_missing name params retType body post hbody pre hpre
    rw [← hsplit] at hc
    simp [analyze, hv, checkProgram, hc, throwSem]

/-! ## The stage pipeline -/

theorem compile_shapes (ext : ExternalStages) (sourceFile outputFile : String) :
    (compile ext sourceFile outputFile).1 = [(Stage.LEXING_AND_PARSING, false)] ∨
    (compile ext sourceFile outputFile).1 =
      [(Stage.LEXING_AND_PARSING, true), (Stage.SEMANTIC_ANALYSIS, false)] ∨
    ∃ b, (compile ext sourceFile outputFile).1 =
      [(Stage.LEXING_AND_PARSING, true), (Stage.SEMANTIC_ANALYSIS, true),
        (Stage.OPTIMIZATION, true), (Stage.CODE_GENERATION, b)] := by
  simp only [compile, stageOrder, compileLoop, stageProcess, optimizationProcess]
  rcases h1 : ext.lexingParsing ⟨sourceFile, outputFile, none⟩ with ⟨b1, c1⟩
  cases b1 with
  | false => simp
  | true =>
    rcases h2 : semanticAnalysisProcess c1 with ⟨b2, c2⟩
    cases b2 with
    | false => simp [h2]
    | true =>
      rcases h3 : ext.codeGeneration c2 with ⟨b3, c3⟩
      cases b3 <;> simp [h2, h3]

theorem semanticAnalysisProcess_true (ctx : CompilerContext) :
    (semanticAnalysisProcess ctx).1 = true ↔
      ∃ root, ctx.ast = some root ∧ accepted (analyze (some root)) = true := by
  cases hast : ctx.ast with
  | none => simp [semanticAnalysisProcess, hast]
  | some root =>
    cases ha : analyze (some root) <;> simp [semanticAnalysisProcess, hast, ha, accepted]

theorem compile_eq (ext : ExternalStages) (sourceFile outputFile : String) :
    compile ext sourceFile outputFile =
      if (ext.lexingParsing ⟨sourceFile, outputFile, none⟩).1 = false then
        ([(Stage.LEXING_AND_PARSING, false)],
          (ext.lexingParsing ⟨sourceFile, outputFile, none⟩).2)
      else if (semanticAnalysisProcess
          (ext.lexingParsing ⟨sourceFile, outputFile, none⟩).2).1 = false then
        ([(Stage.LEXING_AND_PARSING, true), (Stage.SEMANTIC_ANALYSIS, false)],
          (semanticAnalysisProcess (ext.lexingParsing ⟨sourceFile, outputFile, none⟩).2).2)
      else
        ([(Stage.LEXING_AND_PARSING, true), (Stage.SEMANTIC_ANALYSIS, true),
            (Stage.OPTIMIZATION, true),
            (Stage.CODE_GENERATION,
              (ext.codeGeneration (semanticAnalysisProcess
                (ext.lexingParsing ⟨sourceFile, outputFile, none⟩).2).2).1)],
          (ext.codeGeneration (semanticAnalysisProcess
            (ext.lexingParsing ⟨sourceFile, outputFile, none⟩).2).2).2) := by
  simp only [compile, stageOrder, compileLoop, stageProcess, optimizationProcess]
  rcases h1 : ext.lexingParsing ⟨sourceFile, outputFile, none⟩ with ⟨b1, c1⟩
  cases b1 with
  | false => simp
  | true =>
    rcases h2 : semanticAnalysisProcess c1 with ⟨b2, c2⟩
    cases b2 with
    | false => simp [h2]
    | true =>
      rcases h3 : ext.codeGeneration c2 with ⟨b3, c3⟩
      cases b3 <;> simp [h2, h3]

theorem compileLoop_cons (ext : ExternalStages) (stage : Stage) (rest : List Stage)
    (ctx : CompilerContext) :
    compileLoop ext (stage :: rest) ctx =
      if (stageProcess ext stage ctx).1 = true then
        ((stage, true) :: (compileLoop ext rest (stageProcess ext stage ctx).2).1,
          (compileLoop ext rest (stageProcess ext stage ctx).2).2)
      else ([(stage, false)], (stageProcess ext stage ctx).2) := by
  rw [compileLoop]
  rcases h : stageProcess ext stage ctx with ⟨b, c⟩
  cases b <;> simp

/-- C20: `Compiler::compile` is the loop over the stage order lexing/parsing,
semantic analysis, optimization, code generation, started on the context of the
constructor.  The loop calls `process` of the first stage left; when that
returns false it stops, and when it returns true it goes on with the stages
after it on the context `process` left.  So the run is one of three: the
parser returned false and nothing else ran; the parser returned true, the
semantic stage ran on the parser's context and returned false, and nothing
else ran; or both returned true and the optimization and then the
code-generation stage ran, the latter on the context the semantic stage left.
The code-generation stage is in the record only in the third case; in the
first two the context at the end is the one the failing stage left.  The
semantic stage returns true only for an AST on which `analyze` returns
normally. -/
theorem compile_stage_order (ext : ExternalStages) (sourceFile outputFile : String) :
    compile ext sourceFile outputFile =
      compileLoop ext [Stage.LEXING_AND_PARSING, Stage.SEMANTIC_ANALYSIS, Stage.OPTIMIZATION,
        Stage.CODE_GENERATION] ⟨sourceFile, outputFile, none⟩ ∧
    (∀ ctx, compileLoop ext [] ctx = ([], ctx)) ∧
    (∀ stage rest ctx, compileLoop ext (stage :: rest) ctx =
      if (stageProcess ext stage ctx).1 = true then
        ((stage, true) :: (compileLoop ext rest (stageProcess ext stage ctx).2).1,
          (compileLoop ext rest (stageProcess ext stage ctx).2).2)
      else ([(stage, false)], (stageProcess ext stage ctx).2)) ∧
    (stageProcess ext Stage.LEXING_AND_PARSING = ext.lexingParsing ∧
      stageProcess ext Stage.SEMANTIC_ANALYSIS = semanticAnalysisProcess ∧
      stageProcess ext Stage.OPTIMIZATION = optimizationProcess ∧
      stageProcess ext Stage.CODE_GENERATION = ext.codeGeneration) ∧
    compile ext sourceFile outputFile =
      (if (ext.lexingParsing ⟨sourceFile, outputFile, none⟩).1 = false then
        ([(Stage.LEXING_AND_PARSING, false)],
          (ext.lexingParsing ⟨sourceFile, outputFile, none⟩).2)
      else if (semanticAnalysisProcess
          (ext.lexingParsing ⟨sourceFile, outputFile, none⟩).2).1 = false then
        ([(Stage.LEXING_AND_PARSING, true), (Stage.SEMANTIC_ANALYSIS, false)],
          (semanticAnalysisProcess (ext.lexingParsing ⟨sourceFile, outputFile, none⟩).2).2)
      else
        ([(Stage.LEXING_AND_PARSING, true), (Stage.SEMANTIC_ANALYSIS, true),
            (Stage.OPTIMIZATION, true),
            (Stage.CODE_GENERATION,
              (ext.codeGeneration (semanticAnalysisProcess
                (ext.lexingParsing ⟨sourceFile, outputFile, none⟩).2).2).1)],
          (ext.codeGeneration (semanticAnalysisProcess
            (ext.lexingParsing ⟨sourceFile, outputFile, none⟩).2).2).2)) ∧
    ((∃ b, (Stage.CODE_GENERATION, b) ∈ (compile ext sourceFile outputFile).1) ↔
      (ext.lexingParsing ⟨sourceFile, outputFile, none⟩).1 = true ∧
        (semanticAnalysisProcess
          (ext.lexingParsing ⟨sourceFile, outputFile, none⟩).2).1 = true) ∧
    (∀ ctx, (semanticAnalysisProcess ctx).1 = true ↔
      ∃ root, ctx.ast = some root ∧ accepted (analyze (some root)) = true) ∧
    compile failingParse "in" "out" = ([(Stage.LEXING_AND_PARSING, false)], ⟨"in", "out", none⟩) ∧
    (compile (parseTo intConditionProgram) "in" "out").1 =
      [(Stage.LEXING_AND_PARSING, true), (Stage.SEMANTIC_ANALYSIS, false)] ∧
    (compile (parseTo intConditionProgram) "in" "out").2.outputFile = "out" ∧
    (compile (parseTo shadowParamProgram) "in" "out").1 =
      [(Stage.LEXING_AND_PARSING, true), (Stage.SEMANTIC_ANALYSIS, true),
        (Stage.OPTIMIZATION, true), (Stage.CODE_GENERATION, true)] ∧
    (compile (parseTo shadowParamProgram) "in" "out").2.outputFile = "written" := by
  refine ⟨rfl, fun _ => rfl, compileLoop_cons ext, ⟨rfl, rfl, rfl, rfl⟩,
    compile_eq ext sourceFile outputFile, ?_, semanticAnalysisProcess_true, rfl, rfl, rfl, rfl,
    rfl⟩
  rw [compile_eq ext sourceFile outputFile]
  cases h1 : (ext.lexingParsing ⟨sourceFile, outputFile, none⟩).1 with
  | false => simp
  | true =>
    cases h2 : (semanticAnalysisProcess
        (ext.lexingParsing ⟨sourceFile, outputFile, none⟩).2).1 with
    | false => simp
    | true => simp

/-! ## Function declarations -/

theorem Scope.chain_mk (t : SymbolTable) (p : Option Scope) :
    (Scope.mk t p).chain = t ::
      (match p with
       | some q => q.chain
       | none => []) := by
  cases p <;> simp [Scope.chain]

theorem Scope.chain_eq (s : Scope) :
    s.chain = s.symbolTable ::
      (match s.parent with
       | some q => q.chain
       | none => []) := by
  cases s with
  | mk t p => simpa [Scope.symbolTable, Scope.parent] using Scope.chain_mk t p

theorem addParams_spec : ∀ (params : List ParamNode) (S : Scope) (cs : Option Scope),
    addParams (some S) params = Except.ok cs →
    ∃ P, cs = some P ∧ P.parent = S.parent ∧
      ∀ m, (∀ p ∈ params, p.name ≠ m) →
        SymbolTable.find P.symbolTable m = SymbolTable.find S.symbolTable m
  | [], S, cs, h => by
    simp only [addParams, Except.ok.injEq] at h
    exact ⟨S, h.symm, rfl, fun _ _ => rfl⟩
  | param :: rest, S, cs, h => by
    rw [addParams] at h
    by_cases hex : S.existsInCurrentScope param.name = true
    · simp [hex, throwSem] at h
    · simp only [hex] at h
      obtain ⟨P, hP, hpar, hfind⟩ := addParams_spec rest _ cs h
      refine ⟨P, hP, by rw [hpar]; rfl, ?_⟩
      intro m hm
      rw [hfind m (fun p hp => hm p (List.mem_cons_of_mem _ hp))]
      exact SymbolTable.find_assign_other _ _ _ _
        (fun heq => hm param (List.mem_cons_self _ _) heq.symm)

theorem visitDecl_funcDecl (G : Scope) (cf : Option FuncRef) (f : String)
    (params : List ParamNode) (ret : BaseType) (body : BlockNode) (P : Scope)
    (hfresh : SymbolTable.find G.symbolTable f = none)
    (hparams : addParams (some (Scope.mk [] (some (G.addFunction f (baseTypeToDataType ret)
      (params.map (fun param => baseTypeToDataType param.type)))))) params =
        Except.ok (some P)) :
    visitDecl ⟨some G, cf⟩ (DeclNode.FuncDecl f params ret body) =
      match visitBlock ⟨some P, some ⟨f, ret⟩⟩ body with
      | Except.error a => Except.error a
      | Except.ok (st2, body1) =>
        match exitScope st2.currentScope with
        | Except.error a => Except.error a
        | Except.ok cs3 => Except.ok (⟨cs3, cf⟩, DeclNode.FuncDecl f params ret body1) := by
  simp only [visitDecl, Scope.existsInCurrentScope, hfresh, hparams, Option.isSome_none,
    Bool.false_eq_true, if_false]


/-- C12: when `func f(params): ret { body }` is visited in a scope `G` that does
not bind `f` itself and the parameters are accepted, the body is visited in the
parameter scope `P` whose parent is `G` with the symbol of `f` added, and with
`f` as current function.  So, from every scope `S` nested in `P` by blocks that
do not rebind the name (and with no parameter of that name), `f` resolves to
that function symbol and a call `f(args)` with compatible arguments is accepted
with the return type of `f`; whereas a call to a name `g` that `G` does not
bind on its chain, such as a function declared later, fails with
`UNDECLARED_FUNCTION`.  `func f(n: int): int { return f(n); }` is accepted, and
`func f(): int { return g(); } func g(): int { return 1; }` fails with
`UNDECLARED_FUNCTION` for `g`. -/
theorem function_symbol_before_body (G : Scope) (cf : Option FuncRef) (f : String)
    (params : List ParamNode) (ret : BaseType) (P : Scope)
    (hfresh : SymbolTable.find G.symbolTable f = none)
    (hparams : addParams (some (Scope.mk [] (some (G.addFunction f (baseTypeToDataType ret)
      (params.map (fun param => baseTypeToDataType param.type)))))) params =
        Except.ok (some P)) :
    (∀ body, visitDecl ⟨some G, cf⟩ (DeclNode.FuncDecl f params ret body) =
      match visitBlock ⟨some P, some ⟨f, ret⟩⟩ body with
      | Except.error a => Except.error a
      | Except.ok (st2, body1) =>
        match exitScope st2.currentScope with
        | Except.error a => Except.error a
        | Except.ok cs3 => Except.ok (⟨cs3, cf⟩, DeclNode.FuncDecl f params ret body1)) ∧
    P.parent = some (G.addFunction f (baseTypeToDataType ret)
      (params.map (fun param => baseTypeToDataType param.type))) ∧
    (∀ (S : Scope) (locals : List SymbolTable), S.chain = locals ++ P.chain →
      (∀ t ∈ locals, SymbolTable.find t f = none) → (∀ p ∈ params, p.name ≠ f) →
      S.NearestBinding f ⟨f, SymbolKind.Function, baseTypeToDataType ret,
          params.map (fun param => baseTypeToDataType param.type)⟩ ∧
        ∀ dt args args1,
          List.Forall₂ (fun a a1 => visitExp (some S) a = Except.ok a1) args args1 →
          List.Forall₂ (fun q a1 => isAssignmentCompatible q (ExpNode.dataType a1) = true)
            (params.map (fun param => baseTypeToDataType param.type)) args1 →
          visitExp (some S) (ExpNode.Call dt f args) =
            Except.ok (ExpNode.Call (baseTypeToDataType ret) f args1)) ∧
    (∀ (g : String) (S : Scope) (locals : List SymbolTable), S.chain = locals ++ P.chain →
      (∀ t ∈ locals, SymbolTable.find t g = none) → (∀ p ∈ params, p.name ≠ g) →
      g ≠ f → G.Unbound g →
      ∀ dt args, visitExp (some S) (ExpNode.Call dt g args) =
        throwSem SemanticErrorType.UNDECLARED_FUNCTION (SemanticErrorContext.Function g)) ∧
    accepted (visitProgram recursiveProgram) = true ∧
    errorOf (visitProgram forwardCallProgram) =
      some ⟨SemanticErrorType.UNDECLARED_FUNCTION, SemanticErrorContext.Function "g"⟩ := by
  obtain ⟨P', hP', hparent, hfind⟩ := addParams_spec params _ _ hparams
  simp only [Option.some.injEq] at hP'
  subst hP'
  have hparent : P.parent = some (G.addFunction f (baseTypeToDataType ret)
      (params.map (fun param => baseTypeToDataType param.type))) := hparent
  have hchainP : P.chain = P.symbolTable ::
      (G.symbolTable.assign f ⟨f, SymbolKind.Function, baseTypeToDataType ret,
        params.map (fun param => baseTypeToDataType param.type)⟩) ::
      (match G.parent with
       | some q => q.chain
       | none => []) := by
    rw [Scope.chain_eq P, hparent]
    simp only [Scope.addFunction, Scope.chain_mk]
  have hchainG := Scope.chain_eq G
  refine ⟨fun body => visitDecl_funcDecl G cf f params ret body P hfresh hparams, hparent,
    ?_, ?_, by rfl, by rfl⟩
  · intro S locals hS hlocals hnp
    have hPf : SymbolTable.find P.symbolTable f = none := by
      rw [hfind f hnp]; rfl
    have hnear : S.NearestBinding f ⟨f, SymbolKind.Function, baseTypeToDataType ret,
        params.map (fun param => baseTypeToDataType param.type)⟩ := by
      refine ⟨locals ++ [P.symbolTable],
        G.symbolTable.assign f ⟨f, SymbolKind.Function, baseTypeToDataType ret,
          params.map (fun param => baseTypeToDataType param.type)⟩,
        (match G.parent with
         | some q => q.chain
         | none => []), by rw [hS, hchainP]; simp, ?_,
        SymbolTable.find_assign_same _ _ _⟩
      intro u hu
      rcases List.mem_append.mp hu with hu | hu
      · exact hlocals u hu
      · simp only [List.mem_singleton] at hu
        rw [hu]; exact hPf
    refine ⟨hnear, ?_⟩
    intro dt args args1 hargs hcompat
    have hlen : args.length = (params.map (fun param => baseTypeToDataType param.type)).length := by
      rw [hargs.length_eq, hcompat.length_eq]
    have h := visitArgs_accept (some S) f args args1 hargs []
      (params.map (fun param => baseTypeToDataType param.type)) [] hcompat
    simp only [List.nil_append, List.length_nil] at h
    simp [visitExp, lookupCurrent, Scope.lookup_of_nearest S f _ hnear, hlen, h]
  · intro g S locals hS hlocals hnp hgf hG dt args
    have hunb : S.Unbound g := by
      intro t ht
      rw [hS, hchainP] at ht
      simp only [List.mem_append, List.mem_cons] at ht
      rcases ht with ht | ht | ht | ht
      · exact hlocals t ht
      · rw [ht, hfind g hnp]; rfl
      · rw [ht, SymbolTable.find_assign_other _ _ _ _ hgf]
        exact hG _ (by rw [hchainG]; simp)
      · exact hG t (by rw [hchainG]; simp [ht])
    simp [visitExp, lookupCurrent, Scope.lookup_of_unbound S g hunb, throwSem]

/-- C12 at `func f(n: int): int { ... }` declared in the empty global scope:
from the scope of the body block, `f(n)` is accepted with type `INT` and `g()`
fails with `UNDECLARED_FUNCTION`. -/
theorem function_symbol_before_body_witness :
    visitExp (some recursionBodyScope)
        (ExpNode.Call DataType.IOTA "f" [ExpNode.Id DataType.IOTA "n"]) =
      Except.ok (ExpNode.Call DataType.INT "f" [ExpNode.Id DataType.INT "n"]) ∧
    visitExp (some recursionBodyScope) (ExpNode.Call DataType.IOTA "g" []) =
      throwSem SemanticErrorType.UNDECLARED_FUNCTION (SemanticErrorContext.Function "g") :=
  have h := function_symbol_before_body (Scope.mk [] none) none "f" [⟨"n", BaseType.Int⟩]
    BaseType.Int recursionParamScope rfl rfl
  ⟨(h.2.2.1 recursionBodyScope [[]] rfl (by decide) (by decide)).2 DataType.IOTA
      [ExpNode.Id DataType.IOTA "n"] [ExpNode.Id DataType.INT "n"]
      (List.Forall₂.cons rfl List.Forall₂.nil) (List.Forall₂.cons rfl List.Forall₂.nil),
   h.2.2.2.1 "g" recursionBodyScope [[]] rfl (by decide) (by decide) (by decide)
      (by
        intro t ht
        have hc : (Scope.mk [] none).chain = [[]] := rfl
        rw [hc] at ht
        simp only [List.mem_singleton] at ht
        subst ht; rfl) DataType.IOTA []⟩

/-! ## The pass does not read the annotations -/

theorem eraseArgs_length : ∀ args : List ExpNode, (eraseArgs args).length = args.length
  | [] => by simp [eraseArgs]
  | a :: rest => by simp [eraseArgs, eraseArgs_length rest]

mutual
theorem visitExp_erase (cs : Option Scope) : ∀ e : ExpNode, visitExp cs (eraseExp e) = visitExp cs e
  | ExpNode.IntLit _ _ => by simp [eraseExp, visitExp]
  | ExpNode.FloatLit _ _ => by simp [eraseExp, visitExp]
  | ExpNode.BoolLit _ _ => by simp [eraseExp, visitExp]
  | ExpNode.Id _ _ => by simp [eraseExp, visitExp]
  | ExpNode.UnaryOp _ op expr => by
    cases op
    simp [eraseExp, visitExp, visitExp_erase cs expr]
  | ExpNode.BinaryOp _ op left right => by
    simp [eraseExp, visitExp, visitExp_erase cs left, visitExp_erase cs right]
  | ExpNode.Call _ callee args => by
    simp [eraseExp, visitExp, eraseArgs_length, visitArgs_erase cs callee args]
theorem visitArgs_erase (cs : Option Scope) (callee : String) :
    ∀ (args : List ExpNode) (paramTypes : List DataType) (i : Nat) (argTypes : List DataType),
      visitArgs cs callee paramTypes i argTypes (eraseArgs args) =
        visitArgs cs callee paramTypes i argTypes args
  | [], _, _, _ => by simp [eraseArgs]
  | arg :: rest, paramTypes, i, argTypes => by
    simp [eraseArgs, visitArgs, visitExp_erase cs arg, visitArgs_erase cs callee rest]
end

mutual
theorem erase_visitExp (cs : Option Scope) :
    ∀ (e e1 : ExpNode), visitExp cs e = Except.ok e1 → eraseExp e1 = eraseExp e
  | ExpNode.IntLit _ _, e1, h => by
    simp [visitExp] at h; subst h; simp [eraseExp]
  | ExpNode.FloatLit _ _, e1, h => by
    simp [visitExp] at h; subst h; simp [eraseExp]
  | ExpNode.BoolLit _ _, e1, h => by
    simp [visitExp] at h; subst h; simp [eraseExp]
  | ExpNode.Id _ name, e1, h => by
    simp only [visitExp] at h
    cases hl : lookupCurrent cs name with
    | error a => simp [hl] at h
    | ok o =>
      cases o with
      | none => simp [hl, throwSem] at h
      | some symbol =>
        simp only [hl] at h
        by_cases hk : symbol.kind = SymbolKind.Function
        · simp [hk, throwSem] at h
        · simp only [hk, if_false, Except.ok.injEq] at h
          subst h; simp [eraseExp]
  | ExpNode.UnaryOp _ op expr, e1, h => by
    cases op
    simp only [visitExp] at h
    cases hv : visitExp cs expr with
    | error a => simp [hv] at h
    | ok expr1 =>
      have ih := erase_visitExp cs expr expr1 hv
      simp only [hv, if_true] at h
      by_cases hn : isNumeric expr1.dataType = true
      · simp only [hn, Bool.not_true, Bool.false_eq_true, if_false, Except.ok.injEq] at h
        subst h; simp [eraseExp, ih]
      · simp [hn, throwSem] at h
  | ExpNode.BinaryOp _ op left right, e1, h => by
    simp only [visitExp] at h
    cases hl : visitExp cs left with
    | error a => simp [hl] at h
    | ok left1 =>
      cases hr : visitExp cs right with
      | error a => simp [hl, hr] at h
      | ok right1 =>
        have ihl := erase_visitExp cs left left1 hl
        have ihr := erase_visitExp cs right right1 hr
        simp only [hl, hr] at h
        cases hb : binaryOpType op left1.dataType right1.dataType with
        | error a => simp [hb] at h
        | ok t =>
          simp only [hb, Except.ok.injEq] at h
          subst h; simp [eraseExp, ihl, ihr]
  | ExpNode.Call _ callee args, e1, h => by
    simp only [visitExp] at h
    cases hl : lookupCurrent cs callee with
    | error a => simp [hl] at h
    | ok o =>
      cases o with
      | none => simp [hl, throwSem] at h
      | some symbol =>
        simp only [hl] at h
        by_cases hk : symbol.kind = SymbolKind.Function
        · by_cases hlen : args.length = symbol.paramTypes.length
          · simp only [hk, ne_eq, not_true_eq_false, if_false, hlen] at h
            cases hv : visitArgs cs callee symbol.paramTypes 0 [] args with
            | error a => simp [hv] at h
            | ok args1 =>
              have ih := erase_visitArgs cs callee args symbol.paramTypes 0 [] args1 hv
              simp only [hv, Except.ok.injEq] at h
              subst h; simp [eraseExp, ih]
          · simp [hk, hlen, throwSem] at h
        · simp [hk, throwSem] at h
theorem erase_visitArgs (cs : Option Scope) (callee : String) :
    ∀ (args : List ExpNode) (paramTypes : List DataType) (i : Nat) (argTypes : List DataType)
      (args1 : List ExpNode),
      visitArgs cs callee paramTypes i argTypes args = Except.ok args1 →
      eraseArgs args1 = eraseArgs args
  | [], _, _, _, args1, h => by
    simp [visitArgs] at h; subst h; rfl
  | arg :: rest, paramTypes, i, argTypes, args1, h => by
    simp only [visitArgs] at h
    cases hv : visitExp cs arg with
    | error a => simp [hv] at h
    | ok arg1 =>
      have ih := erase_visitExp cs arg arg1 hv
      simp only [hv] at h
      cases hp : paramTypes[i]? with
      | none => simp [hp] at h
      | some paramType =>
        simp only [hp] at h
        by_cases hc : isAssignmentCompatible paramType arg1.dataType = true
        · simp only [hc, Bool.not_true, Bool.false_eq_true, if_false] at h
          cases hr : visitArgs cs callee paramTypes (i + 1) (argTypes ++ [arg1.dataType]) rest with
          | error a => simp [hr] at h
          | ok rest1 =>
            have ihr := erase_visitArgs cs callee rest paramTypes (i + 1) _ rest1 hr
            simp only [hr, Except.ok.injEq] at h
            subst h; simp [eraseArgs, ih, ihr]
        · simp [hc, throwSem] at h
end

/-! ## What a visit that returns has done -/

theorem checkRedeclared_ok (cs : Option Scope) (name : String)
    (h : checkRedeclared cs name = Except.ok ()) :
    ∃ S, cs = some S ∧ SymbolTable.find S.symbolTable name = none := by
  cases cs with
  | none => simp [checkRedeclared] at h
  | some S =>
    refine ⟨S, rfl, ?_⟩
    cases hf : SymbolTable.find S.symbolTable name with
    | none => rfl
    | some b =>
      rw [checkRedeclared_of_find_some S name b hf] at h
      by_cases hk : b.kind = SymbolKind.Function <;> simp [hk, throwSem] at h

theorem visitVarOrLet_ok (st st1 : ScopeAndTypeChecker) (kind : SymbolKind) (name : String)
    (type : BaseType) (init init1 : ExpNode)
    (h : visitVarOrLet st kind name type init = Except.ok (st1, init1)) :
    ∃ S, st.currentScope = some S ∧ SymbolTable.find S.symbolTable name = none ∧
      visitExp (some S) init = Except.ok init1 ∧
      isAssignmentCompatible (baseTypeToDataType type) init1.dataType = true ∧
      st1 = ⟨some (S.addSymbol name kind (baseTypeToDataType type)), st.currentFunction⟩ := by
  simp only [visitVarOrLet] at h
  cases hc : checkRedeclared st.currentScope name with
  | error a => simp [hc] at h
  | ok u =>
    obtain ⟨S, hS, hfind⟩ := checkRedeclared_ok _ _ hc
    rw [hS] at hc
    simp only [hS, hc] at h
    cases hv : visitExp (some S) init with
    | error a => simp [hv] at h
    | ok i1 =>
      simp only [hv] at h
      by_cases hcompat : isAssignmentCompatible (baseTypeToDataType type) i1.dataType = true
      · simp only [hcompat, Bool.not_true, Bool.false_eq_true, if_false, Except.ok.injEq,
          Prod.mk.injEq] at h
        obtain ⟨h1, h2⟩ := h
        subst h2
        exact ⟨S, hS, hfind, hv, hcompat, h1.symm⟩
      · simp [hcompat, throwSem] at h

theorem visitDecl_varDecl_ok (st st1 : ScopeAndTypeChecker) (name : String) (type : BaseType)
    (init : ExpNode) (d1 : DeclNode)
    (h : visitDecl st (DeclNode.VarDecl name type init) = Except.ok (st1, d1)) :
    ∃ init1, visitVarOrLet st SymbolKind.Variable name type init = Except.ok (st1, init1) ∧
      d1 = DeclNode.VarDecl name type init1 := by
  simp only [visitDecl] at h
  cases hv : visitVarOrLet st SymbolKind.Variable name type init with
  | error a => simp [hv] at h
  | ok res =>
    obtain ⟨s1, i1⟩ := res
    simp only [hv, Except.ok.injEq, Prod.mk.injEq] at h
    exact ⟨i1, by rw [h.1], h.2.symm⟩

theorem visitDecl_letDecl_ok (st st1 : ScopeAndTypeChecker) (name : String) (type : BaseType)
    (init : ExpNode) (d1 : DeclNode)
    (h : visitDecl st (DeclNode.LetDecl name type init) = Except.ok (st1, d1)) :
    ∃ init1, visitVarOrLet st SymbolKind.Constant name type init = Except.ok (st1, init1) ∧
      d1 = DeclNode.LetDecl name type init1 := by
  simp only [visitDecl] at h
  cases hv : visitVarOrLet st SymbolKind.Constant name type init with
  | error a => simp [hv] at h
  | ok res =>
    obtain ⟨s1, i1⟩ := res
    simp only [hv, Except.ok.injEq, Prod.mk.injEq] at h
    exact ⟨i1, by rw [h.1], h.2.symm⟩

theorem visitDecl_funcDecl_ok (st st1 : ScopeAndTypeChecker) (f : String)
    (params : List ParamNode) (ret : BaseType) (body : BlockNode) (d1 : DeclNode)
    (h : visitDecl st (DeclNode.FuncDecl f params ret body) = Except.ok (st1, d1)) :
    ∃ G P st2 body1, st.currentScope = some G ∧ SymbolTable.find G.symbolTable f = none ∧
      addParams (some (Scope.mk [] (some (G.addFunction f (baseTypeToDataType ret)
        (params.map (fun param => baseTypeToDataType param.type)))))) params =
          Except.ok (some P) ∧
      P.parent = some (G.addFunction f (baseTypeToDataType ret)
        (params.map (fun param => baseTypeToDataType param.type))) ∧
      visitBlock ⟨some P, some ⟨f, ret⟩⟩ body = Except.ok (st2, body1) ∧
      exitScope st2.currentScope = Except.ok st1.currentScope ∧
      st1.currentFunction = st.currentFunction ∧
      d1 = DeclNode.FuncDecl f params ret body1 := by
  simp only [visitDecl] at h
  cases hG : st.currentScope with
  | none => simp [hG] at h
  | some G =>
    simp only [hG] at h
    cases hf : SymbolTable.find G.symbolTable f with
    | some b => simp [Scope.existsInCurrentScope, hf, throwSem] at h
    | none =>
      simp only [Scope.existsInCurrentScope, hf, Option.isSome_none, Bool.false_eq_true,
        if_false] at h
      cases hp : addParams (some (Scope.mk [] (some (G.addFunction f (baseTypeToDataType ret)
          (params.map (fun param => baseTypeToDataType param.type)))))) params with
      | error a => simp [hp] at h
      | ok cs1 =>
        obtain ⟨P, hP, hpar, _⟩ := addParams_spec params _ cs1 hp
        subst hP
        simp only [hp] at h
        cases hb : visitBlock ⟨some P, some ⟨f, ret⟩⟩ body with
        | error a => simp [hb] at h
        | ok res =>
          obtain ⟨st2, body1⟩ := res
          simp only [hb] at h
          cases he : exitScope st2.currentScope with
          | error a => simp [he] at h
          | ok cs3 =>
            simp only [he, Except.ok.injEq, Prod.mk.injEq] at h
            obtain ⟨h1, h2⟩ := h
            subst h1
            exact ⟨G, P, st2, body1, rfl, hf, hp, hpar, hb, he, rfl, h2.symm⟩

theorem visitBlock_ok (st st1 : ScopeAndTypeChecker) (decls : List DeclNode)
    (stmts : List StmtNode) (items : List Item) (b1 : BlockNode)
    (h : visitBlock st (BlockNode.mk decls stmts items) = Except.ok (st1, b1)) :
    ∃ sd decls1 ss stmts1,
      visitDecls ⟨some (Scope.mk [] st.currentScope), st.currentFunction⟩ decls =
        Except.ok (sd, decls1) ∧
      visitStmts sd stmts = Except.ok (ss, stmts1) ∧
      exitScope ss.currentScope = Except.ok st1.currentScope ∧
      st1.currentFunction = ss.currentFunction ∧
      b1 = BlockNode.mk decls1 stmts1 items := by
  simp only [visitBlock] at h
  cases hd : visitDecls ⟨some (Scope.mk [] st.currentScope), st.currentFunction⟩ decls with
  | error a => simp [hd] at h
  | ok res =>
    obtain ⟨sd, decls1⟩ := res
    simp only [hd] at h
    cases hs : visitStmts sd stmts with
    | error a => simp [hs] at h
    | ok res2 =>
      obtain ⟨ss, stmts1⟩ := res2
      simp only [hs] at h
      cases he : exitScope ss.currentScope with
      | error a => simp [he] at h
      | ok cs3 =>
        simp only [he, Except.ok.injEq, Prod.mk.injEq] at h
        obtain ⟨h1, h2⟩ := h
        subst h1
        exact ⟨sd, decls1, ss, stmts1, rfl, hs, he, rfl, h2.symm⟩

theorem visitDecls_cons_ok (st st2 : ScopeAndTypeChecker) (decl : DeclNode)
    (rest out : List DeclNode)
    (h : visitDecls st (decl :: rest) = Except.ok (st2, out)) :
    ∃ st1 decl1 rest1, visitDecl st decl = Except.ok (st1, decl1) ∧
      visitDecls st1 rest = Except.ok (st2, rest1) ∧ out = decl1 :: rest1 := by
  simp only [visitDecls] at h
  cases hd : visitDecl st decl with
  | error a => simp [hd] at h
  | ok res =>
    obtain ⟨st1, decl1⟩ := res
    simp only [hd] at h
    cases hr : visitDecls st1 rest with
    | error a => simp [hr] at h
    | ok res2 =>
      obtain ⟨s2, rest1⟩ := res2
      simp only [hr, Except.ok.injEq, Prod.mk.injEq] at h
      obtain ⟨h1, h2⟩ := h
      subst h1
      exact ⟨st1, decl1, rest1, rfl, hr, h2.symm⟩

theorem visitStmts_cons_ok (st st2 : ScopeAndTypeChecker) (stmt : StmtNode)
    (rest out : List StmtNode)
    (h : visitStmts st (stmt :: rest) = Except.ok (st2, out)) :
    ∃ st1 stmt1 rest1, visitStmt st stmt = Except.ok (st1, stmt1) ∧
      visitStmts st1 rest = Except.ok (st2, rest1) ∧ out = stmt1 :: rest1 := by
  simp only [visitStmts] at h
  cases hd : visitStmt st stmt with
  | error a => simp [hd] at h
  | ok res =>
    obtain ⟨st1, stmt1⟩ := res
    simp only [hd] at h
    cases hr : visitStmts st1 rest with
    | error a => simp [hr] at h
    | ok res2 =>
      obtain ⟨s2, rest1⟩ := res2
      simp only [hr, Except.ok.injEq, Prod.mk.injEq] at h
      obtain ⟨h1, h2⟩ := h
      subst h1
      exact ⟨st1, stmt1, rest1, rfl, hr, h2.symm⟩

theorem visitStmt_if_ok (st st2 : ScopeAndTypeChecker) (cond : ExpNode) (thenBlk : BlockNode)
    (elseBlk : Option BlockNode) (s1 : StmtNode)
    (h : visitStmt st (StmtNode.If cond thenBlk elseBlk) = Except.ok (st2, s1)) :
    ∃ cond1 st1 thenBlk1 elseBlk1, visitExp st.currentScope cond = Except.ok cond1 ∧
      visitBlock st thenBlk = Except.ok (st1, thenBlk1) ∧
      visitElse st1 elseBlk = Except.ok (st2, elseBlk1) ∧
      s1 = StmtNode.If cond1 thenBlk1 elseBlk1 := by
  simp only [visitStmt] at h
  cases hc : visitCond st cond with
  | error a => simp [hc] at h
  | ok cond1 =>
    have hce : visitExp st.currentScope cond = Except.ok cond1 := by
      simp only [visitCond] at hc
      cases hv : visitExp st.currentScope cond with
      | error a => simp [hv] at hc
      | ok c1 =>
        simp only [hv] at hc
        by_cases hb : c1.dataType = DataType.BOOL
        · simp only [hb, ne_eq, not_true_eq_false, if_false, Except.ok.injEq] at hc
          rw [hc]
        · simp [hb, throwSem] at hc
    simp only [hc] at h
    cases ht : visitBlock st thenBlk with
    | error a => simp [ht] at h
    | ok res =>
      obtain ⟨st1, thenBlk1⟩ := res
      simp only [ht] at h
      cases he : visitElse st1 elseBlk with
      | error a => simp [he] at h
      | ok res2 =>
        obtain ⟨s2, elseBlk1⟩ := res2
        simp only [he, Except.ok.injEq, Prod.mk.injEq] at h
        obtain ⟨h1, h2⟩ := h
        subst h1
        exact ⟨cond1, st1, thenBlk1, elseBlk1, hce, rfl, he, h2.symm⟩

theorem visitStmt_while_ok (st st1 : ScopeAndTypeChecker) (cond : ExpNode) (body : BlockNode)
    (s1 : StmtNode)
    (h : visitStmt st (StmtNode.While cond body) = Except.ok (st1, s1)) :
    ∃ cond1 body1, visitExp st.currentScope cond = Except.ok cond1 ∧
      visitBlock st body = Except.ok (st1, body1) ∧ s1 = StmtNode.While cond1 body1 := by
  simp only [visitStmt] at h
  cases hc : visitCond st cond with
  | error a => simp [hc] at h
  | ok cond1 =>
    have hce : visitExp st.currentScope cond = Except.ok cond1 := by
      simp only [visitCond] at hc
      cases hv : visitExp st.currentScope cond with
      | error a => simp [hv] at hc
      | ok c1 =>
        simp only [hv] at hc
        by_cases hb : c1.dataType = DataType.BOOL
        · simp only [hb, ne_eq, not_true_eq_false, if_false, Except.ok.injEq] at hc
          rw [hc]
        · simp [hb, throwSem] at hc
    simp only [hc] at h
    cases ht : visitBlock st body with
    | error a => simp [ht] at h
    | ok res =>
      obtain ⟨s1', body1⟩ := res
      simp only [ht, Except.ok.injEq, Prod.mk.injEq] at h
      obtain ⟨h1, h2⟩ := h
      subst h1
      exact ⟨cond1, body1, hce, rfl, h2.symm⟩

theorem visitStmt_simple_ok (st st1 : ScopeAndTypeChecker) (s s1 : StmtNode)
    (h : visitStmt st s = Except.ok (st1, s1)) :
    (∀ name rhs, s = StmtNode.Assign name rhs →
      st1 = st ∧ ∃ rhs1, visitExp st.currentScope rhs = Except.ok rhs1 ∧
        s1 = StmtNode.Assign name rhs1) ∧
    (∀ expr, s = StmtNode.Print expr →
      st1 = st ∧ ∃ expr1, visitExp st.currentScope expr = Except.ok expr1 ∧
        s1 = StmtNode.Print expr1) ∧
    (∀ expr, s = StmtNode.Return expr →
      st1 = st ∧ ∃ expr1, visitExp st.currentScope expr = Except.ok expr1 ∧
        s1 = StmtNode.Return expr1) := by
  refine ⟨?_, ?_, ?_⟩
  · intro name rhs hs
    subst hs
    simp only [visitStmt] at h
    cases ha : visitAssign st name rhs with
    | error a => simp [ha] at h
    | ok rhs1 =>
      simp only [ha, Except.ok.injEq, Prod.mk.injEq] at h
      refine ⟨h.1.symm, rhs1, ?_, h.2.symm⟩
      simp only [visitAssign] at ha
      cases hl : lookupCurrent st.currentScope name with
      | error a => simp [hl] at ha
      | ok o =>
        cases o with
        | none => simp [hl, throwSem] at ha
        | some symbol =>
          simp only [hl] at ha
          by_cases hk : symbol.kind = SymbolKind.Function
          · simp [hk, throwSem] at ha
          · by_cases hk2 : symbol.kind = SymbolKind.Constant
            · simp [hk, hk2, throwSem] at ha
            · simp only [hk, hk2, if_false] at ha
              cases hv : visitExp st.currentScope rhs with
              | error a => simp [hv] at ha
              | ok r1 =>
                simp only [hv] at ha
                by_cases hc : isAssignmentCompatible symbol.type r1.dataType = true
                · simp only [hc, Bool.not_true, Bool.false_eq_true, if_false,
                    Except.ok.injEq] at ha
                  rw [ha]
                · simp [hc, throwSem] at ha
  · intro expr hs
    subst hs
    simp only [visitStmt] at h
    cases hv : visitExp st.currentScope expr with
    | error a => simp [hv] at h
    | ok expr1 =>
      simp only [hv, Except.ok.injEq, Prod.mk.injEq] at h
      exact ⟨h.1.symm, expr1, rfl, h.2.symm⟩
  · intro expr hs
    subst hs
    simp only [visitStmt] at h
    cases ha : visitReturn st expr with
    | error a => simp [ha] at h
    | ok expr1 =>
      simp only [ha, Except.ok.injEq, Prod.mk.injEq] at h
      refine ⟨h.1.symm, expr1, ?_, h.2.symm⟩
      simp only [visitReturn] at ha
      cases hv : visitExp st.currentScope expr with
      | error a => simp [hv] at ha
      | ok e1 =>
        simp only [hv] at ha
        cases hf : st.currentFunction with
        | none => simp [hf] at ha
        | some fr =>
          simp only [hf] at ha
          by_cases hc : isAssignmentCompatible (baseTypeToDataType fr.retType) e1.dataType = true
          · simp only [hc, Bool.not_true, Bool.false_eq_true, if_false, Except.ok.injEq] at ha
            rw [ha]
          · simp [hc, throwSem] at ha

theorem visitElse_ok (st st1 : ScopeAndTypeChecker) (e e1 : Option BlockNode)
    (h : visitElse st e = Except.ok (st1, e1)) :
    (e = none ∧ e1 = none ∧ st1 = st) ∨
    ∃ blk blk1, e = some blk ∧ e1 = some blk1 ∧ visitBlock st blk = Except.ok (st1, blk1) := by
  cases e with
  | none =>
    simp only [visitElse, Except.ok.injEq, Prod.mk.injEq] at h
    exact Or.inl ⟨rfl, h.2.symm, h.1.symm⟩
  | some blk =>
    simp only [visitElse] at h
    cases hb : visitBlock st blk with
    | error a => simp [hb] at h
    | ok res =>
      obtain ⟨s1, blk1⟩ := res
      simp only [hb, Except.ok.injEq, Prod.mk.injEq] at h
      obtain ⟨h1, h2⟩ := h
      subst h1
      exact Or.inr ⟨blk, blk1, rfl, h2.symm, hb⟩

theorem visitVarOrLet_erase (st : ScopeAndTypeChecker) (kind : SymbolKind) (name : String)
    (type : BaseType) (init : ExpNode) :
    visitVarOrLet st kind name type (eraseExp init) = visitVarOrLet st kind name type init := by
  simp only [visitVarOrLet, visitExp_erase]

theorem visitAssign_erase (st : ScopeAndTypeChecker) (name : String) (rhs : ExpNode) :
    visitAssign st name (eraseExp rhs) = visitAssign st name rhs := by
  simp only [visitAssign, visitExp_erase]

theorem visitReturn_erase (st : ScopeAndTypeChecker) (expr : ExpNode) :
    visitReturn st (eraseExp expr) = visitReturn st expr := by
  simp only [visitReturn, visitExp_erase]

theorem visitCond_erase (st : ScopeAndTypeChecker) (cond : ExpNode) :
    visitCond st (eraseExp cond) = visitCond st cond := by
  simp only [visitCond, visitExp_erase]

mutual
theorem visitDecl_erase : ∀ (d : DeclNode) (st : ScopeAndTypeChecker),
    visitDecl st (eraseDecl d) = visitDecl st d
  | DeclNode.VarDecl _ _ _, st => by simp only [eraseDecl, visitDecl, visitVarOrLet_erase]
  | DeclNode.LetDecl _ _ _, st => by simp only [eraseDecl, visitDecl, visitVarOrLet_erase]
  | DeclNode.FuncDecl _ _ _ body, st => by
    simp only [eraseDecl, visitDecl, visitBlock_erase body]
theorem visitStmt_erase : ∀ (s : StmtNode) (st : ScopeAndTypeChecker),
    visitStmt st (eraseStmt s) = visitStmt st s
  | StmtNode.Assign _ _, st => by simp only [eraseStmt, visitStmt, visitAssign_erase]
  | StmtNode.Print _, st => by simp only [eraseStmt, visitStmt, visitExp_erase]
  | StmtNode.Return _, st => by simp only [eraseStmt, visitStmt, visitReturn_erase]
  | StmtNode.If _ thenBlk elseBlk, st => by
    simp only [eraseStmt, visitStmt, visitCond_erase, visitBlock_erase thenBlk,
      visitElse_erase elseBlk]
  | StmtNode.While _ body, st => by
    simp only [eraseStmt, visitStmt, visitCond_erase, visitBlock_erase body]
theorem visitElse_erase : ∀ (e : Option BlockNode) (st : ScopeAndTypeChecker),
    visitElse st (eraseElse e) = visitElse st e
  | none, st => by simp only [eraseElse]
  | some blk, st => by simp only [eraseElse, visitElse, visitBlock_erase blk]
theorem visitBlock_erase : ∀ (b : BlockNode) (st : ScopeAndTypeChecker),
    visitBlock st (eraseBlock b) = visitBlock st b
  | BlockNode.mk decls stmts _, st => by
    simp only [eraseBlock, visitBlock, visitDecls_erase decls, visitStmts_erase stmts]
theorem visitDecls_erase : ∀ (ds : List DeclNode) (st : ScopeAndTypeChecker),
    visitDecls st (eraseDecls ds) = visitDecls st ds
  | [], st => by simp only [eraseDecls]
  | d :: rest, st => by
    simp only [eraseDecls, visitDecls, visitDecl_erase d, visitDecls_erase rest]
theorem visitStmts_erase : ∀ (ss : List StmtNode) (st : ScopeAndTypeChecker),
    visitStmts st (eraseStmts ss) = visitStmts st ss
  | [], st => by simp only [eraseStmts]
  | s :: rest, st => by
    simp only [eraseStmts, visitStmts, visitStmt_erase s, visitStmts_erase rest]
end

mutual
theorem erase_visitDecl : ∀ (d : DeclNode) (st st1 : ScopeAndTypeChecker) (d1 : DeclNode),
    visitDecl st d = Except.ok (st1, d1) → eraseDecl d1 = eraseDecl d
  | DeclNode.VarDecl name type init, st, st1, d1, h => by
    obtain ⟨init1, hv, hd⟩ := visitDecl_varDecl_ok st st1 name type init d1 h
    obtain ⟨S, _, _, hvis, _, _⟩ := visitVarOrLet_ok st st1 _ name type init init1 hv
    subst hd
    simp only [eraseDecl, erase_visitExp _ _ _ hvis]
  | DeclNode.LetDecl name type init, st, st1, d1, h => by
    obtain ⟨init1, hv, hd⟩ := visitDecl_letDecl_ok st st1 name type init d1 h
    obtain ⟨S, _, _, hvis, _, _⟩ := visitVarOrLet_ok st st1 _ name type init init1 hv
    subst hd
    simp only [eraseDecl, erase_visitExp _ _ _ hvis]
  | DeclNode.FuncDecl f params ret body, st, st1, d1, h => by
    obtain ⟨G, P, st2, body1, _, _, _, _, hb, _, _, hd⟩ :=
      visitDecl_funcDecl_ok st st1 f params ret body d1 h
    subst hd
    simp only [eraseDecl, erase_visitBlock body _ _ _ hb]
theorem erase_visitStmt : ∀ (s : StmtNode) (st st1 : ScopeAndTypeChecker) (s1 : StmtNode),
    visitStmt st s = Except.ok (st1, s1) → eraseStmt s1 = eraseStmt s
  | StmtNode.Assign name rhs, st, st1, s1, h => by
    obtain ⟨_, rhs1, hv, hs⟩ := (visitStmt_simple_ok st st1 _ s1 h).1 name rhs rfl
    subst hs
    simp only [eraseStmt, erase_visitExp _ _ _ hv]
  | StmtNode.Print expr, st, st1, s1, h => by
    obtain ⟨_, expr1, hv, hs⟩ := (visitStmt_simple_ok st st1 _ s1 h).2.1 expr rfl
    subst hs
    simp only [eraseStmt, erase_visitExp _ _ _ hv]
  | StmtNode.Return expr, st, st1, s1, h => by
    obtain ⟨_, expr1, hv, hs⟩ := (visitStmt_simple_ok st st1 _ s1 h).2.2 expr rfl
    subst hs
    simp only [eraseStmt, erase_visitExp _ _ _ hv]
  | StmtNode.If cond thenBlk elseBlk, st, st1, s1, h => by
    obtain ⟨cond1, stt, thenBlk1, elseBlk1, hc, ht, he, hs⟩ :=
      visitStmt_if_ok st st1 cond thenBlk elseBlk s1 h
    subst hs
    simp only [eraseStmt, erase_visitExp _ _ _ hc, erase_visitBlock thenBlk _ _ _ ht,
      erase_visitElse elseBlk _ _ _ he]
  | StmtNode.While cond body, st, st1, s1, h => by
    obtain ⟨cond1, body1, hc, hb, hs⟩ := visitStmt_while_ok st st1 cond body s1 h
    subst hs
    simp only [eraseStmt, erase_visitExp _ _ _ hc, erase_visitBlock body _ _ _ hb]
theorem erase_visitElse : ∀ (e : Option BlockNode) (st st1 : ScopeAndTypeChecker)
    (e1 : Option BlockNode), visitElse st e = Except.ok (st1, e1) → eraseElse e1 = eraseElse e
  | none, st, st1, e1, h => by
    simp only [visitElse, Except.ok.injEq, Prod.mk.injEq] at h
    rw [← h.2]
  | some blk, st, st1, e1, h => by
    simp only [visitElse] at h
    cases hb : visitBlock st blk with
    | error a => simp [hb] at h
    | ok res =>
      obtain ⟨s1, blk1⟩ := res
      simp only [hb, Except.ok.injEq, Prod.mk.injEq] at h
      rw [← h.2]
      simp only [eraseElse, erase_visitBlock blk _ _ _ hb]
theorem erase_visitBlock : ∀ (b : BlockNode) (st st1 : ScopeAndTypeChecker) (b1 : BlockNode),
    visitBlock st b = Except.ok (st1, b1) → eraseBlock b1 = eraseBlock b
  | BlockNode.mk decls stmts items, st, st1, b1, h => by
    obtain ⟨sd, decls1, ss, stmts1, hd, hs, _, _, hb⟩ := visitBlock_ok st st1 decls stmts items b1 h
    subst hb
    simp only [eraseBlock, erase_visitDecls decls _ _ _ hd, erase_visitStmts stmts _ _ _ hs]
theorem erase_visitDecls : ∀ (ds : List DeclNode) (st st1 : ScopeAndTypeChecker)
    (ds1 : List DeclNode), visitDecls st ds = Except.ok (st1, ds1) → eraseDecls ds1 = eraseDecls ds
  | [], st, st1, ds1, h => by
    simp only [visitDecls, Except.ok.injEq, Prod.mk.injEq] at h
    rw [← h.2]
  | d :: rest, st, st1, ds1, h => by
    obtain ⟨sm, d1, rest1, hd, hr, ho⟩ := visitDecls_cons_ok st st1 d rest ds1 h
    subst ho
    simp only [eraseDecls, erase_visitDecl d _ _ _ hd, erase_visitDecls rest _ _ _ hr]
theorem erase_visitStmts : ∀ (ss : List StmtNode) (st st1 : ScopeAndTypeChecker)
    (ss1 : List StmtNode), visitStmts st ss = Except.ok (st1, ss1) → eraseStmts ss1 = eraseStmts ss
  | [], st, st1, ss1, h => by
    simp only [visitStmts, Except.ok.injEq, Prod.mk.injEq] at h
    rw [← h.2]
  | s :: rest, st, st1, ss1, h => by
    obtain ⟨sm, s1, rest1, hd, hr, ho⟩ := visitStmts_cons_ok st st1 s rest ss1 h
    subst ho
    simp only [eraseStmts, erase_visitStmt s _ _ _ hd, erase_visitStmts rest _ _ _ hr]
end

theorem visitProgram_erase (p : ProgramNode) : visitProgram (eraseProgram p) = visitProgram p := by
  simp only [visitProgram, eraseProgram, visitDecls_erase]

theorem erase_visitProgram (p p1 : ProgramNode) (st : ScopeAndTypeChecker)
    (h : visitProgram p = Except.ok (st, p1)) : eraseProgram p1 = eraseProgram p := by
  simp only [visitProgram] at h
  cases hd : visitDecls ⟨some (Scope.mk [] none), none⟩ p.declarations with
  | error a => simp [hd] at h
  | ok res =>
    obtain ⟨s1, ds1⟩ := res
    simp only [hd, Except.ok.injEq, Prod.mk.injEq] at h
    rw [← h.2]
    simp only [eraseProgram, erase_visitDecls _ _ _ _ hd]

/-- C19: the scope-and-type pass is idempotent.  A tree that differs from `p`
only in the annotations the pass writes (the same erasure) has the same outcome
as `p`, success or the same error with the same context; the tree a successful
run returns is such a tree, and a second run on it returns the same final state
and the same tree, so every annotation keeps the value of the first run. -/
theorem visitProgram_idempotent (p : ProgramNode) :
    (∀ q, eraseProgram q = eraseProgram p → visitProgram q = visitProgram p) ∧
    (∀ st p1, visitProgram p = Except.ok (st, p1) →
      eraseProgram p1 = eraseProgram p ∧ visitProgram p1 = Except.ok (st, p1)) := by
  have hsame : ∀ q, eraseProgram q = eraseProgram p → visitProgram q = visitProgram p := by
    intro q hq
    rw [← visitProgram_erase q, hq, visitProgram_erase p]
  refine ⟨hsame, ?_⟩
  intro st p1 h
  have he := erase_visitProgram p p1 st h
  exact ⟨he, by rw [hsame p1 he, h]⟩

/-! ## Blocks that only `orderedItems` holds -/

/-- C14 (the code breaks it): on `func main(): int { { print 1; } return 0; }`
both passes succeed, and the tree they leave still has the literal of the inner
block at `IOTA`, since `visit(BlockNode*)` walks `decls` and `stmts` and never
`orderedItems`. -/
theorem nested_block_left_unannotated :
    ∃ st p1, visitProgram nestedPrintProgram = Except.ok (st, p1) ∧
      analyze (some nestedPrintProgram) = Except.ok (some p1) ∧
      programAnnotated true p1 = false :=
  ⟨_, _, rfl, rfl, by decide⟩

/-- C15 (the code breaks it): the program
`func main(): int { { var x: int = 1; var x: int = 2; } return 0; }` is accepted
by both passes although two declarations of its inner block share the name
`x`; the inner block is never visited, so `x` is never looked for in a table. -/
theorem nested_block_redeclaration_accepted :
    accepted (visitProgram nestedRedeclProgram) = true ∧
    accepted (analyze (some nestedRedeclProgram)) = true ∧
    programNamesUnique true nestedRedeclProgram = false :=
  ⟨rfl, rfl, by decide⟩

/-! ## Every name the pass binds is new in its scope -/

theorem addParams_names : ∀ (params : List ParamNode) (S : Scope) (cs : Option Scope),
    addParams (some S) params = Except.ok cs →
    (params.map (fun param => param.name)).Nodup ∧
      ∀ p ∈ params, SymbolTable.find S.symbolTable p.name = none
  | [], S, cs, _ => by simp
  | param :: rest, S, cs, h => by
    rw [addParams] at h
    by_cases hex : S.existsInCurrentScope param.name = true
    · simp [hex, throwSem] at h
    · simp only [hex] at h
      obtain ⟨hnd, habs⟩ := addParams_names rest _ cs h
      have hnone : SymbolTable.find S.symbolTable param.name = none := by
        cases hf : SymbolTable.find S.symbolTable param.name with
        | none => rfl
        | some b => simp [Scope.existsInCurrentScope, hf] at hex
      have hne : ∀ p ∈ rest, p.name ≠ param.name := by
        intro p hp heq
        have h1 := habs p hp
        rw [heq] at h1
        simp only [Scope.addSymbol, Scope.symbolTable, SymbolTable.find_assign_same] at h1
        exact Option.noConfusion h1
      refine ⟨?_, ?_⟩
      · simp only [List.map_cons, List.nodup_cons, List.mem_map, not_exists, not_and]
        exact ⟨fun p hp heq => hne p hp heq, hnd⟩
      · intro p hp
        rcases List.mem_cons.mp hp with heq | hmem
        · rw [heq]; exact hnone
        · have h1 := habs p hmem
          simp only [Scope.addSymbol, Scope.symbolTable] at h1
          rw [SymbolTable.find_assign_other _ _ _ _ (hne p hmem)] at h1
          exact h1

theorem declaresFresh_addSymbol (st : ScopeAndTypeChecker) (S : Scope) (name : String)
    (kind : SymbolKind) (type : DataType) (hS : st.currentScope = some S)
    (hfresh : SymbolTable.find S.symbolTable name = none) :
    DeclaresFresh [name] st ⟨some (S.addSymbol name kind type), st.currentFunction⟩ := by
  refine ⟨S, _, hS, rfl, rfl, ?_, ?_⟩
  · intro n hn
    rw [List.mem_singleton] at hn
    subst hn
    refine ⟨hfresh, ?_⟩
    simp only [Scope.addSymbol, Scope.symbolTable, SymbolTable.find_assign_same,
      Option.isSome_some]
  · intro m hm
    rw [List.mem_singleton] at hm
    simp only [Scope.addSymbol, Scope.symbolTable]
    exact SymbolTable.find_assign_other _ _ _ _ hm

theorem declaresFresh_addFunction (st : ScopeAndTypeChecker) (S : Scope) (name : String)
    (ret : DataType) (params : List DataType) (hS : st.currentScope = some S)
    (hfresh : SymbolTable.find S.symbolTable name = none) :
    DeclaresFresh [name] st ⟨some (S.addFunction name ret params), st.currentFunction⟩ := by
  refine ⟨S, _, hS, rfl, rfl, ?_, ?_⟩
  · intro n hn
    rw [List.mem_singleton] at hn
    subst hn
    refine ⟨hfresh, ?_⟩
    simp only [Scope.addFunction, Scope.symbolTable, SymbolTable.find_assign_same,
      Option.isSome_some]
  · intro m hm
    rw [List.mem_singleton] at hm
    simp only [Scope.addFunction, Scope.symbolTable]
    exact SymbolTable.find_assign_other _ _ _ _ hm

theorem declaresFresh_nil (st : ScopeAndTypeChecker) (S : Scope)
    (hS : st.currentScope = some S) : DeclaresFresh [] st st := by
  refine ⟨S, S, hS, ?_, rfl, ?_, fun _ _ => rfl⟩
  · cases st
    simp only at hS
    simp only [hS]
  · intro n hn
    simp at hn

theorem declaresFresh_cons (name : String) (names : List String)
    (st sm st1 : ScopeAndTypeChecker) (h1 : DeclaresFresh [name] st sm)
    (h2 : DeclaresFresh names sm st1) :
    DeclaresFresh (name :: names) st st1 ∧ name ∉ names := by
  obtain ⟨S, S1, hS, hsm, hpar1, hnew1, hold1⟩ := h1
  obtain ⟨S1b, S2, hS1, hst1, hpar2, hnew2, hold2⟩ := h2
  have hS1eq : S1b = S1 := by
    rw [hsm] at hS1
    simp only [Option.some.injEq] at hS1
    exact hS1.symm
  subst hS1eq
  have hname := hnew1 name (List.mem_singleton.mpr rfl)
  have hnot : name ∉ names := by
    intro hmem
    have h3 := (hnew2 name hmem).1
    rw [h3] at hname
    simp at hname
  refine ⟨⟨S, S2, hS, ?_, by rw [hpar2, hpar1], ?_, ?_⟩, hnot⟩
  · rw [hst1, hsm]
  · intro n hn
    rcases List.mem_cons.mp hn with heq | hmem
    · subst heq
      refine ⟨hname.1, ?_⟩
      rw [hold2 n hnot]
      exact hname.2
    · have hne : n ≠ name := fun heq => hnot (heq ▸ hmem)
      have hn1 : n ∉ [name] := by simpa using hne
      refine ⟨?_, (hnew2 n hmem).2⟩
      rw [← hold1 n hn1]
      exact (hnew2 n hmem).1
  · intro m hm
    have hm1 : m ∉ [name] := by
      intro h
      exact hm (List.mem_cons.mpr (Or.inl (List.mem_singleton.mp h)))
    have hm2 : m ∉ names := fun h => hm (List.mem_cons_of_mem _ h)
    rw [hold2 m hm2, hold1 m hm1]

theorem state_eq_of_fields (st st1 : ScopeAndTypeChecker)
    (h1 : st1.currentScope = st.currentScope) (h2 : st1.currentFunction = st.currentFunction) :
    st1 = st := by
  cases st
  cases st1
  simp only at h1 h2
  simp only [h1, h2]

theorem exitScope_some (S : Scope) (cs : Option Scope)
    (h : exitScope (some S) = Except.ok cs) : cs = S.parent := by
  simp only [exitScope, Except.ok.injEq] at h
  exact h.symm

mutual
theorem visitDecl_fresh : ∀ (d : DeclNode) (st st1 : ScopeAndTypeChecker) (d1 : DeclNode),
    visitDecl st d = Except.ok (st1, d1) →
    DeclaresFresh [d.name] st st1 ∧ declNamesUnique false d = true
  | DeclNode.VarDecl name type init, st, st1, d1, h => by
    obtain ⟨init1, hv, _⟩ := visitDecl_varDecl_ok st st1 name type init d1 h
    obtain ⟨S, hS, hfresh, _, _, hst1⟩ := visitVarOrLet_ok st st1 _ name type init init1 hv
    rw [hst1]
    exact ⟨declaresFresh_addSymbol st S name _ _ hS hfresh, by simp only [declNamesUnique]⟩
  | DeclNode.LetDecl name type init, st, st1, d1, h => by
    obtain ⟨init1, hv, _⟩ := visitDecl_letDecl_ok st st1 name type init d1 h
    obtain ⟨S, hS, hfresh, _, _, hst1⟩ := visitVarOrLet_ok st st1 _ name type init init1 hv
    rw [hst1]
    exact ⟨declaresFresh_addSymbol st S name _ _ hS hfresh, by simp only [declNamesUnique]⟩
  | DeclNode.FuncDecl f params ret body, st, st1, d1, h => by
    obtain ⟨G, P, st2, body1, hG, hfresh, hparams, hpar, hb, hexit, hfun, _⟩ :=
      visitDecl_funcDecl_ok st st1 f params ret body d1 h
    obtain ⟨hst2, hbody⟩ := visitBlock_fresh body _ st2 body1 hb
    rw [hst2] at hexit
    have hcs := exitScope_some P _ hexit
    rw [hpar] at hcs
    have hst1 : st1 = ⟨some (G.addFunction f (baseTypeToDataType ret)
        (params.map (fun param => baseTypeToDataType param.type))), st.currentFunction⟩ :=
      state_eq_of_fields _ st1 hcs hfun
    rw [hst1]
    refine ⟨declaresFresh_addFunction st G f _ _ hG hfresh, ?_⟩
    have hnd := (addParams_names params _ _ hparams).1
    simp only [declNamesUnique, hbody, Bool.and_true, decide_eq_true_eq]
    exact hnd
theorem visitStmt_fresh : ∀ (s : StmtNode) (st st1 : ScopeAndTypeChecker) (s1 : StmtNode),
    visitStmt st s = Except.ok (st1, s1) → st1 = st ∧ stmtNamesUnique false s = true
  | StmtNode.Assign name rhs, st, st1, s1, h =>
    ⟨((visitStmt_simple_ok st st1 _ s1 h).1 name rhs rfl).1, by simp only [stmtNamesUnique]⟩
  | StmtNode.Print expr, st, st1, s1, h =>
    ⟨((visitStmt_simple_ok st st1 _ s1 h).2.1 expr rfl).1, by simp only [stmtNamesUnique]⟩
  | StmtNode.Return expr, st, st1, s1, h =>
    ⟨((visitStmt_simple_ok st st1 _ s1 h).2.2 expr rfl).1, by simp only [stmtNamesUnique]⟩
  | StmtNode.If cond thenBlk elseBlk, st, st1, s1, h => by
    obtain ⟨cond1, stt, thenBlk1, elseBlk1, _, ht, he, _⟩ :=
      visitStmt_if_ok st st1 cond thenBlk elseBlk s1 h
    obtain ⟨h1, hu1⟩ := visitBlock_fresh thenBlk st stt thenBlk1 ht
    obtain ⟨h2, hu2⟩ := visitElse_fresh elseBlk stt st1 elseBlk1 he
    exact ⟨by rw [h2, h1], by simp only [stmtNamesUnique, hu1, hu2, Bool.and_self]⟩
  | StmtNode.While cond body, st, st1, s1, h => by
    obtain ⟨cond1, body1, _, hb, _⟩ := visitStmt_while_ok st st1 cond body s1 h
    obtain ⟨h1, hu1⟩ := visitBlock_fresh body st st1 body1 hb
    exact ⟨h1, by simp only [stmtNamesUnique, hu1]⟩
theorem visitElse_fresh : ∀ (e : Option BlockNode) (st st1 : ScopeAndTypeChecker)
    (e1 : Option BlockNode), visitElse st e = Except.ok (st1, e1) →
    st1 = st ∧ elseNamesUnique false e = true
  | none, st, st1, e1, h => by
    simp only [visitElse, Except.ok.injEq, Prod.mk.injEq] at h
    exact ⟨h.1.symm, by simp only [elseNamesUnique]⟩
  | some blk, st, st1, e1, h => by
    simp only [visitElse] at h
    cases hb : visitBlock st blk with
    | error a => simp [hb] at h
    | ok res =>
      obtain ⟨s1, blk1⟩ := res
      simp only [hb, Except.ok.injEq, Prod.mk.injEq] at h
      obtain ⟨h1, hu1⟩ := visitBlock_fresh blk st s1 blk1 hb
      exact ⟨by rw [← h.1, h1], by simp only [elseNamesUnique, hu1]⟩
theorem visitBlock_fresh : ∀ (b : BlockNode) (st st1 : ScopeAndTypeChecker) (b1 : BlockNode),
    visitBlock st b = Except.ok (st1, b1) → st1 = st ∧ blockNamesUnique false b = true
  | BlockNode.mk decls stmts items, st, st1, b1, h => by
    obtain ⟨sd, decls1, ss, stmts1, hd, hs, hexit, hfun, _⟩ :=
      visitBlock_ok st st1 decls stmts items b1 h
    obtain ⟨⟨S, S1, hS, hsd, hpar, _, _⟩, hnd, hud⟩ :=
      visitDecls_fresh decls _ sd decls1 (Scope.mk [] st.currentScope) rfl hd
    obtain ⟨hss, hus⟩ := visitStmts_fresh stmts sd ss stmts1 hs
    simp only [Option.some.injEq] at hS
    subst hS
    rw [hss, hsd] at hexit hfun
    have hcs := exitScope_some S1 _ hexit
    rw [hpar] at hcs
    refine ⟨state_eq_of_fields st st1 hcs hfun, ?_⟩
    simp only [blockNamesUnique, hud, hus, Bool.and_true, Bool.not_false, Bool.true_or,
      decide_eq_true_eq]
    exact hnd
theorem visitDecls_fresh : ∀ (ds : List DeclNode) (st st1 : ScopeAndTypeChecker)
    (ds1 : List DeclNode) (S : Scope), st.currentScope = some S →
    visitDecls st ds = Except.ok (st1, ds1) →
    DeclaresFresh (ds.map DeclNode.name) st st1 ∧ (ds.map DeclNode.name).Nodup ∧
      declsNamesUnique false ds = true
  | [], st, st1, ds1, S, hS, h => by
    simp only [visitDecls, Except.ok.injEq, Prod.mk.injEq] at h
    rw [← h.1]
    exact ⟨declaresFresh_nil st S hS, List.nodup_nil, by simp only [declsNamesUnique]⟩
  | d :: rest, st, st1, ds1, S, hS, h => by
    obtain ⟨sm, d1, rest1, hd, hr, _⟩ := visitDecls_cons_ok st st1 d rest ds1 h
    obtain ⟨hf1, hu1⟩ := visitDecl_fresh d st sm d1 hd
    have hsm : ∃ S1, sm.currentScope = some S1 := by
      obtain ⟨_, S1, _, hsm, _⟩ := hf1
      exact ⟨S1, by rw [hsm]⟩
    obtain ⟨S1, hS1⟩ := hsm
    obtain ⟨hf2, hnd, hu2⟩ := visitDecls_fresh rest sm st1 rest1 S1 hS1 hr
    obtain ⟨hf, hnot⟩ := declaresFresh_cons d.name _ st sm st1 hf1 hf2
    refine ⟨hf, List.nodup_cons.mpr ⟨hnot, hnd⟩, ?_⟩
    simp only [declsNamesUnique, hu1, hu2, Bool.and_self]
theorem visitStmts_fresh : ∀ (ss : List StmtNode) (st st1 : ScopeAndTypeChecker)
    (ss1 : List StmtNode), visitStmts st ss = Except.ok (st1, ss1) →
    st1 = st ∧ stmtsNamesUnique false ss = true
  | [], st, st1, ss1, h => by
    simp only [visitStmts, Except.ok.injEq, Prod.mk.injEq] at h
    exact ⟨h.1.symm, by simp only [stmtsNamesUnique]⟩
  | s :: rest, st, st1, ss1, h => by
    obtain ⟨sm, s1, rest1, hd, hr, _⟩ := visitStmts_cons_ok st st1 s rest ss1 h
    obtain ⟨h1, hu1⟩ := visitStmt_fresh s st sm s1 hd
    obtain ⟨h2, hu2⟩ := visitStmts_fresh rest sm st1 rest1 hr
    exact ⟨by rw [h2, h1], by simp only [stmtsNamesUnique, hu1, hu2, Bool.and_self]⟩
end

/-- In an accepted program every scope the pass has built holds distinct names:
the top-level declarations, the parameters of each function, and the
declarations of each block reached through `decls` and `stmts`; and from the
empty global scope the pass has only ever bound names that were absent. -/
theorem visitProgram_visited_names_unique (p p1 : ProgramNode) (st : ScopeAndTypeChecker)
    (h : visitProgram p = Except.ok (st, p1)) :
    programNamesUnique false p = true ∧
      DeclaresFresh (p.declarations.map DeclNode.name) ⟨some (Scope.mk [] none), none⟩ st := by
  simp only [visitProgram] at h
  cases hd : visitDecls ⟨some (Scope.mk [] none), none⟩ p.declarations with
  | error a => simp [hd] at h
  | ok res =>
    obtain ⟨s1, ds1⟩ := res
    simp only [hd, Except.ok.injEq, Prod.mk.injEq] at h
    obtain ⟨hf, hnd, hu⟩ := visitDecls_fresh p.declarations _ s1 ds1 _ rfl hd
    rw [← h.1]
    refine ⟨?_, hf⟩
    simp only [programNamesUnique, hu, Bool.and_true, decide_eq_true_eq]
    exact hnd

/-! ## Every expression the pass visits gets a type -/

theorem baseTypeToDataType_ne_iota (t : BaseType) : baseTypeToDataType t ≠ DataType.IOTA := by
  cases t <;> simp [baseTypeToDataType]

theorem isNumeric_ne_iota (t : DataType) (h : isNumeric t = true) : t ≠ DataType.IOTA := by
  cases t <;> simp [isNumeric] at h ⊢

theorem binaryOpType_ne_iota (op : BinOp) (l r t : DataType)
    (h : binaryOpType op l r = Except.ok t) : t ≠ DataType.IOTA := by
  unfold binaryOpType at h
  split at h
  · split at h
    · simp [throwSem] at h
    · split at h
      · simp only [Except.ok.injEq] at h
        rw [← h]; decide
      · simp only [Except.ok.injEq] at h
        rw [← h]; decide
  · simp only at h
    split at h
    · simp [throwSem] at h
    · simp only [Except.ok.injEq] at h
      rw [← h]; decide

theorem scopeTyped_empty : ScopeTyped (some (Scope.mk [] none)) := by
  intro S name b hS hl
  simp only [Option.some.injEq] at hS
  subst hS
  rw [Scope.lookup_mk] at hl
  simp [SymbolTable.find] at hl

theorem scopeTyped_child (cs : Option Scope) (h : ScopeTyped cs) :
    ScopeTyped (some (Scope.mk [] cs)) := by
  intro S name b hS hl
  simp only [Option.some.injEq] at hS
  subst hS
  rw [Scope.lookup_mk] at hl
  cases cs with
  | none => simp [SymbolTable.find] at hl
  | some q =>
    simp only [SymbolTable.find, List.lookup] at hl
    exact h q name b rfl hl

theorem scopeTyped_assign (t : SymbolTable) (p : Option Scope) (name : String)
    (info : SymbolInfo) (h : ScopeTyped (some (Scope.mk t p)))
    (hinfo : info.type ≠ DataType.IOTA) :
    ScopeTyped (some (Scope.mk (SymbolTable.assign t name info) p)) := by
  intro S m b hS hl
  simp only [Option.some.injEq] at hS
  subst hS
  rw [Scope.lookup_mk] at hl
  by_cases hm : m = name
  · subst hm
    simp only [SymbolTable.find_assign_same, Option.some.injEq] at hl
    rw [← hl]; exact hinfo
  · rw [SymbolTable.find_assign_other _ _ _ _ hm] at hl
    rw [← Scope.lookup_mk] at hl
    exact h _ m b rfl hl

theorem scopeTyped_addSymbol (S : Scope) (name : String) (kind : SymbolKind) (type : DataType)
    (h : ScopeTyped (some S)) (ht : type ≠ DataType.IOTA) :
    ScopeTyped (some (S.addSymbol name kind type)) := by
  cases S with
  | mk t p => exact scopeTyped_assign t p name _ h ht

theorem scopeTyped_addFunction (S : Scope) (name : String) (ret : DataType)
    (params : List DataType) (h : ScopeTyped (some S)) (ht : ret ≠ DataType.IOTA) :
    ScopeTyped (some (S.addFunction name ret params)) := by
  cases S with
  | mk t p => exact scopeTyped_assign t p name _ h ht

theorem scopeTyped_addParams : ∀ (params : List ParamNode) (S : Scope) (cs : Option Scope),
    ScopeTyped (some S) → addParams (some S) params = Except.ok cs → ScopeTyped cs
  | [], S, cs, hS, h => by
    simp only [addParams, Except.ok.injEq] at h
    rw [← h]; exact hS
  | param :: rest, S, cs, hS, h => by
    rw [addParams] at h
    by_cases hex : S.existsInCurrentScope param.name = true
    · simp [hex, throwSem] at h
    · simp only [hex] at h
      exact scopeTyped_addParams rest _ cs
        (scopeTyped_addSymbol S _ _ _ hS (baseTypeToDataType_ne_iota _)) h

mutual
theorem visitExp_annotated (cs : Option Scope) (hcs : ScopeTyped cs) :
    ∀ (e e1 : ExpNode), visitExp cs e = Except.ok e1 → expAnnotated e1 = true
  | ExpNode.IntLit _ _, e1, h => by
    simp [visitExp] at h; subst h; simp [expAnnotated]
  | ExpNode.FloatLit _ _, e1, h => by
    simp [visitExp] at h; subst h; simp [expAnnotated]
  | ExpNode.BoolLit _ _, e1, h => by
    simp [visitExp] at h; subst h; simp [expAnnotated]
  | ExpNode.Id _ name, e1, h => by
    simp only [visitExp] at h
    cases hl : lookupCurrent cs name with
    | error a => simp [hl] at h
    | ok o =>
      cases o with
      | none => simp [hl, throwSem] at h
      | some symbol =>
        simp only [hl] at h
        by_cases hk : symbol.kind = SymbolKind.Function
        · simp [hk, throwSem] at h
        · simp only [hk, if_false, Except.ok.injEq] at h
          subst h
          cases cs with
          | none => simp [lookupCurrent] at hl
          | some S =>
            simp only [lookupCurrent, Except.ok.injEq] at hl
            simp only [expAnnotated, decide_eq_true_eq]
            exact hcs S name symbol rfl hl
  | ExpNode.UnaryOp _ op expr, e1, h => by
    cases op
    simp only [visitExp] at h
    cases hv : visitExp cs expr with
    | error a => simp [hv] at h
    | ok expr1 =>
      have ih := visitExp_annotated cs hcs expr expr1 hv
      simp only [hv, if_true] at h
      by_cases hn : isNumeric expr1.dataType = true
      · simp only [hn, Bool.not_true, Bool.false_eq_true, if_false, Except.ok.injEq] at h
        subst h
        simp only [expAnnotated, ih, Bool.and_true, decide_eq_true_eq]
        exact isNumeric_ne_iota _ hn
      · simp [hn, throwSem] at h
  | ExpNode.BinaryOp _ op left right, e1, h => by
    simp only [visitExp] at h
    cases hl : visitExp cs left with
    | error a => simp [hl] at h
    | ok left1 =>
      cases hr : visitExp cs right with
      | error a => simp [hl, hr] at h
      | ok right1 =>
        have ihl := visitExp_annotated cs hcs left left1 hl
        have ihr := visitExp_annotated cs hcs right right1 hr
        simp only [hl, hr] at h
        cases hb : binaryOpType op left1.dataType right1.dataType with
        | error a => simp [hb] at h
        | ok t =>
          simp only [hb, Except.ok.injEq] at h
          subst h
          simp only [expAnnotated, ihl, ihr, Bool.and_true, decide_eq_true_eq]
          exact binaryOpType_ne_iota _ _ _ _ hb
  | ExpNode.Call _ callee args, e1, h => by
    simp only [visitExp] at h
    cases hl : lookupCurrent cs callee with
    | error a => simp [hl] at h
    | ok o =>
      cases o with
      | none => simp [hl, throwSem] at h
      | some symbol =>
        simp only [hl] at h
        by_cases hk : symbol.kind = SymbolKind.Function
        · by_cases hlen : args.length = symbol.paramTypes.length
          · simp only [hk, hlen, ne_eq, not_true_eq_false, if_false] at h
            cases hv : visitArgs cs callee symbol.paramTypes 0 [] args with
            | error a => simp [hv] at h
            | ok args1 =>
              have ih := visitArgs_annotated cs hcs callee args _ _ _ args1 hv
              simp only [hv, Except.ok.injEq] at h
              subst h
              cases cs with
              | none => simp [lookupCurrent] at hl
              | some S =>
                simp only [lookupCurrent, Except.ok.injEq] at hl
                simp only [expAnnotated, ih, Bool.and_true, decide_eq_true_eq]
                exact hcs S callee symbol rfl hl
          · simp [hk, hlen, throwSem] at h
        · simp [hk, throwSem] at h
theorem visitArgs_annotated (cs : Option Scope) (hcs : ScopeTyped cs) (callee : String) :
    ∀ (args : List ExpNode) (paramTypes : List DataType) (i : Nat) (argTypes : List DataType)
      (args1 : List ExpNode),
      visitArgs cs callee paramTypes i argTypes args = Except.ok args1 →
        argsAnnotated args1 = true
  | [], _, _, _, args1, h => by
    simp only [visitArgs, Except.ok.injEq] at h
    subst h; simp [argsAnnotated]
  | arg :: rest, paramTypes, i, argTypes, args1, h => by
    simp only [visitArgs] at h
    cases hv : visitExp cs arg with
    | error a => simp [hv] at h
    | ok arg1 =>
      have ih := visitExp_annotated cs hcs arg arg1 hv
      simp only [hv] at h
      cases hp : paramTypes[i]? with
      | none => simp [hp] at h
      | some paramType =>
        simp only [hp] at h
        by_cases hc : isAssignmentCompatible paramType arg1.dataType = true
        · simp only [hc, Bool.not_true, Bool.false_eq_true, if_false] at h
          cases hr : visitArgs cs callee paramTypes (i + 1) (argTypes ++ [arg1.dataType]) rest with
          | error a => simp [hr] at h
          | ok rest1 =>
            have ihr := visitArgs_annotated cs hcs callee rest _ _ _ rest1 hr
            simp only [hr, Except.ok.injEq] at h
            subst h
            simp only [argsAnnotated, ih, ihr, Bool.and_self]
        · simp [hc, throwSem] at h
end

theorem visitDecl_funcDecl_state (st st1 : ScopeAndTypeChecker) (f : String)
    (params : List ParamNode) (ret : BaseType) (body : BlockNode) (d1 : DeclNode)
    (h : visitDecl st (DeclNode.FuncDecl f params ret body) = Except.ok (st1, d1)) :
    ∃ G, st.currentScope = some G ∧
      st1 = ⟨some (G.addFunction f (baseTypeToDataType ret)
        (params.map (fun param => baseTypeToDataType param.type))), st.currentFunction⟩ := by
  obtain ⟨G, P, st2, body1, hG, _, _, hpar, hb, hexit, hfun, _⟩ :=
    visitDecl_funcDecl_ok st st1 f params ret body d1 h
  obtain ⟨hst2, _⟩ := visitBlock_fresh body _ st2 body1 hb
  rw [hst2] at hexit
  have hcs := exitScope_some P _ hexit
  rw [hpar] at hcs
  exact ⟨G, hG, state_eq_of_fields _ st1 hcs hfun⟩

mutual
theorem visitDecl_annotated : ∀ (d : DeclNode) (st st1 : ScopeAndTypeChecker) (d1 : DeclNode),
    ScopeTyped st.currentScope → visitDecl st d = Except.ok (st1, d1) →
    ScopeTyped st1.currentScope ∧ declAnnotated false d1 = true
  | DeclNode.VarDecl name type init, st, st1, d1, hty, h => by
    obtain ⟨init1, hv, hd⟩ := visitDecl_varDecl_ok st st1 name type init d1 h
    obtain ⟨S, hS, _, hvis, _, hst1⟩ := visitVarOrLet_ok st st1 _ name type init init1 hv
    rw [hS] at hty
    rw [hst1, hd]
    exact ⟨scopeTyped_addSymbol S _ _ _ hty (baseTypeToDataType_ne_iota _),
      by simp only [declAnnotated, visitExp_annotated _ hty init init1 hvis]⟩
  | DeclNode.LetDecl name type init, st, st1, d1, hty, h => by
    obtain ⟨init1, hv, hd⟩ := visitDecl_letDecl_ok st st1 name type init d1 h
    obtain ⟨S, hS, _, hvis, _, hst1⟩ := visitVarOrLet_ok st st1 _ name type init init1 hv
    rw [hS] at hty
    rw [hst1, hd]
    exact ⟨scopeTyped_addSymbol S _ _ _ hty (baseTypeToDataType_ne_iota _),
      by simp only [declAnnotated, visitExp_annotated _ hty init init1 hvis]⟩
  | DeclNode.FuncDecl f params ret body, st, st1, d1, hty, h => by
    obtain ⟨G, hG, hst1⟩ := visitDecl_funcDecl_state st st1 f params ret body d1 h
    obtain ⟨G2, P, st2, body1, hG2, _, hparams, _, hb, _, _, hd⟩ :=
      visitDecl_funcDecl_ok st st1 f params ret body d1 h
    rw [hG] at hty hG2
    simp only [Option.some.injEq] at hG2
    subst hG2
    have houter := scopeTyped_addFunction G f (baseTypeToDataType ret)
      (params.map (fun param => baseTypeToDataType param.type)) hty
      (baseTypeToDataType_ne_iota _)
    have hP := scopeTyped_addParams params _ _ (scopeTyped_child _ houter) hparams
    have hbody := visitBlock_annotated body _ st2 body1 hP hb
    rw [hst1, hd]
    exact ⟨houter, by simp only [declAnnotated, hbody]⟩
theorem visitStmt_annotated : ∀ (s : StmtNode) (st st1 : ScopeAndTypeChecker) (s1 : StmtNode),
    ScopeTyped st.currentScope → visitStmt st s = Except.ok (st1, s1) →
    stmtAnnotated false s1 = true
  | StmtNode.Assign name rhs, st, st1, s1, hty, h => by
    obtain ⟨_, rhs1, hv, hs⟩ := (visitStmt_simple_ok st st1 _ s1 h).1 name rhs rfl
    rw [hs]
    simp only [stmtAnnotated, visitExp_annotated _ hty rhs rhs1 hv]
  | StmtNode.Print expr, st, st1, s1, hty, h => by
    obtain ⟨_, expr1, hv, hs⟩ := (visitStmt_simple_ok st st1 _ s1 h).2.1 expr rfl
    rw [hs]
    simp only [stmtAnnotated, visitExp_annotated _ hty expr expr1 hv]
  | StmtNode.Return expr, st, st1, s1, hty, h => by
    obtain ⟨_, expr1, hv, hs⟩ := (visitStmt_simple_ok st st1 _ s1 h).2.2 expr rfl
    rw [hs]
    simp only [stmtAnnotated, visitExp_annotated _ hty expr expr1 hv]
  | StmtNode.If cond thenBlk elseBlk, st, st1, s1, hty, h => by
    obtain ⟨cond1, stt, thenBlk1, elseBlk1, hc, ht, he, hs⟩ :=
      visitStmt_if_ok st st1 cond thenBlk elseBlk s1 h
    have hstt := (visitBlock_fresh thenBlk st stt thenBlk1 ht).1
    have h1 := visitBlock_annotated thenBlk st stt thenBlk1 hty ht
    have h2 := visitElse_annotated elseBlk stt st1 elseBlk1 (by rw [hstt]; exact hty) he
    rw [hs]
    simp only [stmtAnnotated, visitExp_annotated _ hty cond cond1 hc, h1, h2, Bool.and_self]
  | StmtNode.While cond body, st, st1, s1, hty, h => by
    obtain ⟨cond1, body1, hc, hb, hs⟩ := visitStmt_while_ok st st1 cond body s1 h
    have h1 := visitBlock_annotated body st st1 body1 hty hb
    rw [hs]
    simp only [stmtAnnotated, visitExp_annotated _ hty cond cond1 hc, h1, Bool.and_self]
theorem visitElse_annotated : ∀ (e : Option BlockNode) (st st1 : ScopeAndTypeChecker)
    (e1 : Option BlockNode), ScopeTyped st.currentScope →
    visitElse st e = Except.ok (st1, e1) → elseAnnotated false e1 = true
  | none, st, st1, e1, _, h => by
    simp only [visitElse, Except.ok.injEq, Prod.mk.injEq] at h
    rw [← h.2]
    simp only [elseAnnotated]
  | some blk, st, st1, e1, hty, h => by
    simp only [visitElse] at h
    cases hb : visitBlock st blk with
    | error a => simp [hb] at h
    | ok res =>
      obtain ⟨s1, blk1⟩ := res
      simp only [hb, Except.ok.injEq, Prod.mk.injEq] at h
      rw [← h.2]
      simp only [elseAnnotated, visitBlock_annotated blk st s1 blk1 hty hb]
theorem visitBlock_annotated : ∀ (b : BlockNode) (st st1 : ScopeAndTypeChecker) (b1 : BlockNode),
    ScopeTyped st.currentScope → visitBlock st b = Except.ok (st1, b1) →
    blockAnnotated false b1 = true
  | BlockNode.mk decls stmts items, st, st1, b1, hty, h => by
    obtain ⟨sd, decls1, ss, stmts1, hd, hs, _, _, hb⟩ :=
      visitBlock_ok st st1 decls stmts items b1 h
    obtain ⟨hsd, hda⟩ := visitDecls_annotated decls _ sd decls1 (scopeTyped_child _ hty) hd
    have hsa := visitStmts_annotated stmts sd ss stmts1 hsd hs
    rw [hb]
    simp only [blockAnnotated, hda, hsa, Bool.and_self, Bool.not_false, Bool.true_or]
theorem visitDecls_annotated : ∀ (ds : List DeclNode) (st st1 : ScopeAndTypeChecker)
    (ds1 : List DeclNode), ScopeTyped st.currentScope →
    visitDecls st ds = Except.ok (st1, ds1) →
    ScopeTyped st1.currentScope ∧ declsAnnotated false ds1 = true
  | [], st, st1, ds1, hty, h => by
    simp only [visitDecls, Except.ok.injEq, Prod.mk.injEq] at h
    rw [← h.1, ← h.2]
    exact ⟨hty, by simp only [declsAnnotated]⟩
  | d :: rest, st, st1, ds1, hty, h => by
    obtain ⟨sm, d1, rest1, hd, hr, ho⟩ := visitDecls_cons_ok st st1 d rest ds1 h
    obtain ⟨hsm, ha1⟩ := visitDecl_annotated d st sm d1 hty hd
    obtain ⟨hst1, ha2⟩ := visitDecls_annotated rest sm st1 rest1 hsm hr
    rw [ho]
    exact ⟨hst1, by simp only [declsAnnotated, ha1, ha2, Bool.and_self]⟩
theorem visitStmts_annotated : ∀ (ss : List StmtNode) (st st1 : ScopeAndTypeChecker)
    (ss1 : List StmtNode), ScopeTyped st.currentScope →
    visitStmts st ss = Except.ok (st1, ss1) → stmtsAnnotated false ss1 = true
  | [], st, st1, ss1, _, h => by
    simp only [visitStmts, Except.ok.injEq, Prod.mk.injEq] at h
    rw [← h.2]
    simp only [stmtsAnnotated]
  | s :: rest, st, st1, ss1, hty, h => by
    obtain ⟨sm, s1, rest1, hd, hr, ho⟩ := visitStmts_cons_ok st st1 s rest ss1 h
    have hsm := (visitStmt_fresh s st sm s1 hd).1
    have ha1 := visitStmt_annotated s st sm s1 hty hd
    have ha2 := visitStmts_annotated rest sm st1 rest1 (by rw [hsm]; exact hty) hr
    rw [ho]
    simp only [stmtsAnnotated, ha1, ha2, Bool.and_self]
end

/-- In the tree an accepted program is left as, every expression reached through
`decls` and `stmts` has a `dataType` in `INT`, `FLOAT`, `BOOL`. -/
theorem visitProgram_visited_annotated (p p1 : ProgramNode) (st : ScopeAndTypeChecker)
    (h : visitProgram p = Except.ok (st, p1)) : programAnnotated false p1 = true := by
  simp only [visitProgram] at h
  cases hd : visitDecls ⟨some (Scope.mk [] none), none⟩ p.declarations with
  | error a => simp [hd] at h
  | ok res =>
    obtain ⟨s1, ds1⟩ := res
    simp only [hd, Except.ok.injEq, Prod.mk.injEq] at h
    rw [← h.2]
    exact (visitDecls_annotated p.declarations _ s1 ds1 scopeTyped_empty hd).2

/-! ## The compatibility relation is not an order -/

/-- C29: `isAssignmentCompatible` is not transitive, with `FLOAT`, `INT`, `BOOL`
as the three types (a `FLOAT` target takes an `INT`, an `INT` target takes a
`BOOL`, a `FLOAT` target does not take a `BOOL`), and it is not symmetric (a
`FLOAT` target takes an `INT`, an `INT` target does not take a `FLOAT`). -/
theorem isAssignmentCompatible_not_transitive_not_symmetric :
    (isAssignmentCompatible DataType.FLOAT DataType.INT = true ∧
      isAssignmentCompatible DataType.INT DataType.BOOL = true ∧
      isAssignmentCompatible DataType.FLOAT DataType.BOOL = false) ∧
    (∃ a b c, isAssignmentCompatible a b = true ∧ isAssignmentCompatible b c = true ∧
      isAssignmentCompatible a c = false) ∧
    (isAssignmentCompatible DataType.FLOAT DataType.INT = true ∧
      isAssignmentCompatible DataType.INT DataType.FLOAT = false) ∧
    ¬ (∀ a b, isAssignmentCompatible a b = true → isAssignmentCompatible b a = true) := by
  refine ⟨by decide, ⟨DataType.FLOAT, DataType.INT, DataType.BOOL, by decide⟩, by decide, ?_⟩
  intro h
  exact absurd (h DataType.FLOAT DataType.INT (by decide)) (by decide)

/-! ## Unary minus -/

/-- C30: when the operand of a `Neg` node types to `expr1`, with type `T`, the
node is accepted iff `T` is `INT` or `FLOAT`; then the result is the node with
`dataType` equal to `T`; otherwise the visit throws `INVALID_UNARY_OPERATION`
with `actualType` equal to `T`. -/
theorem unaryOp_neg (cs : Option Scope) (dt : DataType) (expr expr1 : ExpNode)
    (h : visitExp cs expr = Except.ok expr1) :
    (accepted (visitExp cs (ExpNode.UnaryOp dt UnOp.Neg expr)) = true ↔
      (expr1.dataType = DataType.INT ∨ expr1.dataType = DataType.FLOAT)) ∧
    ((expr1.dataType = DataType.INT ∨ expr1.dataType = DataType.FLOAT) →
      visitExp cs (ExpNode.UnaryOp dt UnOp.Neg expr) =
        Except.ok (ExpNode.UnaryOp expr1.dataType UnOp.Neg expr1)) ∧
    (¬ (expr1.dataType = DataType.INT ∨ expr1.dataType = DataType.FLOAT) →
      visitExp cs (ExpNode.UnaryOp dt UnOp.Neg expr) =
        throwSem SemanticErrorType.INVALID_UNARY_OPERATION
          (SemanticErrorContext.ActualType expr1.dataType)) := by
  have hnum : isNumeric expr1.dataType = true ↔
      (expr1.dataType = DataType.INT ∨ expr1.dataType = DataType.FLOAT) := by
    simp [isNumeric]
  by_cases hn : isNumeric expr1.dataType = true
  · have hv : visitExp cs (ExpNode.UnaryOp dt UnOp.Neg expr) =
        Except.ok (ExpNode.UnaryOp expr1.dataType UnOp.Neg expr1) := by
      simp only [visitExp, h, hn, if_true, Bool.not_true, Bool.false_eq_true, if_false]
    refine ⟨?_, fun _ => hv, fun hneg => absurd (hnum.mp hn) hneg⟩
    rw [hv]
    exact ⟨fun _ => hnum.mp hn, fun _ => rfl⟩
  · have hv : visitExp cs (ExpNode.UnaryOp dt UnOp.Neg expr) =
        throwSem SemanticErrorType.INVALID_UNARY_OPERATION
          (SemanticErrorContext.ActualType expr1.dataType) := by
      simp [visitExp, h, hn]
    refine ⟨?_, fun hpos => absurd (hnum.mpr hpos) hn, fun _ => hv⟩
    rw [hv]
    constructor
    · intro hacc
      simp [accepted, throwSem] at hacc
    · intro hpos
      exact absurd (hnum.mpr hpos) hn

theorem unaryOp_neg_witness :
    visitExp none (ExpNode.BoolLit DataType.IOTA true) =
        Except.ok (ExpNode.BoolLit DataType.BOOL true) ∧
      visitExp none (ExpNode.UnaryOp DataType.IOTA UnOp.Neg (ExpNode.BoolLit DataType.IOTA true)) =
        throwSem SemanticErrorType.INVALID_UNARY_OPERATION
          (SemanticErrorContext.ActualType DataType.BOOL) :=
  ⟨rfl, (unaryOp_neg none DataType.IOTA (ExpNode.BoolLit DataType.IOTA true) _ rfl).2.2
    (by decide)⟩

/-! ## The code of an expression -/

theorem CodeGenVisitor.withText_withText (g : CodeGenVisitor) (a b : List String) :
    (g.withText a).withText b = g.withText b := rfl

theorem CodeGenVisitor.withText_emit (g : CodeGenVisitor) (a b : List String) :
    (g.withText a).emit b = g.withText (a ++ b) := rfl

theorem CodeGenVisitor.withText_self (g : CodeGenVisitor) : g.withText g.textSection = g := rfl

theorem CodeGenVisitor.emit_eq_withText (g : CodeGenVisitor) (a : List String) :
    g.emit a = g.withText (g.textSection ++ a) := rfl

theorem CodeGenVisitor.withText_textSection (g : CodeGenVisitor) (a : List String) :
    (g.withText a).textSection = a := rfl

theorem lookupVariable_withText (g : CodeGenVisitor) (a : List String) (name : String) :
    lookupVariable (g.withText a) name = lookupVariable g name := rfl

mutual
theorem genExp_withText : ∀ (e : ExpNode) (g : CodeGenVisitor) (pre : List String),
    genExp e (g.withText pre) = g.withText (pre ++ expCode g e)
  | ExpNode.IntLit _ _, g, pre => by
    simp only [expCode, genExp, CodeGenVisitor.withText_emit,
      CodeGenVisitor.withText_textSection, List.nil_append]
  | ExpNode.FloatLit _ _, g, pre => by
    simp only [expCode, genExp, CodeGenVisitor.withText_emit,
      CodeGenVisitor.withText_textSection, List.nil_append]
  | ExpNode.BoolLit _ _, g, pre => by
    simp only [expCode, genExp, CodeGenVisitor.withText_emit,
      CodeGenVisitor.withText_textSection, List.nil_append]
  | ExpNode.Id _ name, g, pre => by
    have hcf : ∀ a, (g.withText a).currentFunc = g.currentFunc := fun _ => rfl
    simp only [expCode, genExp, lookupVariable_withText, hcf]
    cases g.currentFunc with
    | none =>
      simp only [CodeGenVisitor.withText_emit, CodeGenVisitor.withText_textSection,
        List.nil_append]
    | some key =>
      cases lookupVariable g name <;>
        simp only [CodeGenVisitor.withText_emit, CodeGenVisitor.withText_textSection,
          List.nil_append]
  | ExpNode.UnaryOp _ op expr, g, pre => by
    cases op
    have ih := genExp_withText expr g
    rw [expCode]
    simp only [genExp, ih, if_true, CodeGenVisitor.withText_emit,
      CodeGenVisitor.withText_textSection, List.nil_append, List.append_assoc]
  | ExpNode.BinaryOp _ op left right, g, pre => by
    have ihl := genExp_withText left g
    have ihr := genExp_withText right g
    rw [expCode]
    simp only [genExp, ihl, ihr, CodeGenVisitor.withText_emit,
      CodeGenVisitor.withText_textSection, List.nil_append, List.append_assoc]
  | ExpNode.Call _ callee args, g, pre => by
    have iha := genArgs_withText args g
    have hcf : ∀ a, (g.withText a).currentFunc = g.currentFunc := fun _ => rfl
    rw [expCode]
    simp only [genExp, hcf]
    cases g.currentFunc with
    | none =>
      simp only [CodeGenVisitor.withText_emit, CodeGenVisitor.withText_textSection,
        List.nil_append]
    | some key =>
      simp only [iha]
      by_cases hempty : args.isEmpty = true
      · simp only [hempty, if_true, CodeGenVisitor.withText_emit,
          CodeGenVisitor.withText_textSection, List.nil_append, List.append_assoc]
      · simp only [hempty, Bool.false_eq_true, if_false, CodeGenVisitor.withText_emit,
          CodeGenVisitor.withText_textSection, List.nil_append, List.append_assoc]
theorem genArgs_withText : ∀ (args : List ExpNode) (g : CodeGenVisitor) (pre : List String),
    genArgs args (g.withText pre) = g.withText (pre ++ argsCode g args)
  | [], g, pre => by
    simp only [argsCode, genArgs, CodeGenVisitor.withText_textSection, List.append_nil]
  | arg :: rest, g, pre => by
    have ih := genExp_withText arg g
    have ihr := genArgs_withText rest g
    rw [argsCode]
    simp only [genArgs, ih, ihr, CodeGenVisitor.withText_emit,
      CodeGenVisitor.withText_textSection, List.nil_append, List.append_assoc]
end

theorem genExp_eq_emit (e : ExpNode) (g : CodeGenVisitor) : genExp e g = g.emit (expCode g e) := by
  have h := genExp_withText e g g.textSection
  rw [CodeGenVisitor.withText_self] at h
  rw [h]
  rfl

theorem genArgs_eq_emit (args : List ExpNode) (g : CodeGenVisitor) :
    genArgs args g = g.emit (argsCode g args) := by
  have h := genArgs_withText args g g.textSection
  rw [CodeGenVisitor.withText_self] at h
  rw [h]
  rfl

theorem expCode_withText (g : CodeGenVisitor) (a : List String) (e : ExpNode) :
    expCode (g.withText a) e = expCode g e := rfl

theorem argsCode_cons (g : CodeGenVisitor) (arg : ExpNode) (rest : List ExpNode) :
    argsCode g (arg :: rest) = expCode g arg ++ pushT0 ++ argsCode g rest := by
  simp only [argsCode, genArgs]
  rw [genExp_withText arg g [], CodeGenVisitor.withText_emit, genArgs_withText rest g]
  simp only [CodeGenVisitor.withText, List.nil_append, pushT0, argsCode]

theorem argsCode_eq_spec (g : CodeGenVisitor) :
    ∀ args : List ExpNode, argsCode g args = specPushedArgs g args
  | [] => rfl
  | arg :: rest => by
    rw [argsCode_cons, argsCode_eq_spec g rest]
    simp only [specPushedArgs, List.flatMap_cons, List.append_assoc]

theorem binOpLines_eq_spec (op : BinOp) : binOpLines op = specBinOpLines op := by
  cases op <;> decide

/-- C23: the code of a binary operation is the code of the left operand, the
push of `$t0`, the code of the right operand, the pop into `$t1`, and the
operator step with the left operand in `$t1` and the right in `$t0`:
`add`, `sub`, `mul`, `seq`, `sne`, `slt`, `sgt`, `sle`, `sge` on
`$t0, $t1, $t0`, and for `Div` the test for zero, `div $t1, $t0`, `mflo $t0`. -/
theorem binaryOp_code (g : CodeGenVisitor) (dt : DataType) (op : BinOp) (left right : ExpNode) :
    genExp (ExpNode.BinaryOp dt op left right) g =
      g.emit (expCode g left ++ ["    addi $sp, $sp, -4", "    sw $t0, 0($sp)"] ++
        expCode g right ++ ["    lw $t1, 0($sp)", "    addi $sp, $sp, 4"] ++
        specBinOpLines op) := by
  simp only [genExp]
  rw [genExp_eq_emit left g, CodeGenVisitor.emit_eq_withText g,
    CodeGenVisitor.withText_emit, genExp_withText right g, CodeGenVisitor.withText_emit,
    CodeGenVisitor.withText_emit, binOpLines_eq_spec, CodeGenVisitor.emit_eq_withText]
  simp only [List.append_assoc]

/-- C22 (as amended): inside a function, a call with `N` arguments, `N` below
`2^29` so that the product `4*N` is in the range of `int`, writes, for each
argument from left to right, the argument's code and the push of `$t0`, then
`jal <callee>`, then for `N > 0` the pop `addi $sp, $sp, <4*N>` and for `N = 0`
no pop, then `move $t0, $v0`. -/
theorem call_code (g : CodeGenVisitor) (key : String) (dt : DataType) (callee : String)
    (args : List ExpNode) (hin : g.currentFunc = some key) (hN : args.length < 2 ^ 29) :
    genExp (ExpNode.Call dt callee args) g =
      g.emit (specPushedArgs g args ++ ["    jal " ++ callee] ++
        (if args.isEmpty then []
         else ["    addi $sp, $sp, " ++ toString (4 * (args.length : Int))]) ++
        ["    move $t0, $v0"]) := by
  simp only [genExp, hin]
  rw [genArgs_eq_emit, argsCode_eq_spec, wrapInt_size_mul _ hN]
  cases args with
  | nil =>
    simp only [List.isEmpty_nil, if_true, CodeGenVisitor.emit_eq_withText,
      CodeGenVisitor.withText, List.append_assoc, List.append_nil]
  | cons a rest =>
    simp only [List.isEmpty_cons, Bool.false_eq_true, if_false,
      CodeGenVisitor.emit_eq_withText, CodeGenVisitor.withText, List.append_assoc]

theorem call_code_witness :
    genExp (ExpNode.Call DataType.IOTA "add"
        [ExpNode.IntLit DataType.IOTA 3, ExpNode.IntLit DataType.IOTA 4]) insideMain =
      insideMain.emit
        ["    li $t0, 3", "    addi $sp, $sp, -4", "    sw $t0, 0($sp)",
         "    li $t0, 4", "    addi $sp, $sp, -4", "    sw $t0, 0($sp)",
         "    jal add", "    addi $sp, $sp, 8", "    move $t0, $v0"] :=
  (call_code insideMain "main" DataType.IOTA "add"
    [ExpNode.IntLit DataType.IOTA 3, ExpNode.IntLit DataType.IOTA 4] rfl (by decide)).trans rfl

/-- C22 (as stated, refuted): inside `main`, the call `f()` writes `jal f` and
`move $t0, $v0` and no line `addi $sp, $sp, 0`. -/
theorem call_without_arguments_has_no_pop :
    expCode insideMain (ExpNode.Call DataType.IOTA "f" []) = ["    jal f", "    move $t0, $v0"] ∧
    expCode insideMain (ExpNode.Call DataType.IOTA "f" []) ≠
      ["    jal f", "    addi $sp, $sp, 0", "    move $t0, $v0"] := by
  have h : expCode insideMain (ExpNode.Call DataType.IOTA "f" []) =
      ["    jal f", "    move $t0, $v0"] := by decide
  exact ⟨h, by rw [h]; decide⟩

/-! ## Identifiers in the generated code -/

theorem lookupFrames_eq_none (name : String) :
    ∀ frames : List (List (String × VariableInfo)),
      lookupFrames name frames = none ↔ ∀ frame ∈ frames, StdMap.find frame name = none
  | [] => by simp [lookupFrames]
  | frame :: rest => by
    have ih := lookupFrames_eq_none name rest
    cases hf : StdMap.find frame name with
    | none => simp [lookupFrames, hf, ih]
    | some v => simp [lookupFrames, hf]

theorem lookupFrames_eq_some (name : String) (offset : Int) :
    ∀ frames : List (List (String × VariableInfo)),
      lookupFrames name frames = some offset ↔
        ∃ above frame below, frames = above ++ frame :: below ∧
          (∀ f ∈ above, StdMap.find f name = none) ∧ StdMap.find frame name = some ⟨offset⟩
  | [] => by simp [lookupFrames]
  | frame :: rest => by
    have ih := lookupFrames_eq_some name offset rest
    cases hf : StdMap.find frame name with
    | none =>
      simp only [lookupFrames, hf, ih]
      constructor
      · rintro ⟨above, fr, below, hrest, habove, hfr⟩
        refine ⟨frame :: above, fr, below, by rw [hrest]; rfl, ?_, hfr⟩
        intro f hmem
        rcases List.mem_cons.mp hmem with h | h
        · rw [h]; exact hf
        · exact habove f h
      · rintro ⟨above, fr, below, hrest, habove, hfr⟩
        cases above with
        | nil =>
          simp only [List.nil_append, List.cons.injEq] at hrest
          rw [← hrest.1, hf] at hfr
          exact Option.noConfusion hfr
        | cons a above1 =>
          simp only [List.cons_append, List.cons.injEq] at hrest
          exact ⟨above1, fr, below, hrest.2, fun f hmem => habove f (List.mem_cons_of_mem _ hmem),
            hfr⟩
    | some v =>
      simp only [lookupFrames, hf, Option.some.injEq]
      constructor
      · intro hv
        refine ⟨[], frame, rest, rfl, by simp, ?_⟩
        rw [hf, ← hv]
      · rintro ⟨above, fr, below, hrest, habove, hfr⟩
        cases above with
        | nil =>
          simp only [List.nil_append, List.cons.injEq] at hrest
          rw [← hrest.1, hf] at hfr
          simp only [Option.some.injEq] at hfr
          rw [hfr]
        | cons a above1 =>
          simp only [List.cons_append, List.cons.injEq] at hrest
          have := habove a (List.mem_cons_self _ _)
          rw [← hrest.1, hf] at this
          exact Option.noConfusion this

/-! ## The shape of the generated text -/

theorem append_ne_of_take_ne (a b c : String) (h : c.data.take a.data.length ≠ a.data) :
    a ++ b ≠ c := by
  intro heq
  apply h
  rw [← heq, String.data_append, List.take_left]

theorem append_ne_of_last_ne (a b c : String)
    (h : c.data.reverse.take b.data.length ≠ b.data.reverse) : a ++ b ≠ c := by
  intro heq
  apply h
  rw [← heq, String.data_append, List.reverse_append, List.take_left' (List.length_reverse _)]

theorem divGuardedFrom_of_start : ∀ (lines : List String) (prev : String),
    divGuardedFrom "" lines = true → divGuardedFrom prev lines = true
  | [], _, _ => rfl
  | line :: rest, prev, h => by
    simp only [divGuardedFrom, Bool.and_eq_true, Bool.or_eq_true] at h ⊢
    refine ⟨?_, h.2⟩
    rcases h.1 with h1 | h1
    · exact Or.inl h1
    · exact absurd h1 (by decide)

theorem divGuardedFrom_append : ∀ (a b : List String) (prev : String),
    divGuardedFrom prev a = true → divGuardedFrom "" b = true →
      divGuardedFrom prev (a ++ b) = true
  | [], b, prev, _, hb => divGuardedFrom_of_start b prev hb
  | line :: rest, b, prev, ha, hb => by
    simp only [List.cons_append, divGuardedFrom, Bool.and_eq_true] at ha ⊢
    exact ⟨ha.1, divGuardedFrom_append rest b line ha.2 hb⟩

theorem divGuardedFrom_of_no_div : ∀ (lines : List String) (prev : String),
    (∀ line ∈ lines, line ≠ "    div $t1, $t0") → divGuardedFrom prev lines = true
  | [], _, _ => rfl
  | line :: rest, prev, h => by
    simp only [divGuardedFrom, Bool.and_eq_true, Bool.or_eq_true, bne_iff_ne, ne_eq]
    exact ⟨Or.inl (h line (List.mem_cons_self _ _)),
      divGuardedFrom_of_no_div rest line (fun l hl => h l (List.mem_cons_of_mem _ hl))⟩

theorem divGuardedFrom_getElem? : ∀ (lines : List String) (prev : String),
    divGuardedFrom prev lines = true → ∀ i, lines[i]? = some "    div $t1, $t0" →
      (i = 0 ∧ prev = "    beq $t0, $zero, div_by_zero") ∨
        ∃ j, i = j + 1 ∧ lines[j]? = some "    beq $t0, $zero, div_by_zero"
  | [], _, _, i, h => by simp at h
  | line :: rest, prev, hg, 0, h => by
    simp only [List.getElem?_cons_zero, Option.some.injEq] at h
    simp only [divGuardedFrom, Bool.and_eq_true, Bool.or_eq_true, bne_iff_ne, ne_eq,
      beq_iff_eq] at hg
    rcases hg.1 with h1 | h1
    · exact absurd h h1
    · exact Or.inl ⟨rfl, h1⟩
  | line :: rest, prev, hg, i + 1, h => by
    simp only [List.getElem?_cons_succ] at h
    simp only [divGuardedFrom, Bool.and_eq_true] at hg
    rcases divGuardedFrom_getElem? rest line hg.2 i h with ⟨hi, hline⟩ | ⟨j, hj, hjl⟩
    · exact Or.inr ⟨0, by omega, by simp [hline]⟩
    · exact Or.inr ⟨j + 1, by omega, by simpa using hjl⟩

theorem chunk_divGuarded (c : List String) (h : Chunk c) : divGuardedFrom "" c = true := by
  cases h with
  | operator op => cases op <;> decide
  | negate => decide
  | push => decide
  | pop => decide
  | result => decide
  | allocate => decide
  | print => decide
  | returnValue => decide
  | loadImmediate value =>
    apply divGuardedFrom_of_no_div
    intro line hl
    simp only [List.mem_singleton] at hl
    rw [hl]
    exact append_ne_of_take_ne _ _ _ (by decide)
  | loadVariable offset =>
    apply divGuardedFrom_of_no_div
    intro line hl
    simp only [List.mem_singleton] at hl
    rw [hl, String.append_assoc]
    exact append_ne_of_take_ne _ _ _ (by decide)
  | unknownVariable name =>
    apply divGuardedFrom_of_no_div
    intro line hl
    simp only [List.mem_cons, List.mem_singleton, List.not_mem_nil, or_false] at hl
    rcases hl with hl | hl
    · rw [hl, String.append_assoc]
      exact append_ne_of_take_ne _ _ _ (by decide)
    · rw [hl]; decide
  | call callee =>
    apply divGuardedFrom_of_no_div
    intro line hl
    simp only [List.mem_singleton] at hl
    rw [hl]
    exact append_ne_of_take_ne _ _ _ (by decide)
  | popArguments bytes =>
    apply divGuardedFrom_of_no_div
    intro line hl
    simp only [List.mem_singleton] at hl
    rw [hl]
    exact append_ne_of_take_ne _ _ _ (by decide)
  | store offset =>
    apply divGuardedFrom_of_no_div
    intro line hl
    simp only [List.mem_singleton] at hl
    rw [hl, String.append_assoc]
    exact append_ne_of_take_ne _ _ _ (by decide)
  | unknownAssignment name =>
    apply divGuardedFrom_of_no_div
    intro line hl
    simp only [List.mem_singleton] at hl
    rw [hl]
    exact append_ne_of_take_ne _ _ _ (by decide)
  | jump label =>
    apply divGuardedFrom_of_no_div
    intro line hl
    simp only [List.mem_singleton] at hl
    rw [hl]
    exact append_ne_of_take_ne _ _ _ (by decide)
  | branch label =>
    apply divGuardedFrom_of_no_div
    intro line hl
    simp only [List.mem_singleton] at hl
    rw [hl]
    exact append_ne_of_take_ne _ _ _ (by decide)
  | label name =>
    apply divGuardedFrom_of_no_div
    intro line hl
    simp only [List.mem_singleton] at hl
    rw [hl]
    exact append_ne_of_last_ne _ _ _ (by decide)
  | prologue name =>
    apply divGuardedFrom_of_no_div
    intro line hl
    have h1 : "# Function " ++ name ≠ "    div $t1, $t0" :=
      append_ne_of_take_ne _ _ _ (by decide)
    have h2 : name ++ ":" ≠ "    div $t1, $t0" := append_ne_of_last_ne _ _ _ (by decide)
    by_cases hm : name = "main"
    · simp only [hm, if_true, List.cons_append, List.nil_append, List.mem_cons,
        List.mem_singleton, List.not_mem_nil, or_false] at hl
      rcases hl with hl | hl | hl | hl | hl | hl | hl | hl <;> rw [hl] <;> decide
    · simp only [hm, if_false, List.cons_append, List.nil_append, List.append_nil,
        List.mem_cons, List.mem_singleton, List.not_mem_nil, or_false] at hl
      rcases hl with hl | hl | hl | hl | hl | hl | hl
      · rw [hl]; decide
      · rw [hl]; exact h1
      · rw [hl]; exact h2
      · rw [hl]; decide
      · rw [hl]; decide
      · rw [hl]; decide
      · rw [hl]; decide
  | epilogue name label =>
    apply divGuardedFrom_of_no_div
    intro line hl
    have h2 : label ++ ":" ≠ "    div $t1, $t0" := append_ne_of_last_ne _ _ _ (by decide)
    by_cases hm : name = "main"
    · simp only [hm, if_true, List.cons_append, List.nil_append, List.mem_cons,
        List.mem_singleton, List.not_mem_nil, or_false] at hl
      rcases hl with hl | hl | hl | hl | hl | hl | hl
      · rw [hl]; exact h2
      all_goals rw [hl]; decide
    · simp only [hm, if_false, List.cons_append, List.nil_append, List.mem_cons,
        List.mem_singleton, List.not_mem_nil, or_false] at hl
      rcases hl with hl | hl | hl | hl | hl | hl
      · rw [hl]; exact h2
      all_goals rw [hl]; decide

theorem written_divGuarded : ∀ lines : List String, Written lines →
    divGuardedFrom "" lines = true := by
  intro lines h
  induction h with
  | nil => rfl
  | chunk c hc => exact chunk_divGuarded c hc
  | append a b _ _ iha ihb => exact divGuardedFrom_append a b "" iha ihb

theorem Extends.refl (g : CodeGenVisitor) : Extends g g :=
  ⟨rfl, rfl, [], Written.nil, (List.append_nil _).symm⟩

theorem Extends.trans {g g1 g2 : CodeGenVisitor} (h1 : Extends g g1) (h2 : Extends g1 g2) :
    Extends g g2 := by
  obtain ⟨hd1, hm1, l1, hw1, ht1⟩ := h1
  obtain ⟨hd2, hm2, l2, hw2, ht2⟩ := h2
  exact ⟨hd2.trans hd1, hm2.trans hm1, l1 ++ l2, Written.append l1 l2 hw1 hw2,
    by rw [ht2, ht1, List.append_assoc]⟩

theorem Extends.emit (g : CodeGenVisitor) (c : List String) (h : Written c) :
    Extends g (g.emit c) :=
  ⟨rfl, rfl, c, h, rfl⟩

theorem Extends.emit_chunk (g : CodeGenVisitor) (c : List String) (h : Chunk c) :
    Extends g (g.emit c) :=
  Extends.emit g c (Written.chunk c h)

theorem Extends.of_same (g g1 : CodeGenVisitor) (hd : g1.dataSection = g.dataSection)
    (hm : g1.hasMainFunction = g.hasMainFunction) (ht : g1.textSection = g.textSection) :
    Extends g g1 :=
  ⟨hd, hm, [], Written.nil, by rw [ht, List.append_nil]⟩

theorem pushEnv_extends (g : CodeGenVisitor) : Extends g (pushEnv g) := by
  unfold pushEnv
  cases g.currentFunc with
  | none => exact Extends.refl g
  | some key => exact Extends.of_same _ _ rfl rfl rfl

theorem popEnv_extends (g : CodeGenVisitor) : Extends g (popEnv g) := by
  unfold popEnv
  cases g.currentFunc with
  | none => exact Extends.refl g
  | some key =>
    simp only
    cases (g.ctx key).envStack with
    | nil => exact Extends.refl g
    | cons _ _ => exact Extends.of_same _ _ rfl rfl rfl

theorem newLabel_extends (g : CodeGenVisitor) (base : String) :
    Extends g (newLabel g base).2 :=
  Extends.of_same _ _ rfl rfl rfl

theorem declareLocalVariable_extends (g : CodeGenVisitor) (name : String) :
    Extends g (declareLocalVariable g name).2 := by
  unfold declareLocalVariable
  cases g.currentFunc with
  | none => exact Extends.refl g
  | some key =>
    simp only
    have h1 : Extends g ((g.setCtx key
        { g.ctx key with nextLocalOffset := (g.ctx key).nextLocalOffset - 4 }).emit
          ["    addi $sp, $sp, -4"]) :=
      Extends.trans (Extends.of_same _ _ rfl rfl rfl) (Extends.emit_chunk _ _ Chunk.allocate)
    split
    · exact Extends.trans h1 (Extends.of_same _ _ rfl rfl rfl)
    · exact Extends.trans h1 (Extends.of_same _ _ rfl rfl rfl)

mutual
theorem genExp_extends : ∀ (e : ExpNode) (g : CodeGenVisitor), Extends g (genExp e g)
  | ExpNode.IntLit _ _, g => by
    simp only [genExp]; exact Extends.emit_chunk _ _ (Chunk.loadImmediate _)
  | ExpNode.FloatLit _ _, g => by
    simp only [genExp]; exact Extends.emit_chunk _ _ (Chunk.loadImmediate _)
  | ExpNode.BoolLit _ _, g => by
    simp only [genExp]; exact Extends.emit_chunk _ _ (Chunk.loadImmediate _)
  | ExpNode.Id _ name, g => by
    simp only [genExp]
    cases g.currentFunc with
    | none => exact Extends.emit_chunk _ _ (Chunk.loadImmediate _)
    | some key =>
      simp only
      cases lookupVariable g name with
      | none => exact Extends.emit_chunk _ _ (Chunk.unknownVariable _)
      | some offset => exact Extends.emit_chunk _ _ (Chunk.loadVariable _)
  | ExpNode.UnaryOp _ op expr, g => by
    cases op
    simp only [genExp, if_true]
    exact Extends.trans (genExp_extends expr g) (Extends.emit_chunk _ _ Chunk.negate)
  | ExpNode.BinaryOp _ op left right, g => by
    simp only [genExp]
    exact Extends.trans (Extends.trans (Extends.trans (Extends.trans (genExp_extends left g)
      (Extends.emit_chunk _ _ Chunk.push)) (genExp_extends right _))
      (Extends.emit_chunk _ _ Chunk.pop)) (Extends.emit_chunk _ _ (Chunk.operator op))
  | ExpNode.Call _ callee args, g => by
    simp only [genExp]
    cases g.currentFunc with
    | none => exact Extends.emit_chunk _ _ (Chunk.loadImmediate _)
    | some key =>
      simp only
      have h1 : Extends g ((genArgs args g).emit ["    jal " ++ callee]) :=
        Extends.trans (genArgs_extends args g) (Extends.emit_chunk _ _ (Chunk.call _))
      by_cases hempty : args.isEmpty = true
      · simp only [hempty, if_true]
        exact Extends.trans h1 (Extends.emit_chunk _ _ Chunk.result)
      · simp only [hempty, Bool.false_eq_true, if_false]
        exact Extends.trans (Extends.trans h1 (Extends.emit_chunk _ _ (Chunk.popArguments _)))
          (Extends.emit_chunk _ _ Chunk.result)
theorem genArgs_extends : ∀ (args : List ExpNode) (g : CodeGenVisitor),
    Extends g (genArgs args g)
  | [], g => by simp only [genArgs]; exact Extends.refl g
  | arg :: rest, g => by
    simp only [genArgs]
    exact Extends.trans (Extends.trans (genExp_extends arg g)
      (Extends.emit_chunk _ _ Chunk.push)) (genArgs_extends rest _)
end

theorem genLocal_extends (name : String) (init : ExpNode) (g : CodeGenVisitor) :
    Extends g (genLocal name init g) := by
  unfold genLocal
  cases g.currentFunc with
  | none => exact Extends.refl g
  | some key =>
    simp only
    exact Extends.trans (Extends.trans (genExp_extends init g)
      (declareLocalVariable_extends _ name)) (Extends.emit_chunk _ _ (Chunk.store _))

theorem setCtx_extends (g : CodeGenVisitor) (key : String) (c : FunctionContext) :
    Extends g (g.setCtx key c) :=
  Extends.of_same _ _ rfl rfl rfl

theorem enterFunction_extends (name : String) (params : List ParamNode) (g : CodeGenVisitor) :
    Extends g (enterFunction name params g) := by
  unfold enterFunction
  simp only [newLabel]
  have h2 : Extends g
      { ({ g with labelCounter := g.labelCounter + 1 } : CodeGenVisitor).setCtx name
          ⟨0, sizeToInt params.length, [], name ++ "_end" ++ "_" ++ toString g.labelCounter⟩ with
        currentFunc := some name } :=
    Extends.of_same _ _ rfl rfl rfl
  have h3 := Extends.trans h2 (pushEnv_extends _)
  refine Extends.trans ?_ (Extends.emit_chunk _ _ (Chunk.prologue name))
  split
  · exact h3
  · exact Extends.trans h3 (setCtx_extends _ _ _)

theorem leaveFunction_extends (name : String) (saved : Option String) (g : CodeGenVisitor) :
    Extends g (leaveFunction name saved g) := by
  unfold leaveFunction
  exact Extends.trans (Extends.emit_chunk _ _ (Chunk.epilogue name _))
    (Extends.of_same _ _ rfl rfl rfl)

theorem genItems_extends (declVisits stmtVisits : List (CodeGenVisitor → CodeGenVisitor))
    (hd : ∀ visit ∈ declVisits, ∀ g, Extends g (visit g))
    (hs : ∀ visit ∈ stmtVisits, ∀ g, Extends g (visit g)) :
    ∀ (items : List Item),
      (∀ b, Item.block b ∈ items → ∀ g, Extends g (genBlock b g)) →
      ∀ g, Extends g (genItems declVisits stmtVisits items g)
  | [], _, g => by simp only [genItems]; exact Extends.refl g
  | Item.null :: rest, hb, g => by
    simp only [genItems]
    exact genItems_extends declVisits stmtVisits hd hs rest
      (fun b hmem => hb b (List.mem_cons_of_mem _ hmem)) g
  | Item.decl i :: rest, hb, g => by
    have ih := genItems_extends declVisits stmtVisits hd hs rest
      (fun b hmem => hb b (List.mem_cons_of_mem _ hmem))
    simp only [genItems]
    cases hv : declVisits[i]? with
    | none => exact ih g
    | some visit => exact Extends.trans (hd visit (List.getElem?_mem hv) g) (ih _)
  | Item.stmt i :: rest, hb, g => by
    have ih := genItems_extends declVisits stmtVisits hd hs rest
      (fun b hmem => hb b (List.mem_cons_of_mem _ hmem))
    simp only [genItems]
    cases hv : stmtVisits[i]? with
    | none => exact ih g
    | some visit => exact Extends.trans (hs visit (List.getElem?_mem hv) g) (ih _)
  | Item.block b :: rest, hb, g => by
    have ih := genItems_extends declVisits stmtVisits hd hs rest
      (fun b hmem => hb b (List.mem_cons_of_mem _ hmem))
    simp only [genItems]
    exact Extends.trans (hb b (List.mem_cons_self _ _) g) (ih _)

mutual
theorem genDecl_extends : ∀ (d : DeclNode) (g : CodeGenVisitor), Extends g (genDecl d g)
  | DeclNode.VarDecl name _ init, g => by
    simp only [genDecl]; exact genLocal_extends name init g
  | DeclNode.LetDecl name _ init, g => by
    simp only [genDecl]; exact genLocal_extends name init g
  | DeclNode.FuncDecl name params _ body, g => by
    simp only [genDecl]
    exact Extends.trans (Extends.trans (enterFunction_extends name params g)
      (genBlock_extends body _)) (leaveFunction_extends name _ _)
theorem genStmt_extends : ∀ (s : StmtNode) (g : CodeGenVisitor), Extends g (genStmt s g)
  | StmtNode.Assign name rhs, g => by
    simp only [genStmt]
    cases g.currentFunc with
    | none => exact Extends.refl g
    | some key =>
      simp only
      cases lookupVariable (genExp rhs g) name with
      | none =>
        exact Extends.trans (genExp_extends rhs g)
          (Extends.emit_chunk _ _ (Chunk.unknownAssignment _))
      | some offset =>
        exact Extends.trans (genExp_extends rhs g) (Extends.emit_chunk _ _ (Chunk.store _))
  | StmtNode.Print expr, g => by
    simp only [genStmt]
    cases g.currentFunc with
    | none => exact Extends.refl g
    | some key => exact Extends.trans (genExp_extends expr g) (Extends.emit_chunk _ _ Chunk.print)
  | StmtNode.Return expr, g => by
    simp only [genStmt]
    cases g.currentFunc with
    | none => exact Extends.refl g
    | some key =>
      exact Extends.trans (Extends.trans (genExp_extends expr g)
        (Extends.emit_chunk _ _ Chunk.returnValue)) (Extends.emit_chunk _ _ (Chunk.jump _))
  | StmtNode.If cond thenBlk elseBlk, g => by
    simp only [genStmt]
    cases g.currentFunc with
    | none => exact Extends.refl g
    | some key =>
      simp only [newLabel]
      have hb : Extends g
          ({ g with labelCounter := wrapInt (wrapInt (g.labelCounter + 1) + 1) } :
            CodeGenVisitor) :=
        Extends.of_same _ _ rfl rfl rfl
      exact Extends.trans (Extends.trans hb (genExp_extends cond _))
        (genElse_extends elseBlk _ _ (genBlock thenBlk) (genBlock_extends thenBlk) _)
  | StmtNode.While cond body, g => by
    simp only [genStmt]
    cases g.currentFunc with
    | none => exact Extends.refl g
    | some key =>
      simp only [newLabel]
      have hb : Extends g
          ({ g with labelCounter := wrapInt (wrapInt (g.labelCounter + 1) + 1) } :
            CodeGenVisitor) :=
        Extends.of_same _ _ rfl rfl rfl
      have h1 := Extends.trans (Extends.trans (Extends.trans (Extends.trans hb
        (Extends.emit_chunk _ _ (Chunk.label ("while_start" ++ "_" ++ toString g.labelCounter))))
        (genExp_extends cond _))
        (Extends.emit_chunk _ _
          (Chunk.branch ("while_end" ++ "_" ++ toString (wrapInt (g.labelCounter + 1))))))
        (genBlock_extends body _)
      exact Extends.trans h1 (Extends.emit _
        ["    j " ++ ("while_start" ++ "_" ++ toString g.labelCounter),
         "while_end" ++ "_" ++ toString (wrapInt (g.labelCounter + 1)) ++ ":"]
        (Written.append ["    j " ++ ("while_start" ++ "_" ++ toString g.labelCounter)]
          ["while_end" ++ "_" ++ toString (wrapInt (g.labelCounter + 1)) ++ ":"]
          (Written.chunk _ (Chunk.jump _)) (Written.chunk _ (Chunk.label _))))
theorem genElse_extends : ∀ (e : Option BlockNode) (elseLabel endLabel : String)
    (thenCode : CodeGenVisitor → CodeGenVisitor), (∀ g, Extends g (thenCode g)) →
    ∀ g, Extends g (genElse e elseLabel endLabel thenCode g)
  | none, elseLabel, endLabel, thenCode, hthen, g => by
    simp only [genElse]
    exact Extends.trans (Extends.trans (Extends.emit_chunk _ _ (Chunk.branch _)) (hthen _))
      (Extends.emit_chunk _ _ (Chunk.label _))
  | some blk, elseLabel, endLabel, thenCode, hthen, g => by
    simp only [genElse]
    have h1 : Extends g (thenCode (g.emit ["    beq $t0, $zero, " ++ elseLabel])) :=
      Extends.trans (Extends.emit_chunk _ _ (Chunk.branch _)) (hthen _)
    have h2 := Extends.trans h1 (Extends.emit _ ["    j " ++ endLabel, elseLabel ++ ":"]
      (Written.append ["    j " ++ endLabel] [elseLabel ++ ":"]
        (Written.chunk _ (Chunk.jump _)) (Written.chunk _ (Chunk.label _))))
    exact Extends.trans (Extends.trans h2 (genBlock_extends blk _))
      (Extends.emit_chunk _ _ (Chunk.label _))
theorem genBlock_extends : ∀ (b : BlockNode) (g : CodeGenVisitor), Extends g (genBlock b g)
  | BlockNode.mk decls stmts items, g => by
    simp only [genBlock]
    cases g.currentFunc with
    | none => exact Extends.refl g
    | some key =>
      exact Extends.trans (Extends.trans (pushEnv_extends g)
        (genItems_extends _ _ (genDecls_extends decls) (genStmts_extends stmts) items
          (genItemBlocks_extends items) _)) (popEnv_extends _)
theorem genDecls_extends : ∀ (ds : List DeclNode), ∀ visit ∈ genDecls ds,
    ∀ g, Extends g (visit g)
  | [], visit, h => by simp [genDecls] at h
  | d :: rest, visit, h => by
    simp only [genDecls] at h
    rcases List.mem_cons.mp h with h | h
    · rw [h]; exact genDecl_extends d
    · exact genDecls_extends rest visit h
theorem genStmts_extends : ∀ (ss : List StmtNode), ∀ visit ∈ genStmts ss,
    ∀ g, Extends g (visit g)
  | [], visit, h => by simp [genStmts] at h
  | s :: rest, visit, h => by
    simp only [genStmts] at h
    rcases List.mem_cons.mp h with h | h
    · rw [h]; exact genStmt_extends s
    · exact genStmts_extends rest visit h
theorem genItemBlocks_extends : ∀ (items : List Item), ∀ b, Item.block b ∈ items →
    ∀ g, Extends g (genBlock b g)
  | [], _, h => by simp at h
  | Item.block b0 :: rest, b, h => by
    rcases List.mem_cons.mp h with h | h
    · cases h; exact genBlock_extends b0
    · exact genItemBlocks_extends rest b h
  | Item.null :: rest, b, h => by
    rcases List.mem_cons.mp h with h | h
    · cases h
    · exact genItemBlocks_extends rest b h
  | Item.decl _ :: rest, b, h => by
    rcases List.mem_cons.mp h with h | h
    · cases h
    · exact genItemBlocks_extends rest b h
  | Item.stmt _ :: rest, b, h => by
    rcases List.mem_cons.mp h with h | h
    · cases h
    · exact genItemBlocks_extends rest b h
end

theorem genTopLevel_spec : ∀ (ds : List DeclNode) (g : CodeGenVisitor),
    (genTopLevel ds g).dataSection = g.dataSection ∧
    (genTopLevel ds g).hasMainFunction = (g.hasMainFunction || hasTopLevelMain ds) ∧
    ∃ lines, Written lines ∧ (genTopLevel ds g).textSection = g.textSection ++ lines
  | [], g => by
    simp only [genTopLevel, hasTopLevelMain, Bool.or_false, true_and]
    exact ⟨[], Written.nil, (List.append_nil _).symm⟩
  | DeclNode.VarDecl _ _ _ :: rest, g => by
    simp only [genTopLevel, hasTopLevelMain]
    exact genTopLevel_spec rest g
  | DeclNode.LetDecl _ _ _ :: rest, g => by
    simp only [genTopLevel, hasTopLevelMain]
    exact genTopLevel_spec rest g
  | DeclNode.FuncDecl name params retType body :: rest, g => by
    simp only [genTopLevel, hasTopLevelMain]
    by_cases hm : name = "main"
    · obtain ⟨hd, hmain, l1, hw1, ht1⟩ :=
        genDecl_extends (DeclNode.FuncDecl name params retType body)
          { g with hasMainFunction := true }
      obtain ⟨hd2, hmain2, l2, hw2, ht2⟩ := genTopLevel_spec rest
        (genDecl (DeclNode.FuncDecl name params retType body) { g with hasMainFunction := true })
      simp only [hm, if_true, beq_self_eq_true, Bool.true_or, Bool.or_true]
      rw [hm] at hd hmain ht1 hd2 hmain2 ht2
      refine ⟨hd2.trans hd, ?_, l1 ++ l2, Written.append l1 l2 hw1 hw2, ?_⟩
      · rw [hmain2, hmain]; rfl
      · rw [ht2, ht1, List.append_assoc]
    · obtain ⟨hd, hmain, l1, hw1, ht1⟩ :=
        genDecl_extends (DeclNode.FuncDecl name params retType body) g
      obtain ⟨hd2, hmain2, l2, hw2, ht2⟩ := genTopLevel_spec rest
        (genDecl (DeclNode.FuncDecl name params retType body) g)
      have hb : (name == "main") = false := by simpa using hm
      simp only [hm, if_false, hb, Bool.false_or]
      refine ⟨hd2.trans hd, ?_, l1 ++ l2, Written.append l1 l2 hw1 hw2, ?_⟩
      · rw [hmain2, hmain]
      · rw [ht2, ht1, List.append_assoc]

/-- The lines of the generated text: the data section, an empty line, `.text`,
the chunks of the functions, the division-by-zero handler, and the stub `main`
when no top-level function is named `main`. -/
theorem generatedLines_eq (program : ProgramNode) :
    ∃ lines, Written lines ∧
      generatedLines program =
        CodeGenVisitor.init.dataSection ++ [""] ++ ([".text"] ++ lines ++ divByZeroHandler ++
          (if hasTopLevelMain program.declarations then [] else stubMain)) := by
  obtain ⟨hd, hmain, lines, hw, ht⟩ := genTopLevel_spec program.declarations CodeGenVisitor.init
  refine ⟨lines, hw, ?_⟩
  have hmain1 : (genTopLevel program.declarations CodeGenVisitor.init).hasMainFunction =
      hasTopLevelMain program.declarations := by
    rw [hmain]; rfl
  have ht1 : (genTopLevel program.declarations CodeGenVisitor.init).textSection =
      [".text"] ++ lines := by
    rw [ht]; rfl
  unfold generatedLines genProgram
  simp only [CodeGenVisitor.emit, hmain1]
  cases hasTopLevelMain program.declarations with
  | true => simp only [if_true, hd, ht1, List.append_nil]
  | false => simp only [Bool.false_eq_true, if_false, hd, ht1, List.append_assoc]

/-- C24: in the text generated for any program, every line `div $t1, $t0`
comes right after a line `beq $t0, $zero, div_by_zero`, and the text holds the
handler `div_by_zero:`, which loads `div_zero_msg`, prints it with syscall 4
and exits with syscall 10, whether or not the program divides. -/
theorem division_guarded (program : ProgramNode) :
    (∀ i, (generatedLines program)[i]? = some "    div $t1, $t0" →
      ∃ j, i = j + 1 ∧ (generatedLines program)[j]? = some "    beq $t0, $zero, div_by_zero") ∧
    (∃ before after, generatedLines program =
      before ++ ["div_by_zero:", "    la $a0, div_zero_msg", "    li $v0, 4", "    syscall",
        "    li $v0, 10", "    syscall"] ++ after) := by
  obtain ⟨lines, hw, hlines⟩ := generatedLines_eq program
  constructor
  · have hguard : divGuardedFrom "" (generatedLines program) = true := by
      rw [hlines]
      refine divGuardedFrom_append _ _ _ (by decide) ?_
      refine divGuardedFrom_append _ _ _ ?_ ?_
      · refine divGuardedFrom_append _ _ _ ?_ (by decide)
        exact divGuardedFrom_append _ _ _ (by decide) (written_divGuarded lines hw)
      · cases hasTopLevelMain program.declarations <;> decide
    intro i hi
    rcases divGuardedFrom_getElem? _ _ hguard i hi with ⟨_, h0⟩ | h1
    · exact absurd h0 (by decide)
    · exact h1
  · rw [hlines]
    refine ⟨CodeGenVisitor.init.dataSection ++ [""] ++ ([".text"] ++ lines ++
      ["", "# Division-by-zero runtime handler"]),
      (if hasTopLevelMain program.declarations then [] else stubMain), ?_⟩
    simp only [divByZeroHandler, List.append_assoc, List.cons_append, List.nil_append]

/-! ## Labels and contexts that collide -/

/-- C21 (the code breaks it): the program
`func f(a: int): int { func f(b: int): int { return b; } return a; }` is
accepted by semantic analysis; the visit of the inner `f` takes the entry
`functionContexts["f"]` that the outer `f` is using and clears its frames, so
the `a` of `return a`, a parameter of the outer `f` that no local shadows, is
not found and gets the fallback lines, not `lw $t0, 8($fp)`. -/
theorem parameter_lost_after_nested_function :
    accepted (analyze (some nestedSameNameProgram)) = true ∧
    "    # Unknown variable a, default to 0" ∈ generatedLines nestedSameNameProgram ∧
    "    lw $t0, 8($fp)" ∈ generatedLines nestedSameNameProgram ∧
    (generatedLines nestedSameNameProgram).count "    lw $t0, 8($fp)" = 1 := by
  refine ⟨rfl, ?_, ?_, ?_⟩ <;> decide

/-- C25 (the code breaks it): the program
`func f(): int { func main(): int { return 1; } return 0; }` has one top-level
function and is accepted by semantic analysis; its text defines `main:` twice,
once for the inner function and once in the stub. -/
theorem nested_main_defined_twice :
    accepted (analyze (some nestedMainProgram)) = true ∧
    (nestedMainProgram.declarations.map DeclNode.name).Nodup ∧
    hasTopLevelMain nestedMainProgram.declarations = false ∧
    (generatedLines nestedMainProgram).count "main:" = 2 := by
  refine ⟨rfl, ?_, ?_, ?_⟩ <;> decide

/-- C26 (the code breaks it): the program
`func div_by_zero(): int { return 0; } func main(): int { return 0; }` is
accepted by semantic analysis, and its text defines the label `div_by_zero:`
twice, as the label of the function and as the label of the handler. -/
theorem handler_label_defined_twice :
    accepted (analyze (some handlerNameProgram)) = true ∧
    (generatedLines handlerNameProgram).count "div_by_zero:" = 2 := by
  refine ⟨rfl, ?_⟩
  decide

/-- C27 (the code breaks it): the program
`func f(): int { return 1; } func f_end_0(): int { return 2; }` is accepted by
semantic analysis; the line `f_end_0:` is written twice, as the epilogue label
of `f` and as the label of the second function, so the jump `j f_end_0` of the
`return` in `f` has two targets. -/
theorem epilogue_label_defined_twice :
    accepted (analyze (some endLabelNameProgram)) = true ∧
    (generatedLines endLabelNameProgram).count "f_end_0:" = 2 ∧
    "    j f_end_0" ∈ generatedLines endLabelNameProgram := by
  refine ⟨rfl, ?_, ?_⟩ <;> decide

/-! ## The frame of the parameters -/

theorem StdMap.find_assign_key {α : Type} (m : List (String × α)) (key : String) (value : α) :
    StdMap.find (StdMap.assign m key value) key = some value := by
  simp [StdMap.find, StdMap.assign, List.lookup]

theorem StdMap.find_filter_of_ne {α : Type} (key other : String) (h : other ≠ key) :
    ∀ m : List (String × α),
      StdMap.find (m.filter (fun p => p.1 != key)) other = StdMap.find m other
  | [] => rfl
  | (k, v) :: rest => by
    have ih := StdMap.find_filter_of_ne key other h rest
    simp only [StdMap.find] at ih ⊢
    by_cases hk : k = key
    · subst hk
      have hne : (other == k) = false := by simpa using h
      simp [List.filter, List.lookup, hne, ih]
    · have hk2 : (k != key) = true := by simpa using hk
      simp only [List.filter, hk2, List.lookup, ih]

theorem StdMap.find_assign_of_ne {α : Type} (m : List (String × α)) (key other : String)
    (value : α) (h : other ≠ key) :
    StdMap.find (StdMap.assign m key value) other = StdMap.find m other := by
  have hne : (other == key) = false := by simpa using h
  have hf := StdMap.find_filter_of_ne key other h m
  simp only [StdMap.find] at hf
  simp only [StdMap.find, StdMap.assign, List.lookup, hne, hf]

theorem installParams_find (numParams : Int) :
    ∀ (rest : List ParamNode) (k : Nat) (frame : List (String × VariableInfo)),
      (k : Int) + rest.length ≤ numParams → (rest.map (fun p => p.name)).Nodup →
      (∀ (j : Nat) (p : ParamNode), rest[j]? = some p →
        StdMap.find (installParams numParams k rest frame) p.name =
          some ⟨wrapInt (8 + 4 * (numParams - 1 - ((k : Int) + j)))⟩) ∧
      (∀ m, m ∉ rest.map (fun p => p.name) →
        StdMap.find (installParams numParams k rest frame) m = StdMap.find frame m)
  | [], k, frame, _, _ => by
    constructor
    · intro j p h; simp at h
    · intro m _; rfl
  | param :: rest, k, frame, hlen, hnd => by
    have hk : (k : Int) < numParams := by
      simp only [List.length_cons, Nat.cast_add, Nat.cast_one] at hlen
      omega
    have hlen1 : ((k + 1 : Nat) : Int) + rest.length ≤ numParams := by
      simp only [List.length_cons, Nat.cast_add, Nat.cast_one] at hlen ⊢
      omega
    simp only [List.map_cons, List.nodup_cons] at hnd
    obtain ⟨ih1, ih2⟩ := installParams_find numParams rest (k + 1)
      (StdMap.assign frame param.name ⟨wrapInt (8 + 4 * (numParams - 1 - (k : Int)))⟩) hlen1
      hnd.2
    simp only [installParams, hk, if_true]
    constructor
    · intro j p hj
      cases j with
      | zero =>
        simp only [List.getElem?_cons_zero, Option.some.injEq] at hj
        subst hj
        rw [ih2 _ hnd.1, StdMap.find_assign_key]
        simp
      | succ j =>
        simp only [List.getElem?_cons_succ] at hj
        rw [ih1 j p hj]
        have he : (8 : Int) + 4 * (numParams - 1 - (((k + 1 : Nat) : Int) + (j : Int))) =
            8 + 4 * (numParams - 1 - ((k : Int) + ((j + 1 : Nat) : Int))) := by
          push_cast
          ring
        rw [he]
    · intro m hm
      simp only [List.map_cons, List.mem_cons, not_or] at hm
      rw [ih2 m hm.2, StdMap.find_assign_of_ne _ _ _ _ hm.1]

theorem enterFunction_currentFunc (name : String) (params : List ParamNode)
    (g : CodeGenVisitor) : (enterFunction name params g).currentFunc = some name := by
  unfold enterFunction
  simp only [newLabel, pushEnv, CodeGenVisitor.ctx, CodeGenVisitor.setCtx, CodeGenVisitor.emit,
    StdMap.find_assign_key, Option.getD_some]

theorem enterFunction_envStack (name : String) (params : List ParamNode) (g : CodeGenVisitor) :
    ((enterFunction name params g).ctx name).envStack =
      [installParams (sizeToInt params.length) 0 params []] := by
  unfold enterFunction
  simp only [newLabel, pushEnv, CodeGenVisitor.ctx, CodeGenVisitor.setCtx, CodeGenVisitor.emit,
    StdMap.find_assign_key, Option.getD_some]

/-- In the state in which the body of a function with `N` parameters of
distinct names is entered, `N + 1 < 2^29` so that every offset is in the range
of `int`, parameter `i` is found at offset `8 + 4*(N-1-i)`, and a reference to
it writes `lw $t0, <8+4*(N-1-i)>($fp)`. -/
theorem parameters_installed (g : CodeGenVisitor) (name : String) (params : List ParamNode)
    (dt : DataType) (hN : params.length + 1 < 2 ^ 29)
    (hnd : (params.map (fun p => p.name)).Nodup) (i : Nat) (p : ParamNode)
    (hp : params[i]? = some p) :
    lookupVariable (enterFunction name params g) p.name =
        some (8 + 4 * ((params.length : Int) - 1 - i)) ∧
      genExp (ExpNode.Id dt p.name) (enterFunction name params g) =
        (enterFunction name params g).emit
          ["    lw $t0, " ++ toString (8 + 4 * ((params.length : Int) - 1 - i)) ++ "($fp)"] := by
  have hN31 : params.length < 2 ^ 31 := by omega
  have hi : i < params.length := by
    rcases Nat.lt_or_ge i params.length with h | h
    · exact h
    · rw [List.getElem?_eq_none h] at hp
      cases hp
  have hfind := (installParams_find (sizeToInt params.length) params 0 []
    (by rw [sizeToInt_of_lt _ hN31]; simp) hnd).1 i p hp
  rw [sizeToInt_of_lt _ hN31] at hfind
  have hcast : (Int.ofNat params.length : Int) = (params.length : Int) := rfl
  have hw : wrapInt (8 + 4 * (Int.ofNat params.length - 1 - (((0 : Nat) : Int) + (i : Int)))) =
      8 + 4 * ((params.length : Int) - 1 - i) := by
    rw [hcast, wrapInt_of_range _ (by omega) (by omega)]
    simp
  rw [hw] at hfind
  have hl : lookupVariable (enterFunction name params g) p.name =
      some (8 + 4 * ((params.length : Int) - 1 - i)) := by
    simp only [lookupVariable, enterFunction_currentFunc, enterFunction_envStack, lookupFrames]
    rw [sizeToInt_of_lt _ hN31, hfind]
  refine ⟨hl, ?_⟩
  simp only [genExp, enterFunction_currentFunc, hl]

/-! ## The stub `main` -/

theorem binOpLines_literal : ∀ op : BinOp, ∀ line ∈ binOpLines op, line ∈ chunkLiteralLines := by
  intro op
  cases op <;> decide

theorem chunk_line_ne (t : String) (h : lineOutsideChunks t = true) :
    ∀ c, Chunk c → ∀ line ∈ c, line ≠ t := by
  simp only [lineOutsideChunks, Bool.and_eq_true, decide_eq_true_eq, List.all_eq_true,
    bne_iff_ne, ne_eq] at h
  obtain ⟨⟨hlit, hstart⟩, hcolon⟩ := h
  have lit : ∀ line, line ∈ chunkLiteralLines → line ≠ t := by
    intro line hmem heq
    rw [heq] at hmem
    exact hlit hmem
  have start : ∀ (a b : String), a ∈ chunkLineStarts → a ++ b ≠ t :=
    fun a b hmem => append_ne_of_take_ne a b t (hstart a hmem)
  have colon : ∀ a : String, a ++ ":" ≠ t := fun a => append_ne_of_last_ne a ":" t hcolon
  intro c hc line hl
  cases hc with
  | operator op => exact lit line (binOpLines_literal op line hl)
  | negate => simp only [List.mem_singleton] at hl; rw [hl]; exact lit _ (by decide)
  | push =>
    simp only [List.mem_cons, List.mem_singleton, List.not_mem_nil, or_false] at hl
    rcases hl with hl | hl <;> rw [hl] <;> exact lit _ (by decide)
  | pop =>
    simp only [List.mem_cons, List.mem_singleton, List.not_mem_nil, or_false] at hl
    rcases hl with hl | hl <;> rw [hl] <;> exact lit _ (by decide)
  | result => simp only [List.mem_singleton] at hl; rw [hl]; exact lit _ (by decide)
  | allocate => simp only [List.mem_singleton] at hl; rw [hl]; exact lit _ (by decide)
  | print =>
    simp only [List.mem_cons, List.mem_singleton, List.not_mem_nil, or_false] at hl
    rcases hl with hl | hl | hl | hl | hl | hl <;> rw [hl] <;> exact lit _ (by decide)
  | returnValue => simp only [List.mem_singleton] at hl; rw [hl]; exact lit _ (by decide)
  | loadImmediate value =>
    simp only [List.mem_singleton] at hl; rw [hl]; exact start _ _ (by decide)
  | loadVariable offset =>
    simp only [List.mem_singleton] at hl
    rw [hl, String.append_assoc]; exact start _ _ (by decide)
  | unknownVariable name =>
    simp only [List.mem_cons, List.mem_singleton, List.not_mem_nil, or_false] at hl
    rcases hl with hl | hl
    · rw [hl, String.append_assoc]; exact start _ _ (by decide)
    · rw [hl]; exact lit _ (by decide)
  | call callee => simp only [List.mem_singleton] at hl; rw [hl]; exact start _ _ (by decide)
  | popArguments bytes =>
    simp only [List.mem_singleton] at hl; rw [hl]; exact start _ _ (by decide)
  | store offset =>
    simp only [List.mem_singleton] at hl
    rw [hl, String.append_assoc]; exact start _ _ (by decide)
  | unknownAssignment name =>
    simp only [List.mem_singleton] at hl; rw [hl]; exact start _ _ (by decide)
  | jump label => simp only [List.mem_singleton] at hl; rw [hl]; exact start _ _ (by decide)
  | branch label => simp only [List.mem_singleton] at hl; rw [hl]; exact start _ _ (by decide)
  | label name => simp only [List.mem_singleton] at hl; rw [hl]; exact colon _
  | prologue name =>
    by_cases hm : name = "main"
    · simp only [hm, if_true, List.cons_append, List.nil_append, List.mem_cons,
        List.mem_singleton, List.not_mem_nil, or_false] at hl
      rcases hl with hl | hl | hl | hl | hl | hl | hl | hl
      · rw [hl]; exact lit _ (by decide)
      · rw [hl]; exact start _ _ (by decide)
      · rw [hl]; exact lit _ (by decide)
      · rw [hl]; exact colon _
      all_goals rw [hl]; exact lit _ (by decide)
    · simp only [hm, if_false, List.cons_append, List.nil_append, List.append_nil,
        List.mem_cons, List.mem_singleton, List.not_mem_nil, or_false] at hl
      rcases hl with hl | hl | hl | hl | hl | hl | hl
      · rw [hl]; exact lit _ (by decide)
      · rw [hl]; exact start _ _ (by decide)
      · rw [hl]; exact colon _
      all_goals rw [hl]; exact lit _ (by decide)
  | epilogue name label =>
    by_cases hm : name = "main"
    · simp only [hm, if_true, List.cons_append, List.nil_append, List.mem_cons,
        List.mem_singleton, List.not_mem_nil, or_false] at hl
      rcases hl with hl | hl | hl | hl | hl | hl | hl
      · rw [hl]; exact colon _
      all_goals rw [hl]; exact lit _ (by decide)
    · simp only [hm, if_false, List.cons_append, List.nil_append, List.mem_cons,
        List.mem_singleton, List.not_mem_nil, or_false] at hl
      rcases hl with hl | hl | hl | hl | hl | hl
      · rw [hl]; exact colon _
      all_goals rw [hl]; exact lit _ (by decide)

theorem written_line_ne (t : String) (h : lineOutsideChunks t = true) :
    ∀ lines, Written lines → t ∉ lines := by
  intro lines hw
  induction hw with
  | nil => simp
  | chunk c hc => exact fun hmem => chunk_line_ne t h c hc t hmem rfl
  | append a b _ _ iha ihb =>
    intro hmem
    rcases List.mem_append.mp hmem with hmem | hmem
    · exact iha hmem
    · exact ihb hmem

/-- The text generated for a program holds the stub `main` (`.globl main`,
`main:`, the load of `missing_main_msg`, syscall 4 and the exit with syscall
10) iff no top-level function of the program is named `main`. -/
theorem stub_main_iff (program : ProgramNode) :
    (∃ before after, generatedLines program =
      before ++ [".globl main", "main:", "    la $a0, missing_main_msg", "    li $v0, 4",
        "    syscall", "    li $v0, 10", "    syscall"] ++ after) ↔
    hasTopLevelMain program.declarations = false := by
  obtain ⟨lines, hw, hlines⟩ := generatedLines_eq program
  constructor
  · rintro ⟨before, after, hshape⟩
    cases hmain : hasTopLevelMain program.declarations with
    | false => rfl
    | true =>
      exfalso
      have hmem : "    la $a0, missing_main_msg" ∈ generatedLines program := by
        rw [hshape]; simp
      rw [hlines, hmain] at hmem
      simp only [if_true, List.append_nil, List.mem_append] at hmem
      rcases hmem with (h | h) | (h | h) | h
      · exact absurd h (by decide)
      · exact absurd h (by decide)
      · exact absurd h (by decide)
      · exact written_line_ne _ (by decide) lines hw h
      · exact absurd h (by decide)
  · intro hmain
    rw [hlines, hmain]
    refine ⟨CodeGenVisitor.init.dataSection ++ [""] ++ ([".text"] ++ lines ++ divByZeroHandler ++
      ["", "# Stub main for missing main function"]), [], ?_⟩
    simp only [stubMain, Bool.false_eq_true, if_false, List.append_assoc, List.cons_append,
      List.nil_append, List.append_nil]

/-! ## The checker does not read `orderedItems` -/

/-- C35: the visit of a block by the scope-and-type checker does not depend on
`orderedItems`: for two blocks with the same `decls` and `stmts` it ends with
the same error, or with the same state and the same typed `decls` and `stmts`;
when it succeeds, all declarations were visited, in the new scope, before the
first statement; and the program
`func main(): int { print x; var x: int = 1; return 0; }`, whose `print x`
comes textually before the declaration of `x`, is accepted. -/
theorem visitBlock_ignores_orderedItems (st : ScopeAndTypeChecker) (decls : List DeclNode)
    (stmts : List StmtNode) (items1 items2 : List Item) :
    visitBlock st (BlockNode.mk decls stmts items2) =
      Except.map (fun r => (r.1, r.2.setOrderedItems items2))
        (visitBlock st (BlockNode.mk decls stmts items1)) ∧
    (∀ st1 b1, visitBlock st (BlockNode.mk decls stmts items1) = Except.ok (st1, b1) →
      ∃ sd decls1 ss stmts1,
        visitDecls ⟨some (Scope.mk [] st.currentScope), st.currentFunction⟩ decls =
          Except.ok (sd, decls1) ∧
        visitStmts sd stmts = Except.ok (ss, stmts1) ∧
        b1 = BlockNode.mk decls1 stmts1 items1) ∧
    accepted (visitProgram useBeforeDeclProgram) = true ∧
    accepted (analyze (some useBeforeDeclProgram)) = true := by
  refine ⟨?_, ?_, rfl, rfl⟩
  · simp only [visitBlock]
    cases visitDecls ⟨some (Scope.mk [] st.currentScope), st.currentFunction⟩ decls with
    | error a => rfl
    | ok res =>
      obtain ⟨sd, decls1⟩ := res
      simp only
      cases visitStmts sd stmts with
      | error a => rfl
      | ok res2 =>
        obtain ⟨ss, stmts1⟩ := res2
        simp only
        cases exitScope ss.currentScope with
        | error a => rfl
        | ok cs3 => rfl
  · intro st1 b1 h
    obtain ⟨sd, decls1, ss, stmts1, hd, hs, _, _, hb⟩ :=
      visitBlock_ok st st1 decls stmts items1 b1 h
    exact ⟨sd, decls1, ss, stmts1, hd, hs, hb⟩

/-! ## The order of the two passes -/

theorem noFlowError_ok {α : Type} (x : α) : NoFlowError (Except.ok x : Except Abort α) := by
  intro e he
  cases he

theorem noFlowError_undefined {α : Type} :
    NoFlowError (Except.error Abort.undefined : Except Abort α) := by
  intro e he
  cases he

theorem noFlowError_throwSem {α : Type} (k : SemanticErrorType) (c : SemanticErrorContext)
    (hk : k ≠ SemanticErrorType.UNREACHABLE_CODE ∧ k ≠ SemanticErrorType.MISSING_RETURN) :
    NoFlowError (throwSem k c : Except Abort α) := by
  intro e he
  simp only [throwSem, Except.error.injEq, Abort.thrown.injEq] at he
  rw [← he]
  exact hk

theorem noFlowError_error {α β : Type} (r : Except Abort α) (a : Abort) (h : NoFlowError r)
    (hr : r = Except.error a) : NoFlowError (Except.error a : Except Abort β) := by
  intro e he
  simp only [Except.error.injEq] at he
  exact h e (by rw [hr, he])

theorem binaryOpType_noFlowError (op : BinOp) (l r : DataType) :
    NoFlowError (binaryOpType op l r) := by
  unfold binaryOpType
  split
  · split
    · exact noFlowError_throwSem _ _ (by decide)
    · split <;> exact noFlowError_ok _
  · simp only
    split
    · exact noFlowError_throwSem _ _ (by decide)
    · exact noFlowError_ok _

theorem lookupCurrent_noFlowError (cs : Option Scope) (name : String) :
    NoFlowError (lookupCurrent cs name) := by
  unfold lookupCurrent
  cases cs with
  | none => exact noFlowError_undefined
  | some s => exact noFlowError_ok _

mutual
theorem visitExp_noFlowError (cs : Option Scope) : ∀ e : ExpNode, NoFlowError (visitExp cs e)
  | ExpNode.IntLit _ _ => by simp only [visitExp]; exact noFlowError_ok _
  | ExpNode.FloatLit _ _ => by simp only [visitExp]; exact noFlowError_ok _
  | ExpNode.BoolLit _ _ => by simp only [visitExp]; exact noFlowError_ok _
  | ExpNode.Id _ name => by
    simp only [visitExp]
    cases hl : lookupCurrent cs name with
    | error a => exact noFlowError_error _ a (lookupCurrent_noFlowError cs name) hl
    | ok o =>
      cases o with
      | none => exact noFlowError_throwSem _ _ (by decide)
      | some symbol =>
        simp only
        split
        · exact noFlowError_throwSem _ _ (by decide)
        · exact noFlowError_ok _
  | ExpNode.UnaryOp _ op expr => by
    cases op
    simp only [visitExp]
    cases hv : visitExp cs expr with
    | error a => exact noFlowError_error _ a (visitExp_noFlowError cs expr) hv
    | ok expr1 =>
      simp only [if_true]
      split
      · exact noFlowError_throwSem _ _ (by decide)
      · exact noFlowError_ok _
  | ExpNode.BinaryOp _ op left right => by
    simp only [visitExp]
    cases hl : visitExp cs left with
    | error a => exact noFlowError_error _ a (visitExp_noFlowError cs left) hl
    | ok left1 =>
      simp only
      cases hr : visitExp cs right with
      | error a => exact noFlowError_error _ a (visitExp_noFlowError cs right) hr
      | ok right1 =>
        simp only
        cases hb : binaryOpType op left1.dataType right1.dataType with
        | error a => exact noFlowError_error _ a (binaryOpType_noFlowError _ _ _) hb
        | ok t => exact noFlowError_ok _
  | ExpNode.Call _ callee args => by
    simp only [visitExp]
    cases hl : lookupCurrent cs callee with
    | error a => exact noFlowError_error _ a (lookupCurrent_noFlowError cs callee) hl
    | ok o =>
      cases o with
      | none => exact noFlowError_throwSem _ _ (by decide)
      | some symbol =>
        simp only
        split
        · exact noFlowError_throwSem _ _ (by decide)
        · split
          · exact noFlowError_throwSem _ _ (by decide)
          · cases hv : visitArgs cs callee symbol.paramTypes 0 [] args with
            | error a =>
              exact noFlowError_error _ a (visitArgs_noFlowError cs callee args _ _ _) hv
            | ok args1 => exact noFlowError_ok _
theorem visitArgs_noFlowError (cs : Option Scope) (callee : String) :
    ∀ (args : List ExpNode) (paramTypes : List DataType) (i : Nat) (argTypes : List DataType),
      NoFlowError (visitArgs cs callee paramTypes i argTypes args)
  | [], _, _, _ => by simp only [visitArgs]; exact noFlowError_ok _
  | arg :: rest, paramTypes, i, argTypes => by
    simp only [visitArgs]
    cases hv : visitExp cs arg with
    | error a => exact noFlowError_error _ a (visitExp_noFlowError cs arg) hv
    | ok arg1 =>
      simp only
      cases hp : paramTypes[i]? with
      | none => exact noFlowError_undefined
      | some paramType =>
        simp only
        split
        · exact noFlowError_throwSem _ _ (by decide)
        · cases hr : visitArgs cs callee paramTypes (i + 1) (argTypes ++ [arg1.dataType]) rest with
          | error a =>
            exact noFlowError_error _ a (visitArgs_noFlowError cs callee rest _ _ _) hr
          | ok rest1 => exact noFlowError_ok _
end

theorem checkRedeclared_noFlowError (cs : Option Scope) (name : String) :
    NoFlowError (checkRedeclared cs name) := by
  unfold checkRedeclared
  cases cs with
  | none => exact noFlowError_undefined
  | some s =>
    simp only
    split
    · split
      · split
        · exact noFlowError_throwSem _ _ (by decide)
        · exact noFlowError_throwSem _ _ (by decide)
      · exact noFlowError_throwSem _ _ (by decide)
    · exact noFlowError_ok _

theorem exitScope_noFlowError (cs : Option Scope) : NoFlowError (exitScope cs) := by
  unfold exitScope
  cases cs with
  | none => exact noFlowError_undefined
  | some s => exact noFlowError_ok _

theorem addParams_noFlowError : ∀ (params : List ParamNode) (cs : Option Scope),
    NoFlowError (addParams cs params)
  | [], cs => by simp only [addParams]; exact noFlowError_ok _
  | param :: rest, cs => by
    simp only [addParams]
    cases cs with
    | none => exact noFlowError_undefined
    | some s =>
      simp only
      split
      · exact noFlowError_throwSem _ _ (by decide)
      · exact addParams_noFlowError rest _

theorem visitVarOrLet_noFlowError (st : ScopeAndTypeChecker) (kind : SymbolKind)
    (name : String) (type : BaseType) (init : ExpNode) :
    NoFlowError (visitVarOrLet st kind name type init) := by
  unfold visitVarOrLet
  cases hc : checkRedeclared st.currentScope name with
  | error a => exact noFlowError_error _ a (checkRedeclared_noFlowError _ _) hc
  | ok u =>
    simp only
    cases hv : visitExp st.currentScope init with
    | error a => exact noFlowError_error _ a (visitExp_noFlowError _ _) hv
    | ok init1 =>
      simp only
      split
      · exact noFlowError_throwSem _ _ (by decide)
      · cases st.currentScope with
        | none => exact noFlowError_undefined
        | some s => exact noFlowError_ok _

theorem visitAssign_noFlowError (st : ScopeAndTypeChecker) (name : String) (rhs : ExpNode) :
    NoFlowError (visitAssign st name rhs) := by
  unfold visitAssign
  cases hl : lookupCurrent st.currentScope name with
  | error a => exact noFlowError_error _ a (lookupCurrent_noFlowError _ _) hl
  | ok o =>
    cases o with
    | none => exact noFlowError_throwSem _ _ (by decide)
    | some symbol =>
      simp only
      split
      · exact noFlowError_throwSem _ _ (by decide)
      · split
        · exact noFlowError_throwSem _ _ (by decide)
        · cases hv : visitExp st.currentScope rhs with
          | error a => exact noFlowError_error _ a (visitExp_noFlowError _ _) hv
          | ok rhs1 =>
            simp only
            split
            · exact noFlowError_throwSem _ _ (by decide)
            · exact noFlowError_ok _

theorem visitReturn_noFlowError (st : ScopeAndTypeChecker) (expr : ExpNode) :
    NoFlowError (visitReturn st expr) := by
  unfold visitReturn
  cases hv : visitExp st.currentScope expr with
  | error a => exact noFlowError_error _ a (visitExp_noFlowError _ _) hv
  | ok expr1 =>
    simp only
    cases st.currentFunction with
    | none => exact noFlowError_undefined
    | some f =>
      simp only
      split
      · exact noFlowError_throwSem _ _ (by decide)
      · exact noFlowError_ok _

theorem visitCond_noFlowError (st : ScopeAndTypeChecker) (cond : ExpNode) :
    NoFlowError (visitCond st cond) := by
  unfold visitCond
  cases hv : visitExp st.currentScope cond with
  | error a => exact noFlowError_error _ a (visitExp_noFlowError _ _) hv
  | ok cond1 =>
    simp only
    split
    · exact noFlowError_throwSem _ _ (by decide)
    · exact noFlowError_ok _

mutual
theorem visitDecl_noFlowError : ∀ (d : DeclNode) (st : ScopeAndTypeChecker),
    NoFlowError (visitDecl st d)
  | DeclNode.VarDecl name type init, st => by
    simp only [visitDecl]
    cases hv : visitVarOrLet st SymbolKind.Variable name type init with
    | error a => exact noFlowError_error _ a (visitVarOrLet_noFlowError _ _ _ _ _) hv
    | ok res => exact noFlowError_ok _
  | DeclNode.LetDecl name type init, st => by
    simp only [visitDecl]
    cases hv : visitVarOrLet st SymbolKind.Constant name type init with
    | error a => exact noFlowError_error _ a (visitVarOrLet_noFlowError _ _ _ _ _) hv
    | ok res => exact noFlowError_ok _
  | DeclNode.FuncDecl name params retType body, st => by
    simp only [visitDecl]
    cases st.currentScope with
    | none => exact noFlowError_undefined
    | some s =>
      simp only
      split
      · exact noFlowError_throwSem _ _ (by decide)
      · cases hp : addParams (some (Scope.mk [] (some (s.addFunction name
            (baseTypeToDataType retType)
            (params.map (fun param => baseTypeToDataType param.type)))))) params with
        | error a => exact noFlowError_error _ a (addParams_noFlowError _ _) hp
        | ok cs1 =>
          simp only
          cases hb : visitBlock ⟨cs1, some ⟨name, retType⟩⟩ body with
          | error a => exact noFlowError_error _ a (visitBlock_noFlowError body _) hb
          | ok res =>
            obtain ⟨st2, body1⟩ := res
            simp only
            cases he : exitScope st2.currentScope with
            | error a => exact noFlowError_error _ a (exitScope_noFlowError _) he
            | ok cs3 => exact noFlowError_ok _
theorem visitStmt_noFlowError : ∀ (s : StmtNode) (st : ScopeAndTypeChecker),
    NoFlowError (visitStmt st s)
  | StmtNode.Assign name rhs, st => by
    simp only [visitStmt]
    cases hv : visitAssign st name rhs with
    | error a => exact noFlowError_error _ a (visitAssign_noFlowError _ _ _) hv
    | ok rhs1 => exact noFlowError_ok _
  | StmtNode.Print expr, st => by
    simp only [visitStmt]
    cases hv : visitExp st.currentScope expr with
    | error a => exact noFlowError_error _ a (visitExp_noFlowError _ _) hv
    | ok expr1 => exact noFlowError_ok _
  | StmtNode.Return expr, st => by
    simp only [visitStmt]
    cases hv : visitReturn st expr with
    | error a => exact noFlowError_error _ a (visitReturn_noFlowError _ _) hv
    | ok expr1 => exact noFlowError_ok _
  | StmtNode.If cond thenBlk elseBlk, st => by
    simp only [visitStmt]
    cases hc : visitCond st cond with
    | error a => exact noFlowError_error _ a (visitCond_noFlowError _ _) hc
    | ok cond1 =>
      simp only
      cases ht : visitBlock st thenBlk with
      | error a => exact noFlowError_error _ a (visitBlock_noFlowError thenBlk _) ht
      | ok res =>
        obtain ⟨st1, thenBlk1⟩ := res
        simp only
        cases he : visitElse st1 elseBlk with
        | error a => exact noFlowError_error _ a (visitElse_noFlowError elseBlk _) he
        | ok res2 => exact noFlowError_ok _
  | StmtNode.While cond body, st => by
    simp only [visitStmt]
    cases hc : visitCond st cond with
    | error a => exact noFlowError_error _ a (visitCond_noFlowError _ _) hc
    | ok cond1 =>
      simp only
      cases hb : visitBlock st body with
      | error a => exact noFlowError_error _ a (visitBlock_noFlowError body _) hb
      | ok res => exact noFlowError_ok _
theorem visitElse_noFlowError : ∀ (e : Option BlockNode) (st : ScopeAndTypeChecker),
    NoFlowError (visitElse st e)
  | none, st => by simp only [visitElse]; exact noFlowError_ok _
  | some blk, st => by
    simp only [visitElse]
    cases hb : visitBlock st blk with
    | error a => exact noFlowError_error _ a (visitBlock_noFlowError blk _) hb
    | ok res => exact noFlowError_ok _
theorem visitBlock_noFlowError : ∀ (b : BlockNode) (st : ScopeAndTypeChecker),
    NoFlowError (visitBlock st b)
  | BlockNode.mk decls stmts items, st => by
    simp only [visitBlock]
    cases hd : visitDecls ⟨some (Scope.mk [] st.currentScope), st.currentFunction⟩ decls with
    | error a => exact noFlowError_error _ a (visitDecls_noFlowError decls _) hd
    | ok res =>
      obtain ⟨sd, decls1⟩ := res
      simp only
      cases hs : visitStmts sd stmts with
      | error a => exact noFlowError_error _ a (visitStmts_noFlowError stmts _) hs
      | ok res2 =>
        obtain ⟨ss, stmts1⟩ := res2
        simp only
        cases he : exitScope ss.currentScope with
        | error a => exact noFlowError_error _ a (exitScope_noFlowError _) he
        | ok cs3 => exact noFlowError_ok _
theorem visitDecls_noFlowError : ∀ (ds : List DeclNode) (st : ScopeAndTypeChecker),
    NoFlowError (visitDecls st ds)
  | [], st => by simp only [visitDecls]; exact noFlowError_ok _
  | d :: rest, st => by
    simp only [visitDecls]
    cases hd : visitDecl st d with
    | error a => exact noFlowError_error _ a (visitDecl_noFlowError d _) hd
    | ok res =>
      obtain ⟨st1, d1⟩ := res
      simp only
      cases hr : visitDecls st1 rest with
      | error a => exact noFlowError_error _ a (visitDecls_noFlowError rest _) hr
      | ok res2 => exact noFlowError_ok _
theorem visitStmts_noFlowError : ∀ (ss : List StmtNode) (st : ScopeAndTypeChecker),
    NoFlowError (visitStmts st ss)
  | [], st => by simp only [visitStmts]; exact noFlowError_ok _
  | s :: rest, st => by
    simp only [visitStmts]
    cases hd : visitStmt st s with
    | error a => exact noFlowError_error _ a (visitStmt_noFlowError s _) hd
    | ok res =>
      obtain ⟨st1, s1⟩ := res
      simp only
      cases hr : visitStmts st1 rest with
      | error a => exact noFlowError_error _ a (visitStmts_noFlowError rest _) hr
      | ok res2 => exact noFlowError_ok _
end

theorem visitProgram_noFlowError (p : ProgramNode) : NoFlowError (visitProgram p) := by
  unfold visitProgram
  cases hd : visitDecls ⟨some (Scope.mk [] none), none⟩ p.declarations with
  | error a => exact noFlowError_error _ a (visitDecls_noFlowError _ _) hd
  | ok res => exact noFlowError_ok _

/-- C36: `analyze` runs the control-flow checker on the tree the
scope-and-type pass returns, and only when that pass returns: when the pass
fails, `analyze` fails with the same error, and that error is neither
`UNREACHABLE_CODE` nor `MISSING_RETURN`. -/
theorem analyze_type_error_first (p : ProgramNode) (a : Abort)
    (h : visitProgram p = Except.error a) :
    analyze (some p) = Except.error a ∧
    errorTypeOf (analyze (some p)) ≠ some SemanticErrorType.UNREACHABLE_CODE ∧
    errorTypeOf (analyze (some p)) ≠ some SemanticErrorType.MISSING_RETURN := by
  have ha : analyze (some p) = Except.error a := by
    simp only [analyze, h]
  refine ⟨ha, ?_⟩
  rw [ha]
  cases a with
  | undefined => simp [errorTypeOf, errorOf]
  | thrown e =>
    have hno := visitProgram_noFlowError p e h
    simp only [errorTypeOf, errorOf, Option.map_some', ne_eq, Option.some.injEq]
    exact hno

theorem analyze_type_error_first_witness :
    analyze (some typeErrorAndUnreachableProgram) =
        throwSem SemanticErrorType.UNDECLARED_IDENTIFIER (SemanticErrorContext.Identifier "x") ∧
      errorTypeOf (analyze (some typeErrorAndUnreachableProgram)) ≠
        some SemanticErrorType.UNREACHABLE_CODE ∧
      errorTypeOf (analyze (some typeErrorAndUnreachableProgram)) ≠
        some SemanticErrorType.MISSING_RETURN :=
  analyze_type_error_first typeErrorAndUnreachableProgram _ rfl

mutual
theorem visitExp_mentions_unbound (S : Scope) (x : String) (hun : S.Unbound x) :
    ∀ (e : ExpNode), mentionsId x e = true → ∀ r, visitExp (some S) e ≠ Except.ok r
  | ExpNode.IntLit _ _, hm, _ => by simp [mentionsId] at hm
  | ExpNode.FloatLit _ _, hm, _ => by simp [mentionsId] at hm
  | ExpNode.BoolLit _ _, hm, _ => by simp [mentionsId] at hm
  | ExpNode.Id _ name, hm, r => by
    simp only [mentionsId, decide_eq_true_eq] at hm
    subst hm
    have hl := Scope.lookup_of_unbound S name hun
    simp only [visitExp, lookupCurrent, hl, throwSem]
    intro h
    cases h
  | ExpNode.UnaryOp _ _ expr, hm, r => by
    simp only [mentionsId] at hm
    have ih := visitExp_mentions_unbound S x hun expr hm
    intro h
    rw [visitExp] at h
    cases hv : visitExp (some S) expr with
    | error a => rw [hv] at h; cases h
    | ok e1 => exact ih e1 hv
  | ExpNode.BinaryOp _ _ left right, hm, r => by
    simp only [mentionsId, Bool.or_eq_true] at hm
    intro h
    rw [visitExp] at h
    cases hl : visitExp (some S) left with
    | error a => rw [hl] at h; cases h
    | ok l1 =>
      cases hr : visitExp (some S) right with
      | error a => rw [hl, hr] at h; cases h
      | ok r1 =>
        rcases hm with hm | hm
        · exact visitExp_mentions_unbound S x hun left hm l1 hl
        · exact visitExp_mentions_unbound S x hun right hm r1 hr
  | ExpNode.Call _ callee args, hm, r => by
    simp only [mentionsId] at hm
    intro h
    rw [visitExp] at h
    split at h
    · cases h
    · cases h
    · split at h
      · cases h
      · split at h
        · cases h
        · split at h
          · cases h
          · rename_i args1 ha
            exact visitArgs_mentions_unbound S x hun _ _ _ _ args hm args1 ha
theorem visitArgs_mentions_unbound (S : Scope) (x : String) (hun : S.Unbound x) :
    ∀ (callee : String) (paramTypes : List DataType) (i : Nat) (argTypes : List DataType)
      (args : List ExpNode), mentionsIdArgs x args = true →
      ∀ r, visitArgs (some S) callee paramTypes i argTypes args ≠ Except.ok r
  | _, _, _, _, [], hm, _ => by simp [mentionsIdArgs] at hm
  | callee, paramTypes, i, argTypes, arg :: rest, hm, r => by
    simp only [mentionsIdArgs, Bool.or_eq_true] at hm
    intro h
    rw [visitArgs] at h
    cases ha : visitExp (some S) arg with
    | error a => rw [ha] at h; cases h
    | ok a1 =>
      rw [ha] at h
      simp only at h
      rcases hm with hm | hm
      · exact visitExp_mentions_unbound S x hun arg hm a1 ha
      · split at h
        · cases h
        · split at h
          · cases h
          · split at h
            · cases h
            · rename_i rest1 hr
              exact visitArgs_mentions_unbound S x hun _ _ _ _ rest hm rest1 hr
end

/-! ## The initialiser and the declared name -/

mutual
theorem visitExp_reachesId (S : Scope) (x : String) (hun : S.Unbound x) :
    ∀ (e : ExpNode), reachesId S x e = true →
      visitExp (some S) e =
        throwSem SemanticErrorType.UNDECLARED_IDENTIFIER (SemanticErrorContext.Identifier x)
  | ExpNode.IntLit _ _, h => by simp [reachesId] at h
  | ExpNode.FloatLit _ _, h => by simp [reachesId] at h
  | ExpNode.BoolLit _ _, h => by simp [reachesId] at h
  | ExpNode.Id _ name, h => by
    simp only [reachesId, decide_eq_true_eq] at h
    subst h
    have hl := Scope.lookup_of_unbound S name hun
    simp only [visitExp, lookupCurrent, hl]
  | ExpNode.UnaryOp _ _ expr, h => by
    simp only [reachesId] at h
    have ih := visitExp_reachesId S x hun expr h
    rw [visitExp, ih]
    rfl
  | ExpNode.BinaryOp _ _ left right, h => by
    simp only [reachesId, Bool.or_eq_true, Bool.and_eq_true] at h
    rcases h with h | ⟨hl, hr⟩
    · have ih := visitExp_reachesId S x hun left h
      rw [visitExp, ih]
      rfl
    · have ih := visitExp_reachesId S x hun right hr
      cases hv : visitExp (some S) left with
      | error a => rw [hv] at hl; simp [accepted] at hl
      | ok left1 =>
        rw [visitExp, hv, ih]
        rfl
  | ExpNode.Call _ callee args, h => by
    simp only [reachesId] at h
    cases hl : S.lookup callee with
    | none => simp [hl] at h
    | some symbol =>
      simp only [hl, Bool.and_eq_true, decide_eq_true_eq] at h
      obtain ⟨⟨hk, hn⟩, ha⟩ := h
      have ih := visitArgs_reachesId S x hun callee symbol.paramTypes args 0 [] ha
      rw [visitExp]
      simp only [lookupCurrent, hl, hk, hn, ne_eq, not_true_eq_false, if_false, ih]
      rfl
theorem visitArgs_reachesId (S : Scope) (x : String) (hun : S.Unbound x) (callee : String)
    (paramTypes : List DataType) :
    ∀ (args : List ExpNode) (i : Nat) (argTypes : List DataType),
      reachesIdArgs S x paramTypes i args = true →
      visitArgs (some S) callee paramTypes i argTypes args =
        throwSem SemanticErrorType.UNDECLARED_IDENTIFIER (SemanticErrorContext.Identifier x)
  | [], _, _, h => by simp [reachesIdArgs] at h
  | arg :: rest, i, argTypes, h => by
    simp only [reachesIdArgs, Bool.or_eq_true] at h
    rcases h with h | h
    · have ih := visitExp_reachesId S x hun arg h
      rw [visitArgs, ih]
      rfl
    · cases hv : visitExp (some S) arg with
      | error a => simp [hv] at h
      | ok arg1 =>
        simp only [hv] at h
        cases hp : paramTypes[i]? with
        | none => simp [hp] at h
        | some paramType =>
          simp only [hp, Bool.and_eq_true] at h
          have ih := visitArgs_reachesId S x hun callee paramTypes rest (i + 1)
            (argTypes ++ [arg1.dataType]) h.2
          rw [visitArgs]
          simp only [hv, hp, h.1, Bool.not_true, Bool.false_eq_true, if_false, ih]
          rfl
end

mutual
theorem visitExp_idTypes (S : Scope) (x : String) (b : SymbolInfo)
    (hb : S.lookup x = some b) :
    ∀ (e e1 : ExpNode), visitExp (some S) e = Except.ok e1 → ∀ t ∈ idTypes x e1, t = b.type
  | ExpNode.IntLit _ _, e1, h => by
    simp [visitExp] at h; subst h; simp [idTypes]
  | ExpNode.FloatLit _ _, e1, h => by
    simp [visitExp] at h; subst h; simp [idTypes]
  | ExpNode.BoolLit _ _, e1, h => by
    simp [visitExp] at h; subst h; simp [idTypes]
  | ExpNode.Id _ name, e1, h => by
    simp only [visitExp, lookupCurrent] at h
    cases hl : S.lookup name with
    | none => simp [hl, throwSem] at h
    | some symbol =>
      simp only [hl] at h
      by_cases hk : symbol.kind = SymbolKind.Function
      · simp [hk, throwSem] at h
      · simp only [hk, if_false, Except.ok.injEq] at h
        subst h
        intro t ht
        simp only [idTypes] at ht
        by_cases hx : name = x
        · simp only [hx, if_true, List.mem_singleton] at ht
          rw [hx, hb] at hl
          simp only [Option.some.injEq] at hl
          rw [ht, hl]
        · simp [hx] at ht
  | ExpNode.UnaryOp _ op expr, e1, h => by
    cases op
    simp only [visitExp] at h
    cases hv : visitExp (some S) expr with
    | error a => simp [hv] at h
    | ok expr1 =>
      have ih := visitExp_idTypes S x b hb expr expr1 hv
      simp only [hv, if_true] at h
      by_cases hn : isNumeric expr1.dataType = true
      · simp only [hn, Bool.not_true, Bool.false_eq_true, if_false, Except.ok.injEq] at h
        subst h
        simpa only [idTypes] using ih
      · simp [hn, throwSem] at h
  | ExpNode.BinaryOp _ op left right, e1, h => by
    simp only [visitExp] at h
    cases hl : visitExp (some S) left with
    | error a => simp [hl] at h
    | ok left1 =>
      cases hr : visitExp (some S) right with
      | error a => simp [hl, hr] at h
      | ok right1 =>
        have ihl := visitExp_idTypes S x b hb left left1 hl
        have ihr := visitExp_idTypes S x b hb right right1 hr
        simp only [hl, hr] at h
        cases hbt : binaryOpType op left1.dataType right1.dataType with
        | error a => simp [hbt] at h
        | ok t =>
          simp only [hbt, Except.ok.injEq] at h
          subst h
          intro t ht
          simp only [idTypes, List.mem_append] at ht
          rcases ht with ht | ht
          · exact ihl t ht
          · exact ihr t ht
  | ExpNode.Call _ callee args, e1, h => by
    simp only [visitExp, lookupCurrent] at h
    cases hl : S.lookup callee with
    | none => simp [hl, throwSem] at h
    | some symbol =>
      simp only [hl] at h
      by_cases hk : symbol.kind = SymbolKind.Function
      · by_cases hlen : args.length = symbol.paramTypes.length
        · simp only [hk, hlen, ne_eq, not_true_eq_false, if_false] at h
          cases hv : visitArgs (some S) callee symbol.paramTypes 0 [] args with
          | error a => simp [hv] at h
          | ok args1 =>
            have ih := visitArgs_idTypes S x b hb callee args _ _ _ args1 hv
            simp only [hv, Except.ok.injEq] at h
            subst h
            simpa only [idTypes] using ih
        · simp [hk, hlen, throwSem] at h
      · simp [hk, throwSem] at h
theorem visitArgs_idTypes (S : Scope) (x : String) (b : SymbolInfo)
    (hb : S.lookup x = some b) (callee : String) :
    ∀ (args : List ExpNode) (paramTypes : List DataType) (i : Nat) (argTypes : List DataType)
      (args1 : List ExpNode),
      visitArgs (some S) callee paramTypes i argTypes args = Except.ok args1 →
        ∀ t ∈ idTypesArgs x args1, t = b.type
  | [], _, _, _, args1, h => by
    simp only [visitArgs, Except.ok.injEq] at h
    subst h; simp [idTypesArgs]
  | arg :: rest, paramTypes, i, argTypes, args1, h => by
    simp only [visitArgs] at h
    cases hv : visitExp (some S) arg with
    | error a => simp [hv] at h
    | ok arg1 =>
      have ih := visitExp_idTypes S x b hb arg arg1 hv
      simp only [hv] at h
      cases hp : paramTypes[i]? with
      | none => simp [hp] at h
      | some paramType =>
        simp only [hp] at h
        by_cases hc : isAssignmentCompatible paramType arg1.dataType = true
        · simp only [hc, Bool.not_true, Bool.false_eq_true, if_false] at h
          cases hr : visitArgs (some S) callee paramTypes (i + 1) (argTypes ++ [arg1.dataType])
              rest with
          | error a => simp [hr] at h
          | ok rest1 =>
            have ihr := visitArgs_idTypes S x b hb callee rest _ _ _ rest1 hr
            simp only [hr, Except.ok.injEq] at h
            subst h
            intro t ht
            simp only [idTypesArgs, List.mem_append] at ht
            rcases ht with ht | ht
            · exact ih t ht
            · exact ihr t ht
        · simp [hc, throwSem] at h
end

/-- C38 (as amended): the initialiser of a `var` or `let` declaration of `x`, a
name with no entry in the current scope `S` itself, is typed in `S` as it is
before the declaration: a failure of that typing is the failure of the
declaration, and a declaration that succeeds holds the initialiser typed in
`S`.  When no scope on the chain of `S` binds `x`, a declaration whose
initialiser contains `Id x` is never accepted, and it fails with
`UNDECLARED_IDENTIFIER` for `x` when the visit comes to an `Id x`, that is when
every part of the initialiser visited before it is accepted, as in `1 + x`, in
`v + x` with `v` bound and in `f(1, -x)`.  When a scope on the chain binds `x`
to `b`, which is then an outer binding, every `Id x` of a typed initialiser
carries the type of `b`, and for a variable or constant `b` of a compatible
type the declaration with initialiser `Id x` succeeds with it. -/
theorem initializer_before_binding (S : Scope) (cf : Option FuncRef) (x : String)
    (type : BaseType) (hfresh : SymbolTable.find S.symbolTable x = none) :
    (∀ init a, visitExp (some S) init = Except.error a →
      visitDecl ⟨some S, cf⟩ (DeclNode.VarDecl x type init) = Except.error a ∧
      visitDecl ⟨some S, cf⟩ (DeclNode.LetDecl x type init) = Except.error a) ∧
    (∀ init st1 d1,
      visitDecl ⟨some S, cf⟩ (DeclNode.VarDecl x type init) = Except.ok (st1, d1) ∨
        visitDecl ⟨some S, cf⟩ (DeclNode.LetDecl x type init) = Except.ok (st1, d1) →
      ∃ init1, visitExp (some S) init = Except.ok init1 ∧
        (d1 = DeclNode.VarDecl x type init1 ∨ d1 = DeclNode.LetDecl x type init1)) ∧
    (S.Unbound x → ∀ init, mentionsId x init = true →
      (∀ r, visitDecl ⟨some S, cf⟩ (DeclNode.VarDecl x type init) ≠ Except.ok r) ∧
      (∀ r, visitDecl ⟨some S, cf⟩ (DeclNode.LetDecl x type init) ≠ Except.ok r)) ∧
    (S.Unbound x → ∀ init, reachesId S x init = true →
      visitDecl ⟨some S, cf⟩ (DeclNode.VarDecl x type init) =
        throwSem SemanticErrorType.UNDECLARED_IDENTIFIER (SemanticErrorContext.Identifier x) ∧
      visitDecl ⟨some S, cf⟩ (DeclNode.LetDecl x type init) =
        throwSem SemanticErrorType.UNDECLARED_IDENTIFIER (SemanticErrorContext.Identifier x)) ∧
    (∀ b, S.lookup x = some b → ∀ init init1, visitExp (some S) init = Except.ok init1 →
      ∀ t ∈ idTypes x init1, t = b.type) ∧
    (∀ b dt, S.lookup x = some b → b.kind ≠ SymbolKind.Function →
      isAssignmentCompatible (baseTypeToDataType type) b.type = true →
      visitDecl ⟨some S, cf⟩ (DeclNode.VarDecl x type (ExpNode.Id dt x)) =
        Except.ok (⟨some (S.addSymbol x SymbolKind.Variable (baseTypeToDataType type)), cf⟩,
          DeclNode.VarDecl x type (ExpNode.Id b.type x)) ∧
      visitDecl ⟨some S, cf⟩ (DeclNode.LetDecl x type (ExpNode.Id dt x)) =
        Except.ok (⟨some (S.addSymbol x SymbolKind.Constant (baseTypeToDataType type)), cf⟩,
          DeclNode.LetDecl x type (ExpNode.Id b.type x))) ∧
    reachesId (Scope.mk [] none) "x" onePlusX = true ∧
    reachesId sampleScope "x" vPlusX = true ∧
    reachesId sampleScope "x" callWithNegX = true ∧
    reachesId (Scope.mk [] none) "x" yPlusX = false := by
  have hc := checkRedeclared_of_find_none S x hfresh
  have herr : ∀ kind init a, visitExp (some S) init = Except.error a →
      visitVarOrLet ⟨some S, cf⟩ kind x type init = Except.error a := by
    intro kind init a hv
    simp only [visitVarOrLet, hc, hv]
  have hok : ∀ kind init st1 init1,
      visitVarOrLet ⟨some S, cf⟩ kind x type init = Except.ok (st1, init1) →
      visitExp (some S) init = Except.ok init1 := by
    intro kind init st1 init1 h
    obtain ⟨S1, hS1, _, hv, _, _⟩ := visitVarOrLet_ok _ _ _ _ _ _ _ h
    simp only [Option.some.injEq] at hS1
    rw [hS1]
    exact hv
  refine ⟨?_, ?_, ?_, ?_, ?_, ?_, rfl, rfl, rfl, rfl⟩
  · intro init a hv
    constructor <;> simp only [visitDecl, herr _ init a hv]
  · intro init st1 d1 h
    rcases h with h | h
    · obtain ⟨init1, hv, hd⟩ := visitDecl_varDecl_ok _ _ _ _ _ _ h
      exact ⟨init1, hok _ _ _ _ hv, Or.inl hd⟩
    · obtain ⟨init1, hv, hd⟩ := visitDecl_letDecl_ok _ _ _ _ _ _ h
      exact ⟨init1, hok _ _ _ _ hv, Or.inr hd⟩
  · intro hun init hm
    constructor
    · intro r h
      obtain ⟨st1, d1⟩ := r
      obtain ⟨init1, hv, _⟩ := visitDecl_varDecl_ok _ _ _ _ _ _ h
      exact visitExp_mentions_unbound S x hun init hm _ (hok _ _ _ _ hv)
    · intro r h
      obtain ⟨st1, d1⟩ := r
      obtain ⟨init1, hv, _⟩ := visitDecl_letDecl_ok _ _ _ _ _ _ h
      exact visitExp_mentions_unbound S x hun init hm _ (hok _ _ _ _ hv)
  · intro hun init hr
    have hv := visitExp_reachesId S x hun init hr
    constructor <;> simp only [visitDecl, herr _ init _ hv] <;> rfl
  · intro b hb init init1 hv
    exact visitExp_idTypes S x b hb init init1 hv
  · intro b dt hl hk hcompat
    have hv : visitExp (some S) (ExpNode.Id dt x) = Except.ok (ExpNode.Id b.type x) := by
      simp only [visitExp, lookupCurrent, hl, hk, if_false]
    constructor <;>
      simp only [visitDecl, visitVarOrLet, hc, hv, ExpNode.dataType, hcompat, Bool.not_true,
        Bool.false_eq_true, if_false]

theorem initializer_before_binding_witness :
    visitDecl ⟨some (Scope.mk [] none), none⟩ (DeclNode.VarDecl "x" BaseType.Int onePlusX) =
      throwSem SemanticErrorType.UNDECLARED_IDENTIFIER (SemanticErrorContext.Identifier "x") ∧
    visitDecl ⟨some (Scope.mk [] (some sampleScope)), none⟩
        (DeclNode.VarDecl "k" BaseType.Int (ExpNode.Id DataType.IOTA "k")) =
      Except.ok (⟨some ((Scope.mk [] (some sampleScope)).addSymbol "k" SymbolKind.Variable
        DataType.INT), none⟩, DeclNode.VarDecl "k" BaseType.Int (ExpNode.Id DataType.INT "k")) :=
  ⟨((initializer_before_binding (Scope.mk [] none) none "x" BaseType.Int rfl).2.2.2.1
      (by intro t ht; simp [Scope.chain] at ht; rw [ht]; rfl) onePlusX rfl).1,
   ((initializer_before_binding (Scope.mk [] (some sampleScope)) none "k" BaseType.Int
      rfl).2.2.2.2.2.1 ⟨"k", SymbolKind.Constant, DataType.INT, []⟩ DataType.IOTA rfl
        (by decide) rfl).1⟩

/-- C38 (as stated, refuted): in the empty scope, `var x: int = y + x` mentions
`Id x` and `x` is bound nowhere, yet the declaration fails with
`UNDECLARED_IDENTIFIER` for `y`, the first identifier the visit reaches, and not
for `x`. -/
theorem initializer_error_names_first_identifier :
    visitDecl ⟨some (Scope.mk [] none), none⟩
        (DeclNode.VarDecl "x" BaseType.Int
          (ExpNode.BinaryOp DataType.IOTA BinOp.Add (ExpNode.Id DataType.IOTA "y")
            (ExpNode.Id DataType.IOTA "x"))) =
      throwSem SemanticErrorType.UNDECLARED_IDENTIFIER (SemanticErrorContext.Identifier "y") ∧
    visitDecl ⟨some (Scope.mk [] none), none⟩
        (DeclNode.VarDecl "x" BaseType.Int
          (ExpNode.BinaryOp DataType.IOTA BinOp.Add (ExpNode.Id DataType.IOTA "y")
            (ExpNode.Id DataType.IOTA "x"))) ≠
      throwSem SemanticErrorType.UNDECLARED_IDENTIFIER (SemanticErrorContext.Identifier "x") := by
  have h : visitDecl ⟨some (Scope.mk [] none), none⟩
        (DeclNode.VarDecl "x" BaseType.Int
          (ExpNode.BinaryOp DataType.IOTA BinOp.Add (ExpNode.Id DataType.IOTA "y")
            (ExpNode.Id DataType.IOTA "x"))) =
      throwSem SemanticErrorType.UNDECLARED_IDENTIFIER (SemanticErrorContext.Identifier "y") :=
    rfl
  refine ⟨h, ?_⟩
  rw [h]
  intro heq
  simp only [throwSem, Except.error.injEq, Abort.thrown.injEq, SemanticException.mk.injEq,
    true_and] at heq
  have hid := congrArg SemanticErrorContext.identifier heq
  exact absurd hid (by decide)

/-! ## A local with the name of a parameter -/

theorem pushEnv_enterFunction_ctx (name : String) (params : List ParamNode)
    (g : CodeGenVisitor) :
    (pushEnv (enterFunction name params g)).currentFunc = some name ∧
    ((pushEnv (enterFunction name params g)).ctx name).nextLocalOffset = 0 ∧
    ((pushEnv (enterFunction name params g)).ctx name).envStack =
      [[], installParams (sizeToInt params.length) 0 params []] := by
  unfold enterFunction
  simp only [newLabel, pushEnv, CodeGenVisitor.ctx, CodeGenVisitor.setCtx, CodeGenVisitor.emit,
    StdMap.find_assign_key, Option.getD_some]
  exact ⟨trivial, trivial, trivial⟩

theorem declareLocalVariable_lookup (g : CodeGenVisitor) (key name : String)
    (h : g.currentFunc = some key) :
    (declareLocalVariable g name).1 = wrapInt ((g.ctx key).nextLocalOffset - 4) ∧
    lookupVariable (declareLocalVariable g name).2 name =
      some (wrapInt ((g.ctx key).nextLocalOffset - 4)) := by
  unfold declareLocalVariable
  simp only [h]
  simp only [CodeGenVisitor.ctx, CodeGenVisitor.setCtx, CodeGenVisitor.emit,
    StdMap.find_assign_key, Option.getD_some]
  cases hs : ((StdMap.find g.functionContexts key).getD ⟨0, 0, [], ""⟩).envStack with
  | nil =>
    simp only [lookupVariable, h, CodeGenVisitor.ctx, StdMap.find_assign_key,
      Option.getD_some, lookupFrames, true_and]
  | cons frame rest =>
    simp only [lookupVariable, h, CodeGenVisitor.ctx, StdMap.find_assign_key,
      Option.getD_some, lookupFrames, true_and]

/-- C39: the declarations of a function body are visited in a scope of their
own, empty at first, whose parent is the scope `P` that holds the parameters.
In a scope whose own table has no entry for `x`, a declaration of `x` with a
compatible initialiser is accepted whatever the parent scopes bind, and in a
scope whose own table binds `x` to a variable or constant
`Id x` takes the type of that entry whatever the parent binds.  In the code
generator `lookupVariable` returns the offset of the first frame, from the
innermost outwards, that has the name; in the body of a function a new local
gets offset `-4` and a later lookup of its name returns `-4`, also when a
parameter has that name.  The program
`func f(a: bool): float { var a: float = 1.5; return a; }` is accepted with
the use typed `float`, and its text reads `a` from `-4($fp)`, never from
`8($fp)`. -/
theorem body_local_shadows_parameter :
    (∀ st st1 f params ret decls stmts items d1,
      visitDecl st (DeclNode.FuncDecl f params ret (BlockNode.mk decls stmts items)) =
        Except.ok (st1, d1) →
      ∃ G P sd decls1, st.currentScope = some G ∧
        addParams (some (Scope.mk [] (some (G.addFunction f (baseTypeToDataType ret)
          (params.map (fun param => baseTypeToDataType param.type)))))) params =
            Except.ok (some P) ∧
        visitDecls ⟨some (Scope.mk [] (some P)), some ⟨f, ret⟩⟩ decls = Except.ok (sd, decls1)) ∧
    (∀ (S : Scope) cf kind x type init init1, SymbolTable.find S.symbolTable x = none →
      visitExp (some S) init = Except.ok init1 →
      isAssignmentCompatible (baseTypeToDataType type) init1.dataType = true →
      visitVarOrLet ⟨some S, cf⟩ kind x type init =
        Except.ok (⟨some (S.addSymbol x kind (baseTypeToDataType type)), cf⟩, init1) ∧
      SymbolTable.find (S.addSymbol x kind (baseTypeToDataType type)).symbolTable x =
        some ⟨x, kind, baseTypeToDataType type, []⟩) ∧
    (∀ (S : Scope) x b dt, SymbolTable.find S.symbolTable x = some b →
      b.kind ≠ SymbolKind.Function →
      visitExp (some S) (ExpNode.Id dt x) = Except.ok (ExpNode.Id b.type x)) ∧
    (∀ (g : CodeGenVisitor) key name above frame below offset, g.currentFunc = some key →
      (g.ctx key).envStack = above ++ frame :: below →
      (∀ f ∈ above, StdMap.find f name = none) → StdMap.find frame name = some ⟨offset⟩ →
      lookupVariable g name = some offset) ∧
    (∀ (g : CodeGenVisitor) f params x,
      (declareLocalVariable (pushEnv (enterFunction f params g)) x).1 = -4 ∧
      lookupVariable (declareLocalVariable (pushEnv (enterFunction f params g)) x).2 x =
        some (-4)) ∧
    analyze (some shadowParamProgram) = Except.ok (some shadowParamTyped) ∧
    "    lw $t0, -4($fp)" ∈ generatedLines shadowParamProgram ∧
    "    lw $t0, 8($fp)" ∉ generatedLines shadowParamProgram := by
  refine ⟨?_, ?_, ?_, ?_, ?_, rfl, by decide, by decide⟩
  · intro st st1 f params ret decls stmts items d1 h
    obtain ⟨G, P, st2, body1, hG, _, hp, _, hb, _, _, _⟩ :=
      visitDecl_funcDecl_ok _ _ _ _ _ _ _ h
    obtain ⟨sd, decls1, _, _, hd, _, _, _, _⟩ := visitBlock_ok _ _ _ _ _ _ hb
    exact ⟨G, P, sd, decls1, hG, hp, hd⟩
  · intro S cf kind x type init init1 hfresh hv hcompat
    have hc := checkRedeclared_of_find_none S x hfresh
    refine ⟨?_, ?_⟩
    · simp only [visitVarOrLet, hc, hv, hcompat, Bool.not_true, Bool.false_eq_true, if_false]
    · simp only [Scope.addSymbol, Scope.symbolTable, SymbolTable.find_assign_same]
  · intro S x b dt hf hk
    have hl := Scope.lookup_of_find S x b hf
    simp only [visitExp, lookupCurrent, hl, hk, if_false]
  · intro g key name above frame below offset hcur hstack habove hframe
    simp only [lookupVariable, hcur]
    exact (lookupFrames_eq_some name offset _).2 ⟨above, frame, below, hstack, habove, hframe⟩
  · intro g f params x
    obtain ⟨hcur, hoff, _⟩ := pushEnv_enterFunction_ctx f params g
    have h := declareLocalVariable_lookup (pushEnv (enterFunction f params g)) f x hcur
    have hw : wrapInt (0 - 4) = -4 := by decide
    rw [hoff, hw] at h
    exact h

/-! ## The generated text and the annotations -/

theorem eraseArgs_isEmpty : ∀ args : List ExpNode, (eraseArgs args).isEmpty = args.isEmpty
  | [] => rfl
  | _ :: _ => rfl

mutual
theorem genExp_erase : ∀ e : ExpNode, genExp (eraseExp e) = genExp e
  | ExpNode.IntLit _ _ => rfl
  | ExpNode.FloatLit _ _ => rfl
  | ExpNode.BoolLit _ _ => rfl
  | ExpNode.Id _ _ => rfl
  | ExpNode.UnaryOp _ op expr => by
    funext g
    simp only [eraseExp, genExp, genExp_erase expr]
  | ExpNode.BinaryOp _ op left right => by
    funext g
    simp only [eraseExp, genExp, genExp_erase left, genExp_erase right]
  | ExpNode.Call _ callee args => by
    funext g
    simp only [eraseExp, genExp, genArgs_erase args, eraseArgs_length, eraseArgs_isEmpty]
theorem genArgs_erase : ∀ args : List ExpNode, genArgs (eraseArgs args) = genArgs args
  | [] => rfl
  | arg :: rest => by
    funext g
    simp only [eraseArgs, genArgs, genExp_erase arg, genArgs_erase rest]
end

theorem genLocal_erase (name : String) (init : ExpNode) :
    genLocal name (eraseExp init) = genLocal name init := by
  funext g
  simp only [genLocal, genExp_erase]

mutual
theorem genDecl_eraseDeep : ∀ d : DeclNode, genDecl (eraseDeepDecl d) = genDecl d
  | DeclNode.VarDecl name _ init => by
    funext g
    simp only [eraseDeepDecl, genDecl, genLocal_erase]
  | DeclNode.LetDecl name _ init => by
    funext g
    simp only [eraseDeepDecl, genDecl, genLocal_erase]
  | DeclNode.FuncDecl name params _ body => by
    funext g
    simp only [eraseDeepDecl, genDecl, genBlock_eraseDeep body]
theorem genStmt_eraseDeep : ∀ s : StmtNode, genStmt (eraseDeepStmt s) = genStmt s
  | StmtNode.Assign name rhs => by
    funext g
    simp only [eraseDeepStmt, genStmt, genExp_erase]
  | StmtNode.Print expr => by
    funext g
    simp only [eraseDeepStmt, genStmt, genExp_erase]
  | StmtNode.Return expr => by
    funext g
    simp only [eraseDeepStmt, genStmt, genExp_erase]
  | StmtNode.If cond thenBlk elseBlk => by
    funext g
    simp only [eraseDeepStmt, genStmt, genExp_erase, genBlock_eraseDeep thenBlk,
      genElse_eraseDeep elseBlk]
  | StmtNode.While cond body => by
    funext g
    simp only [eraseDeepStmt, genStmt, genExp_erase, genBlock_eraseDeep body]
theorem genElse_eraseDeep : ∀ (e : Option BlockNode) (elseLabel endLabel : String)
    (thenCode : CodeGenVisitor → CodeGenVisitor),
    genElse (eraseDeepElse e) elseLabel endLabel thenCode = genElse e elseLabel endLabel thenCode
  | none, _, _, _ => rfl
  | some blk, elseLabel, endLabel, thenCode => by
    funext g
    simp only [eraseDeepElse, genElse, genBlock_eraseDeep blk]
theorem genBlock_eraseDeep : ∀ b : BlockNode, genBlock (eraseDeepBlock b) = genBlock b
  | BlockNode.mk decls stmts orderedItems => by
    funext g
    simp only [eraseDeepBlock, genBlock, genDecls_eraseDeep decls, genStmts_eraseDeep stmts,
      genItems_eraseDeep orderedItems]
theorem genDecls_eraseDeep : ∀ ds : List DeclNode, genDecls (eraseDeepDecls ds) = genDecls ds
  | [] => rfl
  | d :: rest => by
    simp only [eraseDeepDecls, genDecls, genDecl_eraseDeep d, genDecls_eraseDeep rest]
theorem genStmts_eraseDeep : ∀ ss : List StmtNode, genStmts (eraseDeepStmts ss) = genStmts ss
  | [] => rfl
  | s :: rest => by
    simp only [eraseDeepStmts, genStmts, genStmt_eraseDeep s, genStmts_eraseDeep rest]
theorem genItems_eraseDeep : ∀ (items : List Item)
    (declVisits stmtVisits : List (CodeGenVisitor → CodeGenVisitor)),
    genItems declVisits stmtVisits (eraseDeepItems items) = genItems declVisits stmtVisits items
  | [], _, _ => rfl
  | Item.block b :: rest, dv, sv => by
    funext g
    simp only [eraseDeepItems, genItems, genBlock_eraseDeep b, genItems_eraseDeep rest]
  | Item.decl i :: rest, dv, sv => by
    funext g
    simp only [eraseDeepItems, genItems, genItems_eraseDeep rest]
  | Item.stmt i :: rest, dv, sv => by
    funext g
    simp only [eraseDeepItems, genItems, genItems_eraseDeep rest]
  | Item.null :: rest, dv, sv => by
    simp only [eraseDeepItems, genItems, genItems_eraseDeep rest]
end

theorem genTopLevel_eraseDeep : ∀ (ds : List DeclNode),
    genTopLevel (eraseDeepDecls ds) = genTopLevel ds
  | [] => rfl
  | DeclNode.FuncDecl name params retType body :: rest => by
    funext g
    have h := genDecl_eraseDeep (DeclNode.FuncDecl name params retType body)
    simp only [eraseDeepDecl] at h
    simp only [eraseDeepDecls, eraseDeepDecl, genTopLevel, h, genTopLevel_eraseDeep rest]
  | DeclNode.VarDecl _ _ _ :: rest => by
    simp only [eraseDeepDecls, eraseDeepDecl, genTopLevel, genTopLevel_eraseDeep rest]
  | DeclNode.LetDecl _ _ _ :: rest => by
    simp only [eraseDeepDecls, eraseDeepDecl, genTopLevel, genTopLevel_eraseDeep rest]

theorem generateCode_eraseDeep (p : ProgramNode) :
    generateCode (some (eraseDeepProgram p)) = generateCode (some p) := by
  simp only [generateCode, generatedLines, genProgram, eraseDeepProgram, genTopLevel_eraseDeep]

/-- C40: the text `generateCode` returns for a tree is the text it returns for
the tree with every `dataType` erased, at every depth.  So two trees with the
same erasure, which are trees equal up to the annotations of their expression
nodes, get the same text, and two expressions with the same erasure write the
same lines from every state; the tree the checker annotated and the tree as
parsed are one instance.  For an operator node the lines are the same for
every annotation of the node and of its operands; a `bool` literal is loaded
as `1` or `0`, and a `float` literal whose truncation is in the range of `int`
as that truncation, by the `li` that loads an `int` literal. -/
theorem generateCode_ignores_dataType :
    (∀ p, generateCode (some (eraseDeepProgram p)) = generateCode (some p)) ∧
    (∀ p q, eraseDeepProgram p = eraseDeepProgram q →
      generateCode (some p) = generateCode (some q)) ∧
    (∀ e1 e2, eraseExp e1 = eraseExp e2 → genExp e1 = genExp e2) ∧
    (∀ dt1 dt2 op left right,
      genExp (ExpNode.BinaryOp dt1 op left right) = genExp (ExpNode.BinaryOp dt2 op left right)) ∧
    (∀ dt1 dt2 i f b g,
      genExp (ExpNode.BinaryOp dt1 BinOp.Add (ExpNode.IntLit DataType.INT i)
          (ExpNode.FloatLit DataType.FLOAT f)) g =
        genExp (ExpNode.BinaryOp dt2 BinOp.Add (ExpNode.IntLit DataType.BOOL i)
          (ExpNode.FloatLit DataType.INT f)) g ∧
      (genExp (ExpNode.BoolLit DataType.BOOL b) g).textSection =
        g.textSection ++ ["    li $t0, " ++ (if b then "1" else "0")] ∧
      (f.den ≠ 0 → -2 ^ 31 ≤ Int.tdiv f.num (Int.ofNat f.den) →
        Int.tdiv f.num (Int.ofNat f.den) < 2 ^ 31 →
        (genExp (ExpNode.FloatLit DataType.FLOAT f) g).textSection =
          g.textSection ++ ["    li $t0, " ++ toString (Int.tdiv f.num (Int.ofNat f.den))])) ∧
    eraseDeepProgram shadowParamTyped = eraseDeepProgram shadowParamProgram ∧
    generateCode (some shadowParamTyped) = generateCode (some shadowParamProgram) := by
  have hshadow : eraseDeepProgram shadowParamTyped = eraseDeepProgram shadowParamProgram := rfl
  have hpq : ∀ p q, eraseDeepProgram p = eraseDeepProgram q →
      generateCode (some p) = generateCode (some q) := by
    intro p q h
    rw [← generateCode_eraseDeep p, ← generateCode_eraseDeep q, h]
  refine ⟨generateCode_eraseDeep, hpq, ?_, ?_, ?_, hshadow, hpq _ _ hshadow⟩
  · intro e1 e2 h
    rw [← genExp_erase e1, ← genExp_erase e2, h]
  · intro dt1 dt2 op left right
    rfl
  · intro dt1 dt2 i f b g
    refine ⟨rfl, rfl, ?_⟩
    intro h1 h2 h3
    have ht : f.toInt = Int.tdiv f.num (Int.ofNat f.den) := by
      simp only [Double.toInt]
      rw [if_pos ⟨h1, h2, h3⟩]
    rw [← ht]
    rfl

/-! ## Labels -/

theorem digitChar_value (k : Nat) (h : k < 10) : (Nat.digitChar k).toNat - 48 = k := by
  interval_cases k <;> rfl

theorem digitChar_ne_underscore (k : Nat) (h : k < 10) : Nat.digitChar k ≠ '_' := by
  interval_cases k <;> decide

theorem toDigitsCore_value : ∀ (fuel n : Nat) (ds : List Char), n < fuel →
    (Nat.toDigitsCore 10 fuel n ds).foldl (fun acc c => 10 * acc + (c.toNat - 48)) 0 =
      ds.foldl (fun acc c => 10 * acc + (c.toNat - 48)) n
  | 0, n, ds, h => by omega
  | fuel + 1, n, ds, h => by
    rw [Nat.toDigitsCore]
    by_cases h0 : n / 10 = 0
    · simp only [h0, if_true, List.foldl_cons, Nat.mul_zero, Nat.zero_add]
      rw [digitChar_value _ (Nat.mod_lt n (by decide))]
      have hn : n < 10 := by omega
      rw [Nat.mod_eq_of_lt hn]
    · simp only [h0, if_false]
      rw [toDigitsCore_value fuel (n / 10) _ (by omega)]
      simp only [List.foldl_cons]
      rw [digitChar_value _ (Nat.mod_lt n (by decide))]
      have hn : 10 * (n / 10) + n % 10 = n := Nat.div_add_mod n 10
      rw [hn]

theorem toDigitsCore_no_underscore : ∀ (fuel n : Nat) (ds : List Char),
    (∀ c ∈ ds, c ≠ '_') → ∀ c ∈ Nat.toDigitsCore 10 fuel n ds, c ≠ '_'
  | 0, n, ds, h => by
    rw [Nat.toDigitsCore]
    exact h
  | fuel + 1, n, ds, h => by
    have hcons : ∀ c ∈ Nat.digitChar (n % 10) :: ds, c ≠ '_' := by
      intro c hc
      rcases List.mem_cons.mp hc with hc | hc
      · rw [hc]; exact digitChar_ne_underscore _ (Nat.mod_lt n (by decide))
      · exact h c hc
    rw [Nat.toDigitsCore]
    by_cases h0 : n / 10 = 0
    · simp only [h0, if_true]
      exact hcons
    · simp only [h0, if_false]
      exact toDigitsCore_no_underscore fuel (n / 10) _ hcons

theorem toString_nat_data (n : Nat) : (toString n).data = Nat.toDigits 10 n := rfl

theorem decimalValue_toString (n : Nat) : decimalValue (toString n).data = n := by
  rw [toString_nat_data, decimalValue, Nat.toDigits, toDigitsCore_value _ _ _ (Nat.lt_succ_self n)]
  rfl

theorem toString_nat_no_underscore (n : Nat) : ∀ c ∈ (toString n).data, c ≠ '_' := by
  rw [toString_nat_data, Nat.toDigits]
  exact toDigitsCore_no_underscore _ _ _ (by simp)

theorem append_sep_cancel (c : Char) : ∀ (a b x y : List Char), c ∉ a → c ∉ b →
    a ++ c :: x = b ++ c :: y → a = b
  | [], [], _, _, _, _, _ => rfl
  | [], h :: t, x, y, _, hb, heq => by
    simp only [List.nil_append, List.cons_append, List.cons.injEq] at heq
    exact absurd (heq.1 ▸ List.mem_cons_self h t) hb
  | h :: t, [], x, y, ha, _, heq => by
    simp only [List.nil_append, List.cons_append, List.cons.injEq] at heq
    exact absurd (heq.1 ▸ List.mem_cons_self h t) ha
  | h :: t, h2 :: t2, x, y, ha, hb, heq => by
    simp only [List.cons_append, List.cons.injEq] at heq
    have ht := append_sep_cancel c t t2 x y
      (fun hm => ha (List.mem_cons_of_mem _ hm)) (fun hm => hb (List.mem_cons_of_mem _ hm)) heq.2
    rw [heq.1, ht]

/-- A label `base_k` determines the counter value `k`. -/
theorem label_counter_injective (b1 b2 : String) (k1 k2 : Nat)
    (h : b1 ++ "_" ++ toString k1 = b2 ++ "_" ++ toString k2) : k1 = k2 := by
  have hd := congrArg String.data h
  simp only [String.data_append] at hd
  have hr := congrArg List.reverse hd
  simp only [List.reverse_append] at hr
  have hu : "_".data.reverse = ['_'] := rfl
  rw [hu] at hr
  simp only [List.append_assoc, List.singleton_append] at hr
  have hrev := append_sep_cancel '_' _ _ _ _
    (fun hm => toString_nat_no_underscore k1 '_' (List.mem_reverse.mp hm) rfl)
    (fun hm => toString_nat_no_underscore k2 '_' (List.mem_reverse.mp hm) rfl) hr
  have hdig : (toString k1).data = (toString k2).data := List.reverse_injective hrev
  rw [← decimalValue_toString k1, ← decimalValue_toString k2, hdig]

theorem toString_int_ofNat (n : Nat) : toString ((n : Nat) : Int) = toString n := rfl

/-- A label `base_k` with `k` not negative determines `k`. -/
theorem label_int_counter_injective (b1 b2 : String) (k1 k2 : Int) (h1 : 0 ≤ k1) (h2 : 0 ≤ k2)
    (h : b1 ++ "_" ++ toString k1 = b2 ++ "_" ++ toString k2) : k1 = k2 := by
  obtain ⟨n1, hn1⟩ := Int.eq_ofNat_of_zero_le h1
  obtain ⟨n2, hn2⟩ := Int.eq_ofNat_of_zero_le h2
  rw [hn1, hn2, toString_int_ofNat, toString_int_ofNat] at h
  rw [hn1, hn2, label_counter_injective b1 b2 n1 n2 h]

theorem newLabel_counter (g : CodeGenVisitor) (base : String) (h0 : 0 ≤ g.labelCounter)
    (h1 : g.labelCounter < 2 ^ 31 - 1) :
    (newLabel g base).2.labelCounter = g.labelCounter + 1 := by
  simp only [newLabel]
  exact wrapInt_of_range _ (by omega) (by omega)

theorem newLabels_counter : ∀ (bases : List String) (g : CodeGenVisitor),
    0 ≤ g.labelCounter → g.labelCounter + bases.length < 2 ^ 31 →
    ∀ l ∈ newLabels g bases, ∃ b k, g.labelCounter ≤ k ∧ l = b ++ "_" ++ toString k
  | [], _, _, _, l, h => by simp [newLabels] at h
  | base :: rest, g, h0, hb, l, h => by
    simp only [newLabels, List.mem_cons] at h
    simp only [List.length_cons, Nat.cast_add, Nat.cast_one] at hb
    rcases h with h | h
    · exact ⟨base, g.labelCounter, Int.le_refl _, h⟩
    · have hc := newLabel_counter g base h0 (by omega)
      obtain ⟨b, k, hk, hl⟩ := newLabels_counter rest (newLabel g base).2
        (by rw [hc]; omega) (by rw [hc]; omega) l h
      refine ⟨b, k, ?_, hl⟩
      rw [hc] at hk
      omega

theorem newLabels_nodup : ∀ (bases : List String) (g : CodeGenVisitor),
    0 ≤ g.labelCounter → g.labelCounter + bases.length < 2 ^ 31 → (newLabels g bases).Nodup
  | [], _, _, _ => by simp [newLabels]
  | base :: rest, g, h0, hb => by
    simp only [newLabels, List.nodup_cons]
    simp only [List.length_cons, Nat.cast_add, Nat.cast_one] at hb
    have hc := newLabel_counter g base h0 (by omega)
    refine ⟨?_, newLabels_nodup rest _ (by rw [hc]; omega) (by rw [hc]; omega)⟩
    intro hmem
    obtain ⟨b, k, hk, hl⟩ := newLabels_counter rest (newLabel g base).2
      (by rw [hc]; omega) (by rw [hc]; omega) _ hmem
    rw [hc] at hk
    have hl2 : base ++ "_" ++ toString g.labelCounter = b ++ "_" ++ toString k := hl
    have := label_int_counter_injective _ _ _ _ h0 (by omega) hl2
    omega

/-- C37: a call of `newLabel` returns `base_k` for the counter value `k` and
leaves the visitor as it was but for the counter, which is `k` incremented in
`int`: `k + 1`, strictly more, as long as `0 ≤ k < 2^31 - 1`.  Two labels made
from different counter values that are not negative differ, whatever their
bases are.  So the labels of a sequence of calls that starts at a counter
`k ≥ 0` and stays in the range of `int` are pairwise distinct. -/
theorem newLabel_distinct :
    (∀ g base, (newLabel g base).1 = base ++ "_" ++ toString g.labelCounter ∧
      (newLabel g base).2 = { g with labelCounter := wrapInt (g.labelCounter + 1) }) ∧
    (∀ g base, 0 ≤ g.labelCounter → g.labelCounter < 2 ^ 31 - 1 →
      (newLabel g base).2.labelCounter = g.labelCounter + 1 ∧
      g.labelCounter < (newLabel g base).2.labelCounter) ∧
    (∀ (b1 b2 : String) (k1 k2 : Int), 0 ≤ k1 → 0 ≤ k2 → k1 ≠ k2 →
      b1 ++ "_" ++ toString k1 ≠ b2 ++ "_" ++ toString k2) ∧
    (∀ g1 g2 b1 b2, 0 ≤ g1.labelCounter → 0 ≤ g2.labelCounter →
      g1.labelCounter ≠ g2.labelCounter → (newLabel g1 b1).1 ≠ (newLabel g2 b2).1) ∧
    (∀ g bases, 0 ≤ g.labelCounter → g.labelCounter + (bases.length : Int) < 2 ^ 31 →
      (newLabels g bases).Nodup) ∧
    (∀ g bases, (newLabels g bases).length = bases.length) ∧
    newLabels CodeGenVisitor.init ["if_else", "if_end", "if_else"] =
      ["if_else_0", "if_end_1", "if_else_2"] := by
  refine ⟨?_, ?_, ?_, ?_, ?_, ?_, by decide⟩
  · intro g base
    exact ⟨rfl, rfl⟩
  · intro g base h0 h1
    have hc := newLabel_counter g base h0 h1
    exact ⟨hc, by rw [hc]; omega⟩
  · intro b1 b2 k1 k2 h1 h2 hne heq
    exact hne (label_int_counter_injective b1 b2 k1 k2 h1 h2 heq)
  · intro g1 g2 b1 b2 h1 h2 hne heq
    exact hne (label_int_counter_injective b1 b2 _ _ h1 h2 heq)
  · intro g bases h0 hb
    exact newLabels_nodup bases g h0 hb
  · intro g bases
    induction bases generalizing g with
    | nil => rfl
    | cons b rest ih => simp only [newLabels, List.length_cons, ih]

/-! ## Stack balance of expression code -/

theorem toDigitsCore_all (P : Char → Prop) (hP : ∀ k, k < 10 → P (Nat.digitChar k)) :
    ∀ (fuel n : Nat) (ds : List Char), (∀ c ∈ ds, P c) →
      ∀ c ∈ Nat.toDigitsCore 10 fuel n ds, P c
  | 0, n, ds, h => by
    rw [Nat.toDigitsCore]
    exact h
  | fuel + 1, n, ds, h => by
    have hcons : ∀ c ∈ Nat.digitChar (n % 10) :: ds, P c := by
      intro c hc
      rcases List.mem_cons.mp hc with hc | hc
      · rw [hc]; exact hP _ (Nat.mod_lt n (by decide))
      · exact h c hc
    rw [Nat.toDigitsCore]
    by_cases h0 : n / 10 = 0
    · simp only [h0, if_true]
      exact hcons
    · simp only [h0, if_false]
      exact toDigitsCore_all P hP fuel (n / 10) _ hcons

theorem toDigitsCore_ne_nil : ∀ (fuel n : Nat) (ds : List Char), ds ≠ [] ∨ 0 < fuel →
    Nat.toDigitsCore 10 fuel n ds ≠ []
  | 0, n, ds, h => by
    rw [Nat.toDigitsCore]
    rcases h with h | h
    · exact h
    · omega
  | fuel + 1, n, ds, _ => by
    rw [Nat.toDigitsCore]
    by_cases h0 : n / 10 = 0
    · simp only [h0, if_true]
      exact List.cons_ne_nil _ _
    · simp only [h0, if_false]
      exact toDigitsCore_ne_nil fuel (n / 10) _ (Or.inl (List.cons_ne_nil _ _))

theorem digitChar_isDigit (k : Nat) (h : k < 10) :
    (Nat.digitChar k).isDigit = true ∧ Nat.digitChar k ≠ '-' := by
  interval_cases k <;> decide

theorem parseImmediate_toString (n : Nat) : parseImmediate (toString n).data = some (n : Int) := by
  have hall : ∀ c ∈ (toString n).data, c.isDigit = true ∧ c ≠ '-' := by
    rw [toString_nat_data, Nat.toDigits]
    exact toDigitsCore_all _ digitChar_isDigit _ _ _ (by simp)
  have hne : (toString n).data ≠ [] := by
    rw [toString_nat_data, Nat.toDigits]
    exact toDigitsCore_ne_nil _ _ _ (Or.inr (Nat.succ_pos n))
  have hval := decimalValue_toString n
  cases hd : (toString n).data with
  | nil => exact absurd hd hne
  | cons c rest =>
    rw [hd] at hall hval
    have hc := (hall c (List.mem_cons_self c rest)).2
    have hdig : (c :: rest).all Char.isDigit = true := by
      rw [List.all_eq_true]
      intro x hx
      exact (hall x hx).1
    simp only [parseImmediate, hc, if_false, parseDecimal, List.isEmpty_cons, Bool.not_false,
      hdig, Bool.and_self, if_true, hval, Option.map_some']
    rfl

theorem spImmediate_pop (n : Nat) (h : n < 2 ^ 29) :
    spImmediate ("    addi $sp, $sp, " ++ toString (wrapInt (sizeToInt n * 4))) =
      some (4 * (n : Int)) := by
  have hs : wrapInt (sizeToInt n * 4) = Int.ofNat (n * 4) := by
    rw [wrapInt_size_mul n h]
    have hc : (Int.ofNat (n * 4) : Int) = ((n * 4 : Nat) : Int) := rfl
    rw [hc]
    push_cast
    ring
  have ht : toString (Int.ofNat (n * 4)) = toString (n * 4) := rfl
  rw [hs, ht]
  have hd : ("    addi $sp, $sp, " ++ toString (n * 4)).data =
      spInstruction ++ (toString (n * 4)).data := by
    rw [String.data_append]
    rfl
  simp only [spImmediate, hd, List.take_left, List.drop_left, if_true]
  rw [parseImmediate_toString]
  congr 1
  push_cast
  omega

theorem spDelta_of_head (line : String) (h : line.data.take 5 ≠ "    a".data) :
    spDelta line = 0 := by
  have hn : line.data.take spInstruction.length ≠ spInstruction := by
    intro heq
    apply h
    have h5 := congrArg (List.take 5) heq
    rw [List.take_take] at h5
    exact h5
  simp only [spDelta, spImmediate, hn, if_false, Option.getD_none]

theorem spDelta_append_of_head (pre rest : String) (hlen : 5 ≤ pre.data.length)
    (h : pre.data.take 5 ≠ "    a".data) : spDelta (pre ++ rest) = 0 := by
  apply spDelta_of_head
  rw [String.data_append, List.take_append_of_le_length hlen]
  exact h

theorem spSum_append (a b : List String) : spSum (a ++ b) = spSum a + spSum b := by
  simp only [spSum, List.map_append, List.sum_append]

theorem spSum_neutral : ∀ (lines : List String), (∀ l ∈ lines, spDelta l = 0) → spSum lines = 0
  | [], _ => rfl
  | l :: rest, h => by
    have h1 := h l (List.mem_cons_self l rest)
    have h2 := spSum_neutral rest (fun x hx => h x (List.mem_cons_of_mem l hx))
    simp only [spSum, List.map_cons, List.sum_cons] at h2 ⊢
    rw [h1, h2]
    rfl

theorem stackShape_neutral (lines : List String) (h : ∀ l ∈ lines, spDelta l = 0) :
    StackShape lines 0 0 := by
  refine ⟨spSum_neutral lines h, ?_⟩
  intro n
  exact Int.le_of_eq (spSum_neutral _ (fun l hl => h l (List.mem_of_mem_take hl)))

theorem stackShape_single (line : String) (total bound : Int) (h : spDelta line = total)
    (h0 : 0 ≤ bound) (hb : total ≤ bound) : StackShape [line] total bound := by
  have hs : spSum [line] = total := by
    simp only [spSum, List.map_cons, List.map_nil, List.sum_cons, List.sum_nil, h]
    omega
  refine ⟨hs, ?_⟩
  intro n
  cases n with
  | zero => exact h0
  | succ m =>
    simp only [List.take_succ_cons, List.take_nil]
    rw [hs]
    exact hb

theorem stackShape_append (a b : List String) (s m s2 m2 t : Int) (ha : StackShape a s m)
    (hb : StackShape b s2 m2) (ht : s + s2 = t) (hm : s + m2 ≤ m) :
    StackShape (a ++ b) t m := by
  refine ⟨by rw [spSum_append, ha.1, hb.1, ht], ?_⟩
  intro n
  rw [List.take_append_eq_append_take, spSum_append]
  by_cases hn : n ≤ a.length
  · have h0 : n - a.length = 0 := by omega
    rw [h0, List.take_zero]
    have := ha.2 n
    have hz : spSum ([] : List String) = 0 := rfl
    omega
  · have hfull : a.take n = a := List.take_of_length_le (by omega)
    rw [hfull, ha.1]
    have := hb.2 (n - a.length)
    omega

theorem stackShape_pushT0 : StackShape pushT0 (-4) 0 :=
  stackShape_append ["    addi $sp, $sp, -4"] ["    sw $t0, 0($sp)"] (-4) 0 0 0 (-4)
    (stackShape_single _ _ _ (by decide) (by decide) (by decide))
    (stackShape_neutral _ (by
      intro l hl
      rw [List.mem_singleton.mp hl]
      decide))
    (by decide) (by decide)

theorem stackShape_popT1 : StackShape ["    lw $t1, 0($sp)", "    addi $sp, $sp, 4"] 4 4 :=
  stackShape_append ["    lw $t1, 0($sp)"] ["    addi $sp, $sp, 4"] 0 4 4 4 4
    ⟨by decide, by
      intro n
      cases n with
      | zero => decide
      | succ m => simp only [List.take_succ_cons, List.take_nil]; decide⟩
    (stackShape_single _ _ _ (by decide) (by decide) (by decide))
    (by decide) (by decide)

theorem binOpLines_neutral : ∀ op : BinOp, ∀ l ∈ binOpLines op, spDelta l = 0 := by
  intro op
  cases op <;> decide

theorem expCode_unaryOp (g : CodeGenVisitor) (dt : DataType) (op : UnOp) (expr : ExpNode) :
    expCode g (ExpNode.UnaryOp dt op expr) =
      expCode g expr ++ (if op = UnOp.Neg then ["    subu $t0, $zero, $t0"] else []) := by
  rw [expCode]
  simp only [genExp]
  rw [genExp_withText expr g []]
  cases op
  simp only [if_true, CodeGenVisitor.withText_emit, CodeGenVisitor.withText_textSection,
    List.nil_append]

theorem expCode_binaryOp (g : CodeGenVisitor) (dt : DataType) (op : BinOp)
    (left right : ExpNode) :
    expCode g (ExpNode.BinaryOp dt op left right) =
      expCode g left ++ pushT0 ++ expCode g right ++
        ["    lw $t1, 0($sp)", "    addi $sp, $sp, 4"] ++ binOpLines op := by
  rw [expCode]
  simp only [genExp]
  rw [genExp_withText left g [], CodeGenVisitor.withText_emit, genExp_withText right g,
    CodeGenVisitor.withText_emit, CodeGenVisitor.withText_emit,
    CodeGenVisitor.withText_textSection]
  simp only [List.nil_append, pushT0]

theorem expCode_call (g : CodeGenVisitor) (dt : DataType) (callee : String)
    (args : List ExpNode) :
    expCode g (ExpNode.Call dt callee args) =
      match g.currentFunc with
      | none => ["    li $t0, 0"]
      | some _ =>
        argsCode g args ++ ["    jal " ++ callee] ++
          (if args.isEmpty then []
           else ["    addi $sp, $sp, " ++ toString (wrapInt (sizeToInt args.length * 4))]) ++
          ["    move $t0, $v0"] := by
  rw [expCode]
  simp only [genExp]
  have hcur : (g.withText []).currentFunc = g.currentFunc := rfl
  cases hc : g.currentFunc with
  | none =>
    simp only [hcur, hc]
    rfl
  | some key =>
    simp only [hcur, hc]
    rw [genArgs_withText args g []]
    by_cases he : args.isEmpty = true
    · simp only [he, if_true, CodeGenVisitor.withText_emit, CodeGenVisitor.withText_textSection,
        List.nil_append, List.append_nil]
    · simp only [he, if_false, CodeGenVisitor.withText_emit,
        CodeGenVisitor.withText_textSection, List.nil_append, Bool.false_eq_true]

theorem expCode_id (g : CodeGenVisitor) (dt : DataType) (name : String) :
    expCode g (ExpNode.Id dt name) =
      match g.currentFunc with
      | none => ["    li $t0, 0"]
      | some _ =>
        match lookupVariable g name with
        | some offset => ["    lw $t0, " ++ toString offset ++ "($fp)"]
        | none => ["    # Unknown variable " ++ name ++ ", default to 0", "    li $t0, 0"] := by
  rw [expCode]
  simp only [genExp]
  have hcur : (g.withText []).currentFunc = g.currentFunc := rfl
  cases hc : g.currentFunc with
  | none =>
    simp only [hcur, hc]
    rfl
  | some key =>
    simp only [hcur, hc, lookupVariable_withText]
    cases hl : lookupVariable g name with
    | none => rfl
    | some offset => rfl

theorem expCode_id_neutral (g : CodeGenVisitor) (dt : DataType) (name : String) :
    ∀ l ∈ expCode g (ExpNode.Id dt name), spDelta l = 0 := by
  intro l hl
  rw [expCode_id] at hl
  cases hc : g.currentFunc with
  | none =>
    simp only [hc, List.mem_singleton] at hl
    rw [hl]
    decide
  | some key =>
    simp only [hc] at hl
    cases hv : lookupVariable g name with
    | some offset =>
      simp only [hv, List.mem_singleton] at hl
      rw [hl, String.append_assoc]
      exact spDelta_append_of_head _ _ (by decide) (by decide)
    | none =>
      simp only [hv, List.mem_cons, List.mem_singleton, List.not_mem_nil, or_false] at hl
      rcases hl with hl | hl
      · rw [hl, String.append_assoc]
        exact spDelta_append_of_head _ _ (by decide) (by decide)
      · rw [hl]
        decide

mutual
theorem expCode_stackShape (g : CodeGenVisitor) :
    ∀ e : ExpNode, argCountsFit e = true → StackShape (expCode g e) 0 0
  | ExpNode.IntLit dt value, _ => by
    apply stackShape_neutral
    intro l hl
    have hcode : expCode g (ExpNode.IntLit dt value) = ["    li $t0, " ++ toString value] := rfl
    rw [hcode, List.mem_singleton] at hl
    rw [hl]
    exact spDelta_append_of_head _ _ (by decide) (by decide)
  | ExpNode.FloatLit dt value, _ => by
    apply stackShape_neutral
    intro l hl
    have hcode : expCode g (ExpNode.FloatLit dt value) =
      ["    li $t0, " ++ toString value.toInt] := rfl
    rw [hcode, List.mem_singleton] at hl
    rw [hl]
    exact spDelta_append_of_head _ _ (by decide) (by decide)
  | ExpNode.BoolLit dt value, _ => by
    apply stackShape_neutral
    intro l hl
    have hcode : expCode g (ExpNode.BoolLit dt value) =
      ["    li $t0, " ++ (if value then "1" else "0")] := rfl
    rw [hcode, List.mem_singleton] at hl
    rw [hl]
    exact spDelta_append_of_head _ _ (by decide) (by decide)
  | ExpNode.Id dt name, _ => stackShape_neutral _ (expCode_id_neutral g dt name)
  | ExpNode.UnaryOp dt op expr, h => by
    simp only [argCountsFit] at h
    rw [expCode_unaryOp]
    refine stackShape_append _ _ 0 0 0 0 0 (expCode_stackShape g expr h)
      (stackShape_neutral _ ?_) (by decide) (by decide)
    intro l hl
    cases op
    simp only [if_true, List.mem_singleton] at hl
    rw [hl]
    decide
  | ExpNode.BinaryOp dt op left right, h => by
    simp only [argCountsFit, Bool.and_eq_true] at h
    rw [expCode_binaryOp]
    have h1 := stackShape_append _ _ 0 0 (-4) 0 (-4) (expCode_stackShape g left h.1)
      stackShape_pushT0 (by decide) (by decide)
    have h2 := stackShape_append _ _ (-4) 0 0 0 (-4) h1 (expCode_stackShape g right h.2)
      (by decide) (by decide)
    have h3 := stackShape_append _ _ (-4) 0 4 4 0 h2 stackShape_popT1 (by decide) (by decide)
    exact stackShape_append _ _ 0 0 0 0 0 h3 (stackShape_neutral _ (binOpLines_neutral op))
      (by decide) (by decide)
  | ExpNode.Call dt callee args, h => by
    simp only [argCountsFit, Bool.and_eq_true, decide_eq_true_eq] at h
    rw [expCode_call]
    cases hc : g.currentFunc with
    | none =>
      simp only
      exact stackShape_neutral _ (by
        intro l hl
        rw [List.mem_singleton.mp hl]
        decide)
    | some key =>
      simp only
      have ha := argsCode_stackShape g args h.2
      have hjal : StackShape ["    jal " ++ callee] 0 0 := stackShape_neutral _ (by
        intro l hl
        rw [List.mem_singleton.mp hl]
        exact spDelta_append_of_head _ _ (by decide) (by decide))
      have hmove : StackShape ["    move $t0, $v0"] 0 0 := stackShape_neutral _ (by
        intro l hl
        rw [List.mem_singleton.mp hl]
        decide)
      have h1 := stackShape_append _ _ _ 0 0 0 (-4 * (args.length : Int)) ha hjal
        (by omega) (by omega)
      cases args with
      | nil =>
        simp only [List.isEmpty_nil, if_true, List.append_nil]
        exact stackShape_append _ _ 0 0 0 0 0 h1 hmove (by decide) (by decide)
      | cons a rest =>
        simp only [List.isEmpty_cons, Bool.false_eq_true, if_false]
        have hpop : StackShape
            ["    addi $sp, $sp, " ++ toString (wrapInt (sizeToInt (a :: rest).length * 4))]
            (4 * ((a :: rest).length : Int)) (4 * ((a :: rest).length : Int)) :=
          stackShape_single _ _ _ (by
            simp only [spDelta, spImmediate_pop _ h.1, Option.getD_some]) (by omega)
            (Int.le_refl _)
        have h2 := stackShape_append _ _ _ 0 _ _ 0 h1 hpop (by omega) (by omega)
        exact stackShape_append _ _ 0 0 0 0 0 h2 hmove (by decide) (by decide)
theorem argsCode_stackShape (g : CodeGenVisitor) :
    ∀ args : List ExpNode, argsCountsFit args = true →
      StackShape (argsCode g args) (-4 * (args.length : Int)) 0
  | [], _ => stackShape_neutral _ (by intro l hl; cases hl)
  | arg :: rest, h => by
    simp only [argsCountsFit, Bool.and_eq_true] at h
    rw [argsCode_cons]
    have h1 := stackShape_append _ _ 0 0 (-4) 0 (-4) (expCode_stackShape g arg h.1)
      stackShape_pushT0 (by decide) (by decide)
    refine stackShape_append _ _ (-4) 0 _ 0 _ h1 (argsCode_stackShape g rest h.2) ?_ ?_
    · simp only [List.length_cons]
      push_cast
      omega
    · decide
end

/-- C32: the code of an expression in which every call has fewer than `2^29`
arguments is stack-balanced, from every state of the visitor, inside a function
or not.  The visit appends the lines `expCode g e`; the immediates of their
`addi $sp, $sp, k` lines sum to zero; after each prefix of the lines the sum is
at most zero, and over each suffix it is at least zero, so each lowering of
`$sp` is followed in these lines by the raise that makes up for it.  The
lines that push and pop one word read as `-4` and `4`. -/
theorem expression_stack_balanced (g : CodeGenVisitor) (e : ExpNode)
    (hfit : argCountsFit e = true) :
    genExp e g = g.emit (expCode g e) ∧
    spSum (expCode g e) = 0 ∧
    (∀ n, spSum ((expCode g e).take n) ≤ 0) ∧
    (∀ n, 0 ≤ spSum ((expCode g e).drop n)) ∧
    spImmediate "    addi $sp, $sp, -4" = some (-4) ∧
    spImmediate "    addi $sp, $sp, 4" = some 4 := by
  have hs := expCode_stackShape g e hfit
  refine ⟨genExp_eq_emit e g, hs.1, hs.2, ?_, by decide, by decide⟩
  intro n
  have hsplit := spSum_append ((expCode g e).take n) ((expCode g e).drop n)
  rw [List.take_append_drop, hs.1] at hsplit
  have := hs.2 n
  omega

theorem expression_stack_balanced_witness :
    genExp callPlusIdExp insideMain = insideMain.emit (expCode insideMain callPlusIdExp) ∧
    spSum (expCode insideMain callPlusIdExp) = 0 ∧
    (∀ n, spSum ((expCode insideMain callPlusIdExp).take n) ≤ 0) ∧
    (∀ n, 0 ≤ spSum ((expCode insideMain callPlusIdExp).drop n)) ∧
    spImmediate "    addi $sp, $sp, -4" = some (-4) ∧
    spImmediate "    addi $sp, $sp, 4" = some 4 :=
  expression_stack_balanced insideMain callPlusIdExp (by decide)

/-! ## The code of an `if` -/

mutual
theorem expCode_labelCounter (g : CodeGenVisitor) (n : Int) :
    ∀ e : ExpNode, expCode { g with labelCounter := n } e = expCode g e
  | ExpNode.IntLit _ _ => rfl
  | ExpNode.FloatLit _ _ => rfl
  | ExpNode.BoolLit _ _ => rfl
  | ExpNode.Id dt name => by
    rw [expCode_id, expCode_id]
    rfl
  | ExpNode.UnaryOp dt op expr => by
    rw [expCode_unaryOp, expCode_unaryOp, expCode_labelCounter g n expr]
  | ExpNode.BinaryOp dt op left right => by
    rw [expCode_binaryOp, expCode_binaryOp, expCode_labelCounter g n left,
      expCode_labelCounter g n right]
  | ExpNode.Call dt callee args => by
    rw [expCode_call, expCode_call, argsCode_labelCounter g n args]
theorem argsCode_labelCounter (g : CodeGenVisitor) (n : Int) :
    ∀ args : List ExpNode, argsCode { g with labelCounter := n } args = argsCode g args
  | [] => rfl
  | arg :: rest => by
    rw [argsCode_cons, argsCode_cons, expCode_labelCounter g n arg,
      argsCode_labelCounter g n rest]
end

theorem genBlock_text (b : BlockNode) (g : CodeGenVisitor) :
    (genBlock b g).textSection = g.textSection ++ blockCode b g := by
  obtain ⟨_, _, lines, _, h⟩ := genBlock_extends b g
  rw [blockCode, h, List.drop_left]

theorem ifElseLabel_eq (g : CodeGenVisitor) :
    (newLabel g "if_else").1 = ifElseLabel g := by
  simp only [newLabel, ifElseLabel]
  rw [String.append_assoc]
  rfl

theorem ifEndLabel_eq (g : CodeGenVisitor) :
    (newLabel (newLabel g "if_else").2 "if_end").1 = ifEndLabel g := by
  simp only [newLabel, ifEndLabel]
  rw [String.append_assoc]
  rfl

theorem ifElseLabel_ne_ifEndLabel (g : CodeGenVisitor) (h0 : 0 ≤ g.labelCounter)
    (h1 : g.labelCounter < 2 ^ 31 - 1) : ifElseLabel g ≠ ifEndLabel g := by
  rw [← ifElseLabel_eq, ← ifEndLabel_eq]
  simp only [newLabel]
  rw [wrapInt_of_range _ (by omega) (by omega)]
  intro h
  have := label_int_counter_injective _ _ _ _ h0 (by omega) h
  omega

theorem append_ne_append_of_take (n : Nat) (p1 p2 x y : String) (h1 : n ≤ p1.data.length)
    (h2 : n ≤ p2.data.length) (h : p1.data.take n ≠ p2.data.take n) : p1 ++ x ≠ p2 ++ y := by
  intro heq
  apply h
  have hd := congrArg (fun s => s.data.take n) heq
  simp only [String.data_append] at hd
  rw [List.take_append_of_le_length h1, List.take_append_of_le_length h2] at hd
  exact hd

theorem append_left_ne (p x y : String) (h : x ≠ y) : p ++ x ≠ p ++ y := by
  intro heq
  apply h
  have hd := congrArg String.data heq
  simp only [String.data_append] at hd
  exact String.ext (List.append_cancel_left hd)

theorem append_right_ne (p x y : String) (h : x ≠ y) : x ++ p ≠ y ++ p := by
  intro heq
  apply h
  have hd := congrArg String.data heq
  simp only [String.data_append] at hd
  exact String.ext (List.append_cancel_right hd)

theorem ifThenState_text (g : CodeGenVisitor) (cond : ExpNode) (target : String) :
    (ifThenState g cond target).textSection =
      g.textSection ++ expCode g cond ++ ["    beq $t0, $zero, " ++ target] := by
  rw [ifThenState, genExp_eq_emit, expCode_labelCounter]
  rfl

/-- An `if` visited inside a function in state `g` draws the labels
`E = if_else_<k>` and `D = if_end_<k+1>`, `k` the counter of `g` and `k + 1`
taken in `int`.  With an else-block the visit appends the code of the
condition, `beq $t0, $zero, E`, the code of the then-block, `j D`, `E:`, the
code of the else-block, `D:`.  Without one it appends the code of the
condition, `beq $t0, $zero, D`, the code of the then-block, `D:`.  For
`0 ≤ k < 2^31 - 1` the two labels differ, and none of the two lines the visit
itself writes without an else-block is `E:`, `j E` or `beq $t0, $zero, E`. -/
theorem if_layout (g : CodeGenVisitor) (key : String) (cond : ExpNode) (thenBlk : BlockNode)
    (hin : g.currentFunc = some key) :
    (∀ elseBlk, (genStmt (StmtNode.If cond thenBlk (some elseBlk)) g).textSection =
      g.textSection ++ expCode g cond ++ ["    beq $t0, $zero, " ++ ifElseLabel g] ++
        blockCode thenBlk (ifThenState g cond (ifElseLabel g)) ++
        ["    j " ++ ifEndLabel g, ifElseLabel g ++ ":"] ++
        blockCode elseBlk (ifElseState g cond thenBlk) ++ [ifEndLabel g ++ ":"]) ∧
    (genStmt (StmtNode.If cond thenBlk none) g).textSection =
      g.textSection ++ expCode g cond ++ ["    beq $t0, $zero, " ++ ifEndLabel g] ++
        blockCode thenBlk (ifThenState g cond (ifEndLabel g)) ++ [ifEndLabel g ++ ":"] ∧
    (0 ≤ g.labelCounter → g.labelCounter < 2 ^ 31 - 1 →
      ifElseLabel g ≠ ifEndLabel g ∧
      ∀ l ∈ ["    beq $t0, $zero, " ++ ifEndLabel g, ifEndLabel g ++ ":"],
        l ∉ [ifElseLabel g ++ ":", "    j " ++ ifElseLabel g,
          "    beq $t0, $zero, " ++ ifElseLabel g]) := by
  have hE := ifElseLabel_eq g
  have hD := ifEndLabel_eq g
  simp only [newLabel] at hE hD
  refine ⟨?_, ?_, ?_⟩
  · intro elseBlk
    simp only [genStmt, hin, newLabel, hE, hD, genElse]
    rw [← hin]
    have h1 : (genExp cond
        { g with labelCounter := wrapInt (wrapInt (g.labelCounter + 1) + 1) }).emit
        ["    beq $t0, $zero, " ++ ifElseLabel g] = ifThenState g cond (ifElseLabel g) := rfl
    rw [h1]
    have h2 : (genBlock thenBlk (ifThenState g cond (ifElseLabel g))).emit
        ["    j " ++ ifEndLabel g, ifElseLabel g ++ ":"] = ifElseState g cond thenBlk := rfl
    rw [h2]
    simp only [CodeGenVisitor.emit]
    rw [genBlock_text elseBlk]
    have h3 : (ifElseState g cond thenBlk).textSection =
        (genBlock thenBlk (ifThenState g cond (ifElseLabel g))).textSection ++
          ["    j " ++ ifEndLabel g, ifElseLabel g ++ ":"] := rfl
    rw [h3, genBlock_text thenBlk, ifThenState_text]
  · simp only [genStmt, hin, newLabel, hE, hD, genElse]
    rw [← hin]
    have h1 : (genExp cond
        { g with labelCounter := wrapInt (wrapInt (g.labelCounter + 1) + 1) }).emit
        ["    beq $t0, $zero, " ++ ifEndLabel g] = ifThenState g cond (ifEndLabel g) := rfl
    rw [h1]
    simp only [CodeGenVisitor.emit]
    rw [genBlock_text thenBlk, ifThenState_text]
  · intro h0 hk
    have hne := ifElseLabel_ne_ifEndLabel g h0 hk
    refine ⟨hne, ?_⟩
    intro l hl
    simp only [List.mem_cons, List.mem_singleton, List.not_mem_nil, or_false] at hl
    simp only [List.mem_cons, List.mem_singleton, List.not_mem_nil, or_false, not_or]
    rcases hl with hl | hl
    · rw [hl]
      refine ⟨?_, ?_, ?_⟩
      · rw [ifElseLabel, String.append_assoc]
        exact append_ne_append_of_take 1 _ _ _ _ (by decide) (by decide) (by decide)
      · exact append_ne_append_of_take 5 _ _ _ _ (by decide) (by decide) (by decide)
      · exact append_left_ne _ _ _ (Ne.symm hne)
    · rw [hl]
      refine ⟨append_right_ne _ _ _ (Ne.symm hne), ?_, ?_⟩
      · rw [ifEndLabel, String.append_assoc]
        exact append_ne_append_of_take 1 _ _ _ _ (by decide) (by decide) (by decide)
      · rw [ifEndLabel, String.append_assoc]
        exact append_ne_append_of_take 1 _ _ _ _ (by decide) (by decide) (by decide)

theorem if_layout_instance :
    (genStmt sampleIfElse insideMain).textSection =
      insideMain.textSection ++ ["    li $t0, 1", "    beq $t0, $zero, if_else_1",
        "    li $t0, 1", "    move $a0, $t0", "    li $v0, 1", "    syscall",
        "    la $a0, newline_str", "    li $v0, 4", "    syscall",
        "    j if_end_2", "if_else_1:",
        "    li $t0, 2", "    move $a0, $t0", "    li $v0, 1", "    syscall",
        "    la $a0, newline_str", "    li $v0, 4", "    syscall", "if_end_2:"] := by
  have h := (if_layout insideMain "main" (ExpNode.BoolLit DataType.IOTA true)
    (simpleBlock [] [StmtNode.Print (ExpNode.IntLit DataType.IOTA 1)]) rfl).1
    (simpleBlock [] [StmtNode.Print (ExpNode.IntLit DataType.IOTA 2)])
  rw [sampleIfElse, h]
  decide

theorem parseDecimal_colon (r : List Char) : parseDecimal (r ++ [':']) = none := by
  have hall : (r ++ [':']).all Char.isDigit = false := by
    rw [List.all_append]
    have hc : [':'].all Char.isDigit = false := by decide
    rw [hc, Bool.and_false]
  simp only [parseDecimal, hall, Bool.and_false, Bool.false_eq_true, if_false]

theorem parseImmediate_colon : ∀ r : List Char, parseImmediate (r ++ [':']) = none
  | [] => by decide
  | c :: r => by
    simp only [List.cons_append, parseImmediate]
    by_cases hc : c = '-'
    · simp only [hc, if_true, parseDecimal_colon, Option.map_none']
    · have h := parseDecimal_colon (c :: r)
      simp only [List.cons_append] at h
      simp only [hc, if_false, h, Option.map_none']

theorem spDelta_label (name : String) : spDelta (name ++ ":") = 0 := by
  have hd : (name ++ ":").data = name.data ++ [':'] := by
    rw [String.data_append]
  simp only [spDelta, spImmediate, hd]
  by_cases ht : (name.data ++ [':']).take spInstruction.length = spInstruction
  · simp only [ht, if_true]
    by_cases hlen : spInstruction.length ≤ name.data.length
    · rw [List.drop_append_of_le_length hlen, parseImmediate_colon]
      rfl
    · exfalso
      have hlen2 : name.data.length < spInstruction.length := by omega
      have htake : (name.data ++ [':']).take spInstruction.length = name.data ++ [':'] := by
        apply List.take_of_length_le
        simp only [List.length_append, List.length_singleton]
        omega
      rw [htake] at ht
      have hlast := congrArg List.getLast? ht
      rw [List.getLast?_concat] at hlast
      exact absurd hlast (by decide)
  · simp only [ht, if_false, Option.getD_none]

theorem spSum_prologueLines (name : String) : spSum (prologueLines name) = -8 := by
  have h1 : spDelta ("# Function " ++ name) = 0 :=
    spDelta_append_of_head _ _ (by decide) (by decide)
  have h2 := spDelta_label name
  by_cases hm : name = "main"
  · simp only [prologueLines, hm, if_true]
    decide
  · simp only [prologueLines, hm, if_false, spSum, List.append_nil, List.cons_append,
      List.nil_append, List.map_cons, List.map_nil, List.sum_cons, List.sum_nil, h1, h2]
    decide

theorem enterFunction_text (name : String) (params : List ParamNode) (g : CodeGenVisitor) :
    (enterFunction name params g).textSection = g.textSection ++ prologueLines name := by
  unfold enterFunction
  simp only [newLabel, pushEnv, CodeGenVisitor.ctx, CodeGenVisitor.setCtx, CodeGenVisitor.emit,
    StdMap.find_assign_key, Option.getD_some, prologueLines]

theorem argsCode_append (g : CodeGenVisitor) (a b : List ExpNode) :
    argsCode g (a ++ b) = argsCode g a ++ argsCode g b := by
  simp only [argsCode_eq_spec, specPushedArgs, List.flatMap_append]

theorem argsCountsFit_take : ∀ (args : List ExpNode) (n : Nat),
    argsCountsFit args = true → argsCountsFit (args.take n) = true
  | [], n, _ => by simp [argsCountsFit]
  | _ :: _, 0, _ => by simp [argsCountsFit]
  | arg :: rest, n + 1, h => by
    simp only [argsCountsFit, Bool.and_eq_true] at h
    simp only [List.take_succ_cons, argsCountsFit, Bool.and_eq_true]
    exact ⟨h.1, argsCountsFit_take rest n h.2⟩

theorem visitExp_call_count (S : Scope) (dt : DataType) (callee : String)
    (args : List ExpNode) (r : ExpNode)
    (h : visitExp (some S) (ExpNode.Call dt callee args) = Except.ok r) :
    ∃ symbol, S.lookup callee = some symbol ∧ symbol.kind = SymbolKind.Function ∧
      args.length = symbol.paramTypes.length := by
  rw [visitExp] at h
  simp only [lookupCurrent] at h
  cases hl : S.lookup callee with
  | none => simp [hl, throwSem] at h
  | some symbol =>
    simp only [hl] at h
    by_cases hk : symbol.kind = SymbolKind.Function
    · by_cases hn : args.length = symbol.paramTypes.length
      · exact ⟨symbol, rfl, hk, hn⟩
      · simp [hk, hn, throwSem] at h
    · simp [hk, throwSem] at h

/-- C33: a call with arguments `args` to a function with `N` parameters
`params`, as many as the arguments, of distinct names and with `N + 1 < 2^29`,
so that every offset `8 + 4*(N-1-i)` is in the range of `int`.  Let `$sp`
be `sp0` where the code of the arguments starts, and let an `addi $sp, $sp, k`
line add `k` to it.  The code of the arguments is the code up to and with the
push of argument `i`, which ends with the two push lines, and then the code of
the later arguments; argument `i` is stored at the value of `$sp` after that
push, `sp0 - 4*(i+1)`.  The prologue is what `enterFunction` appends, and `$fp`
is set to the value of `$sp` after it, `sp0 - 4*N - 8`.  The offset installed
for parameter `i` is `8 + 4*(N-1-i)`, and `$fp` plus that offset is the address
at which argument `i` was stored.  A call the type checker accepts has as many
arguments as the symbol of its callee has parameter types. -/
theorem argument_positions_agree (g gc : CodeGenVisitor) (name : String)
    (params : List ParamNode) (args : List ExpNode) (sp0 : Int) (i : Nat) (p : ParamNode)
    (hcount : args.length = params.length) (hfit : argsCountsFit args = true)
    (hN : params.length + 1 < 2 ^ 29) (hnd : (params.map (fun q => q.name)).Nodup)
    (hp : params[i]? = some p) :
    argsCode gc args = argsCode gc (args.take (i + 1)) ++ argsCode gc (args.drop (i + 1)) ∧
    (∃ a, args[i]? = some a ∧
      argsCode gc (args.take (i + 1)) = argsCode gc (args.take i) ++ expCode gc a ++ pushT0) ∧
    sp0 + spSum (argsCode gc (args.take (i + 1))) = sp0 - 4 * ((i : Int) + 1) ∧
    (enterFunction name params g).textSection = g.textSection ++ prologueLines name ∧
    sp0 + spSum (argsCode gc args) + spSum (prologueLines name) =
      sp0 - 4 * (params.length : Int) - 8 ∧
    lookupVariable (enterFunction name params g) p.name =
      some (8 + 4 * ((params.length : Int) - 1 - i)) ∧
    sp0 + spSum (argsCode gc args) + spSum (prologueLines name) +
        (8 + 4 * ((params.length : Int) - 1 - i)) =
      sp0 + spSum (argsCode gc (args.take (i + 1))) ∧
    (∀ S dt r, visitExp (some S) (ExpNode.Call dt name args) = Except.ok r →
      ∃ symbol, S.lookup name = some symbol ∧ symbol.kind = SymbolKind.Function ∧
        args.length = symbol.paramTypes.length) := by
  have hi : i < params.length := by
    rcases Nat.lt_or_ge i params.length with h | h
    · exact h
    · rw [List.getElem?_eq_none h] at hp
      cases hp
  have hia : i < args.length := by omega
  have hsplit : argsCode gc args =
      argsCode gc (args.take (i + 1)) ++ argsCode gc (args.drop (i + 1)) := by
    rw [← argsCode_append, List.take_append_drop]
  have hall := (argsCode_stackShape gc args hfit).1
  have htake := (argsCode_stackShape gc (args.take (i + 1)) (argsCountsFit_take _ _ hfit)).1
  have hlen : (args.take (i + 1)).length = i + 1 := by
    rw [List.length_take]
    omega
  rw [hlen] at htake
  have hpro := spSum_prologueLines name
  have hlook := (parameters_installed g name params DataType.IOTA hN hnd i p hp).1
  refine ⟨hsplit, ?_, ?_, enterFunction_text name params g, ?_, hlook, ?_, ?_⟩
  · refine ⟨args[i], List.getElem?_eq_getElem hia, ?_⟩
    have ht : args.take (i + 1) = args.take i ++ [args[i]] := by
      rw [List.take_succ, List.getElem?_eq_getElem hia]
      rfl
    rw [ht, argsCode_append, argsCode_cons]
    have hnil : argsCode gc [] = [] := rfl
    rw [hnil, List.append_nil, List.append_assoc]
  · rw [htake]
    push_cast
    omega
  · rw [hall, hpro, hcount]
    omega
  · rw [hall, hpro, htake, hcount]
    push_cast
    omega
  · intro S dt r h
    exact visitExp_call_count S dt name args r h

theorem argument_positions_agree_witness :
    lookupVariable (enterFunction "add" [⟨"a", BaseType.Int⟩, ⟨"b", BaseType.Int⟩]
      CodeGenVisitor.init) "a" = some 12 ∧
    (1000 : Int) + spSum (argsCode insideMain
        [ExpNode.IntLit DataType.IOTA 3, ExpNode.IntLit DataType.IOTA 4]) +
      spSum (prologueLines "add") + 12 =
      1000 + spSum (argsCode insideMain
        ([ExpNode.IntLit DataType.IOTA 3, ExpNode.IntLit DataType.IOTA 4].take 1)) :=
  have h := argument_positions_agree CodeGenVisitor.init insideMain "add"
    [⟨"a", BaseType.Int⟩, ⟨"b", BaseType.Int⟩]
    [ExpNode.IntLit DataType.IOTA 3, ExpNode.IntLit DataType.IOTA 4] 1000 0 ⟨"a", BaseType.Int⟩
    rfl (by decide) (by decide) (by decide) rfl
  ⟨h.2.2.2.2.2.1, h.2.2.2.2.2.2.1⟩

/-! ## Local slots -/

/-- Inside a function a local declaration writes the code of its initialiser,
`addi $sp, $sp, -4` and the store to the offset four below the last one handed
out, taken in `int`, which becomes the last one handed out. -/
theorem genLocal_step (g : CodeGenVisitor) (key name : String) (init : ExpNode)
    (hin : g.currentFunc = some key) :
    (genLocal name init g).textSection =
      g.textSection ++ expCode g init ++
        ["    addi $sp, $sp, -4",
         "    sw $t0, " ++ toString (wrapInt ((g.ctx key).nextLocalOffset - 4)) ++ "($fp)"] ∧
    ((genLocal name init g).ctx key).nextLocalOffset =
      wrapInt ((g.ctx key).nextLocalOffset - 4) ∧
    (genLocal name init g).currentFunc = some key ∧
    lookupVariable (genLocal name init g) name =
      some (wrapInt ((g.ctx key).nextLocalOffset - 4)) := by
  have hl := declareLocalVariable_lookup (g.emit (expCode g init)) key name hin
  have hctx : (g.emit (expCode g init)).ctx key = g.ctx key := rfl
  rw [hctx] at hl
  simp only [genLocal, hin, genExp_eq_emit]
  refine ⟨?_, ?_, ?_, ?_⟩
  · rw [hl.1]
    unfold declareLocalVariable
    simp only [CodeGenVisitor.emit, hin, CodeGenVisitor.ctx, CodeGenVisitor.setCtx,
      StdMap.find_assign_key, Option.getD_some]
    cases ((StdMap.find g.functionContexts key).getD ⟨0, 0, [], ""⟩).envStack <;>
      simp only [List.append_assoc, List.cons_append, List.nil_append]
  · unfold declareLocalVariable
    simp only [CodeGenVisitor.emit, hin, CodeGenVisitor.ctx, CodeGenVisitor.setCtx,
      StdMap.find_assign_key, Option.getD_some]
    cases ((StdMap.find g.functionContexts key).getD ⟨0, 0, [], ""⟩).envStack <;>
      simp only [StdMap.find_assign_key, Option.getD_some]
  · unfold declareLocalVariable
    simp only [CodeGenVisitor.emit, hin, CodeGenVisitor.ctx, CodeGenVisitor.setCtx,
      StdMap.find_assign_key, Option.getD_some]
    cases ((StdMap.find g.functionContexts key).getD ⟨0, 0, [], ""⟩).envStack <;> rfl
  · exact hl.2

/-- C31 (the code breaks it): the program
`func f(): int { var a: int = 1; func f(): int { return 0; } var b: int = 2; return 0; }`
is accepted by semantic analysis.  Its function `f` declares the locals `a`
and `b`; the text stores both at `-4($fp)` and has no store to `-8($fp)`. -/
theorem local_slot_reused_after_nested_function :
    accepted (analyze (some localAfterNestedProgram)) = true ∧
    (generatedLines localAfterNestedProgram).count "    sw $t0, -4($fp)" = 2 ∧
    "    sw $t0, -8($fp)" ∉ generatedLines localAfterNestedProgram ∧
    (generatedLines localAfterNestedProgram).count "    addi $sp, $sp, -4" = 2 := by
  refine ⟨rfl, ?_, ?_, ?_⟩ <;> decide

/-! ## The fallback for an unknown identifier -/

theorem unknownVariableLine_data (name : String) :
    (unknownVariableLine name).data =
      "    # Unknown variable ".data ++ (name.data ++ ", default to 0".data) := by
  simp only [unknownVariableLine, String.data_append, List.append_assoc]

theorem unknownVariableLine_injective (a b : String)
    (h : unknownVariableLine a = unknownVariableLine b) : a = b := by
  have hd := congrArg String.data h
  rw [unknownVariableLine_data, unknownVariableLine_data] at hd
  exact String.ext (List.append_cancel_right (List.append_cancel_left hd))

theorem ne_unknownVariableLine_of_notBodyComment (line name : String)
    (h : notBodyComment line = true) : line ≠ unknownVariableLine name := by
  intro heq
  simp only [notBodyComment, decide_eq_true_eq] at h
  apply h
  rw [heq, unknownVariableLine_data]
  rfl

theorem notBodyComment_append (pre rest : String) (hlen : 5 ≤ pre.data.length)
    (h : notBodyComment pre = true) : notBodyComment (pre ++ rest) = true := by
  simp only [notBodyComment, decide_eq_true_eq] at h ⊢
  rw [String.data_append, List.take_append_of_le_length hlen]
  exact h

theorem label_ne_unknownVariableLine (label name : String) :
    label ++ ":" ≠ unknownVariableLine name := by
  intro heq
  have hd := congrArg (fun s => s.data.getLast?) heq
  simp only [String.data_append, unknownVariableLine] at hd
  have h1 : (label.data ++ ":".data).getLast? = some ':' := List.getLast?_concat _
  have h2 : ("    # Unknown variable ".data ++ name.data ++ ", default to 0".data).getLast? =
      some '0' := by
    have : ", default to 0".data = ", default to ".data ++ ['0'] := rfl
    rw [this, ← List.append_assoc]
    exact List.getLast?_concat _
  rw [h1, h2] at hd
  exact absurd hd (by decide)

theorem warning_ne_unknownVariableLine (n name : String) :
    "    # Warning: assignment to unknown variable " ++ n ≠ unknownVariableLine name := by
  intro heq
  have hd := congrArg (fun s => s.data.take 7) heq
  simp only [String.data_append, unknownVariableLine] at hd
  rw [List.take_append_of_le_length (by decide), List.append_assoc,
    List.take_append_of_le_length (by decide)] at hd
  exact absurd hd (by decide)

theorem fallbackOnly_nil (names : List String) : FallbackOnly names [] := by
  intro name h
  cases h

theorem fallbackOnly_append (names : List String) (a b : List String)
    (ha : FallbackOnly names a) (hb : FallbackOnly names b) : FallbackOnly names (a ++ b) := by
  intro name h
  rcases List.mem_append.mp h with h | h
  · exact ha name h
  · exact hb name h

theorem fallbackOnly_of_ne (names : List String) (lines : List String)
    (h : ∀ l ∈ lines, ∀ name, l ≠ unknownVariableLine name) : FallbackOnly names lines := by
  intro name hm
  exact absurd rfl (h _ hm name)

theorem fallbackOnly_of_notBodyComment (names : List String) (lines : List String)
    (h : lines.all notBodyComment = true) : FallbackOnly names lines := by
  apply fallbackOnly_of_ne
  intro l hl name
  exact ne_unknownVariableLine_of_notBodyComment l name (List.all_eq_true.mp h l hl)

theorem fallbackOnly_label (names : List String) (label : String) :
    FallbackOnly names [label ++ ":"] := by
  apply fallbackOnly_of_ne
  intro l hl name
  rw [List.mem_singleton.mp hl]
  exact label_ne_unknownVariableLine label name

theorem fallbackOnly_instruction (names : List String) (pre rest : String)
    (hlen : 5 ≤ pre.data.length) (h : notBodyComment pre = true) :
    FallbackOnly names [pre ++ rest] := by
  apply fallbackOnly_of_ne
  intro l hl name
  rw [List.mem_singleton.mp hl]
  exact ne_unknownVariableLine_of_notBodyComment _ _ (notBodyComment_append _ _ hlen h)

theorem textOk_refl (names : List String) (g : CodeGenVisitor) : TextOk names g g :=
  ⟨[], (List.append_nil _).symm, fallbackOnly_nil names⟩

theorem textOk_trans (names : List String) (g g1 g2 : CodeGenVisitor) (h1 : TextOk names g g1)
    (h2 : TextOk names g1 g2) : TextOk names g g2 := by
  obtain ⟨l1, e1, f1⟩ := h1
  obtain ⟨l2, e2, f2⟩ := h2
  exact ⟨l1 ++ l2, by rw [e2, e1, List.append_assoc], fallbackOnly_append names l1 l2 f1 f2⟩

theorem textOk_emit (names : List String) (g : CodeGenVisitor) (lines : List String)
    (h : FallbackOnly names lines) : TextOk names g (g.emit lines) :=
  ⟨lines, rfl, h⟩

theorem textOk_of_text (names : List String) (g g1 : CodeGenVisitor)
    (h : g1.textSection = g.textSection) : TextOk names g g1 :=
  ⟨[], by rw [h, List.append_nil], fallbackOnly_nil names⟩

theorem lookupVariable_of_inside (key : String) (frames : List (List (String × VariableInfo)))
    (g : CodeGenVisitor) (h : Inside key frames g) (n : String) :
    lookupVariable g n = lookupFrames n frames := by
  simp only [lookupVariable, h.1, h.2]

theorem sim_refl (names : List String) (key : String)
    (frames : List (List (String × VariableInfo))) (funcs : List String) (g : CodeGenVisitor)
    (h : Inside key frames g) : Sim names key frames funcs g g :=
  ⟨h, textOk_refl names g, fun _ _ _ => rfl⟩

theorem sim_trans (names : List String) (key : String)
    (frames frames1 : List (List (String × VariableInfo))) (funcs : List String)
    (g g1 g2 : CodeGenVisitor) (h1 : Sim names key frames funcs g g1)
    (h2 : Sim names key frames1 funcs g1 g2) : Sim names key frames1 funcs g g2 :=
  ⟨h2.1, textOk_trans names g g1 g2 h1.2.1 h2.2.1,
    fun k hk hf => (h2.2.2 k hk hf).trans (h1.2.2 k hk hf)⟩

theorem sim_mono (names : List String) (key : String)
    (frames : List (List (String × VariableInfo))) (funcs funcs1 : List String)
    (g g1 : CodeGenVisitor) (hsub : ∀ k ∈ funcs, k ∈ funcs1)
    (h : Sim names key frames funcs g g1) : Sim names key frames funcs1 g g1 :=
  ⟨h.1, h.2.1, fun k hk hf => h.2.2 k hk (fun hmem => hf (hsub k hmem))⟩

theorem sim_emit (names : List String) (key : String)
    (frames : List (List (String × VariableInfo))) (funcs : List String) (g : CodeGenVisitor)
    (lines : List String) (h : Inside key frames g) (hl : FallbackOnly names lines) :
    Sim names key frames funcs g (g.emit lines) :=
  ⟨h, textOk_emit names g lines hl, fun _ _ _ => rfl⟩

theorem covers_mono (names : List String) (M M1 : String → Prop) (S : Scope)
    (frames : List (List (String × VariableInfo))) (hsub : ∀ n, M1 n → M n)
    (h : Covers names M S frames) : Covers names M1 S frames :=
  fun n symbol hn hl hk => h n symbol (hsub n hn) hl hk

mutual
theorem expCode_fallbackOnly (names : List String) (S : Scope) (key : String)
    (frames : List (List (String × VariableInfo))) (g : CodeGenVisitor)
    (hin : Inside key frames g) :
    ∀ (e e1 : ExpNode), Covers names (fun n => mentionsId n e = true) S frames →
      visitExp (some S) e = Except.ok e1 → FallbackOnly names (expCode g e)
  | ExpNode.IntLit dt value, _, _, _ => by
    have hcode : expCode g (ExpNode.IntLit dt value) = ["    li $t0, " ++ toString value] := rfl
    rw [hcode]
    exact fallbackOnly_instruction names _ _ (by decide) (by decide)
  | ExpNode.FloatLit dt value, _, _, _ => by
    have hcode : expCode g (ExpNode.FloatLit dt value) =
      ["    li $t0, " ++ toString value.toInt] := rfl
    rw [hcode]
    exact fallbackOnly_instruction names _ _ (by decide) (by decide)
  | ExpNode.BoolLit dt value, _, _, _ => by
    have hcode : expCode g (ExpNode.BoolLit dt value) =
      ["    li $t0, " ++ (if value then "1" else "0")] := rfl
    rw [hcode]
    exact fallbackOnly_instruction names _ _ (by decide) (by decide)
  | ExpNode.Id dt n, e1, hcov, h => by
    rw [expCode_id]
    simp only [hin.1]
    rw [lookupVariable_of_inside key frames g hin]
    cases hl : lookupFrames n frames with
    | some offset =>
      simp only
      rw [String.append_assoc]
      exact fallbackOnly_instruction names _ _ (by decide) (by decide)
    | none =>
      simp only
      have hsym : ∃ symbol, S.lookup n = some symbol ∧ symbol.kind ≠ SymbolKind.Function := by
        simp only [visitExp, lookupCurrent] at h
        cases hs : S.lookup n with
        | none => simp [hs, throwSem] at h
        | some symbol =>
          simp only [hs] at h
          by_cases hk : symbol.kind = SymbolKind.Function
          · simp [hk, throwSem] at h
          · exact ⟨symbol, rfl, hk⟩
      obtain ⟨symbol, hs, hk⟩ := hsym
      have hn : n ∈ names := by
        rcases hcov n symbol (by simp [mentionsId]) hs hk with hfr | hg
        · rw [hl] at hfr
          simp at hfr
        · exact hg
      intro name hmem
      simp only [List.mem_cons, List.mem_singleton, List.not_mem_nil, or_false] at hmem
      rcases hmem with hmem | hmem
      · have := unknownVariableLine_injective name n hmem
        rw [this]
        exact hn
      · exact absurd hmem.symm (ne_unknownVariableLine_of_notBodyComment _ _ (by decide))
  | ExpNode.UnaryOp dt op expr, e1, hcov, h => by
    cases op
    simp only [visitExp] at h
    cases hv : visitExp (some S) expr with
    | error a => simp [hv] at h
    | ok expr1 =>
      have ih := expCode_fallbackOnly names S key frames g hin expr expr1
        (covers_mono names _ _ S frames (fun n hn => by simpa [mentionsId] using hn) hcov) hv
      rw [expCode_unaryOp]
      refine fallbackOnly_append names _ _ ih (fallbackOnly_of_notBodyComment names _ ?_)
      simp only [if_true]
      decide
  | ExpNode.BinaryOp dt op left right, e1, hcov, h => by
    simp only [visitExp] at h
    cases hl : visitExp (some S) left with
    | error a => simp [hl] at h
    | ok left1 =>
      cases hr : visitExp (some S) right with
      | error a => simp [hl, hr] at h
      | ok right1 =>
        have ihl := expCode_fallbackOnly names S key frames g hin left left1
          (covers_mono names _ _ S frames (fun n hn => by simp [mentionsId, hn]) hcov) hl
        have ihr := expCode_fallbackOnly names S key frames g hin right right1
          (covers_mono names _ _ S frames (fun n hn => by simp [mentionsId, hn]) hcov) hr
        rw [expCode_binaryOp]
        refine fallbackOnly_append names _ _ (fallbackOnly_append names _ _
          (fallbackOnly_append names _ _ (fallbackOnly_append names _ _ ihl
            (fallbackOnly_of_notBodyComment names _ (by decide))) ihr)
          (fallbackOnly_of_notBodyComment names _ (by decide)))
          (fallbackOnly_of_notBodyComment names _ ?_)
        cases op <;> decide
  | ExpNode.Call dt callee args, e1, hcov, h => by
    simp only [visitExp, lookupCurrent] at h
    cases hl : S.lookup callee with
    | none => simp [hl, throwSem] at h
    | some symbol =>
      simp only [hl] at h
      by_cases hk : symbol.kind = SymbolKind.Function
      · by_cases hlen : args.length = symbol.paramTypes.length
        · simp only [hk, hlen, ne_eq, not_true_eq_false, if_false] at h
          cases hv : visitArgs (some S) callee symbol.paramTypes 0 [] args with
          | error a => simp [hv] at h
          | ok args1 =>
            have ih := argsCode_fallbackOnly names S key frames g hin callee args _ _ _
              args1
              (covers_mono names _ _ S frames (fun n hn => by simpa [mentionsId] using hn) hcov)
              hv
            rw [expCode_call]
            simp only [hin.1]
            refine fallbackOnly_append names _ _ (fallbackOnly_append names _ _
              (fallbackOnly_append names _ _ ih ?_) ?_)
              (fallbackOnly_of_notBodyComment names _ (by decide))
            · exact fallbackOnly_instruction names _ _ (by decide) (by decide)
            · by_cases he : args.isEmpty = true
              · simp only [he, if_true]
                exact fallbackOnly_nil names
              · simp only [he, if_false, Bool.false_eq_true]
                exact fallbackOnly_instruction names _ _ (by decide) (by decide)
        · simp [hk, hlen, throwSem] at h
      · simp [hk, throwSem] at h
theorem argsCode_fallbackOnly (names : List String) (S : Scope) (key : String)
    (frames : List (List (String × VariableInfo))) (g : CodeGenVisitor)
    (hin : Inside key frames g) (callee : String) :
    ∀ (args : List ExpNode) (paramTypes : List DataType) (i : Nat) (argTypes : List DataType)
      (args1 : List ExpNode), Covers names (fun n => mentionsIdArgs n args = true) S frames →
      visitArgs (some S) callee paramTypes i argTypes args = Except.ok args1 →
        FallbackOnly names (argsCode g args)
  | [], _, _, _, _, _, _ => by
    have hnil : argsCode g [] = [] := rfl
    rw [hnil]
    exact fallbackOnly_nil names
  | arg :: rest, paramTypes, i, argTypes, args1, hcov, h => by
    simp only [visitArgs] at h
    cases hv : visitExp (some S) arg with
    | error a => simp [hv] at h
    | ok arg1 =>
      have ih := expCode_fallbackOnly names S key frames g hin arg arg1
        (covers_mono names _ _ S frames (fun n hn => by simp [mentionsIdArgs, hn]) hcov) hv
      simp only [hv] at h
      cases hp : paramTypes[i]? with
      | none => simp [hp] at h
      | some paramType =>
        simp only [hp] at h
        by_cases hc : isAssignmentCompatible paramType arg1.dataType = true
        · simp only [hc, Bool.not_true, Bool.false_eq_true, if_false] at h
          cases hr : visitArgs (some S) callee paramTypes (i + 1) (argTypes ++ [arg1.dataType])
              rest with
          | error a => simp [hr] at h
          | ok rest1 =>
            have ihr := argsCode_fallbackOnly names S key frames g hin callee rest _ _ _
              rest1
              (covers_mono names _ _ S frames (fun n hn => by simp [mentionsIdArgs, hn]) hcov) hr
            rw [argsCode_cons]
            exact fallbackOnly_append names _ _ (fallbackOnly_append names _ _ ih
              (fallbackOnly_of_notBodyComment names _ (by decide))) ihr
        · simp [hc, throwSem] at h
end

/-- An expression the checker accepts in `S` appends lines whose fallback
comments are for names of the list only, and changes no context. -/
theorem genExp_sim (names : List String) (S : Scope) (key : String)
    (frames : List (List (String × VariableInfo))) (funcs : List String) (g : CodeGenVisitor)
    (hin : Inside key frames g) (e e1 : ExpNode)
    (hcov : Covers names (fun n => mentionsId n e = true) S frames)
    (h : visitExp (some S) e = Except.ok e1) :
    Sim names key frames funcs g (genExp e g) := by
  rw [genExp_eq_emit]
  exact sim_emit names key frames funcs g _ hin
    (expCode_fallbackOnly names S key frames g hin e e1 hcov h)

/-! ## Scopes after declarations -/

theorem lookup_child (S : Scope) (n : String) :
    (Scope.mk [] (some S)).lookup n = S.lookup n := by
  rw [Scope.lookup_mk]
  rfl

theorem lookup_addSymbol_ne (C : Scope) (x : String) (kind : SymbolKind) (type : DataType)
    (n : String) (hn : n ≠ x) : (C.addSymbol x kind type).lookup n = C.lookup n := by
  cases C with
  | mk t p =>
    simp only [Scope.addSymbol, Scope.symbolTable, Scope.parent]
    rw [Scope.lookup_mk, SymbolTable.find_assign_other _ _ _ _ hn, ← Scope.lookup_mk]

theorem lookup_addFunction_ne (C : Scope) (f : String) (ret : DataType)
    (params : List DataType) (n : String) (hn : n ≠ f) :
    (C.addFunction f ret params).lookup n = C.lookup n := by
  cases C with
  | mk t p =>
    simp only [Scope.addFunction, Scope.symbolTable, Scope.parent]
    rw [Scope.lookup_mk, SymbolTable.find_assign_other _ _ _ _ hn, ← Scope.lookup_mk]

theorem lookup_addFunction_var (C : Scope) (f : String) (ret : DataType)
    (params : List DataType) (n : String) (symbol : SymbolInfo)
    (h : (C.addFunction f ret params).lookup n = some symbol)
    (hk : symbol.kind ≠ SymbolKind.Function) : C.lookup n = some symbol := by
  by_cases hn : n = f
  · subst hn
    cases C with
    | mk t p =>
      simp only [Scope.addFunction, Scope.symbolTable, Scope.parent] at h
      rw [Scope.lookup_mk, SymbolTable.find_assign_same] at h
      simp only [Option.some.injEq] at h
      rw [← h] at hk
      exact absurd rfl hk
  · rw [lookup_addFunction_ne C f ret params n hn] at h
    exact h

theorem lookup_declScope_var (d : DeclNode) (C : Scope) (n : String) (symbol : SymbolInfo)
    (h : (declScope d C).lookup n = some symbol) (hk : symbol.kind ≠ SymbolKind.Function) :
    n ∈ declaredVariables [d] ∨ C.lookup n = some symbol := by
  cases d with
  | VarDecl x type init =>
    by_cases hn : n = x
    · left
      simp [declaredVariables, hn]
    · right
      simp only [declScope] at h
      rw [lookup_addSymbol_ne C x _ _ n hn] at h
      exact h
  | LetDecl x type init =>
    by_cases hn : n = x
    · left
      simp [declaredVariables, hn]
    · right
      simp only [declScope] at h
      rw [lookup_addSymbol_ne C x _ _ n hn] at h
      exact h
  | FuncDecl f params ret body =>
    right
    exact lookup_addFunction_var C f _ _ n symbol h hk

theorem declaredVariables_cons (d : DeclNode) (rest : List DeclNode) :
    declaredVariables (d :: rest) = declaredVariables [d] ++ declaredVariables rest := by
  cases d <;> simp [declaredVariables]

theorem declaredVariables_append : ∀ (a b : List DeclNode),
    declaredVariables (a ++ b) = declaredVariables a ++ declaredVariables b
  | [], b => rfl
  | d :: rest, b => by
    rw [List.cons_append, declaredVariables_cons, declaredVariables_cons d rest,
      declaredVariables_append rest b, List.append_assoc]

theorem lookup_declsScope_var : ∀ (ds : List DeclNode) (C : Scope) (n : String)
    (symbol : SymbolInfo), (declsScope ds C).lookup n = some symbol →
    symbol.kind ≠ SymbolKind.Function → n ∈ declaredVariables ds ∨ C.lookup n = some symbol
  | [], C, n, symbol, h, _ => Or.inr h
  | d :: rest, C, n, symbol, h, hk => by
    simp only [declsScope] at h
    rw [declaredVariables_cons]
    rcases lookup_declsScope_var rest _ n symbol h hk with h1 | h1
    · exact Or.inl (List.mem_append_right _ h1)
    · rcases lookup_declScope_var d C n symbol h1 hk with h2 | h2
      · exact Or.inl (List.mem_append_left _ h2)
      · exact Or.inr h2

theorem visitDecl_scope (st st1 : ScopeAndTypeChecker) (d d1 : DeclNode) (C : Scope)
    (h : visitDecl st d = Except.ok (st1, d1)) (hS : st.currentScope = some C) :
    st1 = ⟨some (declScope d C), st.currentFunction⟩ := by
  cases d with
  | VarDecl x type init =>
    obtain ⟨init1, hv, _⟩ := visitDecl_varDecl_ok st st1 x type init d1 h
    obtain ⟨S0, hS0, _, _, _, hst⟩ := visitVarOrLet_ok st st1 _ x type init init1 hv
    rw [hS] at hS0
    simp only [Option.some.injEq] at hS0
    subst hS0
    exact hst
  | LetDecl x type init =>
    obtain ⟨init1, hv, _⟩ := visitDecl_letDecl_ok st st1 x type init d1 h
    obtain ⟨S0, hS0, _, _, _, hst⟩ := visitVarOrLet_ok st st1 _ x type init init1 hv
    rw [hS] at hS0
    simp only [Option.some.injEq] at hS0
    subst hS0
    exact hst
  | FuncDecl f params ret body =>
    obtain ⟨G0, hG0, hst⟩ := visitDecl_funcDecl_state st st1 f params ret body d1 h
    rw [hS] at hG0
    simp only [Option.some.injEq] at hG0
    subst hG0
    exact hst

theorem visitDecls_scope : ∀ (ds : List DeclNode) (st st1 : ScopeAndTypeChecker)
    (ds1 : List DeclNode) (C : Scope), visitDecls st ds = Except.ok (st1, ds1) →
    st.currentScope = some C →
    st1 = ⟨some (declsScope ds C), st.currentFunction⟩
  | [], st, st1, ds1, C, h, hS => by
    simp only [visitDecls, Except.ok.injEq, Prod.mk.injEq] at h
    rw [← h.1, declsScope, ← hS]
  | d :: rest, st, st1, ds1, C, h, hS => by
    obtain ⟨sm, d1, rest1, hd, hr, _⟩ := visitDecls_cons_ok st st1 d rest ds1 h
    have hsm := visitDecl_scope st sm d d1 C hd hS
    have := visitDecls_scope rest sm st1 rest1 (declScope d C) hr (by rw [hsm])
    rw [this, hsm]
    rfl

theorem visitStmts_all : ∀ (ss : List StmtNode) (st st1 : ScopeAndTypeChecker)
    (ss1 : List StmtNode), visitStmts st ss = Except.ok (st1, ss1) →
    ∀ s ∈ ss, ∃ s1, visitStmt st s = Except.ok (st, s1)
  | [], _, _, _, _, s, hs => by cases hs
  | s0 :: rest, st, st1, ss1, h, s, hs => by
    obtain ⟨sm, s01, rest1, hd, hr, _⟩ := visitStmts_cons_ok st st1 s0 rest ss1 h
    have hsm := (visitStmt_fresh s0 st sm s01 hd).1
    rw [hsm] at hr hd
    rcases List.mem_cons.mp hs with hs | hs
    · rw [hs]
      exact ⟨s01, hd⟩
    · exact visitStmts_all rest st st1 rest1 hr s hs

/-! ## Frames and scopes side by side -/

theorem lookupFrames_nil_cons (n : String) (frames : List (List (String × VariableInfo))) :
    lookupFrames n ([] :: frames) = lookupFrames n frames := rfl

theorem lookupFrames_assign_key (T : List (String × VariableInfo)) (x : String)
    (v : VariableInfo) (frames : List (List (String × VariableInfo))) :
    (lookupFrames x (StdMap.assign T x v :: frames)).isSome = true := by
  simp only [lookupFrames, StdMap.find_assign_key, Option.isSome_some]

theorem lookupFrames_assign_ne (T : List (String × VariableInfo)) (x n : String)
    (v : VariableInfo) (frames : List (List (String × VariableInfo))) (hn : n ≠ x) :
    lookupFrames n (StdMap.assign T x v :: frames) = lookupFrames n (T :: frames) := by
  simp only [lookupFrames, StdMap.find_assign_of_ne _ _ _ _ hn]

theorem covers_child (names : List String) (M : String → Prop) (S : Scope)
    (frames : List (List (String × VariableInfo))) (h : Covers names M S frames) :
    Covers names M (Scope.mk [] (some S)) ([] :: frames) := by
  intro n symbol hn hl hk
  rw [lookup_child] at hl
  rw [lookupFrames_nil_cons]
  exact h n symbol hn hl hk

theorem covers_addSymbol (names : List String) (M : String → Prop) (C : Scope)
    (T : List (String × VariableInfo)) (frames : List (List (String × VariableInfo)))
    (x : String) (kind : SymbolKind) (type : DataType) (v : VariableInfo)
    (h : Covers names M C (T :: frames)) :
    Covers names M (C.addSymbol x kind type) (StdMap.assign T x v :: frames) := by
  intro n symbol hn hl hk
  by_cases hx : n = x
  · left
    rw [hx]
    exact lookupFrames_assign_key T x v frames
  · rw [lookup_addSymbol_ne C x kind type n hx] at hl
    rw [lookupFrames_assign_ne T x n v frames hx]
    exact h n symbol hn hl hk

theorem covers_addFunction (names : List String) (M : String → Prop) (C : Scope)
    (frames : List (List (String × VariableInfo))) (f : String) (ret : DataType)
    (params : List DataType) (h : Covers names M C frames) :
    Covers names M (C.addFunction f ret params) frames := by
  intro n symbol hn hl hk
  exact h n symbol hn (lookup_addFunction_var C f ret params n symbol hl hk) hk

theorem visible_child (names outer : List String) (S : Scope) (h : Visible names outer S) :
    Visible names outer (Scope.mk [] (some S)) := by
  intro n symbol hl hk
  rw [lookup_child] at hl
  exact h n symbol hl hk

theorem visible_mono (names outer outer1 : List String) (S : Scope)
    (hsub : ∀ n ∈ outer, n ∈ outer1) (h : Visible names outer S) : Visible names outer1 S := by
  intro n symbol hl hk
  rcases h n symbol hl hk with h1 | h1
  · exact Or.inl (hsub n h1)
  · exact Or.inr h1

/-! ## A declaration or a statement of a list -/

theorem declsMentions_of_mem (x : String) : ∀ (ds : List DeclNode) (d : DeclNode), d ∈ ds →
    declMentions x d = true → declsMentions x ds = true
  | d0 :: rest, d, hd, h => by
    simp only [declsMentions, Bool.or_eq_true]
    rcases List.mem_cons.mp hd with hd | hd
    · exact Or.inl (by rw [← hd]; exact h)
    · exact Or.inr (declsMentions_of_mem x rest d hd h)

theorem stmtsMentions_of_mem (x : String) : ∀ (ss : List StmtNode) (s : StmtNode), s ∈ ss →
    stmtMentions x s = true → stmtsMentions x ss = true
  | s0 :: rest, s, hs, h => by
    simp only [stmtsMentions, Bool.or_eq_true]
    rcases List.mem_cons.mp hs with hs | hs
    · exact Or.inl (by rw [← hs]; exact h)
    · exact Or.inr (stmtsMentions_of_mem x rest s hs h)

theorem declsFuncNames_of_mem : ∀ (ds : List DeclNode) (d : DeclNode), d ∈ ds →
    ∀ k ∈ declFuncNames d, k ∈ declsFuncNames ds
  | d0 :: rest, d, hd, k, hk => by
    simp only [declsFuncNames, List.mem_append]
    rcases List.mem_cons.mp hd with hd | hd
    · exact Or.inl (by rw [← hd]; exact hk)
    · exact Or.inr (declsFuncNames_of_mem rest d hd k hk)

theorem stmtsFuncNames_of_mem : ∀ (ss : List StmtNode) (s : StmtNode), s ∈ ss →
    ∀ k ∈ stmtFuncNames s, k ∈ stmtsFuncNames ss
  | s0 :: rest, s, hs, k, hk => by
    simp only [stmtsFuncNames, List.mem_append]
    rcases List.mem_cons.mp hs with hs | hs
    · exact Or.inl (by rw [← hs]; exact hk)
    · exact Or.inr (stmtsFuncNames_of_mem rest s hs k hk)

theorem declsLate_of_mem : ∀ (ds : List DeclNode) (d : DeclNode), d ∈ ds →
    ∀ n ∈ declLate d, n ∈ declsLate ds
  | d0 :: rest, d, hd, n, hn => by
    simp only [declsLate, List.mem_append]
    rcases List.mem_cons.mp hd with hd | hd
    · exact Or.inl (by rw [← hd]; exact hn)
    · exact Or.inr (declsLate_of_mem rest d hd n hn)

theorem stmtsLate_of_mem : ∀ (ss : List StmtNode) (s : StmtNode), s ∈ ss →
    ∀ n ∈ stmtLate s, n ∈ stmtsLate ss
  | s0 :: rest, s, hs, n, hn => by
    simp only [stmtsLate, List.mem_append]
    rcases List.mem_cons.mp hs with hs | hs
    · exact Or.inl (by rw [← hs]; exact hn)
    · exact Or.inr (stmtsLate_of_mem rest s hs n hn)

theorem declsOuter_of_mem (outer : List String) : ∀ (ds : List DeclNode) (d : DeclNode),
    d ∈ ds → ∀ n ∈ declOuter outer d, n ∈ declsOuter outer ds
  | d0 :: rest, d, hd, n, hn => by
    simp only [declsOuter, List.mem_append]
    rcases List.mem_cons.mp hd with hd | hd
    · exact Or.inl (by rw [← hd]; exact hn)
    · exact Or.inr (declsOuter_of_mem outer rest d hd n hn)

theorem stmtsOuter_of_mem (outer : List String) : ∀ (ss : List StmtNode) (s : StmtNode),
    s ∈ ss → ∀ n ∈ stmtOuter outer s, n ∈ stmtsOuter outer ss
  | s0 :: rest, s, hs, n, hn => by
    simp only [stmtsOuter, List.mem_append]
    rcases List.mem_cons.mp hs with hs | hs
    · exact Or.inl (by rw [← hs]; exact hn)
    · exact Or.inr (stmtsOuter_of_mem outer rest s hs n hn)

theorem declsOrdered_of_mem : ∀ (ds : List DeclNode) (d : DeclNode), d ∈ ds →
    declsOrdered ds = true → declOrdered d = true
  | d0 :: rest, d, hd, h => by
    simp only [declsOrdered, Bool.and_eq_true] at h
    rcases List.mem_cons.mp hd with hd | hd
    · rw [hd]; exact h.1
    · exact declsOrdered_of_mem rest d hd h.2

theorem stmtsOrdered_of_mem : ∀ (ss : List StmtNode) (s : StmtNode), s ∈ ss →
    stmtsOrdered ss = true → stmtOrdered s = true
  | s0 :: rest, s, hs, h => by
    simp only [stmtsOrdered, Bool.and_eq_true] at h
    rcases List.mem_cons.mp hs with hs | hs
    · rw [hs]; exact h.1
    · exact stmtsOrdered_of_mem rest s hs h.2

/-! ## The frames through the visits of the generator -/

theorem ctx_setCtx (g : CodeGenVisitor) (key : String) (c : FunctionContext) :
    (g.setCtx key c).ctx key = c := by
  simp only [CodeGenVisitor.ctx, CodeGenVisitor.setCtx, StdMap.find_assign_key, Option.getD_some]

theorem ctx_setCtx_ne (g : CodeGenVisitor) (key k : String) (c : FunctionContext)
    (hk : k ≠ key) : (g.setCtx key c).ctx k = g.ctx k := by
  simp only [CodeGenVisitor.ctx, CodeGenVisitor.setCtx, StdMap.find_assign_of_ne _ _ _ _ hk]

theorem pushEnv_sim (names : List String) (key : String)
    (frames : List (List (String × VariableInfo))) (funcs : List String) (g : CodeGenVisitor)
    (h : Inside key frames g) : Sim names key ([] :: frames) funcs g (pushEnv g) := by
  obtain ⟨h1, h2⟩ := h
  simp only [pushEnv, h1]
  refine ⟨⟨h1, ?_⟩, textOk_of_text names _ _ rfl, fun k hk _ => ctx_setCtx_ne g key k _ hk⟩
  rw [ctx_setCtx, h2]

theorem popEnv_sim (names : List String) (key : String) (frame : List (String × VariableInfo))
    (frames : List (List (String × VariableInfo))) (funcs : List String) (g : CodeGenVisitor)
    (h : Inside key (frame :: frames) g) : Sim names key frames funcs g (popEnv g) := by
  obtain ⟨h1, h2⟩ := h
  simp only [popEnv, h1, h2]
  refine ⟨⟨h1, ?_⟩, textOk_of_text names _ _ rfl, fun k hk _ => ctx_setCtx_ne g key k _ hk⟩
  rw [ctx_setCtx]

theorem declareLocalVariable_sim (names : List String) (key : String)
    (frame : List (String × VariableInfo)) (frames : List (List (String × VariableInfo)))
    (funcs : List String) (g : CodeGenVisitor) (name : String)
    (h : Inside key (frame :: frames) g) :
    Sim names key (StdMap.assign frame name ⟨(declareLocalVariable g name).1⟩ :: frames) funcs g
      (declareLocalVariable g name).2 := by
  obtain ⟨h1, h2⟩ := h
  have he : (((g.setCtx key { g.ctx key with
      nextLocalOffset := wrapInt ((g.ctx key).nextLocalOffset - 4) }).emit
        ["    addi $sp, $sp, -4"]).ctx key).envStack = frame :: frames := by
    have hc : ((g.setCtx key { g.ctx key with
        nextLocalOffset := wrapInt ((g.ctx key).nextLocalOffset - 4) }).emit
          ["    addi $sp, $sp, -4"]).ctx key =
        { g.ctx key with nextLocalOffset := wrapInt ((g.ctx key).nextLocalOffset - 4) } :=
      ctx_setCtx _ _ _
    rw [hc]
    exact h2
  simp only [declareLocalVariable, h1, he]
  refine ⟨⟨h1, ?_⟩, ⟨["    addi $sp, $sp, -4"], rfl,
    fallbackOnly_of_notBodyComment names _ (by decide)⟩, ?_⟩
  · rw [ctx_setCtx]
  · intro k hk _
    rw [ctx_setCtx_ne _ key k _ hk]
    exact ctx_setCtx_ne g key k _ hk

/-- A `var` or `let` whose initializer the checker accepts in `S`: the frame at
the back of the stack gets the name, and what was covered stays covered. -/
theorem genLocal_sim (names : List String) (S : Scope) (key : String)
    (frame : List (String × VariableInfo)) (frames : List (List (String × VariableInfo)))
    (funcs : List String) (g : CodeGenVisitor) (hin : Inside key (frame :: frames) g)
    (M : String → Prop) (x : String) (kind : SymbolKind) (type : DataType)
    (init init1 : ExpNode) (hM : ∀ n, mentionsId n init = true → M n)
    (hcov : Covers names M S (frame :: frames))
    (hv : visitExp (some S) init = Except.ok init1) :
    ∃ frame1, Sim names key (frame1 :: frames) funcs g (genLocal x init g) ∧
      Covers names M (S.addSymbol x kind type) (frame1 :: frames) := by
  have h1 := genExp_sim names S key (frame :: frames) funcs g hin init init1
    (covers_mono names M _ S _ hM hcov) hv
  have h2 := declareLocalVariable_sim names key frame frames funcs (genExp init g) x h1.1
  simp only [genLocal, hin.1]
  refine ⟨StdMap.assign frame x ⟨(declareLocalVariable (genExp init g) x).1⟩, ?_,
    covers_addSymbol names M S frame frames x kind type _ hcov⟩
  refine sim_trans names key _ _ funcs _ _ _ (sim_trans names key _ _ funcs _ _ _ h1 h2)
    (sim_emit names key _ funcs _ _ h2.1 ?_)
  rw [String.append_assoc]
  exact fallbackOnly_instruction names _ _ (by decide) (by decide)

/-! ## Entering and leaving a function -/

theorem enterFunction_ctx_ne (name : String) (params : List ParamNode) (g : CodeGenVisitor)
    (k : String) (hk : k ≠ name) : (enterFunction name params g).ctx k = g.ctx k := by
  unfold enterFunction
  simp only [newLabel, pushEnv, CodeGenVisitor.ctx, CodeGenVisitor.setCtx, CodeGenVisitor.emit,
    StdMap.find_assign_key, Option.getD_some, StdMap.find_assign_of_ne _ _ _ _ hk]

theorem prologueLines_fallbackOnly (names : List String) (name : String) :
    FallbackOnly names (prologueLines name) := by
  unfold prologueLines
  refine fallbackOnly_append names _ _ (fallbackOnly_append names _ _ ?_ ?_) ?_
  · exact fallbackOnly_append names [""] ["# Function " ++ name]
      (fallbackOnly_of_notBodyComment names _ (by decide))
      (fallbackOnly_instruction names _ _ (by decide) (by decide))
  · by_cases hm : name = "main"
    · simp only [hm, if_true]
      exact fallbackOnly_of_notBodyComment names _ (by decide)
    · simp only [hm, if_false]
      exact fallbackOnly_nil names
  · exact fallbackOnly_append names [name ++ ":"] _ (fallbackOnly_label names _)
      (fallbackOnly_of_notBodyComment names _ (by decide))

theorem leaveFunction_textOk (names : List String) (name : String) (saved : Option String)
    (g : CodeGenVisitor) : TextOk names g (leaveFunction name saved g) := by
  refine ⟨_, rfl, ?_⟩
  refine fallbackOnly_append names _ _ ?_ ?_
  · exact fallbackOnly_append names [(g.ctx name).endLabel ++ ":"] _ (fallbackOnly_label names _)
      (fallbackOnly_of_notBodyComment names _ (by decide))
  · by_cases hm : name = "main"
    · simp only [hm, if_true]
      exact fallbackOnly_of_notBodyComment names _ (by decide)
    · simp only [hm, if_false]
      exact fallbackOnly_of_notBodyComment names _ (by decide)

theorem addParams_find_isSome : ∀ (params : List ParamNode) (S : Scope) (cs : Option Scope),
    addParams (some S) params = Except.ok cs →
    ∃ P, cs = some P ∧
      ∀ n, (SymbolTable.find P.symbolTable n).isSome =
        ((SymbolTable.find S.symbolTable n).isSome ||
          decide (n ∈ params.map (fun p => p.name)))
  | [], S, cs, h => by
    simp only [addParams, Except.ok.injEq] at h
    exact ⟨S, h.symm, fun n => by simp⟩
  | param :: rest, S, cs, h => by
    rw [addParams] at h
    by_cases hex : S.existsInCurrentScope param.name = true
    · simp [hex, throwSem] at h
    · simp only [hex] at h
      obtain ⟨P, hP, hfind⟩ := addParams_find_isSome rest _ cs h
      refine ⟨P, hP, ?_⟩
      intro n
      rw [hfind n]
      by_cases hn : n = param.name
      · subst hn
        simp only [Scope.addSymbol, Scope.symbolTable, SymbolTable.find_assign_same,
          Option.isSome_some, Bool.true_or, List.map_cons, List.mem_cons, true_or, decide_True,
          Bool.or_true]
      · simp only [Scope.addSymbol, Scope.symbolTable]
        rw [SymbolTable.find_assign_other _ _ _ _ hn]
        simp only [List.map_cons, List.mem_cons, hn, false_or]

theorem installParams_isSome (params : List ParamNode) (hN : params.length < 2 ^ 31)
    (hnd : (params.map (fun p => p.name)).Nodup) (n : String) :
    (StdMap.find (installParams (sizeToInt params.length) 0 params []) n).isSome =
      decide (n ∈ params.map (fun p => p.name)) := by
  obtain ⟨h1, h2⟩ := installParams_find (sizeToInt params.length) params 0 []
    (by rw [sizeToInt_of_lt _ hN]; simp) hnd
  by_cases hn : n ∈ params.map (fun p => p.name)
  · obtain ⟨p, hp, hpn⟩ := List.mem_map.mp hn
    obtain ⟨j, hj⟩ := List.mem_iff_getElem?.mp hp
    have := h1 j p hj
    rw [hpn] at this
    rw [this]
    simp only [Option.isSome_some, hn, decide_True]
  · rw [h2 n hn]
    simp only [hn, decide_False]
    rfl

/-- The state in which the body of a function is entered: the checker is in
the scope of the parameters, the generator has the one frame of the
parameters, and what the body mentions and the checker finds is a parameter or
a name of the list, when the list has the names that the body mentions and the
scope around the function shows. -/
theorem covers_params (names outer : List String) (M : String → Prop) (C P : Scope)
    (f : String) (ret : BaseType) (params : List ParamNode)
    (hN : params.length < 2 ^ 31)
    (hadd : addParams (some (Scope.mk [] (some (C.addFunction f (baseTypeToDataType ret)
      (params.map (fun param => baseTypeToDataType param.type)))))) params =
        Except.ok (some P))
    (hpar : P.parent = some (C.addFunction f (baseTypeToDataType ret)
      (params.map (fun param => baseTypeToDataType param.type))))
    (hvis : Visible names outer C) (hout : ∀ n ∈ outer, M n → n ∈ names) :
    Covers names M P [installParams (sizeToInt params.length) 0 params []] ∧
      Visible names (params.map (fun param => param.name) ++ outer) P := by
  obtain ⟨P0, hP0, hfind⟩ := addParams_find_isSome params _ _ hadd
  simp only [Option.some.injEq] at hP0
  subst hP0
  have hnd := (addParams_names params _ _ hadd).1
  have hlook : ∀ n symbol, P.lookup n = some symbol → symbol.kind ≠ SymbolKind.Function →
      n ∈ params.map (fun param => param.name) ∨ C.lookup n = some symbol := by
    intro n symbol hl hk
    by_cases hn : n ∈ params.map (fun param => param.name)
    · exact Or.inl hn
    · right
      have hf := hfind n
      simp only [Scope.symbolTable, hn, decide_False, Bool.or_false] at hf
      cases P with
      | mk t p =>
        simp only [Scope.parent] at hpar
        subst hpar
        simp only [Scope.symbolTable] at hf
        have hnone : SymbolTable.find t n = none := by
          cases hfn : SymbolTable.find t n with
          | none => rfl
          | some b =>
            rw [hfn] at hf
            have hfalse : SymbolTable.find ([] : SymbolTable) n = none := rfl
            rw [hfalse] at hf
            simp at hf
        rw [Scope.lookup_mk, hnone] at hl
        exact lookup_addFunction_var C f _ _ n symbol hl hk
  constructor
  · intro n symbol hn hl hk
    rcases hlook n symbol hl hk with h1 | h1
    · left
      have := installParams_isSome params hN hnd n
      simp only [h1, decide_True] at this
      cases hfr : StdMap.find (installParams (sizeToInt params.length) 0 params []) n with
      | none => rw [hfr] at this; simp at this
      | some v => simp only [lookupFrames, hfr, Option.isSome_some]
    · rcases hvis n symbol h1 hk with h2 | h2
      · exact Or.inr (hout n h2 hn)
      · exact Or.inr h2
  · intro n symbol hl hk
    rcases hlook n symbol hl hk with h1 | h1
    · exact Or.inl (List.mem_append_left _ h1)
    · rcases hvis n symbol h1 hk with h2 | h2
      · exact Or.inl (List.mem_append_right _ h2)
      · exact Or.inr h2

/-! ## The code of a function and of the entries of a block -/

theorem genDecls_getElem? : ∀ (ds : List DeclNode) (i : Nat),
    (genDecls ds)[i]? = (ds[i]?).map genDecl
  | [], i => by simp [genDecls]
  | d :: rest, 0 => by simp [genDecls]
  | d :: rest, i + 1 => by
    simp only [genDecls, List.getElem?_cons_succ]
    exact genDecls_getElem? rest i

theorem genStmts_getElem? : ∀ (ss : List StmtNode) (i : Nat),
    (genStmts ss)[i]? = (ss[i]?).map genStmt
  | [], i => by simp [genStmts]
  | s :: rest, 0 => by simp [genStmts]
  | s :: rest, i + 1 => by
    simp only [genStmts, List.getElem?_cons_succ]
    exact genStmts_getElem? rest i

theorem declaredVariables_of_mem : ∀ (ds : List DeclNode) (d : DeclNode), d ∈ ds →
    ∀ n ∈ declaredVariables [d], n ∈ declaredVariables ds
  | d0 :: rest, d, hd, n, hn => by
    rw [declaredVariables_cons]
    rcases List.mem_cons.mp hd with hd | hd
    · rw [← hd]
      exact List.mem_append_left _ hn
    · exact List.mem_append_right _ (declaredVariables_of_mem rest d hd n hn)

theorem visible_declScope (names outer : List String) (d : DeclNode) (C : Scope)
    (hd : ∀ n ∈ declaredVariables [d], n ∈ outer) (h : Visible names outer C) :
    Visible names outer (declScope d C) := by
  intro n symbol hl hk
  rcases lookup_declScope_var d C n symbol hl hk with h1 | h1
  · exact Or.inl (hd n h1)
  · exact h n symbol h1 hk

/-- The code of a function declaration the checker accepts in `C`, when the
simulation holds of its body: the lines have fallback comments for names of
the list only, the current function is as before, and so is the context of
every function that is not declared here. -/
theorem genFunc_sim (names outer : List String) (f : String) (params : List ParamNode)
    (ret : BaseType) (body : BlockNode) (hB : BlockSim names body)
    (st st1 : ScopeAndTypeChecker) (d1 : DeclNode) (C : Scope) (g : CodeGenVisitor)
    (hord : declOrdered (DeclNode.FuncDecl f params ret body) = true)
    (hlate : ∀ n ∈ declLate (DeclNode.FuncDecl f params ret body), n ∈ names)
    (hout : ∀ n ∈ declOuter outer (DeclNode.FuncDecl f params ret body), n ∈ names)
    (hv : visitDecl st (DeclNode.FuncDecl f params ret body) = Except.ok (st1, d1))
    (hS : st.currentScope = some C) (hvis : Visible names outer C) :
    TextOk names g (genDecl (DeclNode.FuncDecl f params ret body) g) ∧
      (genDecl (DeclNode.FuncDecl f params ret body) g).currentFunc = g.currentFunc ∧
      ∀ k, k ∉ declFuncNames (DeclNode.FuncDecl f params ret body) →
        (genDecl (DeclNode.FuncDecl f params ret body) g).ctx k = g.ctx k := by
  simp only [declOrdered, Bool.and_eq_true, decide_eq_true_eq] at hord
  obtain ⟨⟨hN, hself⟩, hbody⟩ := hord
  simp only [declLate] at hlate
  simp only [declOuter, List.mem_append, List.mem_filter] at hout
  obtain ⟨C0, P, st2, body1, hC0, _, hadd, hpar, hb, _, _, _⟩ :=
    visitDecl_funcDecl_ok st st1 f params ret body d1 hv
  rw [hS] at hC0
  simp only [Option.some.injEq] at hC0
  subst hC0
  obtain ⟨hcov, hvis1⟩ := covers_params names outer (fun n => blockMentions n body = true) C P f
    ret params hN hadd hpar hvis (fun n hn hm => hout n (Or.inl ⟨hn, hm⟩))
  have hin : Inside f [installParams (sizeToInt params.length) 0 params []]
      (enterFunction f params g) :=
    ⟨enterFunction_currentFunc f params g, enterFunction_envStack f params g⟩
  have hsim := hB (params.map (fun param => param.name) ++ outer) f _ ⟨some P, some ⟨f, ret⟩⟩ st2
    body1 P (enterFunction f params g) hbody hlate (fun n hn => hout n (Or.inr hn)) hself hb rfl
    hin hcov hvis1
  simp only [genDecl]
  refine ⟨?_, rfl, ?_⟩
  · exact textOk_trans names _ _ _ (textOk_trans names _ _ _
      ⟨_, enterFunction_text f params g, prologueLines_fallbackOnly names f⟩ hsim.2.1)
      (leaveFunction_textOk names f _ _)
  · intro k hk
    simp only [declFuncNames, List.mem_cons, not_or] at hk
    have h1 : (leaveFunction f g.currentFunc (genBlock body (enterFunction f params g))).ctx k =
        (genBlock body (enterFunction f params g)).ctx k := rfl
    rw [h1, hsim.2.2 k hk.1 hk.2]
    exact enterFunction_ctx_ne f params g k hk.1

/-- The loop over `orderedItems` of a well listed block, entered with `d`
declarations and `j` statements listed before: the checker has visited the
declarations before `d` and is to visit the others and then the statements in
the scope `Cn` they leave, the generator visits the entries in their order. -/
theorem items_sim (names outer : List String) (key : String)
    (frames : List (List (String × VariableInfo))) (decls : List DeclNode)
    (stmts : List StmtNode) (M : String → Prop) (Cn : Scope) (sd : ScopeAndTypeChecker)
    (hD : ∀ d ∈ decls, DeclSim names d) (hS : ∀ s ∈ stmts, StmtSim names s)
    (hdo : declsOrdered decls = true) (hso : stmtsOrdered stmts = true)
    (hdl : ∀ n ∈ declsLate decls, n ∈ names) (hsl : ∀ n ∈ stmtsLate stmts, n ∈ names)
    (hdout : ∀ n ∈ declsOuter outer decls, n ∈ names)
    (hsout : ∀ n ∈ stmtsOuter outer stmts, n ∈ names)
    (hvars : ∀ n ∈ declaredVariables decls, n ∈ outer)
    (hkd : key ∉ declsFuncNames decls) (hks : key ∉ stmtsFuncNames stmts)
    (hMd : ∀ n, declsMentions n decls = true → M n)
    (hMs : ∀ n, stmtsMentions n stmts = true → M n)
    (hsd : sd.currentScope = some Cn)
    (hstm : ∀ s ∈ stmts, ∃ s1, visitStmt sd s = Except.ok (sd, s1)) :
    ∀ (items : List Item) (d j : Nat) (frame : List (String × VariableInfo))
      (g : CodeGenVisitor) (std : ScopeAndTypeChecker) (rest1 : List DeclNode) (C : Scope),
      itemsOrdered decls.length stmts.length d j items = true →
      (∀ n ∈ itemsLate decls stmts d items, n ∈ names) →
      std.currentScope = some C → declsScope (decls.drop d) C = Cn →
      visitDecls std (decls.drop d) = Except.ok (sd, rest1) →
      Inside key (frame :: frames) g → Covers names M C (frame :: frames) →
      Visible names outer C →
      ∃ frame1, Sim names key (frame1 :: frames) (declsFuncNames decls ++ stmtsFuncNames stmts)
        g (genItems (genDecls decls) (genStmts stmts) items g)
  | [], d, j, frame, g, std, rest1, C, _, _, _, _, _, hin, _, _ =>
    ⟨frame, sim_refl names key _ _ g hin⟩
  | Item.block b :: rest, d, j, frame, g, std, rest1, C, hord, _, _, _, _, _, _, _ => by
    simp [itemsOrdered] at hord
  | Item.null :: rest, d, j, frame, g, std, rest1, C, hord, _, _, _, _, _, _, _ => by
    simp [itemsOrdered] at hord
  | Item.decl i :: rest, d, j, frame, g, std, rest1, C, hord, hlate, hC, hCn, hvd, hin, hcov,
      hvis => by
    simp only [itemsOrdered, Bool.and_eq_true, decide_eq_true_eq] at hord
    obtain ⟨⟨hi, hlt⟩, hrest⟩ := hord
    subst hi
    have hdd : decls[i]? = some decls[i] := List.getElem?_eq_getElem hlt
    have hmem : decls[i] ∈ decls := List.getElem_mem hlt
    have hdrop : decls.drop i = decls[i] :: decls.drop (i + 1) := List.drop_eq_getElem_cons hlt
    rw [hdrop] at hvd hCn
    obtain ⟨sm, dd1, rest2, hv1, hv2, _⟩ := visitDecls_cons_ok std sd _ _ rest1 hvd
    have hsm := visitDecl_scope std sm _ dd1 C hv1 hC
    obtain ⟨frame1, hsim1, hcov1⟩ := hD _ hmem outer key frame frames std sm dd1 C g M
      (declsOrdered_of_mem decls _ hmem hdo)
      (fun n hn => hdl n (declsLate_of_mem decls _ hmem n hn))
      (fun n hn => hdout n (declsOuter_of_mem outer decls _ hmem n hn))
      (fun hk => hkd (declsFuncNames_of_mem decls _ hmem key hk))
      (fun n hn => hMd n (declsMentions_of_mem n decls _ hmem hn))
      hv1 hC hin hcov hvis
    have hvis1 : Visible names outer (declScope decls[i] C) :=
      visible_declScope names outer _ C
        (fun n hn => hvars n (declaredVariables_of_mem decls _ hmem n hn)) hvis
    obtain ⟨frame2, hsim2⟩ := items_sim names outer key frames decls stmts M Cn sd hD hS hdo hso
      hdl hsl hdout hsout hvars hkd hks hMd hMs hsd hstm rest (i + 1) j frame1 (genDecl decls[i] g)
      sm rest2 (declScope decls[i] C) hrest (fun n hn => hlate n (by simpa [itemsLate] using hn))
      (by rw [hsm]) (by simpa [declsScope] using hCn) hv2 hsim1.1 hcov1 hvis1
    refine ⟨frame2, ?_⟩
    have hgen : genItems (genDecls decls) (genStmts stmts) (Item.decl i :: rest) g =
        genItems (genDecls decls) (genStmts stmts) rest (genDecl decls[i] g) := by
      simp only [genItems, genDecls_getElem?, hdd, Option.map_some']
    rw [hgen]
    exact sim_trans names key _ _ _ _ _ _
      (sim_mono names key _ _ _ _ _
        (fun k hk => List.mem_append_left _ (declsFuncNames_of_mem decls _ hmem k hk)) hsim1)
      hsim2
  | Item.stmt i :: rest, d, j, frame, g, std, rest1, C, hord, hlate, hC, hCn, hvd, hin, hcov,
      hvis => by
    simp only [itemsOrdered, Bool.and_eq_true, decide_eq_true_eq] at hord
    obtain ⟨⟨hi, hlt⟩, hrest⟩ := hord
    subst hi
    have hss : stmts[i]? = some stmts[i] := List.getElem?_eq_getElem hlt
    have hmem : stmts[i] ∈ stmts := List.getElem_mem hlt
    obtain ⟨s1, hv1⟩ := hstm _ hmem
    have hlate1 : ∀ n ∈ declaredVariables (decls.drop d), stmtMentions n stmts[i] = true →
        n ∈ names := by
      intro n hn hm
      apply hlate n
      simp only [itemsLate, hss, List.mem_append, List.mem_filter]
      exact Or.inl ⟨hn, hm⟩
    have hcovS : Covers names (fun n => stmtMentions n stmts[i] = true) Cn (frame :: frames) := by
      intro n symbol hn hl hk
      rw [← hCn] at hl
      rcases lookup_declsScope_var (decls.drop d) C n symbol hl hk with h1 | h1
      · exact Or.inr (hlate1 n h1 hn)
      · exact hcov n symbol (hMs n (stmtsMentions_of_mem n stmts _ hmem hn)) h1 hk
    have hvisS : Visible names outer Cn := by
      intro n symbol hl hk
      rw [← hCn] at hl
      rcases lookup_declsScope_var (decls.drop d) C n symbol hl hk with h1 | h1
      · have h2 : n ∈ declaredVariables decls := by
          have := declaredVariables_append (decls.take d) (decls.drop d)
          rw [List.take_append_drop] at this
          rw [this]
          exact List.mem_append_right _ h1
        exact Or.inl (hvars n h2)
      · exact hvis n symbol h1 hk
    have hsim1 := hS _ hmem outer key (frame :: frames) sd sd s1 Cn g
      (stmtsOrdered_of_mem stmts _ hmem hso)
      (fun n hn => hsl n (stmtsLate_of_mem stmts _ hmem n hn))
      (fun n hn => hsout n (stmtsOuter_of_mem outer stmts _ hmem n hn))
      (fun hk => hks (stmtsFuncNames_of_mem stmts _ hmem key hk))
      hv1 hsd hin hcovS hvisS
    obtain ⟨frame2, hsim2⟩ := items_sim names outer key frames decls stmts M Cn sd hD hS hdo hso
      hdl hsl hdout hsout hvars hkd hks hMd hMs hsd hstm rest d (i + 1) frame (genStmt stmts[i] g)
      std rest1 C hrest
      (fun n hn => hlate n (by
        simp only [itemsLate, List.mem_append]
        exact Or.inr hn))
      hC hCn hvd hsim1.1 hcov hvis
    refine ⟨frame2, ?_⟩
    have hgen : genItems (genDecls decls) (genStmts stmts) (Item.stmt i :: rest) g =
        genItems (genDecls decls) (genStmts stmts) rest (genStmt stmts[i] g) := by
      simp only [genItems, genStmts_getElem?, hss, Option.map_some']
    rw [hgen]
    exact sim_trans names key _ _ _ _ _ _
      (sim_mono names key _ _ _ _ _
        (fun k hk => List.mem_append_right _ (stmtsFuncNames_of_mem stmts _ hmem k hk)) hsim1)
      hsim2

/-! ## The simulation of the checker by the generator -/

theorem sim_of_same (names : List String) (key : String)
    (frames : List (List (String × VariableInfo))) (funcs : List String)
    (g g1 : CodeGenVisitor) (hin : Inside key frames g1)
    (ht : g1.textSection = g.textSection) (hc : ∀ k, g1.ctx k = g.ctx k) :
    Sim names key frames funcs g g1 :=
  ⟨hin, textOk_of_text names g g1 ht, fun k _ _ => hc k⟩

mutual
theorem declSim (names : List String) : ∀ d : DeclNode, DeclSim names d
  | DeclNode.VarDecl x type init => by
    intro outer key frame frames st st1 d1 C g M _ _ _ _ hM hv hC hin hcov _
    obtain ⟨init1, hv1, _⟩ := visitDecl_varDecl_ok st st1 x type init d1 hv
    obtain ⟨S0, hS0, _, hve, _, _⟩ := visitVarOrLet_ok st st1 _ x type init init1 hv1
    rw [hC] at hS0
    simp only [Option.some.injEq] at hS0
    subst hS0
    exact genLocal_sim names C key frame frames _ g hin M x SymbolKind.Variable
      (baseTypeToDataType type) init init1 (fun n hn => hM n (by simpa [declMentions] using hn))
      hcov hve
  | DeclNode.LetDecl x type init => by
    intro outer key frame frames st st1 d1 C g M _ _ _ _ hM hv hC hin hcov _
    obtain ⟨init1, hv1, _⟩ := visitDecl_letDecl_ok st st1 x type init d1 hv
    obtain ⟨S0, hS0, _, hve, _, _⟩ := visitVarOrLet_ok st st1 _ x type init init1 hv1
    rw [hC] at hS0
    simp only [Option.some.injEq] at hS0
    subst hS0
    exact genLocal_sim names C key frame frames _ g hin M x SymbolKind.Constant
      (baseTypeToDataType type) init init1 (fun n hn => hM n (by simpa [declMentions] using hn))
      hcov hve
  | DeclNode.FuncDecl f params ret body => by
    intro outer key frame frames st st1 d1 C g M hord hlate hout hkey _ hv hC hin hcov hvis
    obtain ⟨ht, hcf, hctx⟩ := genFunc_sim names outer f params ret body (blockSim names body)
      st st1 d1 C g hord hlate hout hv hC hvis
    refine ⟨frame, ⟨⟨?_, ?_⟩, ht, fun k _ hk => hctx k hk⟩,
      covers_addFunction names M C _ f _ _ hcov⟩
    · rw [hcf]
      exact hin.1
    · rw [hctx key hkey]
      exact hin.2
theorem stmtSim (names : List String) : ∀ s : StmtNode, StmtSim names s
  | StmtNode.Assign name rhs => by
    intro outer key frames st st1 s1 S g _ _ _ _ h hS hin hcov _
    obtain ⟨_, rhs1, hv, _⟩ := (visitStmt_simple_ok st st1 _ s1 h).1 name rhs rfl
    rw [hS] at hv
    have h1 := genExp_sim names S key frames [] g hin rhs rhs1
      (covers_mono names _ _ S frames (fun n hn => by simpa [stmtMentions] using hn) hcov) hv
    simp only [genStmt, hin.1, stmtFuncNames]
    cases lookupVariable (genExp rhs g) name with
    | some offset =>
      refine sim_trans names key _ _ _ _ _ _ h1 (sim_emit names key _ _ _ _ h1.1 ?_)
      rw [String.append_assoc]
      exact fallbackOnly_instruction names _ _ (by decide) (by decide)
    | none =>
      refine sim_trans names key _ _ _ _ _ _ h1 (sim_emit names key _ _ _ _ h1.1 ?_)
      apply fallbackOnly_of_ne
      intro l hl n
      rw [List.mem_singleton.mp hl]
      exact warning_ne_unknownVariableLine name n
  | StmtNode.Print expr => by
    intro outer key frames st st1 s1 S g _ _ _ _ h hS hin hcov _
    obtain ⟨_, expr1, hv, _⟩ := (visitStmt_simple_ok st st1 _ s1 h).2.1 expr rfl
    rw [hS] at hv
    have h1 := genExp_sim names S key frames [] g hin expr expr1
      (covers_mono names _ _ S frames (fun n hn => by simpa [stmtMentions] using hn) hcov) hv
    simp only [genStmt, hin.1, stmtFuncNames]
    exact sim_trans names key _ _ _ _ _ _ h1 (sim_emit names key _ _ _ _ h1.1
      (fallbackOnly_of_notBodyComment names _ (by decide)))
  | StmtNode.Return expr => by
    intro outer key frames st st1 s1 S g _ _ _ _ h hS hin hcov _
    obtain ⟨_, expr1, hv, _⟩ := (visitStmt_simple_ok st st1 _ s1 h).2.2 expr rfl
    rw [hS] at hv
    have h1 := genExp_sim names S key frames [] g hin expr expr1
      (covers_mono names _ _ S frames (fun n hn => by simpa [stmtMentions] using hn) hcov) hv
    simp only [genStmt, hin.1, stmtFuncNames]
    have h2 := sim_emit names key frames [] (genExp expr g) ["    move $v0, $t0"] h1.1
      (fallbackOnly_of_notBodyComment names _ (by decide))
    exact sim_trans names key _ _ _ _ _ _ (sim_trans names key _ _ _ _ _ _ h1 h2)
      (sim_emit names key _ _ _ _ h2.1
        (fallbackOnly_instruction names _ _ (by decide) (by decide)))
  | StmtNode.If cond thenBlk elseBlk => by
    intro outer key frames st st1 s1 S g hord hlate hout hkey h hS hin hcov hvis
    simp only [stmtOrdered, Bool.and_eq_true] at hord
    simp only [stmtLate, List.mem_append] at hlate
    simp only [stmtOuter, List.mem_append] at hout
    simp only [stmtFuncNames, List.mem_append, not_or] at hkey
    obtain ⟨cond1, sm, thenBlk1, elseBlk1, hc, hb, he, _⟩ :=
      visitStmt_if_ok st st1 cond thenBlk elseBlk s1 h
    rw [hS] at hc
    have hsm := (visitBlock_fresh thenBlk st sm thenBlk1 hb).1
    rw [hsm] at he
    simp only [genStmt, hin.1, newLabel, stmtFuncNames]
    rw [← hin.1]
    have h0 : Sim names key frames (blockFuncNames thenBlk ++ elseFuncNames elseBlk) g
        ({ g with labelCounter := wrapInt (wrapInt (g.labelCounter + 1) + 1) } :
          CodeGenVisitor) := sim_of_same names key frames _ g _ hin rfl (fun _ => rfl)
    have h1 := genExp_sim names S key frames
      (blockFuncNames thenBlk ++ elseFuncNames elseBlk) _ h0.1 cond cond1
      (covers_mono names _ _ S frames (fun n hn => by simp [stmtMentions, hn]) hcov) hc
    have h2 := elseSim names elseBlk outer key frames st st1 elseBlk1 S
      ("if_else" ++ "_" ++ toString g.labelCounter)
      ("if_end" ++ "_" ++ toString (wrapInt (g.labelCounter + 1))) (genBlock thenBlk)
      (blockFuncNames thenBlk) _ hord.2 (fun n hn => hlate n (Or.inr hn))
      (fun n hn => hout n (Or.inr hn)) hkey.2 he hS
      (covers_mono names _ _ S frames (fun n hn => by simp [stmtMentions, hn]) hcov) hvis
      (fun g1 hg1 => blockSim names thenBlk outer key frames st sm thenBlk1 S g1 hord.1
        (fun n hn => hlate n (Or.inl hn)) (fun n hn => hout n (Or.inl hn)) hkey.1 hb hS hg1
        (covers_mono names _ _ S frames (fun n hn => by simp [stmtMentions, hn]) hcov) hvis)
      h1.1
    exact sim_trans names key _ _ _ _ _ _ (sim_trans names key _ _ _ _ _ _ h0 h1) h2
  | StmtNode.While cond body => by
    intro outer key frames st st1 s1 S g hord hlate hout hkey h hS hin hcov hvis
    simp only [stmtOrdered] at hord
    simp only [stmtLate] at hlate
    simp only [stmtOuter] at hout
    simp only [stmtFuncNames] at hkey
    obtain ⟨cond1, body1, hc, hb, _⟩ := visitStmt_while_ok st st1 cond body s1 h
    rw [hS] at hc
    simp only [genStmt, hin.1, newLabel, stmtFuncNames]
    rw [← hin.1]
    have h0 : Sim names key frames (blockFuncNames body) g
        (({ g with labelCounter := wrapInt (wrapInt (g.labelCounter + 1) + 1) } :
          CodeGenVisitor).emit ["while_start" ++ "_" ++ toString g.labelCounter ++ ":"]) :=
      ⟨hin, ⟨_, rfl, fallbackOnly_label names _⟩, fun _ _ _ => rfl⟩
    have h1 := genExp_sim names S key frames (blockFuncNames body) _ h0.1 cond cond1
      (covers_mono names _ _ S frames (fun n hn => by simp [stmtMentions, hn]) hcov) hc
    have h2 := sim_emit names key frames (blockFuncNames body) _
      ["    beq $t0, $zero, " ++ ("while_end" ++ "_" ++ toString (wrapInt (g.labelCounter + 1)))]
      h1.1 (fallbackOnly_instruction names _ _ (by decide) (by decide))
    have h3 := blockSim names body outer key frames st st1 body1 S _ hord hlate hout hkey hb hS
      h2.1 (covers_mono names _ _ S frames (fun n hn => by simp [stmtMentions, hn]) hcov) hvis
    have h4 := sim_emit names key frames (blockFuncNames body) _
      ["    j " ++ ("while_start" ++ "_" ++ toString g.labelCounter),
        "while_end" ++ "_" ++ toString (wrapInt (g.labelCounter + 1)) ++ ":"] h3.1
      (fallbackOnly_append names
        ["    j " ++ ("while_start" ++ "_" ++ toString g.labelCounter)]
        ["while_end" ++ "_" ++ toString (wrapInt (g.labelCounter + 1)) ++ ":"]
        (fallbackOnly_instruction names _ _ (by decide) (by decide))
        (fallbackOnly_label names _))
    exact sim_trans names key _ _ _ _ _ _ (sim_trans names key _ _ _ _ _ _
      (sim_trans names key _ _ _ _ _ _ (sim_trans names key _ _ _ _ _ _ h0 h1) h2) h3) h4
theorem elseSim (names : List String) : ∀ e : Option BlockNode, ElseSim names e
  | none => by
    intro outer key frames st st1 e1 S elseLabel endLabel thenCode funcs g _ _ _ _ _ _ _ _
      hthen hin
    simp only [genElse, elseFuncNames, List.append_nil]
    have h1 := sim_emit names key frames funcs g ["    beq $t0, $zero, " ++ endLabel] hin
      (fallbackOnly_instruction names _ _ (by decide) (by decide))
    have h2 := hthen _ h1.1
    exact sim_trans names key _ _ _ _ _ _ (sim_trans names key _ _ _ _ _ _ h1 h2)
      (sim_emit names key _ _ _ _ h2.1 (fallbackOnly_label names _))
  | some blk => by
    intro outer key frames st st1 e1 S elseLabel endLabel thenCode funcs g hord hlate hout hkey
      h hS hcov hvis hthen hin
    simp only [elseOrdered] at hord
    simp only [elseLate] at hlate
    simp only [elseOuter] at hout
    simp only [elseFuncNames] at hkey
    have hb : ∃ blk1, visitBlock st blk = Except.ok (st1, blk1) := by
      rcases visitElse_ok st st1 _ e1 h with ⟨hn, _, _⟩ | ⟨b, b1, hb1, _, hb3⟩
      · cases hn
      · simp only [Option.some.injEq] at hb1
        rw [hb1]
        exact ⟨b1, hb3⟩
    obtain ⟨blk1, hb⟩ := hb
    simp only [genElse, elseFuncNames]
    have h1 := sim_emit names key frames (funcs ++ blockFuncNames blk) g
      ["    beq $t0, $zero, " ++ elseLabel] hin
      (fallbackOnly_instruction names _ _ (by decide) (by decide))
    have h2 := sim_mono names key frames funcs (funcs ++ blockFuncNames blk) _ _
      (fun k hk => List.mem_append_left _ hk) (hthen _ h1.1)
    have h3 := sim_emit names key frames (funcs ++ blockFuncNames blk) _
      ["    j " ++ endLabel, elseLabel ++ ":"] h2.1
      (fallbackOnly_append names ["    j " ++ endLabel] [elseLabel ++ ":"]
        (fallbackOnly_instruction names _ _ (by decide) (by decide))
        (fallbackOnly_label names _))
    have h4 := sim_mono names key frames _ (funcs ++ blockFuncNames blk) _ _
      (fun k hk => List.mem_append_right _ hk)
      (blockSim names blk outer key frames st st1 blk1 S _ hord hlate hout hkey hb hS h3.1
        (covers_mono names _ _ S frames (fun n hn => by simpa [elseMentions] using hn) hcov)
        hvis)
    exact sim_trans names key _ _ _ _ _ _ (sim_trans names key _ _ _ _ _ _
      (sim_trans names key _ _ _ _ _ _ (sim_trans names key _ _ _ _ _ _ h1 h2) h3) h4)
      (sim_emit names key _ _ _ _ h4.1 (fallbackOnly_label names _))
theorem blockSim (names : List String) : ∀ b : BlockNode, BlockSim names b
  | BlockNode.mk decls stmts items => by
    intro outer key frames st st1 b1 S g hord hlate hout hkey h hS hin hcov hvis
    simp only [blockOrdered, Bool.and_eq_true] at hord
    obtain ⟨⟨hitems, hdo⟩, hso⟩ := hord
    simp only [blockLate, List.mem_append] at hlate
    simp only [blockOuter, List.mem_append] at hout
    simp only [blockFuncNames, List.mem_append, not_or] at hkey
    obtain ⟨sd, decls1, ss, stmts1, hd, hs, _, _, _⟩ :=
      visitBlock_ok st st1 decls stmts items b1 h
    rw [hS] at hd
    have hsd := visitDecls_scope decls _ sd decls1 (Scope.mk [] (some S)) hd rfl
    have hstm := visitStmts_all stmts sd ss stmts1 hs
    simp only [genBlock, hin.1, blockFuncNames]
    have h1 := pushEnv_sim names key frames (declsFuncNames decls ++ stmtsFuncNames stmts) g hin
    obtain ⟨frame1, h2⟩ := items_sim names (declaredVariables decls ++ outer) key frames decls
      stmts (fun n => blockMentions n (BlockNode.mk decls stmts items) = true)
      (declsScope decls (Scope.mk [] (some S))) sd (declsSim names decls) (stmtsSim names stmts)
      hdo hso (fun n hn => hlate n (Or.inr (Or.inl hn))) (fun n hn => hlate n (Or.inr (Or.inr hn)))
      (fun n hn => hout n (Or.inl hn)) (fun n hn => hout n (Or.inr hn))
      (fun n hn => List.mem_append_left _ hn) hkey.1 hkey.2
      (fun n hn => by simp [blockMentions, hn]) (fun n hn => by simp [blockMentions, hn])
      (by rw [hsd]) hstm items 0 0 [] (pushEnv g)
      ⟨some (Scope.mk [] (some S)), st.currentFunction⟩ decls1 (Scope.mk [] (some S)) hitems
      (fun n hn => hlate n (Or.inl hn)) rfl rfl hd h1.1
      (covers_child names _ S frames hcov)
      (visible_mono names outer _ _ (fun n hn => List.mem_append_right _ hn)
        (visible_child names outer S hvis))
    have h3 := popEnv_sim names key frame1 frames
      (declsFuncNames decls ++ stmtsFuncNames stmts) _ h2.1
    exact sim_trans names key _ _ _ _ _ _ (sim_trans names key _ _ _ _ _ _ h1 h2) h3
theorem declsSim (names : List String) : ∀ (ds : List DeclNode), ∀ d ∈ ds, DeclSim names d
  | [], _, h => by cases h
  | d0 :: rest, d, h => by
    by_cases hd : d = d0
    · rw [hd]
      exact declSim names d0
    · exact declsSim names rest d (by
        rcases List.mem_cons.mp h with h | h
        · exact absurd h hd
        · exact h)
theorem stmtsSim (names : List String) : ∀ (ss : List StmtNode), ∀ s ∈ ss, StmtSim names s
  | [], _, h => by cases h
  | s0 :: rest, s, h => by
    by_cases hs : s = s0
    · rw [hs]
      exact stmtSim names s0
    · exact stmtsSim names rest s (by
        rcases List.mem_cons.mp h with h | h
        · exact absurd h hs
        · exact h)
end

/-! ## The generated text of an accepted program -/

theorem genTopLevel_sim (names : List String) :
    ∀ (ds : List DeclNode) (st st1 : ScopeAndTypeChecker) (ds1 : List DeclNode) (G : Scope)
      (g : CodeGenVisitor),
      declsOrdered ds = true → (∀ n ∈ declsLate ds, n ∈ names) →
      (∀ n ∈ declsOuter [] ds, n ∈ names) → (∀ n ∈ declaredVariables ds, n ∈ names) →
      visitDecls st ds = Except.ok (st1, ds1) → st.currentScope = some G →
      Visible names [] G → TextOk names g (genTopLevel ds g)
  | [], _, _, _, _, g, _, _, _, _, _, _, _ => textOk_refl names g
  | DeclNode.VarDecl x type init :: rest, st, st1, ds1, G, g, hord, hlate, hout, hvars, h, hS,
      hvis => by
    simp only [declsOrdered, declOrdered, Bool.true_and] at hord
    obtain ⟨sm, d1, rest1, hd, hr, _⟩ := visitDecls_cons_ok st st1 _ rest ds1 h
    have hsm := visitDecl_scope st sm _ d1 G hd hS
    simp only [genTopLevel]
    refine genTopLevel_sim names rest sm st1 rest1 _ g hord
      (fun n hn => hlate n (by simp [declsLate, hn]))
      (fun n hn => hout n (by simp [declsOuter, hn]))
      (fun n hn => hvars n (by simp [declaredVariables, hn])) hr (by rw [hsm]) ?_
    intro n symbol hl hk
    rcases lookup_declScope_var _ G n symbol hl hk with h1 | h1
    · exact Or.inr (hvars n (by
        simp only [declaredVariables, List.mem_singleton] at h1
        simp [declaredVariables, h1]))
    · exact hvis n symbol h1 hk
  | DeclNode.LetDecl x type init :: rest, st, st1, ds1, G, g, hord, hlate, hout, hvars, h, hS,
      hvis => by
    simp only [declsOrdered, declOrdered, Bool.true_and] at hord
    obtain ⟨sm, d1, rest1, hd, hr, _⟩ := visitDecls_cons_ok st st1 _ rest ds1 h
    have hsm := visitDecl_scope st sm _ d1 G hd hS
    simp only [genTopLevel]
    refine genTopLevel_sim names rest sm st1 rest1 _ g hord
      (fun n hn => hlate n (by simp [declsLate, hn]))
      (fun n hn => hout n (by simp [declsOuter, hn]))
      (fun n hn => hvars n (by simp [declaredVariables, hn])) hr (by rw [hsm]) ?_
    intro n symbol hl hk
    rcases lookup_declScope_var _ G n symbol hl hk with h1 | h1
    · exact Or.inr (hvars n (by
        simp only [declaredVariables, List.mem_singleton] at h1
        simp [declaredVariables, h1]))
    · exact hvis n symbol h1 hk
  | DeclNode.FuncDecl f params ret body :: rest, st, st1, ds1, G, g, hord, hlate, hout, hvars, h,
      hS, hvis => by
    simp only [declsOrdered, Bool.and_eq_true] at hord
    obtain ⟨sm, d1, rest1, hd, hr, _⟩ := visitDecls_cons_ok st st1 _ rest ds1 h
    have hsm := visitDecl_scope st sm _ d1 G hd hS
    simp only [genTopLevel]
    have h1 := (genFunc_sim names [] f params ret body (blockSim names body) st sm d1 G
      (if f = "main" then { g with hasMainFunction := true } else g) hord.1
      (fun n hn => hlate n (by
        simp only [declsLate, List.mem_append]
        exact Or.inl hn))
      (fun n hn => hout n (by
        simp only [declsOuter, List.mem_append]
        exact Or.inl hn)) hd hS hvis).1
    have h0 : TextOk names g (if f = "main" then { g with hasMainFunction := true } else g) := by
      by_cases hm : f = "main"
      · simp only [hm, if_true]
        exact textOk_of_text names _ _ rfl
      · simp only [hm, if_false]
        exact textOk_refl names g
    have h2 := genTopLevel_sim names rest sm st1 rest1
      (declScope (DeclNode.FuncDecl f params ret body) G)
      (genDecl (DeclNode.FuncDecl f params ret body)
        (if f = "main" then { g with hasMainFunction := true } else g)) hord.2
      (fun n hn => hlate n (by
        simp only [declsLate, List.mem_append]
        exact Or.inr hn))
      (fun n hn => hout n (by
        simp only [declsOuter, List.mem_append]
        exact Or.inr hn))
      (fun n hn => hvars n (by simpa [declaredVariables] using hn)) hr (by rw [hsm])
      (fun n symbol hl hk => hvis n symbol (lookup_addFunction_var G f _ _ n symbol hl hk) hk)
    exact textOk_trans names _ _ _ (textOk_trans names _ _ _ h0 h1) h2

/-- The text generated for a well listed program that the scope-and-type pass
accepts has fallback comments only for top-level variables, for names
mentioned before their declaration, and for names a nested function takes
from a function around it. -/
theorem generatedLines_fallbackOnly (p p1 : ProgramNode) (st : ScopeAndTypeChecker)
    (hform : programOrdered p = true) (hv : visitProgram p = Except.ok (st, p1)) :
    FallbackOnly (declaredVariables p.declarations ++ (lateNames p ++ outerNames p))
      (generatedLines p) := by
  have hd : ∃ st1 ds1, visitDecls ⟨some (Scope.mk [] none), none⟩ p.declarations =
      Except.ok (st1, ds1) := by
    simp only [visitProgram] at hv
    cases hd : visitDecls ⟨some (Scope.mk [] none), none⟩ p.declarations with
    | error a => simp [hd] at hv
    | ok res => exact ⟨res.1, res.2, rfl⟩
  obtain ⟨st1, ds1, hd⟩ := hd
  obtain ⟨lines, ht, hfb⟩ := genTopLevel_sim
    (declaredVariables p.declarations ++ (lateNames p ++ outerNames p)) p.declarations _
    st1 ds1 (Scope.mk [] none) CodeGenVisitor.init hform
    (fun n hn => List.mem_append_right _ (List.mem_append_left _ hn))
    (fun n hn => List.mem_append_right _ (List.mem_append_right _ hn))
    (fun n hn => List.mem_append_left _ hn) hd rfl
    (fun n symbol hl _ => by
      rw [Scope.lookup_mk] at hl
      cases hl)
  obtain ⟨hdata, _, _⟩ := genTopLevel_spec p.declarations CodeGenVisitor.init
  have hshape : ∃ extra, extra.all notBodyComment = true ∧
      generatedLines p =
        CodeGenVisitor.init.dataSection ++ [""] ++ (([".text"] ++ lines) ++ extra) := by
    have ht1 : (genTopLevel p.declarations CodeGenVisitor.init).textSection =
        [".text"] ++ lines := by
      rw [ht]; rfl
    unfold generatedLines genProgram
    simp only [CodeGenVisitor.emit]
    cases (genTopLevel p.declarations CodeGenVisitor.init).hasMainFunction with
    | true =>
      refine ⟨divByZeroHandler, by decide, ?_⟩
      simp only [if_true, hdata, ht1]
    | false =>
      refine ⟨divByZeroHandler ++ stubMain, by decide, ?_⟩
      simp only [Bool.false_eq_true, if_false, hdata, ht1, List.append_assoc]
  obtain ⟨extra, hextra, hlines⟩ := hshape
  rw [hlines]
  refine fallbackOnly_append _ _ _ (fallbackOnly_of_notBodyComment _ _ (by decide))
    (fallbackOnly_append _ _ _ (fallbackOnly_append _ _ _
      (fallbackOnly_of_notBodyComment _ _ (by decide)) hfb)
      (fallbackOnly_of_notBodyComment _ _ hextra))

mutual
theorem eraseExp_eraseExp : ∀ e : ExpNode, eraseExp (eraseExp e) = eraseExp e
  | ExpNode.IntLit _ _ => rfl
  | ExpNode.FloatLit _ _ => rfl
  | ExpNode.BoolLit _ _ => rfl
  | ExpNode.Id _ _ => rfl
  | ExpNode.UnaryOp _ op expr => by simp only [eraseExp, eraseExp_eraseExp expr]
  | ExpNode.BinaryOp _ op left right => by
    simp only [eraseExp, eraseExp_eraseExp left, eraseExp_eraseExp right]
  | ExpNode.Call _ callee args => by simp only [eraseExp, eraseArgs_eraseArgs args]
theorem eraseArgs_eraseArgs : ∀ args : List ExpNode, eraseArgs (eraseArgs args) = eraseArgs args
  | [] => rfl
  | arg :: rest => by simp only [eraseArgs, eraseExp_eraseExp arg, eraseArgs_eraseArgs rest]
end

mutual
theorem eraseDeepDecl_erase : ∀ d : DeclNode, eraseDeepDecl (eraseDecl d) = eraseDeepDecl d
  | DeclNode.VarDecl _ _ init => by simp only [eraseDecl, eraseDeepDecl, eraseExp_eraseExp]
  | DeclNode.LetDecl _ _ init => by simp only [eraseDecl, eraseDeepDecl, eraseExp_eraseExp]
  | DeclNode.FuncDecl _ _ _ body => by
    simp only [eraseDecl, eraseDeepDecl, eraseDeepBlock_erase body]
theorem eraseDeepStmt_erase : ∀ s : StmtNode, eraseDeepStmt (eraseStmt s) = eraseDeepStmt s
  | StmtNode.Assign _ _ => by simp only [eraseStmt, eraseDeepStmt, eraseExp_eraseExp]
  | StmtNode.Print _ => by simp only [eraseStmt, eraseDeepStmt, eraseExp_eraseExp]
  | StmtNode.Return _ => by simp only [eraseStmt, eraseDeepStmt, eraseExp_eraseExp]
  | StmtNode.If _ thenBlk elseBlk => by
    simp only [eraseStmt, eraseDeepStmt, eraseExp_eraseExp, eraseDeepBlock_erase thenBlk,
      eraseDeepElse_erase elseBlk]
  | StmtNode.While _ body => by
    simp only [eraseStmt, eraseDeepStmt, eraseExp_eraseExp, eraseDeepBlock_erase body]
theorem eraseDeepElse_erase : ∀ e : Option BlockNode,
    eraseDeepElse (eraseElse e) = eraseDeepElse e
  | none => rfl
  | some blk => by simp only [eraseElse, eraseDeepElse, eraseDeepBlock_erase blk]
theorem eraseDeepBlock_erase : ∀ b : BlockNode, eraseDeepBlock (eraseBlock b) = eraseDeepBlock b
  | BlockNode.mk decls stmts items => by
    simp only [eraseBlock, eraseDeepBlock, eraseDeepDecls_erase decls,
      eraseDeepStmts_erase stmts]
theorem eraseDeepDecls_erase : ∀ ds : List DeclNode,
    eraseDeepDecls (eraseDecls ds) = eraseDeepDecls ds
  | [] => rfl
  | d :: rest => by
    simp only [eraseDecls, eraseDeepDecls, eraseDeepDecl_erase d, eraseDeepDecls_erase rest]
theorem eraseDeepStmts_erase : ∀ ss : List StmtNode,
    eraseDeepStmts (eraseStmts ss) = eraseDeepStmts ss
  | [] => rfl
  | s :: rest => by
    simp only [eraseStmts, eraseDeepStmts, eraseDeepStmt_erase s, eraseDeepStmts_erase rest]
end

theorem generatedLines_eraseDeep (p : ProgramNode) :
    generatedLines (eraseDeepProgram p) = generatedLines p := by
  simp only [generatedLines, genProgram, eraseDeepProgram, genTopLevel_eraseDeep]

/-- The generator writes the same lines for the tree the scope-and-type pass
returns as for the tree it was given. -/
theorem generatedLines_visited (p p1 : ProgramNode) (st : ScopeAndTypeChecker)
    (hv : visitProgram p = Except.ok (st, p1)) : generatedLines p1 = generatedLines p := by
  have he := erase_visitProgram p p1 st hv
  have hds : eraseDecls p1.declarations = eraseDecls p.declarations := by
    simp only [eraseProgram, ProgramNode.mk.injEq] at he
    exact he
  have hdeep : eraseDeepProgram p1 = eraseDeepProgram p := by
    simp only [eraseDeepProgram, ProgramNode.mk.injEq]
    rw [← eraseDeepDecls_erase p1.declarations, hds, eraseDeepDecls_erase]
  rw [← generatedLines_eraseDeep p1, hdeep, generatedLines_eraseDeep]

theorem visitProgram_of_analyze (p p1 : ProgramNode)
    (h : analyze (some p) = Except.ok (some p1)) : ∃ st, visitProgram p = Except.ok (st, p1) := by
  simp only [analyze] at h
  cases hv : visitProgram p with
  | error a => simp [hv] at h
  | ok res =>
    obtain ⟨st, root1⟩ := res
    simp only [hv] at h
    cases hc : checkProgram root1 with
    | error a => simp [hc] at h
    | ok u =>
      simp only [hc, Except.ok.injEq, Option.some.injEq] at h
      exact ⟨st, by rw [h]⟩

/-- C28 (as amended): take a program that semantic analysis accepts, with
`p1` the tree the analysis returns, in which every block lists in
`orderedItems` exactly its declarations and its statements, each kind in its
order, no function is declared inside a function of its own name, and a
function has fewer than `2^31` parameters.  The generator writes for `p1` the
lines it writes for `p`, and every comment
`# Unknown variable <name>, default to 0` among them has a name that is
the name of a top-level `var` or `let`, or a name a statement mentions although
its block lists the declaration of the name after the statement, or a name a
nested function mentions and a function around it declares.  A program
without such names has no such comment.  An `Id` visited inside a function
writes either `lw $t0, <off>($fp)`, with the offset `lookupVariable` finds, or
that comment and `li $t0, 0`, when `lookupVariable` finds nothing; so every
other `Id` of a function body is found and writes the `lw`. -/
theorem fallback_names_explained (p p1 : ProgramNode) (hform : programOrdered p = true)
    (hacc : analyze (some p) = Except.ok (some p1)) :
    generatedLines p1 = generatedLines p ∧
    (∀ name, unknownVariableLine name ∈ generatedLines p1 →
      name ∈ declaredVariables p.declarations ∨ name ∈ lateNames p ∨ name ∈ outerNames p) ∧
    (declaredVariables p.declarations = [] → lateNames p = [] → outerNames p = [] →
      ∀ name, unknownVariableLine name ∉ generatedLines p1) ∧
    (∀ (g : CodeGenVisitor) (key : String) (dt : DataType) (name : String),
      g.currentFunc = some key →
      (∃ offset, lookupVariable g name = some offset ∧
        genExp (ExpNode.Id dt name) g =
          g.emit ["    lw $t0, " ++ toString offset ++ "($fp)"]) ∨
      (lookupVariable g name = none ∧
        genExp (ExpNode.Id dt name) g = g.emit [unknownVariableLine name, "    li $t0, 0"])) := by
  obtain ⟨st, hv⟩ := visitProgram_of_analyze p p1 hacc
  have hsame := generatedLines_visited p p1 st hv
  have h1 : ∀ name, unknownVariableLine name ∈ generatedLines p1 →
      name ∈ declaredVariables p.declarations ∨ name ∈ lateNames p ∨ name ∈ outerNames p := by
    intro name hmem
    rw [hsame] at hmem
    have := generatedLines_fallbackOnly p p1 st hform hv name hmem
    simpa only [List.mem_append] using this
  refine ⟨hsame, h1, ?_, ?_⟩
  · intro hv0 hl0 ho0 name hmem
    have := h1 name hmem
    rw [hv0, hl0, ho0] at this
    simp at this
  · intro g key dt name hin
    cases hl : lookupVariable g name with
    | some offset =>
      left
      refine ⟨offset, rfl, ?_⟩
      simp only [genExp, hin, hl]
    | none =>
      right
      refine ⟨rfl, ?_⟩
      simp only [genExp, hin, hl, unknownVariableLine]

theorem fallback_names_explained_witness :
    programOrdered mixedOrderProgram = true ∧
    analyze (some mixedOrderProgram) = Except.ok (some mixedOrderTyped) ∧
    declaredVariables mixedOrderProgram.declarations = ["limit"] ∧
    lateNames mixedOrderProgram = [] ∧ outerNames mixedOrderProgram = [] ∧
    unknownVariableLine "limit" ∈ generatedLines mixedOrderTyped ∧
    ∀ name, unknownVariableLine name ∈ generatedLines mixedOrderTyped →
      name ∈ ["limit"] ∨ name ∈ ([] : List String) ∨ name ∈ ([] : List String) :=
  ⟨by decide, rfl, rfl, by decide, by decide, by decide,
    (fallback_names_explained mixedOrderProgram mixedOrderTyped (by decide) rfl).2.1⟩

/-- C28 (as stated, refuted): the program `var x: int = 1; func main(): int { return x; }`
is accepted by semantic analysis, and the code generated for it has the
fallback lines for `x`: top-level declarations of variables are not visited by
the generator, so `x` is in no frame.  Two more accepted programs reach the
fallback, for a name that no top-level declaration has: in
`func main(): int { print x; var x: int = 1; return 0; }` the statement is
listed before the declaration, and in
`func f(a: int): int { func g(): int { return a; } return g(); }` the nested
function reads a parameter of the function around it. -/
theorem global_variable_takes_fallback :
    (accepted (analyze (some globalVarProgram)) = true ∧
      "    # Unknown variable x, default to 0" ∈ generatedLines globalVarProgram ∧
      declaredVariables globalVarProgram.declarations = ["x"]) ∧
    (accepted (analyze (some useBeforeDeclProgram)) = true ∧
      "    # Unknown variable x, default to 0" ∈ generatedLines useBeforeDeclProgram ∧
      declaredVariables useBeforeDeclProgram.declarations = [] ∧
      lateNames useBeforeDeclProgram = ["x"]) ∧
    (accepted (analyze (some nestedReadProgram)) = true ∧
      "    # Unknown variable a, default to 0" ∈ generatedLines nestedReadProgram ∧
      declaredVariables nestedReadProgram.declarations = [] ∧
      outerNames nestedReadProgram = ["a"]) := by
  refine ⟨⟨rfl, ?_, rfl⟩, ⟨rfl, ?_, rfl, ?_⟩, ⟨rfl, ?_, rfl, ?_⟩⟩
  · decide
  · decide
  · decide
  · decide
  · decide

end Compiler
